import Mathlib

/-!
# RFGuard detection engine: a shallow embedding and its verified properties

Modelling conventions, used throughout:

* `time.Time` is an integer number of nanoseconds (`Time`), counted from the zero
  `time.Time`, and `time.Duration` an integer number of nanoseconds (`Duration`);
  `t.Sub(u)` is `t - u` (instants lie in the range where Go's `Sub` does not saturate),
  `t.Before(u)` is `t < u`, `d.Seconds()` is `d / 10^9`.
* `float64` values are exact rationals (`ℚ`): the properties proved here are
  statements over exact arithmetic.
* A Go `map[K]V` is an association list `GoMap K V` that is read by
  `GoMap.lookup`, written by `GoMap.set` and `GoMap.delete`; `len` is its length.
* Every `time.Now()` is a reading of an explicit clock, the sequence `Clock` of the
  instants that successive calls return.
-/

namespace RFGuard

/-! ## Basic types (internal/model/types.go) -/

/-- Go `model.Result` is a named string type. -/
abbrev Result := String

/-- The constant `model.ResultSuccess`. -/
def ResultSuccess : Result := "success"

/-- The constant `model.ResultFailure`. -/
def ResultFailure : Result := "failure"

/-- An instant, in nanoseconds. -/
abbrev Time := Int

/-- A signed length of time, in nanoseconds. -/
abbrev Duration := Int

/-- The method `Duration.Seconds`, over exact arithmetic. -/
def Duration.Seconds (d : Duration) : ℚ := (d : ℚ) / 1000000000

/-- Conversion `int(x)` of a float to an integer: truncation toward zero. -/
def truncToInt (x : ℚ) : Int := if 0 ≤ x then ⌊x⌋ else ⌈x⌉

/-! ## Go maps -/

/-- A Go `map[K]V`: an association list, one entry per key. -/
abbrev GoMap (K V : Type) := List (K × V)

namespace GoMap

variable {K V : Type} [DecidableEq K]

/-- The read `v, ok := m[k]`. -/
def lookup : GoMap K V → K → Option V
  | [], _ => none
  | (k', v) :: rest, k => if k' = k then some v else lookup rest k

/-- The write `m[k] = v`. -/
def set : GoMap K V → K → V → GoMap K V
  | [], k, v => [(k, v)]
  | (k', v') :: rest, k, v => if k' = k then (k, v) :: rest else (k', v') :: set rest k v

/-- The statement `delete(m, k)`. -/
def delete : GoMap K V → K → GoMap K V
  | [], _ => []
  | (k', v') :: rest, k => if k' = k then rest else (k', v') :: delete rest k

/-- The keys of a map, in storage order. -/
def keys (m : GoMap K V) : List K := m.map Prod.fst

end GoMap

/-- The read `m[k]` of a `map[string]int`: the zero value when the key is absent. -/
def countOf (m : GoMap String Int) (k : String) : Int := (m.lookup k).getD 0

/-! ## Rolling window (internal/engine/window.go) -/

/-- The struct `EventEntry`. -/
structure EventEntry where
  Timestamp : Time
  UID : String
  Result : Result
  deriving DecidableEq, Repr

/-- The struct `model.WindowMetrics`. -/
structure WindowMetrics where
  WindowSec : Int
  Attempts : Int
  Failures : Int
  APS : ℚ
  FR : ℚ
  UDS : ℚ
  TV : ℚ
  deriving DecidableEq, Repr

/-- The struct `WindowState`. -/
structure WindowState where
  duration : Duration
  events : List EventEntry
  head : Nat
  attempts : Int
  failures : Int
  uidCounts : GoMap String Int
  deriving DecidableEq, Repr

/-- The constructor `NewWindowState`. -/
def NewWindowState (duration : Duration) : WindowState :=
  { duration := duration, events := [], head := 0, attempts := 0, failures := 0, uidCounts := [] }

/-- The method `WindowState.Add`. -/
def WindowState.Add (w : WindowState) (ev : EventEntry) : WindowState :=
  let w1 := { w with events := w.events ++ [ev], attempts := w.attempts + 1 }
  let w2 := if ev.Result = ResultFailure then { w1 with failures := w1.failures + 1 } else w1
  if ev.UID ≠ "" then
    { w2 with uidCounts := w2.uidCounts.set ev.UID (countOf w2.uidCounts ev.UID + 1) }
  else w2

/-- One pass through the body of the `for` loop of `Evict`, for the entry `ev` at `head`. -/
def WindowState.evictOne (w : WindowState) (ev : EventEntry) : WindowState :=
  let w1 := { w with attempts := w.attempts - 1 }
  let w2 := if ev.Result = ResultFailure then { w1 with failures := w1.failures - 1 } else w1
  let w3 :=
    if ev.UID ≠ "" then
      let count := countOf w2.uidCounts ev.UID
      if count ≤ 1 then { w2 with uidCounts := w2.uidCounts.delete ev.UID }
      else { w2 with uidCounts := w2.uidCounts.set ev.UID (count - 1) }
    else w2
  { w3 with head := w3.head + 1 }

/-- The `for w.head < len(w.events)` loop of `Evict`; `fuel` bounds the number of passes. -/
def WindowState.evictLoop (cutoff : Time) : Nat → WindowState → WindowState
  | 0, w => w
  | fuel + 1, w =>
    match w.events.get? w.head with
    | none => w
    | some ev =>
      if ¬ (ev.Timestamp < cutoff) then w
      else WindowState.evictLoop cutoff fuel (w.evictOne ev)

/-- The compaction at the end of `Evict`. -/
def WindowState.compact (w : WindowState) : WindowState :=
  if w.head > 0 ∧ w.head * 2 ≥ w.events.length then
    { w with events := w.events.drop w.head, head := 0 }
  else w

/-- The method `WindowState.Evict`: the loop runs at most once per stored entry. -/
def WindowState.Evict (w : WindowState) (cutoff : Time) : WindowState :=
  (WindowState.evictLoop cutoff (w.events.length - w.head) w).compact

/-- The loop of `varianceDelta` over the entries after the first, carrying `prev`, `n`,
`mean` and `m2`. -/
def varianceLoop : List EventEntry → Time → Nat → ℚ → ℚ → Nat × ℚ × ℚ
  | [], _, n, mean, m2 => (n, mean, m2)
  | e :: rest, prev, n, mean, m2 =>
    let delta0 := Duration.Seconds (e.Timestamp - prev)
    let delta := if delta0 < 0 then 0 else delta0
    let n1 := n + 1
    let diff := delta - mean
    let mean1 := mean + diff / (n1 : ℚ)
    let m21 := m2 + diff * (delta - mean1)
    varianceLoop rest e.Timestamp n1 mean1 m21

/-- The function `varianceDelta`. -/
def varianceDelta (events : List EventEntry) (start : Nat) : ℚ :=
  if (events.length : Int) - (start : Int) ≤ 1 then 0
  else
    match events.drop start with
    | [] => 0
    | e0 :: rest =>
      match varianceLoop rest e0.Timestamp 0 0 0 with
      | (n, _, m2) => if n = 0 then 0 else m2 / (n : ℚ)

/-- The method `WindowState.Metrics`. -/
def WindowState.Metrics (w : WindowState) : WindowMetrics :=
  let attempts := w.attempts
  let failures := w.failures
  let windowSec := truncToInt (Duration.Seconds w.duration)
  let aps : ℚ := if attempts > 0 then (attempts : ℚ) / Duration.Seconds w.duration else 0
  let fr : ℚ := if attempts > 0 then (failures : ℚ) / (attempts : ℚ) else 0
  let uds : ℚ := if attempts > 0 then (w.uidCounts.length : ℚ) / (attempts : ℚ) else 0
  let tv := varianceDelta w.events w.head
  { WindowSec := windowSec, Attempts := attempts, Failures := failures,
    APS := aps, FR := fr, UDS := uds, TV := tv }

/-- The live entries `events[head..]` of a window. -/
def WindowState.live (w : WindowState) : List EventEntry := w.events.drop w.head

/-- The window states reached from `NewWindowState d` by `Add` and `Evict` calls. -/
inductive Reachable (d : Duration) : WindowState → Prop
  | init : Reachable d (NewWindowState d)
  | add (w : WindowState) (ev : EventEntry) : Reachable d w → Reachable d (w.Add ev)
  | evict (w : WindowState) (cutoff : Time) : Reachable d w → Reachable d (w.Evict cutoff)

/-! ## The wall clock -/

/-- The successive readings of `time.Now().UTC()`: the call number `n` returns `clk n`.
A function that reads the clock takes the number of the next reading and returns the
number of the reading after its last one. -/
abbrev Clock := Nat → Time

/-! ## Cooldown table (internal/engine/cooldown.go) -/

/-- The struct `Cooldown` (its mutex left out). -/
structure Cooldown where
  last : GoMap String Time
  deriving DecidableEq, Repr

/-- The constructor `NewCooldown`. -/
def NewCooldown : Cooldown := { last := [] }

/-- The function `itoa`, that is `strconv.Itoa`. -/
def itoa (v : Int) : String := toString v

/-- The method `Cooldown.AllowKey`: the clock is read only when `cooldown > 0`. -/
def Cooldown.AllowKey (c : Cooldown) (clk : Clock) (tick : Nat) (key : String)
    (cooldown : Duration) : Bool × Cooldown × Nat :=
  if cooldown ≤ 0 then (true, c, tick)
  else
    let now := clk tick
    let recent : Bool :=
      match c.last.lookup key with
      | some ts => decide (now - ts < cooldown)
      | none => false
    if recent then (false, c, tick + 1)
    else (true, { last := c.last.set key now }, tick + 1)

/-- The method `Cooldown.Allow`. -/
def Cooldown.Allow (c : Cooldown) (clk : Clock) (tick : Nat) (readerID : String)
    (windowSec : Int) (cooldown : Duration) : Bool × Cooldown × Nat :=
  if cooldown ≤ 0 then (true, c, tick)
  else c.AllowKey clk tick (readerID ++ "|" ++ itoa windowSec) cooldown

/-! ## Deduplication cache (internal/engine/dedupe.go) -/

/-- The struct `DedupeCache` (its mutex left out). -/
structure DedupeCache where
  items : GoMap String Time
  deriving DecidableEq, Repr

/-- The constructor `NewDedupeCache`. -/
def NewDedupeCache : DedupeCache := { items := [] }

/-- The method `DedupeCache.compact`: every entry with `now.Sub(ts) > ttl` is deleted. -/
def DedupeCache.compact (d : DedupeCache) (now : Time) (ttl : Duration) : DedupeCache :=
  { items := d.items.filter (fun p => ¬ (now - p.2 > ttl)) }

/-- The method `DedupeCache.Seen`. -/
def DedupeCache.Seen (d : DedupeCache) (key : String) (now : Time) (ttl : Duration) :
    Bool × DedupeCache :=
  let fresh : Bool :=
    match d.items.lookup key with
    | some ts => decide (now - ts ≤ ttl)
    | none => false
  if fresh then (true, d)
  else
    let d1 : DedupeCache := { items := d.items.set key now }
    if d1.items.length > 10000 then (false, d1.compact now ttl)
    else (false, d1)

/-! ## Configuration (internal/config/config.go) and alerts (internal/model/types.go) -/

/-- The struct `config.WeightsConfig`. -/
structure WeightsConfig where
  APS : ℚ
  FR : ℚ
  UDS : ℚ
  TV : ℚ
  deriving DecidableEq, Repr

/-- The struct `config.DetectionConfig`. -/
structure DetectionConfig where
  Windows : List Duration
  APSThreshold : ℚ
  FailureRatioThreshold : ℚ
  UIDDiversityThreshold : ℚ
  TimingVarianceThreshold : ℚ
  AttackScoreThreshold : ℚ
  Weights : WeightsConfig
  Epsilon : ℚ
  MinAttempts : Int
  APSElevatedThreshold : ℚ
  AlertCooldown : Duration
  DedupeWindow : Duration
  MaxClockSkew : Duration
  MaxFutureSkew : Duration
  deriving DecidableEq, Repr

/-- The struct `config.AccessControlConfig`. -/
structure AccessControlConfig where
  Enabled : Bool
  WhitelistOnly : Bool
  Whitelist : List String
  Blacklist : List String
  ReaderWhitelists : GoMap String (List String)
  ReaderBlacklists : GoMap String (List String)
  deriving DecidableEq, Repr

/-- The fields of `config.Config` that the engine reads. -/
structure Config where
  Detection : DetectionConfig
  AccessControl : AccessControlConfig
  deriving DecidableEq, Repr

/-- The struct `model.Alert`. -/
structure Alert where
  Timestamp : Time
  ReaderID : String
  Severity : String
  AlertType : String
  WindowSec : Int
  Metrics : WindowMetrics
  Score : ℚ
  Rules : List String
  Context : GoMap String String
  deriving DecidableEq, Repr

/-! ## Window alert evaluation (internal/engine/engine.go) -/

/-- The method `Engine.evaluate`, on the cooldown table it reads and writes. The result is
the alert (`none` for the Go result `false`), the cooldown table and the next clock reading. -/
def Engine.evaluate (cfg : Config) (cooldown : Cooldown) (clk : Clock) (tick : Nat)
    (readerID : String) (wm : WindowMetrics) : Option Alert × Cooldown × Nat :=
  if wm.Attempts = 0 then (none, cooldown, tick)
  else
    let rules0 : List String := []
    let rules1 := if wm.APS > cfg.Detection.APSThreshold
      then rules0 ++ ["excessive_attempt_rate"] else rules0
    let rules2 := if wm.FR > cfg.Detection.FailureRatioThreshold ∧
        wm.Attempts ≥ cfg.Detection.MinAttempts
      then rules1 ++ ["failure_spike"] else rules1
    let rules3 := if wm.UDS > cfg.Detection.UIDDiversityThreshold ∧
        wm.APS > cfg.Detection.APSElevatedThreshold
      then rules2 ++ ["uid_spraying"] else rules2
    let rules4 := if wm.TV < cfg.Detection.TimingVarianceThreshold ∧
        wm.APS > cfg.Detection.APSElevatedThreshold
      then rules3 ++ ["machine_timing"] else rules3
    let score := cfg.Detection.Weights.APS * wm.APS +
      cfg.Detection.Weights.FR * wm.FR +
      cfg.Detection.Weights.UDS * wm.UDS +
      cfg.Detection.Weights.TV * (1 / (wm.TV + cfg.Detection.Epsilon))
    let rules := if score > cfg.Detection.AttackScoreThreshold ∧
        wm.Attempts ≥ cfg.Detection.MinAttempts ∧
        wm.APS > cfg.Detection.APSElevatedThreshold
      then rules4 ++ ["attack_score"] else rules4
    if rules.length = 0 then (none, cooldown, tick)
    else
      match cooldown.Allow clk tick readerID wm.WindowSec cfg.Detection.AlertCooldown with
      | (false, cooldown1, tick1) => (none, cooldown1, tick1)
      | (true, cooldown1, tick1) =>
        let severity :=
          if score > cfg.Detection.AttackScoreThreshold * 2 ∨
              wm.APS > cfg.Detection.APSThreshold * 2 then "critical"
          else if score > cfg.Detection.AttackScoreThreshold ∨ rules.length ≥ 2 then "high"
          else "medium"
        (some { Timestamp := clk tick1, ReaderID := readerID, Severity := severity,
                AlertType := "possible_bruteforce", WindowSec := wm.WindowSec, Metrics := wm,
                Score := score, Rules := rules, Context := [("engine", "rfguard")] },
          cooldown1, tick1 + 1)

/-! ## Alerts sink (internal/alerts/store.go) and metrics sink (internal/metrics/store.go) -/

/-- The struct `alerts.Store` (its mutex left out). -/
structure AlertsStore where
  buf : List Alert
  limit : Int
  deriving DecidableEq, Repr

/-- The constructor `alerts.NewStore`. -/
def NewAlertsStore (limit : Int) : AlertsStore :=
  { buf := [], limit := if limit ≤ 0 then 1000 else limit }

/-- The method `alerts.Store.Add`: append below the limit, otherwise shift the buffer by one
and put the alert last. (On an empty buffer with `limit ≤ 0`, which `alerts.NewStore` never
builds, the Go code panics.) -/
def AlertsStore.Add (s : AlertsStore) (alert : Alert) : AlertsStore :=
  if (s.buf.length : Int) < s.limit then { s with buf := s.buf ++ [alert] }
  else { s with buf := s.buf.drop 1 ++ [alert] }

/-- The struct `metrics.Store` (its mutex left out). -/
structure MetricsStore where
  byReader : GoMap String (GoMap Int WindowMetrics)
  updatedAt : GoMap String Time
  limit : Int
  deriving DecidableEq, Repr

/-- The constructor `metrics.NewStore`. -/
def NewMetricsStore (limit : Int) : MetricsStore :=
  { byReader := [], updatedAt := [], limit := if limit ≤ 0 then 5000 else limit }

/-- The method `metrics.Store.evictOldest`; the `range` over `updatedAt` visits the entries
in their storage order. -/
def MetricsStore.evictOldest (s : MetricsStore) : MetricsStore :=
  let found : String × Time := s.updatedAt.foldl
    (fun acc entry => if acc.1 = "" ∨ entry.2 < acc.2 then (entry.1, entry.2) else acc)
    ("", 0)
  if found.1 ≠ "" then
    { s with byReader := s.byReader.delete found.1, updatedAt := s.updatedAt.delete found.1 }
  else s

/-- The method `metrics.Store.Update`; `now` is the clock reading it takes. -/
def MetricsStore.Update (s : MetricsStore) (readerID : String)
    (metricsList : List WindowMetrics) (now : Time) : MetricsStore :=
  if readerID = "" then s
  else
    let m0 : GoMap Int WindowMetrics :=
      match s.byReader.lookup readerID with
      | some m => m
      | none => []
    let m := metricsList.foldl (fun m wm => GoMap.set m wm.WindowSec wm) m0
    let s1 := { s with byReader := s.byReader.set readerID m,
                       updatedAt := s.updatedAt.set readerID now }
    if (s1.byReader.length : Int) > s1.limit then s1.evictOldest else s1

/-- The method `alerts.Store.Since`: the loop appends the stored alerts that are not before
`ts`, in stored order. -/
def AlertsStore.Since (s : AlertsStore) (ts : Time) : List Alert :=
  s.buf.foldl (fun out a => if ¬ (a.Timestamp < ts) then out ++ [a] else out) []

/-- The method `alerts.Store.Clear`. -/
def AlertsStore.Clear (s : AlertsStore) : AlertsStore := { s with buf := [] }

/-- The method `alerts.Store.List`. (It is declared after its siblings, whose signatures use
the type `List`.) -/
def AlertsStore.List (s : AlertsStore) (limit : Int) : List Alert :=
  let limit1 : Int := if limit ≤ 0 ∨ limit > (s.buf.length : Int) then (s.buf.length : Int) else limit
  let start0 : Int := (s.buf.length : Int) - limit1
  let start : Int := if start0 < 0 then 0 else start0
  s.buf.drop start.toNat

/-- The last `m` elements of a list, in the order of the list. -/
def lastN {α : Type} (m : Nat) (l : List α) : List α := l.drop (l.length - m)

/-- The method `metrics.Store.Get`: the metrics held for the reader, in the storage order of
its map, the instant of its last update, and whether the reader is held. -/
def MetricsStore.Get (s : MetricsStore) (readerID : String) :
    List WindowMetrics × Time × Bool :=
  match s.byReader.lookup readerID with
  | none => ([], 0, false)
  | some m => (m.map Prod.snd, (s.updatedAt.lookup readerID).getD 0, true)

/-- The method `metrics.Store.Clear`. -/
def MetricsStore.Clear (s : MetricsStore) : MetricsStore :=
  { s with byReader := [], updatedAt := [] }

/-- One call of `metrics.Store.Update`: its arguments and the clock reading it takes. -/
structure MetricsCall where
  readerID : String
  metrics : List WindowMetrics
  now : Time
  deriving DecidableEq, Repr

/-- The sink made by `metrics.NewStore limit` after the calls of a list, in order. -/
def runMetrics (limit : Int) (calls : List MetricsCall) : MetricsStore :=
  calls.foldl (fun s c => s.Update c.readerID c.metrics c.now) (NewMetricsStore limit)

/-- The state of `metrics.Store.Update` for a non-empty reader id right before its test of
the limit: the metrics are written and the reader is stamped. -/
def MetricsStore.written (s : MetricsStore) (c : MetricsCall) : MetricsStore :=
  { s with
    byReader := s.byReader.set c.readerID
      (c.metrics.foldl (fun m wm => GoMap.set m wm.WindowSec wm)
        ((s.byReader.lookup c.readerID).getD [])),
    updatedAt := s.updatedAt.set c.readerID c.now }

/-- The metrics most recently published for a reader and a `window_sec` by the calls of a
list, if any was. -/
def lastPublished (calls : List MetricsCall) (readerID : String) (windowSec : Int) :
    Option WindowMetrics :=
  (((calls.filter (fun c => c.readerID = readerID)).flatMap (fun c => c.metrics)).filter
    (fun wm => wm.WindowSec = windowSec)).getLast?

/-- The bookkeeping invariant of the metrics sink: both maps hold the same readers, none of
them named `""`, at most `limit` of them, and the metrics of a reader are kept under their
own `window_sec`. -/
structure MetricsStore.Inv (s : MetricsStore) : Prop where
  keys_eq : s.byReader.keys = s.updatedAt.keys
  nodup : s.byReader.keys.Nodup
  named : "" ∉ s.byReader.keys
  pos : 0 < s.limit
  bound : (s.byReader.length : Int) ≤ s.limit
  keyed : ∀ p ∈ s.byReader, p.2.keys.Nodup ∧ ∀ q ∈ p.2, q.2.WindowSec = q.1

/-! ## Access-control index (internal/engine/access_control.go) -/

/-- The predicate `unicode.IsSpace`, which `strings.TrimSpace` uses. -/
def isSpace (c : Char) : Bool :=
  let n := c.toNat
  (9 ≤ n ∧ n ≤ 13) ∨ n = 32 ∨ n = 133 ∨ n = 160 ∨ n = 5760 ∨ (8192 ≤ n ∧ n ≤ 8202) ∨
    n = 8232 ∨ n = 8233 ∨ n = 8239 ∨ n = 8287 ∨ n = 12288

/-- The function `strings.TrimSpace`. -/
def trimSpace (s : String) : String :=
  String.mk ((s.data.dropWhile isSpace).reverse.dropWhile isSpace).reverse

/-- One pass of the `switch` in `normalizeUID`: the rune written for `r`, if any. -/
def hexRune (r : Char) : Option Char :=
  if 48 ≤ r.toNat ∧ r.toNat ≤ 57 then some r
  else if 65 ≤ r.toNat ∧ r.toNat ≤ 70 then some r
  else if 97 ≤ r.toNat ∧ r.toNat ≤ 102 then some (Char.ofNat (r.toNat - 97 + 65))
  else none

/-- The function `normalizeUID`. -/
def normalizeUID (uid : String) : String :=
  let uid1 := trimSpace uid
  if uid1 = "" then ""
  else String.mk (uid1.data.filterMap hexRune)

/-- The struct `AccessControlSet`; a nil map is `none`. -/
structure AccessControlSet where
  Enabled : Bool
  WhitelistOnly : Bool
  GlobalWhitelist : Option (GoMap String Unit)
  GlobalBlacklist : Option (GoMap String Unit)
  ReaderWhitelists : Option (GoMap String (GoMap String Unit))
  ReaderBlacklists : Option (GoMap String (GoMap String Unit))
  deriving DecidableEq, Repr

/-- The function `buildUIDSet`. -/
def buildUIDSet (values : List String) : Option (GoMap String Unit) :=
  if values.length = 0 then none
  else
    let set : GoMap String Unit := values.foldl
      (fun s v => if normalizeUID v = "" then s else GoMap.set s (normalizeUID v) ()) []
    if set.length = 0 then none else some set

/-- The function `buildUIDMap`. -/
def buildUIDMap (values : GoMap String (List String)) :
    Option (GoMap String (GoMap String Unit)) :=
  if values.length = 0 then none
  else
    let out : GoMap String (GoMap String Unit) := values.foldl
      (fun o entry =>
        match buildUIDSet entry.2 with
        | none => o
        | some set => if set.length = 0 then o else GoMap.set o entry.1 set) []
    if out.length = 0 then none else some out

/-- The function `buildAccessControl`. -/
def buildAccessControl (cfg : Config) : AccessControlSet :=
  if ¬ cfg.AccessControl.Enabled then
    { Enabled := cfg.AccessControl.Enabled, WhitelistOnly := cfg.AccessControl.WhitelistOnly,
      GlobalWhitelist := none, GlobalBlacklist := none,
      ReaderWhitelists := none, ReaderBlacklists := none }
  else
    { Enabled := cfg.AccessControl.Enabled, WhitelistOnly := cfg.AccessControl.WhitelistOnly,
      GlobalWhitelist := buildUIDSet cfg.AccessControl.Whitelist,
      GlobalBlacklist := buildUIDSet cfg.AccessControl.Blacklist,
      ReaderWhitelists := buildUIDMap cfg.AccessControl.ReaderWhitelists,
      ReaderBlacklists := buildUIDMap cfg.AccessControl.ReaderBlacklists }

/-- Membership `_, ok := set[uid]` in a possibly nil set. -/
def inSet (set : Option (GoMap String Unit)) (uid : String) : Bool :=
  match set with
  | some s => (s.lookup uid).isSome
  | none => false

/-- Membership of `uid` in the set stored for `readerID` in a possibly nil map of sets. -/
def inReaderSet (sets : Option (GoMap String (GoMap String Unit))) (readerID uid : String) :
    Bool :=
  match sets with
  | some m =>
    match m.lookup readerID with
    | some set => (set.lookup uid).isSome
    | none => false
  | none => false

/-- The method `AccessControlSet.IsBlacklisted`. -/
def AccessControlSet.IsBlacklisted (a : AccessControlSet) (readerID uid : String) : Bool :=
  if uid = "" then false
  else if inSet a.GlobalBlacklist uid then true
  else if inReaderSet a.ReaderBlacklists readerID uid then true
  else false

/-- The method `AccessControlSet.IsWhitelisted`. -/
def AccessControlSet.IsWhitelisted (a : AccessControlSet) (readerID uid : String) : Bool :=
  if uid = "" then false
  else if inSet a.GlobalWhitelist uid then true
  else if inReaderSet a.ReaderWhitelists readerID uid then true
  else false

/-! ## Engine (internal/engine/engine.go) -/

/-- The struct `model.NormalizedEvent`. -/
structure NormalizedEvent where
  Timestamp : Time
  ReaderID : String
  UID : String
  Result : Result
  ErrorCode : String
  Source : String
  Raw : String
  deriving DecidableEq, Repr

/-- The struct `ReaderState`. -/
structure ReaderState where
  id : String
  windows : GoMap Int WindowState
  uidFailureStreak : GoMap String Int
  deriving DecidableEq, Repr

/-- The state of `Engine`: the two sinks, the configuration and the access-control index
it was built with, the reader map, the cooldown table and the deduplication cache. The
logger and the storage collaborator are only written to and are left out. -/
structure Engine where
  metrics : MetricsStore
  alerts : AlertsStore
  cfg : Config
  access : AccessControlSet
  readers : GoMap String ReaderState
  cooldown : Cooldown
  deDupe : DedupeCache
  deriving DecidableEq, Repr

/-- Functions of the Go standard library that `hashEvent` calls, taken as given:
`Time.UTC().Format(time.RFC3339Nano)` and the hexadecimal SHA-256 digest. -/
structure Library where
  formatRFC3339Nano : Time → String
  sha256Hex : String → String

/-- The constructor `NewEngine`. -/
def NewEngine (cfg : Config) (metricsStore : MetricsStore) (alertsStore : AlertsStore) :
    Engine :=
  { metrics := metricsStore, alerts := alertsStore, cfg := cfg,
    access := buildAccessControl cfg, readers := [], cooldown := NewCooldown,
    deDupe := NewDedupeCache }

/-- The method `Engine.UpdateConfig`. -/
def Engine.UpdateConfig (e : Engine) (cfg : Config) : Engine :=
  { e with cfg := cfg, access := buildAccessControl cfg }

/-- The method `Engine.Reset`. -/
def Engine.Reset (e : Engine) : Engine :=
  { e with readers := [], cooldown := NewCooldown, deDupe := NewDedupeCache }

/-- The method `Time.IsZero`: instants count from the zero `time.Time`. -/
def Time.IsZero (t : Time) : Bool := decide (t = 0)

/-- The function `clampTimestamp`. -/
def clampTimestamp (ts now : Time) (maxPast maxFuture : Duration) : Time :=
  if Time.IsZero ts then now
  else if maxPast > 0 ∧ now - ts > maxPast then now
  else if maxFuture > 0 ∧ ts - now > maxFuture then now
  else ts

/-- The function `hashEvent`. -/
def hashEvent (lib : Library) (ev : NormalizedEvent) : String :=
  let parts := [ev.ReaderID, ev.UID, ev.Result, ev.ErrorCode,
    lib.formatRFC3339Nano ev.Timestamp]
  lib.sha256Hex (String.intercalate "|" parts)

/-- The method `Engine.isDuplicate`, on the cache it reads and writes: the clock is read
only when `dedupeWindow > 0`. -/
def Engine.isDuplicate (lib : Library) (deDupe : DedupeCache) (clk : Clock) (tick : Nat)
    (ev : NormalizedEvent) (dedupeWindow : Duration) : Bool × DedupeCache × Nat :=
  if dedupeWindow ≤ 0 then (false, deDupe, tick)
  else
    match deDupe.Seen (hashEvent lib ev) (clk tick) dedupeWindow with
    | (seen, deDupe1) => (seen, deDupe1, tick + 1)

/-- The key under which `Engine.getReader` keeps the reader of an event: `unknown` for an empty
reader id. -/
def readerKey (readerID : String) : String :=
  if readerID = "" then "unknown" else readerID

/-- The method `Engine.getReader`, on the reader map: the reader it returns and the map
that holds it under `readerKey readerID`. -/
def Engine.getReader (readers : GoMap String ReaderState) (readerID : String) (cfg : Config) :
    ReaderState × GoMap String ReaderState :=
  let readerID1 := readerKey readerID
  match readers.lookup readerID1 with
  | some r =>
    let windows := cfg.Detection.Windows.foldl
      (fun ws win =>
        match GoMap.lookup ws (truncToInt (Duration.Seconds win)) with
        | some _ => ws
        | none => GoMap.set ws (truncToInt (Duration.Seconds win)) (NewWindowState win))
      r.windows
    let r1 := { r with windows := windows }
    (r1, readers.set readerID1 r1)
  | none =>
    let windows := cfg.Detection.Windows.foldl
      (fun ws win => GoMap.set ws (truncToInt (Duration.Seconds win)) (NewWindowState win))
      ([] : GoMap Int WindowState)
    let r : ReaderState := { id := readerID1, windows := windows, uidFailureStreak := [] }
    (r, readers.set readerID1 r)

/-- The method `ReaderState.sortedWindows`: the windows in ascending order of their key,
each with its key. -/
def ReaderState.sortedWindows (r : ReaderState) : List (Int × WindowState) :=
  r.windows.insertionSort (fun a b => a.1 ≤ b.1)

/-- The context of an access-control or repeated-failure alert. -/
def eventContext (uid : String) (ev : NormalizedEvent) : GoMap String String :=
  [("uid", uid), ("uid_raw", ev.UID), ("source", ev.Source), ("result", ev.Result),
    ("error_code", ev.ErrorCode)]

/-- The method `Engine.evaluateAccess`, on the cooldown table it reads and writes. -/
def Engine.evaluateAccess (cfg : Config) (ac : AccessControlSet) (cooldown : Cooldown) (clk : Clock)
    (tick : Nat) (ev : NormalizedEvent) : Option Alert × Cooldown × Nat :=
  if ¬ ac.Enabled then (none, cooldown, tick)
  else if ev.UID = "" then (none, cooldown, tick)
  else
    let uid := normalizeUID ev.UID
    if uid = "" then (none, cooldown, tick)
    else if ac.IsBlacklisted ev.ReaderID uid then
      match cooldown.Allow clk tick ev.ReaderID 0 cfg.Detection.AlertCooldown with
      | (false, cooldown1, tick1) => (none, cooldown1, tick1)
      | (true, cooldown1, tick1) =>
        (some { Timestamp := clk tick1, ReaderID := ev.ReaderID, Severity := "critical",
                AlertType := "blacklisted_uid", WindowSec := 0,
                Metrics := { WindowSec := 0, Attempts := 0, Failures := 0, APS := 0, FR := 0,
                             UDS := 0, TV := 0 },
                Score := 0, Rules := ["blacklisted_uid"], Context := eventContext uid ev },
          cooldown1, tick1 + 1)
    else if ac.WhitelistOnly ∧ ¬ ac.IsWhitelisted ev.ReaderID uid then
      match cooldown.Allow clk tick ev.ReaderID 0 cfg.Detection.AlertCooldown with
      | (false, cooldown1, tick1) => (none, cooldown1, tick1)
      | (true, cooldown1, tick1) =>
        (some { Timestamp := clk tick1, ReaderID := ev.ReaderID, Severity := "high",
                AlertType := "whitelist_violation", WindowSec := 0,
                Metrics := { WindowSec := 0, Attempts := 0, Failures := 0, APS := 0, FR := 0,
                             UDS := 0, TV := 0 },
                Score := 0, Rules := ["whitelist_violation"], Context := eventContext uid ev },
          cooldown1, tick1 + 1)
    else (none, cooldown, tick)

/-- The method `Engine.evaluateAuthStreak`, on the reader and the cooldown table it reads
and writes. -/
def Engine.evaluateAuthStreak (cfg : Config) (cooldown : Cooldown) (clk : Clock) (tick : Nat)
    (reader : ReaderState) (ev : NormalizedEvent) :
    Option Alert × ReaderState × Cooldown × Nat :=
  if ev.UID = "" then (none, reader, cooldown, tick)
  else
    let uid := normalizeUID ev.UID
    if uid = "" then (none, reader, cooldown, tick)
    else if ev.Result ≠ ResultFailure ∨ ev.ErrorCode = "" then
      (none, { reader with uidFailureStreak := reader.uidFailureStreak.set uid 0 },
        cooldown, tick)
    else
      let reader1 := { reader with
        uidFailureStreak :=
          reader.uidFailureStreak.set uid (countOf reader.uidFailureStreak uid + 1) }
      if countOf reader1.uidFailureStreak uid < 2 then (none, reader1, cooldown, tick)
      else
        match cooldown.AllowKey clk tick ("authfail|" ++ reader.id ++ "|" ++ uid)
            cfg.Detection.AlertCooldown with
        | (false, cooldown1, tick1) => (none, reader1, cooldown1, tick1)
        | (true, cooldown1, tick1) =>
          (some { Timestamp := clk tick1, ReaderID := reader.id, Severity := "medium",
                  AlertType := "repeated_auth_failure", WindowSec := 0,
                  Metrics := { WindowSec := 0, Attempts := 0, Failures := 0, APS := 0, FR := 0,
                               UDS := 0, TV := 0 },
                  Score := 0, Rules := ["repeated_auth_failure"],
                  Context := eventContext uid ev },
            reader1, cooldown1, tick1 + 1)

/-- The result of the window loop of `Engine.ProcessEvent`: the windows, the cooldown table, the
next clock reading, the alerts and the metrics list. -/
structure WindowsResult where
  windows : GoMap Int WindowState
  cooldown : Cooldown
  tick : Nat
  alerts : List Alert
  metricsList : List WindowMetrics

/-- The loop `for _, window := range reader.sortedWindows()` of `Engine.ProcessEvent`, over the
windows still to visit. -/
def processWindows (cfg : Config) (clk : Clock) (ev : NormalizedEvent) :
    List (Int × WindowState) → WindowsResult → WindowsResult
  | [], acc => acc
  | (k, window) :: rest, acc =>
    let cutoff := ev.Timestamp - window.duration
    let window1 := (window.Evict cutoff).Add
      { Timestamp := ev.Timestamp, UID := ev.UID, Result := ev.Result }
    let wm := window1.Metrics
    match Engine.evaluate cfg acc.cooldown clk acc.tick ev.ReaderID wm with
    | (alert, cooldown1, tick1) =>
      processWindows cfg clk ev rest
        { windows := acc.windows.set k window1, cooldown := cooldown1, tick := tick1,
          alerts := acc.alerts ++ alert.toList, metricsList := acc.metricsList ++ [wm] }

/-- The method `Engine.ProcessEvent`: the alerts it returns, the engine state it leaves and
the next clock reading. The reader that `Engine.getReader` returns is a pointer into the
reader map: what the call does to it is written back under its key at the end. Every alert
appended to `alertsOut` is added to the alerts sink at the same moment; nothing reads the
sink in between, so the additions are made here at the end, in the same order. The metrics
sink reads the clock once when it is updated. -/
def Engine.ProcessEvent (lib : Library) (e : Engine) (clk : Clock) (tick : Nat)
    (ev : NormalizedEvent) : List Alert × Engine × Nat :=
  let cfg := e.cfg
  let now := clk tick
  let clamped :=
    clampTimestamp ev.Timestamp now cfg.Detection.MaxClockSkew cfg.Detection.MaxFutureSkew
  let ev1 := { ev with Timestamp := clamped }
  match Engine.isDuplicate lib e.deDupe clk (tick + 1) ev1 cfg.Detection.DedupeWindow with
  | (true, deDupe1, tick1) => ([], { e with deDupe := deDupe1 }, tick1)
  | (false, deDupe1, tick1) =>
    match Engine.evaluateAccess cfg e.access e.cooldown clk tick1 ev1 with
    | (accessAlert, cooldown1, tick2) =>
      match Engine.getReader e.readers ev1.ReaderID cfg with
      | (reader, readers1) =>
        match Engine.evaluateAuthStreak cfg cooldown1 clk tick2 reader ev1 with
        | (streakAlert, reader1, cooldown2, tick3) =>
          let res := processWindows cfg clk ev1 reader1.sortedWindows
            { windows := reader1.windows, cooldown := cooldown2, tick := tick3,
              alerts := accessAlert.toList ++ streakAlert.toList, metricsList := [] }
          let tick4 := if res.metricsList.length > 0 ∧ ev1.ReaderID ≠ "" then res.tick + 1
            else res.tick
          let metrics1 := if res.metricsList.length > 0
            then e.metrics.Update ev1.ReaderID res.metricsList (clk res.tick) else e.metrics
          (res.alerts,
            { e with metrics := metrics1,
                     alerts := res.alerts.foldl AlertsStore.Add e.alerts,
                     readers :=
                       readers1.set (readerKey ev1.ReaderID) { reader1 with windows := res.windows },
                     cooldown := res.cooldown, deDupe := deDupe1 },
            tick4)

/-- The events of a list processed one after the other: the alerts of each call, in order,
the engine state at the end and the next clock reading. -/
def processAll (lib : Library) (clk : Clock) :
    Engine → Nat → List NormalizedEvent → List (List Alert) × Engine × Nat
  | e, tick, [] => ([], e, tick)
  | e, tick, ev :: rest =>
    match Engine.ProcessEvent lib e clk tick ev with
    | (out, e1, tick1) =>
      match processAll lib clk e1 tick1 rest with
      | (outs, e2, tick2) => (out :: outs, e2, tick2)

/-! ## Specification-side definitions for the rolling window -/

/-- The sum of the values of a `map[string]int`. -/
def valuesSum (m : GoMap String Int) : Int := (m.map Prod.snd).sum

/-- The number of live entries of `w` whose UID is `u`. -/
def WindowState.uidCount (w : WindowState) (u : String) : Nat :=
  w.live.countP (fun e => e.UID = u)

/-- The bookkeeping invariant of a window: head within the buffer, and the counters and the
UID map equal to what the live entries give. -/
structure WindowState.Consistent (w : WindowState) : Prop where
  head_le : w.head ≤ w.events.length
  attempts_eq : w.attempts = (w.live.length : Int)
  failures_eq : w.failures = (w.live.countP (fun e => e.Result = ResultFailure) : Int)
  keys_nodup : w.uidCounts.keys.Nodup
  lookup_eq : ∀ u : String, w.uidCounts.lookup u =
    if u = "" ∨ w.uidCount u = 0 then none else some (w.uidCount u : Int)
  sum_eq : valuesSum w.uidCounts = (w.live.countP (fun e => e.UID ≠ "") : Int)

/-- The gaps `max(0, t_i - t_{i-1})`, in seconds, between consecutive instants. -/
def gapsSeconds : List Time → List ℚ
  | [] => []
  | [_] => []
  | t0 :: t1 :: rest => max 0 (Duration.Seconds (t1 - t0)) :: gapsSeconds (t1 :: rest)

/-- The two-pass population variance of a list of numbers: the mean of the squared
deviations from the mean, with divisor the length of the list. -/
def populationVariance (ds : List ℚ) : ℚ :=
  let n : ℚ := ds.length
  let mean : ℚ := ds.sum / n
  (ds.map (fun d => (d - mean) ^ 2)).sum / n

/-- The metrics of a window of length `duration` computed from scratch from a list of live
entries alone, as the specification words them. -/
def recomputeMetrics (duration : Duration) (entries : List EventEntry) : WindowMetrics :=
  let attempts : Nat := entries.length
  let failures : Nat := (entries.filter (fun e => e.Result = ResultFailure)).length
  let distinct : Nat := ((entries.map (fun e => e.UID)).filter (fun u => u ≠ "")).dedup.length
  { WindowSec := truncToInt (Duration.Seconds duration)
    Attempts := attempts
    Failures := failures
    APS := if attempts = 0 then 0 else (attempts : ℚ) / Duration.Seconds duration
    FR := if attempts = 0 then 0 else (failures : ℚ) / (attempts : ℚ)
    UDS := if attempts = 0 then 0 else (distinct : ℚ) / (attempts : ℚ)
    TV := if attempts < 2 then 0
          else populationVariance (gapsSeconds (entries.map (fun e => e.Timestamp))) }

/-! ## Sample inputs -/

/-- A window of one second after two additions, an eviction and a third addition. -/
def sampleWindow : WindowState :=
  ((((NewWindowState 1000000000).Add ⟨0, "A1", "failure"⟩).Add
    ⟨400000000, "B2", "success"⟩).Evict 200000000).Add ⟨1300000000, "A1", "failure"⟩

/-- The detection settings of the engine tests, with a cooldown of five seconds. -/
def sampleConfig : Config :=
  { Detection :=
      { Windows := [1000000000], APSThreshold := 10, FailureRatioThreshold := 4 / 5,
        UIDDiversityThreshold := 4 / 5, TimingVarianceThreshold := 1 / 10000,
        AttackScoreThreshold := 20, Weights := { APS := 1, FR := 10, UDS := 10, TV := 1 },
        Epsilon := 1 / 10000, MinAttempts := 5, APSElevatedThreshold := 5,
        AlertCooldown := 5000000000, DedupeWindow := 0, MaxClockSkew := 0, MaxFutureSkew := 0 },
    AccessControl :=
      { Enabled := false, WhitelistOnly := false, Whitelist := [], Blacklist := [],
        ReaderWhitelists := [], ReaderBlacklists := [] } }

/-- A clock that advances by one millisecond per reading. -/
def sampleClock : Clock := fun n => 1000000 * (n : Int)

/-- The metrics of a one-second window holding twenty failures of one card. -/
def sampleMetrics : WindowMetrics :=
  { WindowSec := 1, Attempts := 20, Failures := 20, APS := 20, FR := 1, UDS := 1 / 20, TV := 0 }

/-- The alert that the evaluator raises for `sampleMetrics`. -/
def sampleAlert : Alert :=
  { Timestamp := 1000000, ReaderID := "reader01", Severity := "critical",
    AlertType := "possible_bruteforce", WindowSec := 1, Metrics := sampleMetrics,
    Score := 20061 / 2,
    Rules := ["excessive_attempt_rate", "failure_spike", "machine_timing", "attack_score"],
    Context := [("engine", "rfguard")] }

/-- A cooldown table that holds one instant, for the key of reader `reader01`, window 1. -/
def sampleCooldown : Cooldown := { last := [("reader01|1", 0)] }

/-- A deduplication cache that holds two keys. -/
def sampleDedupe : DedupeCache := { items := [("k1", 0), ("k2", 4000000000)] }

/-- Stand-ins for the library functions that `hashEvent` calls. -/
def sampleLibrary : Library :=
  { formatRFC3339Nano := fun t => toString t, sha256Hex := fun s => s }

/-- Three failed attempts of one card at one reader. -/
def sampleEvents : List NormalizedEvent :=
  [ { Timestamp := 1000000000, ReaderID := "reader01", UID := "AABBCC", Result := "failure",
      ErrorCode := "AUTH_FAIL", Source := "", Raw := "" },
    { Timestamp := 1020000000, ReaderID := "reader01", UID := "AABBCC", Result := "failure",
      ErrorCode := "AUTH_FAIL", Source := "", Raw := "" },
    { Timestamp := 1040000000, ReaderID := "reader01", UID := "AABBCC", Result := "failure",
      ErrorCode := "AUTH_FAIL", Source := "", Raw := "" } ]

/-- The sample configuration without windows: only the repeated-failure rule can fire. -/
def streakConfig : Config :=
  { sampleConfig with Detection := { sampleConfig.Detection with Windows := [] } }

/-- A clock that advances by three seconds per reading. -/
def slowClock : Clock := fun n => 3000000000 * (n : Int)

/-- A new engine on `streakConfig` with the sinks of the engine tests. -/
def sampleEngine : Engine :=
  NewEngine streakConfig (NewMetricsStore 100) (NewAlertsStore 100)

/-- The configuration `streakConfig` with a deduplication window of one second. -/
def dedupeConfig : Config :=
  { streakConfig with
    Detection := { streakConfig.Detection with DedupeWindow := 1000000000 } }

/-- A new engine on `dedupeConfig`. -/
def dedupeEngine : Engine :=
  NewEngine dedupeConfig (NewMetricsStore 100) (NewAlertsStore 100)

/-- A clock that starts at one thousand seconds and advances by one millisecond per
reading. -/
def wallClock : Clock := fun n => 1000000000000 + 1000000 * (n : Int)

/-- A failed attempt that carries no timestamp. -/
def untimedEvent : NormalizedEvent :=
  { Timestamp := 0, ReaderID := "reader01", UID := "AABBCC", Result := "failure",
    ErrorCode := "AUTH_FAIL", Source := "", Raw := "" }

/-- A failed attempt with a timestamp. -/
def timedEvent : NormalizedEvent :=
  { Timestamp := 999999000000, ReaderID := "reader01", UID := "AABBCC", Result := "failure",
    ErrorCode := "AUTH_FAIL", Source := "", Raw := "" }

/-- The configuration `streakConfig` with access control in whitelist-only mode, one global
and one per-reader list of each kind, and one entry that normalises to the empty string. -/
def accessConfig : Config :=
  { streakConfig with
    AccessControl :=
      { Enabled := true, WhitelistOnly := true, Whitelist := [" aabbcc "],
        Blacklist := ["de:ad", "--"], ReaderWhitelists := [("reader01", ["1122"])],
        ReaderBlacklists := [("reader01", ["be ef"])] } }

/-- A successful attempt with a globally blacklisted card that is on no whitelist. -/
def blockedEvent : NormalizedEvent :=
  { Timestamp := 999999000000, ReaderID := "reader01", UID := " dead ", Result := "success",
    ErrorCode := "", Source := "", Raw := "" }

/-- A successful attempt with a card that is on no list. -/
def strangerEvent : NormalizedEvent :=
  { Timestamp := 999999000000, ReaderID := "reader01", UID := "0f0f", Result := "success",
    ErrorCode := "", Source := "", Raw := "" }

/-- The state of a new engine on `sampleConfig` after it has processed `untimedEvent`. -/
def seenEngine : Engine :=
  (Engine.ProcessEvent sampleLibrary
    (NewEngine sampleConfig (NewMetricsStore 100) (NewAlertsStore 100)) sampleClock 0
    untimedEvent).2.1

/-- The sample configuration with two windows, of one second and of one and a half
seconds. -/
def fractionalConfig : Config :=
  { sampleConfig with
    Detection := { sampleConfig.Detection with Windows := [1000000000, 1500000000] } }

/-- The sample configuration with the access-control section of `accessConfig`. -/
def guardedConfig : Config :=
  { sampleConfig with AccessControl := accessConfig.AccessControl }

/-- A new engine on `accessConfig`. -/
def accessEngine : Engine :=
  NewEngine accessConfig (NewMetricsStore 100) (NewAlertsStore 100)

/-- The event `blockedEvent` without a reader identifier. -/
def anonymousBlocked : NormalizedEvent := { blockedEvent with ReaderID := "" }

/-- The event `untimedEvent` without a reader identifier. -/
def anonymousFailure : NormalizedEvent := { untimedEvent with ReaderID := "" }

/-- The configuration of the engine tests: `sampleConfig` with the cooldown switched off. -/
def burstConfig : Config :=
  { sampleConfig with Detection := { sampleConfig.Detection with AlertCooldown := 0 } }

/-- A new engine on `burstConfig`. -/
def burstEngine : Engine :=
  NewEngine burstConfig (NewMetricsStore 100) (NewAlertsStore 100)

/-- The failure number `i` of a burst of one card, `gap` nanoseconds after the one before. -/
def burstEvent (gap : Int) (i : Nat) : NormalizedEvent :=
  { Timestamp := 999500000000 + gap * i, ReaderID := "reader01", UID := "AABBCC",
    Result := "failure", ErrorCode := "AUTH_FAIL", Source := "", Raw := "" }

/-- The failure number `i` of a burst in which every attempt presents another card. -/
def sprayEvent (i : Nat) : NormalizedEvent :=
  { Timestamp := 999500000000 + 30000000 * i, ReaderID := "reader01",
    UID := "UID" ++ toString i, Result := "failure", ErrorCode := "AUTH_FAIL", Source := "",
    Raw := "" }

/-! ## Specification-side definitions for the alert evaluator -/

/-- The composite score of the specification:
`W_aps*aps + W_fr*fr + W_uds*uds + W_tv*(1/(tv+epsilon))`. -/
def compositeScore (cfg : Config) (wm : WindowMetrics) : ℚ :=
  cfg.Detection.Weights.APS * wm.APS + cfg.Detection.Weights.FR * wm.FR +
    cfg.Detection.Weights.UDS * wm.UDS +
    cfg.Detection.Weights.TV * (1 / (wm.TV + cfg.Detection.Epsilon))

/-- The rule table of the specification: the five rule tokens, in order, each with its
condition. -/
def ruleTable (cfg : Config) (wm : WindowMetrics) : List (String × Bool) :=
  [ ("excessive_attempt_rate", decide (wm.APS > cfg.Detection.APSThreshold)),
    ("failure_spike", decide (wm.FR > cfg.Detection.FailureRatioThreshold ∧
      wm.Attempts ≥ cfg.Detection.MinAttempts)),
    ("uid_spraying", decide (wm.UDS > cfg.Detection.UIDDiversityThreshold ∧
      wm.APS > cfg.Detection.APSElevatedThreshold)),
    ("machine_timing", decide (wm.TV < cfg.Detection.TimingVarianceThreshold ∧
      wm.APS > cfg.Detection.APSElevatedThreshold)),
    ("attack_score", decide (compositeScore cfg wm > cfg.Detection.AttackScoreThreshold ∧
      wm.Attempts ≥ cfg.Detection.MinAttempts ∧
      wm.APS > cfg.Detection.APSElevatedThreshold)) ]

/-- The rule tokens whose condition holds, in the order of the table. -/
def firedRules (cfg : Config) (wm : WindowMetrics) : List String :=
  ((ruleTable cfg wm).filter (fun r => r.2)).map (fun r => r.1)

/-- The severity of the specification for a score, a rate and a number of fired rules. -/
def severityOf (cfg : Config) (score aps : ℚ) (nRules : Nat) : String :=
  if score > 2 * cfg.Detection.AttackScoreThreshold ∨ aps > 2 * cfg.Detection.APSThreshold
  then "critical"
  else if score > cfg.Detection.AttackScoreThreshold ∨ nRules ≥ 2 then "high"
  else "medium"

/-! ## Emission trace of the engine

An emission is an alert together with the number of the clock reading that was next when
its evaluator was entered. When `AlertCooldown > 0` that reading is the one taken by the
cooldown gate which let the alert through, and the alert's timestamp is the reading after
it. The trace functions below follow `Engine.ProcessEvent` step by step and collect the emissions;
they do not change what `Engine.ProcessEvent` computes. -/

/-- The emissions of the window loop of `Engine.ProcessEvent`. -/
def windowsTrace (cfg : Config) (clk : Clock) (ev : NormalizedEvent) :
    List (Int × WindowState) → Cooldown → Nat → List (Alert × Nat)
  | [], _, _ => []
  | (_, window) :: rest, cooldown, tick =>
    let cutoff := ev.Timestamp - window.duration
    let window1 := (window.Evict cutoff).Add
      { Timestamp := ev.Timestamp, UID := ev.UID, Result := ev.Result }
    match Engine.evaluate cfg cooldown clk tick ev.ReaderID window1.Metrics with
    | (alert, cooldown1, tick1) =>
      alert.toList.map (fun a => (a, tick)) ++ windowsTrace cfg clk ev rest cooldown1 tick1

/-- The emissions of one call of `Engine.ProcessEvent`. -/
def eventTrace (lib : Library) (e : Engine) (clk : Clock) (tick : Nat)
    (ev : NormalizedEvent) : List (Alert × Nat) :=
  let cfg := e.cfg
  let clamped := clampTimestamp ev.Timestamp (clk tick) cfg.Detection.MaxClockSkew
    cfg.Detection.MaxFutureSkew
  let ev1 := { ev with Timestamp := clamped }
  match Engine.isDuplicate lib e.deDupe clk (tick + 1) ev1 cfg.Detection.DedupeWindow with
  | (true, _, _) => []
  | (false, _, tick1) =>
    match Engine.evaluateAccess cfg e.access e.cooldown clk tick1 ev1 with
    | (accessAlert, cooldown1, tick2) =>
      match Engine.evaluateAuthStreak cfg cooldown1 clk tick2 (Engine.getReader e.readers ev1.ReaderID cfg).1
          ev1 with
      | (streakAlert, reader1, cooldown2, tick3) =>
        accessAlert.toList.map (fun a => (a, tick1)) ++
          streakAlert.toList.map (fun a => (a, tick2)) ++
          windowsTrace cfg clk ev1 reader1.sortedWindows cooldown2 tick3

/-- The emissions of a list of events processed one after the other. -/
def processAllTrace (lib : Library) (clk : Clock) :
    Engine → Nat → List NormalizedEvent → List (Alert × Nat)
  | _, _, [] => []
  | e, tick, ev :: rest =>
    eventTrace lib e clk tick ev ++
      processAllTrace lib clk (Engine.ProcessEvent lib e clk tick ev).2.1
        (Engine.ProcessEvent lib e clk tick ev).2.2 rest

/-- The cooldown key that an alert of the engine was gated by: `reader|window_sec` for a
window alert, `authfail|reader|uid` for a repeated-failure alert, `reader|0` for an
access-control alert. -/
def slotKey (a : Alert) : String :=
  if a.AlertType = "possible_bruteforce" then a.ReaderID ++ "|" ++ itoa a.WindowSec
  else if a.AlertType = "repeated_auth_failure" then
    "authfail|" ++ a.ReaderID ++ "|" ++ (GoMap.lookup a.Context "uid").getD ""
  else a.ReaderID ++ "|" ++ itoa 0

/-- Two alerts compete for one cooldown slot of the specification: two window alerts of one
reader and one `window_sec`, two access-control alerts of one reader, or two
`repeated_auth_failure` alerts of one reader and one uid. -/
def sameSlot (a b : Alert) : Prop :=
  (a.AlertType = "possible_bruteforce" ∧ b.AlertType = "possible_bruteforce" ∧
    a.ReaderID = b.ReaderID ∧ a.WindowSec = b.WindowSec) ∨
  ((a.AlertType = "blacklisted_uid" ∨ a.AlertType = "whitelist_violation") ∧
    (b.AlertType = "blacklisted_uid" ∨ b.AlertType = "whitelist_violation") ∧
    a.ReaderID = b.ReaderID) ∨
  (a.AlertType = "repeated_auth_failure" ∧ b.AlertType = "repeated_auth_failure" ∧
    a.ReaderID = b.ReaderID ∧ GoMap.lookup a.Context "uid" = GoMap.lookup b.Context "uid")

instance (a b : Alert) : Decidable (sameSlot a b) := by
  unfold sameSlot
  exact inferInstance

/-- The invariant that ties a cooldown table to the emissions made so far: every emission's
key is in the table with an instant not before its gate reading, every gate reading lies
before the next clock reading, and emissions with one key are at least `c` apart. -/
structure GateInv (c : Duration) (clk : Clock) (cooldown : Cooldown) (tick : Nat)
    (log : List (Alert × Nat)) : Prop where
  stored : ∀ x ∈ log, ∃ t, cooldown.last.lookup (slotKey x.1) = some t ∧ clk x.2 ≤ t
  past : ∀ x ∈ log, x.2 < tick
  spaced : log.Pairwise (fun x y => slotKey x.1 = slotKey y.1 → c ≤ clk y.2 - clk x.2)

/-! ## Specification-side definitions for the engine -/

/-- The event as `ProcessEvent` clamps it at the clock reading `now`. -/
def clampEvent (cfg : Config) (now : Time) (ev : NormalizedEvent) : NormalizedEvent :=
  let clamped := clampTimestamp ev.Timestamp now cfg.Detection.MaxClockSkew
    cfg.Detection.MaxFutureSkew
  { ev with Timestamp := clamped }

/-- Whether `ProcessEvent`, called at the clock reading number `tick`, finds the event to be
a duplicate: the result of its call of `isDuplicate`. -/
def Engine.dropsAsDuplicate (lib : Library) (e : Engine) (clk : Clock) (tick : Nat)
    (ev : NormalizedEvent) : Bool :=
  (Engine.isDuplicate lib e.deDupe clk (tick + 1) (clampEvent e.cfg (clk tick) ev)
    e.cfg.Detection.DedupeWindow).1

/-- Whether the repeated-failure rule counts an event as a failure: its result is `failure`
and it carries an error code. -/
def countsAsFailure (ev : NormalizedEvent) : Bool :=
  ev.Result = ResultFailure ∧ ev.ErrorCode ≠ ""

/-- The number of most recent consecutive events that count as failures, among the events
of a list (oldest first) whose UID normalises to `u`. -/
def streakOf (u : String) (evs : List NormalizedEvent) : Nat :=
  ((evs.filter (fun ev => normalizeUID ev.UID = u)).reverse.takeWhile countsAsFailure).length

/-- What one event does to the streak `n` of `u`: nothing when it is for another UID, plus
one when it counts as a failure, back to 0 otherwise. -/
def streakStep (u : String) (n : Int) (ev : NormalizedEvent) : Int :=
  if normalizeUID ev.UID = u then (if countsAsFailure ev then n + 1 else 0) else n

/-- The repeated-failure rule run on one reader over the events of a list, one after the
other: the reader, the cooldown table and the next clock reading at the end. -/
def streakRun (cfg : Config) (clk : Clock) :
    Cooldown → Nat → ReaderState → List NormalizedEvent → ReaderState × Cooldown × Nat
  | c, tick, reader, [] => (reader, c, tick)
  | c, tick, reader, ev :: rest =>
    match Engine.evaluateAuthStreak cfg c clk tick reader ev with
    | (_, reader1, c1, tick1) => streakRun cfg clk c1 tick1 reader1 rest

/-- The events of a list that `processAll` does not drop as duplicates and that belong to
the reader kept under the key `k`, in order. -/
def acceptedFor (lib : Library) (clk : Clock) (k : String) :
    Engine → Nat → List NormalizedEvent → List NormalizedEvent
  | _, _, [] => []
  | e, tick, ev :: rest =>
    (if e.dropsAsDuplicate lib clk tick ev = false ∧ readerKey ev.ReaderID = k then [ev]
      else []) ++
    acceptedFor lib clk k (Engine.ProcessEvent lib e clk tick ev).2.1
      (Engine.ProcessEvent lib e clk tick ev).2.2 rest

/-- The streak counter of `u` in the reader that the engine keeps under the key `k`: 0 when
there is no such reader yet. -/
def Engine.streak (e : Engine) (k u : String) : Int :=
  match e.readers.lookup k with
  | some r => countOf r.uidFailureStreak u
  | none => 0

/-- A window map in which every window is stored under the truncated number of seconds of
its duration, each key once: what `Engine.getReader` builds. -/
def WindowsKeyed (ws : GoMap Int WindowState) : Prop :=
  ws.keys.Nodup ∧ ∀ p ∈ ws, truncToInt (Duration.Seconds p.2.duration) = p.1

/-- Every reader of the engine has a window map keyed by the durations. -/
def Engine.WellKeyed (e : Engine) : Prop :=
  ∀ p ∈ e.readers, WindowsKeyed p.2.windows

/-- The engine states that arise from `NewEngine` by calls of `ProcessEvent`, `UpdateConfig`
and `Reset`. -/
inductive EngineReachable : Engine → Prop
  | new (cfg : Config) (metricsStore : MetricsStore) (alertsStore : AlertsStore) :
    EngineReachable (NewEngine cfg metricsStore alertsStore)
  | process (lib : Library) (e : Engine) (clk : Clock) (tick : Nat) (ev : NormalizedEvent) :
    EngineReachable e → EngineReachable (Engine.ProcessEvent lib e clk tick ev).2.1
  | updateConfig (e : Engine) (cfg : Config) :
    EngineReachable e → EngineReachable (e.UpdateConfig cfg)
  | reset (e : Engine) : EngineReachable e → EngineReachable e.Reset

/-- The characters `[0-9A-Fa-f]`. -/
def isHexDigit (c : Char) : Bool := c ∈ "0123456789ABCDEFabcdef".data

/-- The characters `[0-9A-F]`. -/
def isUpperHex (c : Char) : Bool := c ∈ "0123456789ABCDEF".data

/-- The characters `[0-9A-Fa-f]` of a string, in their order, with `a-f` written as `A-F`. -/
def keepHex (s : String) : String :=
  String.mk ((s.data.filter isHexDigit).map Char.toUpper)

/-- The part of the engine state that decides what `ProcessEvent` returns: everything but
the two sinks. -/
def Engine.core (e : Engine) :
    Config × AccessControlSet × GoMap String ReaderState × Cooldown × DedupeCache :=
  (e.cfg, e.access, e.readers, e.cooldown, e.deDupe)

/-- What `ProcessEvent` does to one window for an event: entries older than the window are
evicted, then the event is added. -/
def feedWindow (ev : NormalizedEvent) (w : WindowState) : WindowState :=
  (w.Evict (ev.Timestamp - w.duration)).Add
    { Timestamp := ev.Timestamp, UID := ev.UID, Result := ev.Result }

/-- Every window of every reader has counters that match its live entries. -/
def Engine.Consistent (e : Engine) : Prop :=
  ∀ p ∈ e.readers, ∀ q ∈ p.2.windows, q.2.Consistent

/-- The entry that `ProcessEvent` adds to the windows for an event. -/
def toEntry (ev : NormalizedEvent) : EventEntry :=
  { Timestamp := ev.Timestamp, UID := ev.UID, Result := ev.Result }

/-- The differences between consecutive instants of a list. -/
def timeGaps : List Time → List Duration
  | [] => []
  | [_] => []
  | t0 :: t1 :: rest => (t1 - t0) :: timeGaps (t1 :: rest)

/-- The instants of a list are equally spaced: all differences between consecutive instants
are the same. -/
def equallySpaced (ts : List Time) : Prop :=
  ∀ x ∈ timeGaps ts, ∀ y ∈ timeGaps ts, x = y

/-- The window that the engine holds for the reader kept under `rk` under the window key
`k`, if any. -/
def Engine.windowAt (e : Engine) (rk : String) (k : Int) : Option WindowState :=
  match e.readers.lookup rk with
  | some r => r.windows.lookup k
  | none => none

instance (ts : List Time) : Decidable (equallySpaced ts) := by
  unfold equallySpaced
  exact inferInstance

/-! ## Keys: the deduplication key and the cooldown slots -/

/-- The string that `hashEvent` hashes: its five parts joined by `|`. -/
def hashMaterial (lib : Library) (ev : NormalizedEvent) : String :=
  let parts := [ev.ReaderID, ev.UID, ev.Result, ev.ErrorCode,
    lib.formatRFC3339Nano ev.Timestamp]
  String.intercalate "|" parts

/-- Whether a string holds no `|` character. -/
def barFree (s : String) : Prop := '|' ∉ s.data

instance (s : String) : Decidable (barFree s) := by
  unfold barFree; infer_instance

/-- An attempt at a reader whose identifier holds a `|`. -/
def pipeReaderEvent : NormalizedEvent :=
  { Timestamp := 999999000000, ReaderID := "gate|A", UID := "01", Result := "failure",
    ErrorCode := "AUTH_FAIL", Source := "", Raw := "" }

/-- An attempt at another reader with a card whose identifier holds a `|`. -/
def pipeCardEvent : NormalizedEvent :=
  { Timestamp := 999999000000, ReaderID := "gate", UID := "A|01", Result := "failure",
    ErrorCode := "AUTH_FAIL", Source := "", Raw := "" }

/-- The cooldown key of an access-control alert: `evaluateAccess` asks
`Allow(ev.ReaderID, 0, ...)`, whose key is the reader id, `|` and `itoa(0)`. -/
def accessSlot (readerID : String) : String := readerID ++ "|" ++ itoa 0

/-- The cooldown key of a window alert: `evaluate` asks `Allow(readerID, wm.WindowSec, ...)`,
whose key is the reader id, `|` and `itoa(windowSec)`. -/
def windowSlot (readerID : String) (windowSec : Int) : String :=
  readerID ++ "|" ++ itoa windowSec

/-- The cooldown key of a repeated-failure alert, built in `evaluateAuthStreak`. -/
def streakSlot (readerID uid : String) : String := "authfail|" ++ readerID ++ "|" ++ uid

/-! ## Further sample inputs -/

/-- Three spellings of the UID of one card. -/
def spellings : List String := ["aabbcc", "AABBCC", "AA-BB-CC"]

/-- The attempt number `i` of one card at one reader, 30 ms after the one before, its UID
spelled as the entry number `i` of `spellings`. -/
def spelledEvent (i : Nat) : NormalizedEvent :=
  { Timestamp := 999500000000 + 30000000 * i, ReaderID := "reader01",
    UID := spellings.getD i "", Result := "success", ErrorCode := "", Source := "",
    Raw := "" }

/-- The event with its UID replaced by the normalized form. -/
def withNormalizedUID (ev : NormalizedEvent) : NormalizedEvent :=
  { ev with UID := normalizeUID ev.UID }

/-- What a window of length `d` looks like right after an event at instant `t` of a stream
of successes spaced at least `d` apart: at most one entry at or before `t` behind at most
one entry that is `d` or more older than `t`, none of them a failure. -/
def QuietWindow (d : Duration) (t : Time) (w : WindowState) : Prop :=
  w.duration = d ∧ ∃ older newest : List EventEntry, w.live = older ++ newest ∧
    older.length ≤ 1 ∧ newest.length ≤ 1 ∧ (∀ x ∈ older, x.Timestamp + d ≤ t) ∧
    (∀ x ∈ newest, x.Timestamp ≤ t) ∧ ∀ x ∈ older ++ newest, x.Result ≠ ResultFailure

/-- The success number `i` of one card at one reader, one event every two seconds. -/
def calmEvent (i : Nat) : NormalizedEvent :=
  { Timestamp := 999000000000 + 2000000000 * i, ReaderID := "reader01", UID := "AABBCC",
    Result := "success", ErrorCode := "", Source := "", Raw := "" }

/-- Every window that the engine holds for the reader kept under `rk` is a quiet window of
length `d` at instant `t`. -/
def Engine.QuietFor (e : Engine) (rk : String) (d : Duration) (t : Time) : Prop :=
  ∀ r, GoMap.lookup e.readers rk = some r → ∀ k w, GoMap.lookup r.windows k = some w →
    QuietWindow d t w

/-! ## Ingest: field extraction (internal/ingest/parser.go, internal/ingest/json.go) -/

/-- The struct `normalize.EventFields`. -/
structure EventFields where
  Timestamp : String
  ReaderID : String
  UID : String
  Result : String
  ErrorCode : String
  Extras : GoMap String String
  Raw : String
  deriving DecidableEq, Repr

/-- Functions of the Go standard library that the ingest parsers call, taken as given:
`strings.ToLower`; `csv.Reader.Read` with `TrimLeadingSpace` on a line (`none` for an error);
`reKV.FindAllStringSubmatch`, as the pairs `(match[1], match[2])`; `FindStringSubmatchIndex`
of `reTimestamp` and of `reSyslogTS`, as the pair `(line[m[2]:m[3]], line[m[3]:])` of a match;
and `strings.Fields`. -/
structure IngestLibrary where
  toLower : String → String
  readRecord : String → Option (List String)
  findKV : String → List (String × String)
  matchTimestamp : String → Option (String × String)
  matchSyslogTS : String → Option (String × String)
  splitFields : String → List String

/-- The value `&normalize.EventFields{Extras: map[string]string{}}`. -/
def emptyFields : EventFields :=
  { Timestamp := "", ReaderID := "", UID := "", Result := "", ErrorCode := "", Extras := [],
    Raw := "" }

/-- The function `firstNonEmpty`; the read `m[k]` of an absent key gives `""`. -/
def firstNonEmpty (m : GoMap String String) : List String → String
  | [] => ""
  | k :: keys =>
    let v := trimSpace ((m.lookup k).getD "")
    if v ≠ "" then v else firstNonEmpty m keys

/-- The function `ParseJSONMap`, on the entries of the object in the order in which the
`range` visits them; `sprint` is `fmt.Sprint` on the values. -/
def ParseJSONMap {V : Type} (lib : IngestLibrary) (sprint : V → String) (obj : GoMap String V) :
    EventFields :=
  let extras : GoMap String String :=
    obj.foldl (fun m p => GoMap.set m (lib.toLower p.1) (sprint p.2)) []
  { Timestamp := firstNonEmpty extras ["timestamp", "time", "ts"],
    ReaderID := firstNonEmpty extras ["reader_id", "reader", "readerid", "device", "terminal"],
    UID := firstNonEmpty extras ["uid", "card", "card_id", "cardid"],
    Result := firstNonEmpty extras ["result", "status", "outcome"],
    ErrorCode := firstNonEmpty extras ["error", "error_code", "err"],
    Extras := extras, Raw := "" }

/-- The function `extractTimestamp`. -/
def extractTimestamp (lib : IngestLibrary) (line : String) : String × String :=
  match lib.matchTimestamp line with
  | some (ts, rest) => (trimSpace ts, trimSpace rest)
  | none =>
    match lib.matchSyslogTS line with
    | some (ts, rest) => (trimSpace ts, trimSpace rest)
    | none => ("", line)

/-- The function `parsePlain`; its error result is always `nil`. -/
def parsePlain (lib : IngestLibrary) (line : String) : EventFields :=
  let ts := (extractTimestamp lib line).1
  let rest := (extractTimestamp lib line).2
  let kv : GoMap String String :=
    (lib.findKV line).foldl (fun m p => GoMap.set m (lib.toLower p.1) p.2) []
  let readerID := firstNonEmpty kv ["reader_id", "reader", "readerid", "device", "terminal"]
  let extras : GoMap String String := kv.foldl (fun m p => GoMap.set m p.1 p.2) []
  let readerID1 :=
    if readerID = "" ∧ rest ≠ "" then
      match lib.splitFields rest with
      | token :: _ => token
      | [] => readerID
    else readerID
  let ts1 :=
    if ts = "" then
      if (extractTimestamp lib rest).1 ≠ "" then (extractTimestamp lib rest).1 else ts
    else ts
  { Timestamp := ts1, ReaderID := readerID1,
    UID := firstNonEmpty kv ["uid", "card", "card_id", "cardid"],
    Result := firstNonEmpty kv ["result", "status", "outcome"],
    ErrorCode := firstNonEmpty kv ["error", "error_code", "err"],
    Extras := extras, Raw := "" }

/-- The struct `CSVParser`; a nil `header` is `none`. -/
structure CSVParser where
  header : Option (List String)
  deriving DecidableEq, Repr

/-- The constructor `NewCSVParser`. -/
def NewCSVParser : CSVParser := { header := none }

/-- The function `looksLikeHeader`. -/
def looksLikeHeader (lib : IngestLibrary) (record : List String) : Bool :=
  record.any (fun v =>
    decide (lib.toLower (trimSpace v) ∈ ["timestamp", "time", "ts", "reader", "reader_id",
      "uid", "card", "result", "status", "error", "error_code"]))

/-- The function `normalizeHeader`. -/
def normalizeHeader (lib : IngestLibrary) (record : List String) : List String :=
  record.map (fun v => lib.toLower (trimSpace v))

/-- The function `assignField`. -/
def assignField (lib : IngestLibrary) (fields : EventFields) (name value : String) :
    EventFields :=
  let name1 := lib.toLower (trimSpace name)
  let value1 := trimSpace value
  if name1 ∈ ["timestamp", "time", "ts"] then { fields with Timestamp := value1 }
  else if name1 ∈ ["reader", "reader_id", "readerid", "device", "terminal"] then
    { fields with ReaderID := value1 }
  else if name1 ∈ ["uid", "card", "card_id", "cardid"] then { fields with UID := value1 }
  else if name1 ∈ ["result", "status", "outcome"] then { fields with Result := value1 }
  else if name1 ∈ ["error", "error_code", "err"] then { fields with ErrorCode := value1 }
  else { fields with Extras := GoMap.set fields.Extras name1 value1 }

/-- The method `CSVParser.Parse`: the result (`none` for the error of the reader, `some none`
for the Go result `nil, nil`) and the parser it leaves. -/
def CSVParser.Parse (lib : IngestLibrary) (p : CSVParser) (line : String) :
    Option (Option EventFields) × CSVParser :=
  match lib.readRecord line with
  | none => (none, p)
  | some record =>
    if record.length = 0 then (some none, p)
    else if p.header = none ∧ looksLikeHeader lib record then
      (some none, { header := some (normalizeHeader lib record) })
    else
      match p.header with
      | some header =>
        (some (some ((header.zip record).foldl
          (fun fields c => assignField lib fields c.1 c.2) emptyFields)), p)
      | none =>
        (some (some { emptyFields with
          Timestamp := record.getD 0 "", ReaderID := record.getD 1 "",
          UID := record.getD 2 "", Result := record.getD 3 "",
          ErrorCode := record.getD 4 "" }), p)

/-- The value that a recorded header gives to the field with the given names: the trimmed
cell of the last column, among the columns that have a header name and a cell, whose header
name, trimmed and lower-cased, is one of the names; `""` when there is no such column. -/
def columnValue (lib : IngestLibrary) (header record : List String) (names : List String) :
    String :=
  ((((header.zip record).filter
    (fun c => decide (lib.toLower (trimSpace c.1) ∈ names))).getLast?).map
      (fun c => trimSpace c.2)).getD ""

/-- The field that a key/value record gives for a list of alias names, in the words of the
specification: the trimmed value of the first of the names whose value is non-blank after
trimming; `""` when there is no such name. `value` gives the value kept under a name. -/
def resolveAlias (value : String → Option String) (names : List String) : String :=
  ((names.find? (fun k => decide (trimSpace ((value k).getD "") ≠ ""))).map
    (fun k => trimSpace ((value k).getD ""))).getD ""

/-- The value kept under a lower-case key after the entries of a key/value record have been
written under their lower-cased keys, in order: the value of the last entry whose key,
lower-cased, is that key. -/
def valueOfKey {V : Type} (lib : IngestLibrary) (entries : List (String × V)) (key : String) :
    Option V :=
  ((entries.filter (fun p => decide (lib.toLower p.1 = key))).getLast?).map Prod.snd

/-- The rune that `strings.ToLower` writes for an ASCII rune. -/
def asciiLower (r : Char) : Char :=
  if 65 ≤ r.toNat ∧ r.toNat ≤ 90 then Char.ofNat (r.toNat + 32) else r

/-- The white space `\s` of the regular expressions of the parser. -/
def isReSpace (c : Char) : Bool := c ∈ "\t\n\x0c\r ".data

/-- The runes `[a-zA-Z_]` of a key of `reKV`. -/
def isKeyRune (c : Char) : Bool :=
  (65 ≤ c.toNat ∧ c.toNat ≤ 90) ∨ (97 ≤ c.toNat ∧ c.toNat ≤ 122) ∨ c = '_'

/-- The scan of `reKV` over the runes of a line: `key` is the run of key runes read so far,
`value` the value of the match under way, if any. -/
def scanKV : List Char → List Char → Option (List Char) → List (String × String)
  | [], key, some value => if value ≠ [] then [(String.mk key, String.mk value)] else []
  | [], _, none => []
  | c :: rest, key, some value =>
    if ¬ isReSpace c then scanKV rest key (some (value ++ [c]))
    else if value ≠ [] then (String.mk key, String.mk value) :: scanKV rest [] none
    else scanKV rest [] none
  | c :: rest, key, none =>
    if isKeyRune c then scanKV rest (key ++ [c]) none
    else if c = '=' ∧ key ≠ [] then scanKV rest key (some [])
    else scanKV rest [] none

/-- The fields of `strings.Fields`, read rune by rune: `cur` is the field under way. -/
def scanFields : List Char → List Char → List String
  | [], cur => if cur ≠ [] then [String.mk cur] else []
  | c :: rest, cur =>
    if isSpace c then (if cur ≠ [] then String.mk cur :: scanFields rest [] else scanFields rest [])
    else scanFields rest (cur ++ [c])

/-- Whether a rune is a digit `[0-9]`. -/
def isDigitRune (c : Char) : Bool := 48 ≤ c.toNat ∧ c.toNat ≤ 57

/-- The match of `reTimestamp` on the runes of a line, after its leading white space: four
digits, `-`, two digits, `-`, two digits, a blank or `T`, and the longest run of runes of
`[0-9:.+-Z]` (the digits, `:`, `.` and the range from `+` to `Z`), which must not be empty. -/
def scanTimestamp (cs : List Char) : Option (String × String) :=
  match cs.dropWhile isReSpace with
  | y1 :: y2 :: y3 :: y4 :: d1 :: m1 :: m2 :: d2 :: a1 :: a2 :: sep :: rest =>
    if isDigitRune y1 ∧ isDigitRune y2 ∧ isDigitRune y3 ∧ isDigitRune y4 ∧ d1 = '-' ∧
        isDigitRune m1 ∧ isDigitRune m2 ∧ d2 = '-' ∧ isDigitRune a1 ∧ isDigitRune a2 ∧
        (sep = ' ' ∨ sep = 'T') ∧
        rest.takeWhile (fun c => decide (43 ≤ c.toNat ∧ c.toNat ≤ 90)) ≠ [] then
      some (String.mk ([y1, y2, y3, y4, d1, m1, m2, d2, a1, a2, sep] ++
          rest.takeWhile (fun c => decide (43 ≤ c.toNat ∧ c.toNat ≤ 90))),
        String.mk (rest.dropWhile (fun c => decide (43 ≤ c.toNat ∧ c.toNat ≤ 90))))
    else none
  | _ => none

/-- The cells of a line without quotes (rune 34), split at the commas, each without its leading white
space. -/
def splitCells (cs : List Char) : List String :=
  (cs.splitOn ',').map (fun cell => String.mk (cell.dropWhile isSpace))

/-- Stand-ins for the library functions of the ingest parsers, exact on ASCII lines without
quotes that carry no syslog timestamp. -/
def sampleIngest : IngestLibrary :=
  { toLower := fun s => String.mk (s.data.map asciiLower),
    readRecord := fun line =>
      if line.data = [] ∨ Char.ofNat 34 ∈ line.data then none else some (splitCells line.data),
    findKV := fun line => scanKV line.data [] none,
    matchTimestamp := fun line => scanTimestamp line.data,
    matchSyslogTS := fun _ => none,
    splitFields := fun s => scanFields s.data [] }

/-- The line of the plain-text parser test: no `key=value` pair names the reader. -/
def plainTestLine : String :=
  "2026-02-23 12:34:56 Reader1 UID=04AABBCC RESULT=FAIL ERROR=TIMEOUT"

/-- A JSON object whose reader value has blanks around it, with another spelling of the
card key. -/
def paddedObject : GoMap String String :=
  [("Reader", " reader01 "), ("CARD", "04AABBCC"), ("status", "denied"), ("device", "d7")]

/-! ## Facts about Go maps -/

namespace GoMap

variable {K V : Type} [DecidableEq K]

theorem lookup_set (m : GoMap K V) (k k' : K) (v : V) :
    (m.set k v).lookup k' = if k = k' then some v else m.lookup k' := by
  induction m with
  | nil => simp [set, lookup]
  | cons p rest ih =>
    obtain ⟨a, b⟩ := p
    by_cases h : a = k
    · subst h
      by_cases h' : a = k' <;> simp [set, lookup, h']
    · by_cases h' : a = k'
      · subst h'
        have : ¬ k = a := fun e => h e.symm
        simp [set, lookup, h, this]
      · simp [set, lookup, h, h', ih]

theorem lookup_eq_none_iff (m : GoMap K V) (k : K) :
    m.lookup k = none ↔ k ∉ m.keys := by
  induction m with
  | nil => simp [lookup, keys]
  | cons p rest ih =>
    obtain ⟨a, b⟩ := p
    by_cases h : a = k
    · simp [lookup, keys, h]
    · have h' : ¬ k = a := fun e => h e.symm
      simp only [keys] at ih
      simp [lookup, keys, h, h', ih]

theorem lookup_delete (m : GoMap K V) (hm : m.keys.Nodup) (k k' : K) :
    (m.delete k).lookup k' = if k = k' then none else m.lookup k' := by
  induction m with
  | nil => simp [delete, lookup]
  | cons p rest ih =>
    obtain ⟨a, b⟩ := p
    have hnd : a ∉ keys rest ∧ (keys rest).Nodup := by simpa [keys] using hm
    by_cases h : a = k
    · subst h
      by_cases h' : a = k'
      · subst h'
        simp [delete, lookup, (lookup_eq_none_iff rest a).2 hnd.1]
      · simp [delete, lookup, h']
    · by_cases h' : a = k'
      · subst h'
        have : ¬ k = a := fun e => h e.symm
        simp [delete, lookup, h, this]
      · simp [delete, lookup, h, h', ih hnd.2]

theorem mem_keys_set (m : GoMap K V) (k k' : K) (v : V) :
    k' ∈ (m.set k v).keys ↔ k' = k ∨ k' ∈ m.keys := by
  rw [← not_iff_not, ← lookup_eq_none_iff, lookup_set]
  by_cases h : k = k'
  · simp [h]
  · have h' : ¬ k' = k := fun e => h e.symm
    simp [h, h', lookup_eq_none_iff]

theorem keys_set_nodup (m : GoMap K V) (hm : m.keys.Nodup) (k : K) (v : V) :
    (m.set k v).keys.Nodup := by
  induction m with
  | nil => simp [set, keys]
  | cons p rest ih =>
    obtain ⟨a, b⟩ := p
    have hnd : a ∉ keys rest ∧ (keys rest).Nodup := by simpa [keys] using hm
    by_cases h : a = k
    · subst h
      simpa [set, keys] using hm
    · have hk : a ∉ keys (set rest k v) := by
        rw [mem_keys_set]
        rintro (e | e)
        · exact h e
        · exact hnd.1 e
      have := ih hnd.2
      simp only [keys] at hk this
      simp [set, keys, h, hk, this]

theorem keys_delete_sublist (m : GoMap K V) (k : K) :
    (m.delete k).keys.Sublist m.keys := by
  induction m with
  | nil => simp [delete, keys]
  | cons p rest ih =>
    obtain ⟨a, b⟩ := p
    by_cases h : a = k
    · simp [delete, keys, h]
    · simp only [keys] at ih
      simp [delete, keys, h, ih]

theorem keys_delete_nodup (m : GoMap K V) (hm : m.keys.Nodup) (k : K) :
    (m.delete k).keys.Nodup :=
  (keys_delete_sublist m k).nodup hm

end GoMap

theorem valuesSum_set (m : GoMap String Int) (k : String) (v : Int) :
    valuesSum (m.set k v) = valuesSum m - countOf m k + v := by
  induction m with
  | nil => simp [GoMap.set, valuesSum, countOf, GoMap.lookup]
  | cons p rest ih =>
    obtain ⟨a, b⟩ := p
    by_cases h : a = k
    · simp [GoMap.set, valuesSum, countOf, GoMap.lookup, h]
      ring
    · simp only [valuesSum, countOf] at ih
      simp [GoMap.set, valuesSum, countOf, GoMap.lookup, h, ih]
      ring

theorem valuesSum_delete (m : GoMap String Int) (k : String) :
    valuesSum (m.delete k) = valuesSum m - countOf m k := by
  induction m with
  | nil => simp [GoMap.delete, valuesSum, countOf, GoMap.lookup]
  | cons p rest ih =>
    obtain ⟨a, b⟩ := p
    by_cases h : a = k
    · simp [GoMap.delete, valuesSum, countOf, GoMap.lookup, h]
    · simp only [valuesSum, countOf] at ih
      simp [GoMap.delete, valuesSum, countOf, GoMap.lookup, h, ih]
      ring

/-! ## The counters of a window agree with its live entries -/

theorem NewWindowState_consistent (d : Duration) : (NewWindowState d).Consistent := by
  constructor <;> simp [NewWindowState, WindowState.live, WindowState.uidCount, GoMap.keys,
    GoMap.lookup, valuesSum]

theorem Add_events (w : WindowState) (ev : EventEntry) :
    (w.Add ev).events = w.events ++ [ev] := by
  unfold WindowState.Add; split_ifs <;> rfl

theorem Add_head (w : WindowState) (ev : EventEntry) : (w.Add ev).head = w.head := by
  unfold WindowState.Add; split_ifs <;> rfl

theorem Add_duration (w : WindowState) (ev : EventEntry) :
    (w.Add ev).duration = w.duration := by
  unfold WindowState.Add; split_ifs <;> rfl

theorem Add_attempts (w : WindowState) (ev : EventEntry) :
    (w.Add ev).attempts = w.attempts + 1 := by
  unfold WindowState.Add; split_ifs <;> rfl

theorem Add_failures (w : WindowState) (ev : EventEntry) :
    (w.Add ev).failures = w.failures + (if ev.Result = ResultFailure then 1 else 0) := by
  unfold WindowState.Add; split_ifs <;> simp

theorem Add_uidCounts (w : WindowState) (ev : EventEntry) :
    (w.Add ev).uidCounts =
      if ev.UID ≠ "" then w.uidCounts.set ev.UID (countOf w.uidCounts ev.UID + 1)
      else w.uidCounts := by
  unfold WindowState.Add; split_ifs <;> rfl

theorem Add_live (w : WindowState) (ev : EventEntry) (h : w.head ≤ w.events.length) :
    (w.Add ev).live = w.live ++ [ev] := by
  simp [WindowState.live, Add_events, Add_head, List.drop_append_of_le_length h]

theorem Add_consistent (w : WindowState) (ev : EventEntry) (hw : w.Consistent) :
    (w.Add ev).Consistent := by
  have hl := Add_live w ev hw.head_le
  constructor
  · rw [Add_events, Add_head]; simp; have := hw.head_le; omega
  · rw [Add_attempts, hl, hw.attempts_eq]; simp
  · rw [Add_failures, hl, hw.failures_eq]
    by_cases h : ev.Result = ResultFailure <;> simp [List.countP_append, List.countP_cons, h]
  · rw [Add_uidCounts]
    split_ifs
    · exact GoMap.keys_set_nodup _ hw.keys_nodup _ _
    · exact hw.keys_nodup
  · intro u
    have hcnt : (w.Add ev).uidCount u = w.uidCount u + (if ev.UID = u then 1 else 0) := by
      simp only [WindowState.uidCount, hl, List.countP_append]
      by_cases h : ev.UID = u <;> simp [List.countP_cons, h]
    rw [Add_uidCounts, hcnt]
    by_cases he : ev.UID = ""
    · have hne : ¬ (ev.UID = u ∧ u ≠ "") := fun ⟨a, b⟩ => b (a ▸ he)
      rw [if_neg (by simpa using he), hw.lookup_eq u]
      by_cases hu : ev.UID = u
      · have : u = "" := hu ▸ he
        simp [this]
      · simp [hu]
    · rw [if_pos he, GoMap.lookup_set]
      by_cases hu : ev.UID = u
      · subst hu
        have hc : countOf w.uidCounts ev.UID = (w.uidCount ev.UID : Int) := by
          unfold countOf
          rw [hw.lookup_eq]
          by_cases h0 : w.uidCount ev.UID = 0 <;> simp [he, h0]
        simp [he, hc]
      · simp [hu, hw.lookup_eq u]
  · rw [Add_uidCounts, hl, List.countP_append]
    by_cases he : ev.UID = ""
    · simp [he, hw.sum_eq, List.countP_cons]
    · rw [if_pos he, valuesSum_set, hw.sum_eq]
      simp [List.countP_cons, he]
      ring

theorem evictOne_events (w : WindowState) (ev : EventEntry) :
    (w.evictOne ev).events = w.events := by
  simp only [WindowState.evictOne]; split_ifs <;> rfl

theorem evictOne_head (w : WindowState) (ev : EventEntry) :
    (w.evictOne ev).head = w.head + 1 := by
  simp only [WindowState.evictOne]; split_ifs <;> rfl

theorem evictOne_duration (w : WindowState) (ev : EventEntry) :
    (w.evictOne ev).duration = w.duration := by
  simp only [WindowState.evictOne]; split_ifs <;> rfl

theorem evictOne_attempts (w : WindowState) (ev : EventEntry) :
    (w.evictOne ev).attempts = w.attempts - 1 := by
  simp only [WindowState.evictOne]; split_ifs <;> rfl

theorem evictOne_failures (w : WindowState) (ev : EventEntry) :
    (w.evictOne ev).failures = w.failures - (if ev.Result = ResultFailure then 1 else 0) := by
  simp only [WindowState.evictOne]; split_ifs <;> simp

theorem evictOne_uidCounts (w : WindowState) (ev : EventEntry) :
    (w.evictOne ev).uidCounts =
      if ev.UID ≠ "" then
        (if countOf w.uidCounts ev.UID ≤ 1 then w.uidCounts.delete ev.UID
         else w.uidCounts.set ev.UID (countOf w.uidCounts ev.UID - 1))
      else w.uidCounts := by
  simp only [WindowState.evictOne]; split_ifs <;> rfl

/-- When the entry at `head` is `ev`, the live entries are `ev` followed by those past it. -/
theorem live_of_get (w : WindowState) (ev : EventEntry) (h : w.events.get? w.head = some ev) :
    w.live = ev :: (w.evictOne ev).live := by
  obtain ⟨hlt, hget⟩ := List.get?_eq_some.1 h
  simp only [WindowState.live, evictOne_events, evictOne_head]
  rw [List.drop_eq_getElem_cons hlt]
  simp at hget
  rw [hget]

theorem evictOne_consistent (w : WindowState) (ev : EventEntry) (hw : w.Consistent)
    (h : w.events.get? w.head = some ev) : (w.evictOne ev).Consistent := by
  have hl := live_of_get w ev h
  obtain ⟨hlt, -⟩ := List.get?_eq_some.1 h
  have hcnt : ∀ u, w.uidCount u = (w.evictOne ev).uidCount u + (if ev.UID = u then 1 else 0) := by
    intro u
    simp only [WindowState.uidCount, hl]
    by_cases hu : ev.UID = u <;> simp [List.countP_cons, hu]
  have hc : ev.UID ≠ "" → countOf w.uidCounts ev.UID = ((w.evictOne ev).uidCount ev.UID : Int) + 1 := by
    intro he
    unfold countOf
    rw [hw.lookup_eq, hcnt ev.UID]
    simp [he]
  constructor
  · rw [evictOne_events, evictOne_head]; omega
  · have := hw.attempts_eq
    rw [hl] at this
    rw [evictOne_attempts, this]; simp
  · have := hw.failures_eq
    rw [hl] at this
    rw [evictOne_failures, this]
    by_cases hf : ev.Result = ResultFailure <;> simp [List.countP_cons, hf]
  · rw [evictOne_uidCounts]
    split_ifs
    · exact GoMap.keys_delete_nodup _ hw.keys_nodup _
    · exact GoMap.keys_set_nodup _ hw.keys_nodup _ _
    · exact hw.keys_nodup
  · intro u
    rw [evictOne_uidCounts]
    by_cases he : ev.UID = ""
    · rw [if_neg (by simpa using he), hw.lookup_eq u, hcnt u]
      by_cases hu : ev.UID = u
      · have : u = "" := hu ▸ he
        simp [this]
      · simp [hu]
    · rw [if_pos he, hc he]
      by_cases h1 : ((w.evictOne ev).uidCount ev.UID : Int) + 1 ≤ 1
      · have h0 : (w.evictOne ev).uidCount ev.UID = 0 := by omega
        rw [if_pos h1, GoMap.lookup_delete _ hw.keys_nodup]
        by_cases hu : ev.UID = u
        · subst hu; simp [h0]
        · rw [if_neg hu, hw.lookup_eq u, hcnt u]; simp [hu]
      · have h0 : (w.evictOne ev).uidCount ev.UID ≠ 0 := by omega
        rw [if_neg h1, GoMap.lookup_set]
        by_cases hu : ev.UID = u
        · subst hu; simp [h0, he]
        · rw [if_neg hu, hw.lookup_eq u, hcnt u]; simp [hu]
  · have hs := hw.sum_eq
    rw [hl] at hs
    rw [evictOne_uidCounts]
    by_cases he : ev.UID = ""
    · rw [if_neg (by simpa using he), hs]; simp [List.countP_cons, he]
    · rw [if_pos he]
      have hs' : valuesSum w.uidCounts =
          ((w.evictOne ev).live.countP (fun e => e.UID ≠ "") : Int) + 1 := by
        rw [hs]; simp [List.countP_cons, he]
      by_cases h1 : countOf w.uidCounts ev.UID ≤ 1
      · rw [if_pos h1, valuesSum_delete, hs']
        have := hc he
        omega
      · rw [if_neg h1, valuesSum_set, hs']
        ring

theorem evictLoop_consistent (cutoff : Time) (fuel : Nat) (w : WindowState) (hw : w.Consistent) :
    (WindowState.evictLoop cutoff fuel w).Consistent := by
  induction fuel generalizing w with
  | zero => exact hw
  | succ n ih =>
    unfold WindowState.evictLoop
    cases h : w.events.get? w.head with
    | none => exact hw
    | some ev =>
      simp only
      split_ifs
      · exact ih _ (evictOne_consistent w ev hw h)
      · exact hw

theorem compact_live (w : WindowState) : w.compact.live = w.live := by
  unfold WindowState.compact
  split_ifs <;> simp [WindowState.live]

theorem compact_consistent (w : WindowState) (hw : w.Consistent) : w.compact.Consistent := by
  have hl := compact_live w
  have hu : ∀ u, w.compact.uidCount u = w.uidCount u := fun u => by
    simp [WindowState.uidCount, hl]
  have hf : w.compact.attempts = w.attempts ∧ w.compact.failures = w.failures ∧
      w.compact.uidCounts = w.uidCounts := by
    unfold WindowState.compact; split_ifs <;> simp
  constructor
  · unfold WindowState.compact
    split_ifs
    · simp
    · exact hw.head_le
  · rw [hf.1, hl]; exact hw.attempts_eq
  · rw [hf.2.1, hl]; exact hw.failures_eq
  · rw [hf.2.2]; exact hw.keys_nodup
  · intro u; rw [hf.2.2, hu]; exact hw.lookup_eq u
  · rw [hf.2.2, hl]; exact hw.sum_eq

theorem Evict_consistent (w : WindowState) (cutoff : Time) (hw : w.Consistent) :
    (w.Evict cutoff).Consistent :=
  compact_consistent _ (evictLoop_consistent cutoff _ w hw)

theorem Reachable.consistent {d : Duration} {w : WindowState} (h : Reachable d w) :
    w.Consistent := by
  induction h with
  | init => exact NewWindowState_consistent d
  | add w ev _ ih => exact Add_consistent w ev ih
  | evict w c _ ih => exact Evict_consistent w c ih

/-! ## What `Evict` removes -/

theorem evictLoop_live (cutoff : Time) (fuel : Nat) (w : WindowState)
    (hfuel : w.events.length - w.head ≤ fuel) :
    (WindowState.evictLoop cutoff fuel w).live =
      w.live.dropWhile (fun e => decide (e.Timestamp < cutoff)) := by
  induction fuel generalizing w with
  | zero =>
    have : w.live = [] := by
      simp only [WindowState.live, List.drop_eq_nil_iff]; omega
    simp [WindowState.evictLoop, this]
  | succ n ih =>
    unfold WindowState.evictLoop
    cases h : w.events.get? w.head with
    | none =>
      have : w.live = [] := by
        simp only [WindowState.live, List.drop_eq_nil_iff]
        exact List.get?_eq_none.1 h
      simp [this]
    | some ev =>
      have hl := live_of_get w ev h
      simp only
      split_ifs with hc
      · rw [ih (w.evictOne ev) (by rw [evictOne_events, evictOne_head]; omega), hl]
        simp [List.dropWhile_cons, hc]
      · rw [hl]
        simp [List.dropWhile_cons, hc]

theorem Evict_live (w : WindowState) (cutoff : Time) :
    (w.Evict cutoff).live = w.live.dropWhile (fun e => decide (e.Timestamp < cutoff)) := by
  unfold WindowState.Evict
  rw [compact_live, evictLoop_live cutoff _ w (le_refl _)]

theorem dropWhile_head_not (p : EventEntry → Bool) (l : List EventEntry) (e : EventEntry)
    (h : (l.dropWhile p).head? = some e) : p e = false := by
  induction l with
  | nil => simp at h
  | cons a rest ih =>
    by_cases ha : p a = true
    · rw [List.dropWhile_cons_of_pos ha] at h
      exact ih h
    · rw [List.dropWhile_cons_of_neg ha] at h
      simp at h
      subst h
      simpa using ha

theorem mem_takeWhile_holds (p : EventEntry → Bool) (l : List EventEntry) (e : EventEntry)
    (h : e ∈ l.takeWhile p) : p e = true := by
  induction l with
  | nil => simp at h
  | cons a rest ih =>
    by_cases ha : p a = true
    · rw [List.takeWhile_cons_of_pos ha] at h
      rcases List.mem_cons.1 h with h | h
      · rw [h]; exact ha
      · exact ih h
    · rw [List.takeWhile_cons_of_neg ha] at h
      simp at h

theorem sorted_dropWhile_ge (cutoff : Time) (l : List EventEntry)
    (hs : (l.map (fun e => e.Timestamp)).Sorted (· ≤ ·)) :
    ∀ e ∈ l.dropWhile (fun e => decide (e.Timestamp < cutoff)), cutoff ≤ e.Timestamp := by
  induction l with
  | nil => simp
  | cons a rest ih =>
    have hs' : (∀ b ∈ rest, a.Timestamp ≤ b.Timestamp) ∧
        (rest.map (fun e => e.Timestamp)).Sorted (· ≤ ·) := by
      simpa [List.Sorted] using hs
    by_cases ha : a.Timestamp < cutoff
    · rw [List.dropWhile_cons_of_pos (by simpa using ha)]
      exact ih hs'.2
    · rw [List.dropWhile_cons_of_neg (by simpa using ha)]
      intro e he
      rcases List.mem_cons.1 he with h | h
      · rw [h]; exact not_lt.1 ha
      · exact le_trans (not_lt.1 ha) (hs'.1 e h)

/-! ## Metrics recomputed from the live entries -/

theorem sum_sq_dev (ds : List ℚ) (c : ℚ) :
    (ds.map (fun d => (d - c) ^ 2)).sum =
      (ds.map (fun d => d ^ 2)).sum - 2 * c * ds.sum + (ds.length : ℚ) * c ^ 2 := by
  induction ds with
  | nil => simp
  | cons a rest ih =>
    simp only [List.map_cons, List.sum_cons, List.length_cons, ih]
    push_cast
    ring

/-- The invariant of the Welford loop: with `n * mean` the sum and `m2 + n * mean^2` the sum
of squares of the gaps seen so far, the loop ends with the same relation over all gaps. -/
theorem varianceLoop_spec (rest : List EventEntry) (prev : Time) (n : Nat) (mean m2 S Q : ℚ)
    (hS : (n : ℚ) * mean = S) (hQ : m2 = Q - (n : ℚ) * mean ^ 2) :
    let ds := gapsSeconds (prev :: rest.map (fun e => e.Timestamp))
    let r := varianceLoop rest prev n mean m2
    r.1 = n + rest.length ∧
    (r.1 : ℚ) * r.2.1 = S + ds.sum ∧
    r.2.2 = Q + (ds.map (fun d => d ^ 2)).sum - (r.1 : ℚ) * r.2.1 ^ 2 := by
  induction rest generalizing prev n mean m2 S Q with
  | nil => simp [varianceLoop, gapsSeconds, hS, hQ]
  | cons e rest ih =>
    have hd : (if Duration.Seconds (e.Timestamp - prev) < 0 then 0
        else Duration.Seconds (e.Timestamp - prev)) =
        max 0 (Duration.Seconds (e.Timestamp - prev)) := by
      split_ifs with h
      · exact (max_eq_left (le_of_lt h)).symm
      · exact (max_eq_right (not_lt.1 h)).symm
    have hn : ((n + 1 : Nat) : ℚ) ≠ 0 := by positivity
    simp only [varianceLoop, gapsSeconds, List.map_cons, List.sum_cons, List.length_cons, hd]
    set δ := max 0 (Duration.Seconds (e.Timestamp - prev)) with hδ
    have key := ih e.Timestamp (n + 1) (mean + (δ - mean) / ((n + 1 : Nat) : ℚ))
      (m2 + (δ - mean) * (δ - (mean + (δ - mean) / ((n + 1 : Nat) : ℚ))))
      (S + δ) (Q + δ ^ 2)
      (by field_simp; rw [← hS]; ring)
      (by rw [hQ]; field_simp; ring)
    simp only at key
    refine ⟨?_, ?_, ?_⟩
    · rw [key.1]; omega
    · rw [key.2.1]; ring
    · rw [key.2.2]; ring

theorem gapsSeconds_length (t : Time) (ts : List Time) :
    (gapsSeconds (t :: ts)).length = ts.length := by
  induction ts generalizing t with
  | nil => simp [gapsSeconds]
  | cons a rest ih => simp [gapsSeconds, ih]

theorem populationVariance_nonneg (ds : List ℚ) : 0 ≤ populationVariance ds := by
  unfold populationVariance
  apply div_nonneg
  · apply List.sum_nonneg
    intro x hx
    obtain ⟨d, -, rfl⟩ := List.mem_map.1 hx
    positivity
  · positivity

/-- The function `varianceDelta` is the population variance of the gaps between the live
entries, and 0 when there are fewer than two of them. -/
theorem varianceDelta_eq (events : List EventEntry) (start : Nat) :
    varianceDelta events start =
      if (events.drop start).length < 2 then 0
      else populationVariance (gapsSeconds ((events.drop start).map (fun e => e.Timestamp))) := by
  unfold varianceDelta
  have hlen : (events.drop start).length = events.length - start := List.length_drop _ _
  by_cases h : (events.length : Int) - (start : Int) ≤ 1
  · rw [if_pos h, if_pos (by omega)]
  · rw [if_neg h, if_neg (by omega)]
    cases hd : events.drop start with
    | nil => rw [hd] at hlen; simp at hlen; omega
    | cons e0 rest =>
      rw [hd] at hlen
      have hrest : rest.length ≠ 0 := by simp at hlen; omega
      obtain ⟨h1, h2, h3⟩ := varianceLoop_spec rest e0.Timestamp 0 0 0 0 0 (by simp) (by simp)
      simp only [zero_add] at h1 h2 h3
      simp only [List.map_cons]
      set ds := gapsSeconds (e0.Timestamp :: rest.map (fun e => e.Timestamp)) with hds
      have hdl : ds.length = rest.length := by rw [hds, gapsSeconds_length]; simp
      rcases hr : varianceLoop rest e0.Timestamp 0 0 0 with ⟨n, mean, m2⟩
      rw [hr] at h1 h2 h3
      simp only at h1 h2 h3
      subst h1
      simp only [if_neg hrest]
      have hn : (rest.length : ℚ) ≠ 0 := by exact_mod_cast hrest
      have hmean : ds.sum / (rest.length : ℚ) = mean := by
        rw [← h2]; field_simp
      unfold populationVariance
      simp only [hdl, hmean]
      rw [sum_sq_dev, h3, hdl, ← h2]
      congr 1
      ring

theorem Consistent.length_uidCounts (w : WindowState) (hw : w.Consistent) :
    w.uidCounts.length =
      ((w.live.map (fun e => e.UID)).filter (fun u => u ≠ "")).dedup.length := by
  have hk : w.uidCounts.length = w.uidCounts.keys.length := by simp [GoMap.keys]
  rw [hk]
  apply List.Perm.length_eq
  rw [List.perm_ext_iff_of_nodup hw.keys_nodup (List.nodup_dedup _)]
  intro u
  have h1 : u ∈ w.uidCounts.keys ↔ ¬ (w.uidCounts.lookup u = none) := by
    rw [GoMap.lookup_eq_none_iff]; simp
  rw [h1, hw.lookup_eq u]
  simp only [List.mem_dedup, List.mem_filter, List.mem_map, WindowState.uidCount]
  by_cases hu : u = ""
  · simp [hu]
  · by_cases hc : List.countP (fun e => decide (e.UID = u)) w.live = 0
    · have hc' := hc
      rw [List.countP_eq_zero] at hc'
      simp only [hu, hc, or_true, if_true, not_true_eq_false, false_iff, not_and]
      rintro ⟨e, he, rfl⟩
      exact absurd (by simp) (hc' e he)
    · have hc' := hc
      rw [List.countP_eq_zero] at hc'
      push_neg at hc'
      obtain ⟨e, he, hx⟩ := hc'
      simp only [hu, hc, or_self, if_false]
      simp only [decide_eq_true_eq] at hx
      simp [hu]
      exact ⟨e, he, hx⟩

theorem Consistent.metrics_eq (w : WindowState) (hw : w.Consistent) :
    w.Metrics = recomputeMetrics w.duration w.live := by
  have ha := hw.attempts_eq
  have hf := hw.failures_eq
  have hlen := Consistent.length_uidCounts w hw
  have hpos : w.attempts > 0 ↔ ¬ w.live.length = 0 := by rw [ha]; omega
  unfold WindowState.Metrics recomputeMetrics
  simp only [WindowMetrics.mk.injEq, true_and]
  refine ⟨ha, ?_, ?_, ?_, ?_, ?_⟩
  · rw [hf, List.countP_eq_length_filter]
  · by_cases h0 : w.live.length = 0
    · simp [h0, ha]
    · rw [if_pos (hpos.2 h0), if_neg h0, ha]; simp
  · by_cases h0 : w.live.length = 0
    · simp [h0, ha]
    · rw [if_pos (hpos.2 h0), if_neg h0, ha, hf, List.countP_eq_length_filter]; simp
  · by_cases h0 : w.live.length = 0
    · simp [h0, ha]
    · rw [if_pos (hpos.2 h0), if_neg h0, ha, hlen]; simp
  · rw [varianceDelta_eq]; rfl

theorem Reachable.duration_eq {d : Duration} {w : WindowState} (h : Reachable d w) :
    w.duration = d := by
  induction h with
  | init => rfl
  | add w ev _ ih => rw [Add_duration, ih]
  | evict w c _ ih =>
    have h1 : ∀ (fuel : Nat) (v : WindowState),
        (WindowState.evictLoop c fuel v).duration = v.duration := by
      intro fuel
      induction fuel with
      | zero => intro v; rfl
      | succ n ihn =>
        intro v
        unfold WindowState.evictLoop
        cases v.events.get? v.head with
        | none => rfl
        | some ev =>
          simp only
          split_ifs
          · rw [ihn, evictOne_duration]
          · rfl
    have h2 : ∀ v : WindowState, v.compact.duration = v.duration := by
      intro v; unfold WindowState.compact; split_ifs <;> rfl
    unfold WindowState.Evict
    rw [h2, h1, ih]

/-- The bounds on recomputed metrics of a window with positive duration. -/
theorem recomputeMetrics_bounds (d : Duration) (hd : 0 < d) (l : List EventEntry) :
    let m := recomputeMetrics d l
    0 ≤ m.Failures ∧ m.Failures ≤ m.Attempts ∧ 0 ≤ m.FR ∧ m.FR ≤ 1 ∧ 0 ≤ m.UDS ∧ m.UDS ≤ 1 ∧
      0 ≤ m.APS ∧ 0 ≤ m.TV := by
  have hfl : (l.filter (fun e => e.Result = ResultFailure)).length ≤ l.length :=
    List.length_filter_le _ _
  have hdl : ((l.map (fun e => e.UID)).filter (fun u => u ≠ "")).dedup.length ≤ l.length := by
    calc ((l.map (fun e => e.UID)).filter (fun u => u ≠ "")).dedup.length
        ≤ ((l.map (fun e => e.UID)).filter (fun u => u ≠ "")).length :=
          (List.dedup_sublist _).length_le
      _ ≤ (l.map (fun e => e.UID)).length := List.length_filter_le _ _
      _ = l.length := List.length_map _ _
  have hsec : (0 : ℚ) < Duration.Seconds d := by
    unfold Duration.Seconds
    have : (0 : ℚ) < (d : ℚ) := by exact_mod_cast hd
    positivity
  simp only [recomputeMetrics]
  refine ⟨by positivity, by exact_mod_cast hfl, ?_, ?_, ?_, ?_, ?_, ?_⟩
  · split_ifs <;> positivity
  · split_ifs with h0
    · norm_num
    · have : (0 : ℚ) < (l.length : ℚ) := by exact_mod_cast Nat.pos_of_ne_zero h0
      rw [div_le_one this]; exact_mod_cast hfl
  · split_ifs <;> positivity
  · split_ifs with h0
    · norm_num
    · have : (0 : ℚ) < (l.length : ℚ) := by exact_mod_cast Nat.pos_of_ne_zero h0
      rw [div_le_one this]; exact_mod_cast hdl
  · split_ifs
    · exact le_refl _
    · exact div_nonneg (by positivity) hsec.le
  · split_ifs
    · exact le_refl _
    · exact populationVariance_nonneg _

/-! ## The alert evaluator -/

/-- The alert that `Engine.evaluate` builds once the cooldown gate has let it through. -/
theorem evaluate_eq (cfg : Config) (cooldown : Cooldown) (clk : Clock) (tick : Nat)
    (readerID : String) (wm : WindowMetrics) :
    Engine.evaluate cfg cooldown clk tick readerID wm =
      if wm.Attempts = 0 then (none, cooldown, tick)
      else if firedRules cfg wm = [] then (none, cooldown, tick)
      else
        match cooldown.Allow clk tick readerID wm.WindowSec cfg.Detection.AlertCooldown with
        | (false, cooldown1, tick1) => (none, cooldown1, tick1)
        | (true, cooldown1, tick1) =>
          (some { Timestamp := clk tick1, ReaderID := readerID,
                  Severity := severityOf cfg (compositeScore cfg wm) wm.APS
                    (firedRules cfg wm).length,
                  AlertType := "possible_bruteforce", WindowSec := wm.WindowSec,
                  Metrics := wm, Score := compositeScore cfg wm,
                  Rules := firedRules cfg wm, Context := [("engine", "rfguard")] },
            cooldown1, tick1 + 1) := by
  have h2 : ∀ x : ℚ, x * 2 = 2 * x := fun x => mul_comm x 2
  by_cases h0 : wm.Attempts = 0
  · simp [Engine.evaluate, h0]
  · by_cases a1 : wm.APS > cfg.Detection.APSThreshold <;>
    by_cases a2 : wm.FR > cfg.Detection.FailureRatioThreshold <;>
    by_cases a3 : wm.Attempts ≥ cfg.Detection.MinAttempts <;>
    by_cases a4 : wm.UDS > cfg.Detection.UIDDiversityThreshold <;>
    by_cases a5 : wm.APS > cfg.Detection.APSElevatedThreshold <;>
    by_cases a6 : wm.TV < cfg.Detection.TimingVarianceThreshold <;>
    by_cases a7 : compositeScore cfg wm > cfg.Detection.AttackScoreThreshold <;>
    · have a7' := a7
      simp only [compositeScore] at a7'
      simp only [Engine.evaluate, firedRules, ruleTable, severityOf, h0, a1, a2, a3, a4, a5, a6, a7,
        a7', and_self, and_true, and_false, true_and, false_and,
        if_true, if_false, decide_True, decide_False, List.filter, List.map, List.nil_append,
        List.cons_append, List.length_cons, List.length_nil, h2]
      try (first | rfl | simp [compositeScore])

/-- What an emitted window alert is: the gate let it through, and every field is fixed by
the configuration, the metrics and the clock reading after the gate. -/
theorem evaluate_some (cfg : Config) (cooldown : Cooldown) (clk : Clock) (tick : Nat)
    (readerID : String) (wm : WindowMetrics) (alert : Alert) (cooldown' : Cooldown)
    (tick' : Nat)
    (h : Engine.evaluate cfg cooldown clk tick readerID wm = (some alert, cooldown', tick')) :
    wm.Attempts ≠ 0 ∧ firedRules cfg wm ≠ [] ∧
    ∃ tick1,
      cooldown.Allow clk tick readerID wm.WindowSec cfg.Detection.AlertCooldown =
        (true, cooldown', tick1) ∧
      tick' = tick1 + 1 ∧
      alert = { Timestamp := clk tick1, ReaderID := readerID,
                Severity := severityOf cfg (compositeScore cfg wm) wm.APS
                  (firedRules cfg wm).length,
                AlertType := "possible_bruteforce", WindowSec := wm.WindowSec,
                Metrics := wm, Score := compositeScore cfg wm,
                Rules := firedRules cfg wm, Context := [("engine", "rfguard")] } := by
  rw [evaluate_eq] at h
  by_cases h0 : wm.Attempts = 0
  · simp [h0] at h
  · by_cases hr : firedRules cfg wm = []
    · simp [h0, hr] at h
    · rw [if_neg h0, if_neg hr] at h
      rcases hA : cooldown.Allow clk tick readerID wm.WindowSec cfg.Detection.AlertCooldown
        with ⟨ok, cd1, t1⟩
      rw [hA] at h
      cases ok with
      | false => simp at h
      | true =>
        simp only [Prod.mk.injEq, Option.some.injEq] at h
        obtain ⟨ha, hc, ht⟩ := h
        subst hc
        exact ⟨h0, hr, t1, rfl, ht.symm, ha.symm⟩

/-- The fired rules are a sub-list of the five rule tokens in the order of the table. -/
theorem firedRules_sublist (cfg : Config) (wm : WindowMetrics) :
    (firedRules cfg wm).Sublist
      ["excessive_attempt_rate", "failure_spike", "uid_spraying", "machine_timing",
        "attack_score"] := by
  have h : (ruleTable cfg wm).map (fun r => r.1) =
      ["excessive_attempt_rate", "failure_spike", "uid_spraying", "machine_timing",
        "attack_score"] := rfl
  rw [← h]
  exact List.Sublist.map _ (List.filter_sublist _)

/-! ## The cooldown gate -/

theorem Allow_eq_AllowKey (c : Cooldown) (clk : Clock) (tick : Nat) (readerID : String)
    (windowSec : Int) (cooldown : Duration) :
    c.Allow clk tick readerID windowSec cooldown =
      c.AllowKey clk tick (readerID ++ "|" ++ itoa windowSec) cooldown := by
  unfold Cooldown.Allow Cooldown.AllowKey
  split_ifs <;> rfl

theorem AllowKey_off (c : Cooldown) (clk : Clock) (tick : Nat) (key : String)
    (cooldown : Duration) (h : cooldown ≤ 0) :
    c.AllowKey clk tick key cooldown = (true, c, tick) := by
  simp [Cooldown.AllowKey, h]

theorem AllowKey_recent (c : Cooldown) (clk : Clock) (tick : Nat) (key : String)
    (cooldown : Duration) (h : 0 < cooldown) (t0 : Time) (hl : c.last.lookup key = some t0)
    (hr : clk tick - t0 < cooldown) :
    c.AllowKey clk tick key cooldown = (false, c, tick + 1) := by
  simp [Cooldown.AllowKey, not_le.2 h, hl, hr]

theorem AllowKey_pass (c : Cooldown) (clk : Clock) (tick : Nat) (key : String)
    (cooldown : Duration) (h : 0 < cooldown)
    (hr : ∀ t0, c.last.lookup key = some t0 → ¬ (clk tick - t0 < cooldown)) :
    c.AllowKey clk tick key cooldown =
      (true, { last := c.last.set key (clk tick) }, tick + 1) := by
  cases hl : c.last.lookup key with
  | none => simp [Cooldown.AllowKey, not_le.2 h, hl]
  | some t0 => simp [Cooldown.AllowKey, not_le.2 h, hl, hr t0 hl]

/-! ## The deduplication cache -/

theorem GoMap.lookup_filter {K V : Type} [DecidableEq K] (m : GoMap K V) (hm : m.keys.Nodup)
    (q : V → Bool) (k : K) :
    GoMap.lookup (m.filter (fun p => q p.2)) k = (GoMap.lookup m k).filter q := by
  induction m with
  | nil => simp [GoMap.lookup]
  | cons p rest ih =>
    obtain ⟨a, b⟩ := p
    have hnd : a ∉ GoMap.keys rest ∧ (GoMap.keys rest).Nodup := by simpa [GoMap.keys] using hm
    by_cases hq : q b = true
    · by_cases ha : a = k
      · simp [List.filter_cons, GoMap.lookup, hq, ha, Option.filter]
      · simp [List.filter_cons, GoMap.lookup, hq, ha, ih hnd.2]
    · by_cases ha : a = k
      · subst ha
        have hn : GoMap.lookup rest a = none := (GoMap.lookup_eq_none_iff rest a).2 hnd.1
        simp [List.filter_cons, GoMap.lookup, hq, ih hnd.2, hn, Option.filter]
      · simp [List.filter_cons, GoMap.lookup, hq, ha, ih hnd.2]

theorem Seen_fresh (d : DedupeCache) (key : String) (now : Time) (ttl : Duration) (t0 : Time)
    (hl : d.items.lookup key = some t0) (hr : now - t0 ≤ ttl) :
    d.Seen key now ttl = (true, d) := by
  simp [DedupeCache.Seen, hl, hr]

theorem Seen_stale (d : DedupeCache) (key : String) (now : Time) (ttl : Duration)
    (hr : ∀ t0, d.items.lookup key = some t0 → ¬ (now - t0 ≤ ttl)) :
    d.Seen key now ttl =
      (false, if (d.items.set key now).length > 10000
        then DedupeCache.compact { items := d.items.set key now } now ttl
        else { items := d.items.set key now }) := by
  cases hl : d.items.lookup key with
  | none => simp only [DedupeCache.Seen, hl]; split_ifs <;> simp_all
  | some t0 =>
    have := hr t0 hl
    simp only [DedupeCache.Seen, hl, this, decide_False]; split_ifs <;> simp_all

/-- The cache of `Seen` keeps one entry per key. -/
theorem Seen_keys_nodup (d : DedupeCache) (hd : d.items.keys.Nodup) (key : String)
    (now : Time) (ttl : Duration) : (d.Seen key now ttl).2.items.keys.Nodup := by
  have hnd : (d.items.set key now).keys.Nodup := GoMap.keys_set_nodup _ hd _ _
  unfold DedupeCache.Seen
  dsimp only
  split_ifs
  · exact hd
  · simp only [DedupeCache.compact]
    exact (List.Sublist.map _ (List.filter_sublist _)).nodup hnd
  · exact hnd

/-! ## The evaluator on the sample metrics -/

/-- With an empty cooldown table the evaluator raises `sampleAlert` for `sampleMetrics`. -/
theorem evaluate_sample :
    Engine.evaluate sampleConfig NewCooldown sampleClock 0 "reader01" sampleMetrics =
      (some sampleAlert, sampleCooldown, 2) := by
  have hA : NewCooldown.Allow sampleClock 0 "reader01" 1 5000000000 =
      (true, sampleCooldown, 1) := by decide
  have hf : firedRules sampleConfig sampleMetrics =
      ["excessive_attempt_rate", "failure_spike", "machine_timing", "attack_score"] := by
    norm_num [firedRules, ruleTable, compositeScore, sampleConfig, sampleMetrics]
  have hs : compositeScore sampleConfig sampleMetrics = 20061 / 2 := by
    norm_num [compositeScore, sampleConfig, sampleMetrics]
  have hW : sampleMetrics.WindowSec = 1 := rfl
  have hC : sampleConfig.Detection.AlertCooldown = 5000000000 := rfl
  have hv : severityOf sampleConfig (20061 / 2) 20 4 = "critical" := by
    norm_num [severityOf, sampleConfig]
  rw [evaluate_eq, hf, hs, hW, hC, hA]
  simp [hv, sampleAlert, sampleMetrics, sampleClock]

/-! ## The cooldown gate along a run of the engine -/

theorem AllowKey_cases (c : Cooldown) (clk : Clock) (tick : Nat) (key : String)
    (cooldown : Duration) (hc : 0 < cooldown) (ok : Bool) (c' : Cooldown) (tick' : Nat)
    (h : c.AllowKey clk tick key cooldown = (ok, c', tick')) :
    tick' = tick + 1 ∧
    ((ok = false ∧ c' = c) ∨
     (ok = true ∧ c' = { last := c.last.set key (clk tick) } ∧
       ∀ t0, c.last.lookup key = some t0 → ¬ (clk tick - t0 < cooldown))) := by
  by_cases hr : ∀ t0, c.last.lookup key = some t0 → ¬ (clk tick - t0 < cooldown)
  · rw [AllowKey_pass c clk tick key cooldown hc hr] at h
    simp only [Prod.mk.injEq] at h
    obtain ⟨h1, h2, h3⟩ := h
    exact ⟨h3.symm, Or.inr ⟨h1.symm, h2.symm, hr⟩⟩
  · push_neg at hr
    obtain ⟨t0, hl, hlt⟩ := hr
    rw [AllowKey_recent c clk tick key cooldown hc t0 hl hlt] at h
    simp only [Prod.mk.injEq] at h
    obtain ⟨h1, h2, h3⟩ := h
    exact ⟨h3.symm, Or.inl ⟨h1.symm, h2.symm⟩⟩

theorem GateInv.nil (c : Duration) (clk : Clock) (cooldown : Cooldown) (tick : Nat) :
    GateInv c clk cooldown tick [] :=
  ⟨by simp, by simp, List.Pairwise.nil⟩

theorem GateInv.later {c : Duration} {clk : Clock} {cooldown : Cooldown} {tick : Nat}
    {log : List (Alert × Nat)} (h : GateInv c clk cooldown tick log) (tick' : Nat)
    (ht : tick ≤ tick') : GateInv c clk cooldown tick' log :=
  ⟨h.stored, fun x hx => lt_of_lt_of_le (h.past x hx) ht, h.spaced⟩

/-- A gate that lets an alert through keeps the invariant, with the alert's emission added
to the log. -/
theorem GateInv.pass {c : Duration} {clk : Clock} {cooldown : Cooldown} {tick : Nat}
    {log : List (Alert × Nat)} (h : GateInv c clk cooldown tick log) (hclk : Monotone clk)
    (a : Alert)
    (hr : ∀ t0, cooldown.last.lookup (slotKey a) = some t0 → ¬ (clk tick - t0 < c)) :
    GateInv c clk { last := cooldown.last.set (slotKey a) (clk tick) } (tick + 1)
      (log ++ [(a, tick)]) := by
  refine ⟨?_, ?_, ?_⟩
  · intro x hx
    rcases List.mem_append.1 hx with hx | hx
    · by_cases hk : slotKey a = slotKey x.1
      · refine ⟨clk tick, ?_, hclk (le_of_lt (h.past x hx))⟩
        simp [GoMap.lookup_set, hk]
      · obtain ⟨t, ht, hle⟩ := h.stored x hx
        exact ⟨t, by simp [GoMap.lookup_set, hk, ht], hle⟩
    · simp only [List.mem_singleton] at hx
      subst hx
      exact ⟨clk tick, by simp [GoMap.lookup_set], le_refl _⟩
  · intro x hx
    rcases List.mem_append.1 hx with hx | hx
    · exact Nat.lt_succ_of_lt (h.past x hx)
    · simp only [List.mem_singleton] at hx
      subst hx
      exact Nat.lt_succ_self _
  · rw [List.pairwise_append]
    refine ⟨h.spaced, List.pairwise_singleton _ _, ?_⟩
    intro x hx y hy hk
    simp only [List.mem_singleton] at hy
    subst hy
    obtain ⟨t, ht, hle⟩ := h.stored x hx
    have hge : ¬ (clk tick - t < c) := hr t (by rw [← hk]; exact ht)
    have h1 : c ≤ clk tick - t := not_lt.1 hge
    show c ≤ clk tick - clk x.2
    have h2 : clk tick - t ≤ clk tick - clk x.2 := sub_le_sub_left hle _
    exact le_trans h1 h2

/-- A call of `AllowKey` with a positive cooldown keeps the invariant; when it lets through
an alert gated by its key, the emission of that alert is added to the log. -/
theorem GateInv.allowKey {c : Duration} {clk : Clock} {cooldown : Cooldown} {tick : Nat}
    {log : List (Alert × Nat)} (h : GateInv c clk cooldown tick log) (hclk : Monotone clk)
    (hc : 0 < c) (key : String) (ok : Bool) (cooldown' : Cooldown) (tick' : Nat)
    (hA : cooldown.AllowKey clk tick key c = (ok, cooldown', tick')) :
    tick' = tick + 1 ∧
    (ok = false → GateInv c clk cooldown' tick' log) ∧
    (ok = true → ∀ a : Alert, slotKey a = key →
      GateInv c clk cooldown' tick' (log ++ [(a, tick)])) := by
  obtain ⟨ht, hcase⟩ := AllowKey_cases cooldown clk tick key c hc ok cooldown' tick' hA
  refine ⟨ht, ?_, ?_⟩
  · intro hok
    rcases hcase with ⟨-, hcd⟩ | ⟨hok', -, -⟩
    · rw [hcd, ht]; exact h.later _ (Nat.le_succ _)
    · rw [hok] at hok'; exact absurd hok' (by decide)
  · intro hok a hk
    rcases hcase with ⟨hok', -⟩ | ⟨-, hcd, hr⟩
    · rw [hok] at hok'; exact absurd hok' (by decide)
    · subst hk
      rw [hcd, ht]
      exact h.pass hclk a hr

/-- A call of `Engine.evaluate` keeps the gate invariant, its alert (if any) logged at the clock
reading of its entry and stamped with the reading after it. -/
theorem evaluate_gate (cfg : Config) (clk : Clock) (hclk : Monotone clk)
    (hc : 0 < cfg.Detection.AlertCooldown) {cooldown : Cooldown} {tick : Nat}
    {log : List (Alert × Nat)} (h : GateInv cfg.Detection.AlertCooldown clk cooldown tick log)
    (readerID : String) (wm : WindowMetrics) (r : Option Alert) (cooldown' : Cooldown)
    (tick' : Nat) (he : Engine.evaluate cfg cooldown clk tick readerID wm = (r, cooldown', tick')) :
    GateInv cfg.Detection.AlertCooldown clk cooldown' tick'
      (log ++ r.toList.map (fun a => (a, tick))) ∧
    tick ≤ tick' ∧ ∀ a, r = some a → a.Timestamp = clk (tick + 1) := by
  rw [evaluate_eq] at he
  split_ifs at he with h0 hr
  · simp only [Prod.mk.injEq] at he
    obtain ⟨rfl, rfl, rfl⟩ := he
    simpa using h
  · simp only [Prod.mk.injEq] at he
    obtain ⟨rfl, rfl, rfl⟩ := he
    simpa using h
  · rcases hA : cooldown.Allow clk tick readerID wm.WindowSec cfg.Detection.AlertCooldown
      with ⟨ok, cd1, t1⟩
    rw [hA] at he
    rw [Allow_eq_AllowKey] at hA
    obtain ⟨ht, hno, hyes⟩ := h.allowKey hclk hc _ ok cd1 t1 hA
    cases ok with
    | false =>
      simp only [Prod.mk.injEq] at he
      obtain ⟨rfl, rfl, rfl⟩ := he
      refine ⟨by simpa using hno rfl, by omega, by simp⟩
    | true =>
      simp only [Prod.mk.injEq] at he
      obtain ⟨rfl, rfl, rfl⟩ := he
      refine ⟨?_, by omega, ?_⟩
      · simp only [Option.toList_some, List.map_cons, List.map_nil]
        exact (hyes rfl _ (by simp [slotKey])).later _ (Nat.le_succ _)
      · intro a ha
        simp only [Option.some.injEq] at ha
        subst ha
        rw [ht]

/-- A call of `Engine.evaluateAccess` keeps the gate invariant in the same way. -/
theorem evaluateAccess_gate (cfg : Config) (clk : Clock) (hclk : Monotone clk)
    (hc : 0 < cfg.Detection.AlertCooldown) {cooldown : Cooldown} {tick : Nat}
    {log : List (Alert × Nat)} (h : GateInv cfg.Detection.AlertCooldown clk cooldown tick log)
    (ac : AccessControlSet) (ev : NormalizedEvent) (r : Option Alert) (cooldown' : Cooldown)
    (tick' : Nat) (he : Engine.evaluateAccess cfg ac cooldown clk tick ev = (r, cooldown', tick')) :
    GateInv cfg.Detection.AlertCooldown clk cooldown' tick'
      (log ++ r.toList.map (fun a => (a, tick))) ∧
    tick ≤ tick' ∧ ∀ a, r = some a → a.Timestamp = clk (tick + 1) := by
  have hskip : ∀ {r : Option Alert} {cd' : Cooldown} {t' : Nat},
      ((none : Option Alert), cooldown, tick) = (r, cd', t') →
      GateInv cfg.Detection.AlertCooldown clk cd' t'
        (log ++ r.toList.map (fun a => (a, tick))) ∧
      tick ≤ t' ∧ ∀ a, r = some a → a.Timestamp = clk (tick + 1) := by
    intro r cd' t' e
    simp only [Prod.mk.injEq] at e
    obtain ⟨rfl, rfl, rfl⟩ := e
    simpa using h
  have hgate : ∀ (a : Nat → Alert) {r : Option Alert} {cd' : Cooldown} {t' : Nat},
      (∀ n, slotKey (a n) = ev.ReaderID ++ "|" ++ itoa 0) →
      (∀ n, (a n).Timestamp = clk n) →
      (match cooldown.Allow clk tick ev.ReaderID 0 cfg.Detection.AlertCooldown with
        | (false, cooldown1, tick1) => ((none : Option Alert), cooldown1, tick1)
        | (true, cooldown1, tick1) => (some (a tick1), cooldown1, tick1 + 1)) = (r, cd', t') →
      GateInv cfg.Detection.AlertCooldown clk cd' t'
        (log ++ r.toList.map (fun a => (a, tick))) ∧
      tick ≤ t' ∧ ∀ a, r = some a → a.Timestamp = clk (tick + 1) := by
    intro a r cd' t' hk hts e
    rcases hA : cooldown.Allow clk tick ev.ReaderID 0 cfg.Detection.AlertCooldown
      with ⟨ok, cd1, t1⟩
    rw [hA] at e
    rw [Allow_eq_AllowKey] at hA
    obtain ⟨ht, hno, hyes⟩ := h.allowKey hclk hc _ ok cd1 t1 hA
    cases ok with
    | false =>
      simp only [Prod.mk.injEq] at e
      obtain ⟨rfl, rfl, rfl⟩ := e
      exact ⟨by simpa using hno rfl, by omega, by simp⟩
    | true =>
      simp only [Prod.mk.injEq] at e
      obtain ⟨rfl, rfl, rfl⟩ := e
      refine ⟨?_, by omega, ?_⟩
      · simp only [Option.toList_some, List.map_cons, List.map_nil]
        exact (hyes rfl _ (hk t1)).later _ (Nat.le_succ _)
      intro b hb
      simp only [Option.some.injEq] at hb
      subst hb
      rw [hts, ht]
  simp only [Engine.evaluateAccess] at he
  split_ifs at he
  all_goals
    first
      | exact hskip he
      | exact hgate _ (fun n => by simp [slotKey]) (fun n => rfl) he

/-- A call of `Engine.evaluateAuthStreak` keeps the gate invariant in the same way. -/
theorem evaluateAuthStreak_gate (cfg : Config) (clk : Clock) (hclk : Monotone clk)
    (hc : 0 < cfg.Detection.AlertCooldown) {cooldown : Cooldown} {tick : Nat}
    {log : List (Alert × Nat)} (h : GateInv cfg.Detection.AlertCooldown clk cooldown tick log)
    (reader : ReaderState) (ev : NormalizedEvent) (r : Option Alert) (reader' : ReaderState)
    (cooldown' : Cooldown) (tick' : Nat)
    (he : Engine.evaluateAuthStreak cfg cooldown clk tick reader ev =
      (r, reader', cooldown', tick')) :
    GateInv cfg.Detection.AlertCooldown clk cooldown' tick'
      (log ++ r.toList.map (fun a => (a, tick))) ∧
    tick ≤ tick' ∧ ∀ a, r = some a → a.Timestamp = clk (tick + 1) := by
  have hskip : ∀ {r : Option Alert} {rd rd' : ReaderState} {cd' : Cooldown} {t' : Nat},
      ((none : Option Alert), rd, cooldown, tick) = (r, rd', cd', t') →
      GateInv cfg.Detection.AlertCooldown clk cd' t'
        (log ++ r.toList.map (fun a => (a, tick))) ∧
      tick ≤ t' ∧ ∀ a, r = some a → a.Timestamp = clk (tick + 1) := by
    intro r rd rd' cd' t' e
    simp only [Prod.mk.injEq] at e
    obtain ⟨rfl, -, rfl, rfl⟩ := e
    simpa using h
  have hgate : ∀ (a : Nat → Alert) (key : String) {r : Option Alert} {rd rd' : ReaderState}
      {cd' : Cooldown} {t' : Nat},
      (∀ n, slotKey (a n) = key) →
      (∀ n, (a n).Timestamp = clk n) →
      (match cooldown.AllowKey clk tick key cfg.Detection.AlertCooldown with
        | (false, cooldown1, tick1) => ((none : Option Alert), rd, cooldown1, tick1)
        | (true, cooldown1, tick1) => (some (a tick1), rd, cooldown1, tick1 + 1)) =
        (r, rd', cd', t') →
      GateInv cfg.Detection.AlertCooldown clk cd' t'
        (log ++ r.toList.map (fun a => (a, tick))) ∧
      tick ≤ t' ∧ ∀ a, r = some a → a.Timestamp = clk (tick + 1) := by
    intro a key r rd rd' cd' t' hk hts e
    rcases hA : cooldown.AllowKey clk tick key cfg.Detection.AlertCooldown with ⟨ok, cd1, t1⟩
    rw [hA] at e
    obtain ⟨ht, hno, hyes⟩ := h.allowKey hclk hc _ ok cd1 t1 hA
    cases ok with
    | false =>
      simp only [Prod.mk.injEq] at e
      obtain ⟨rfl, -, rfl, rfl⟩ := e
      exact ⟨by simpa using hno rfl, by omega, by simp⟩
    | true =>
      simp only [Prod.mk.injEq] at e
      obtain ⟨rfl, -, rfl, rfl⟩ := e
      refine ⟨?_, by omega, ?_⟩
      · simp only [Option.toList_some, List.map_cons, List.map_nil]
        exact (hyes rfl _ (hk t1)).later _ (Nat.le_succ _)
      intro b hb
      simp only [Option.some.injEq] at hb
      subst hb
      rw [hts, ht]
  simp only [Engine.evaluateAuthStreak] at he
  split_ifs at he
  all_goals
    first
      | exact hskip he
      | exact hgate _ _ (fun n => by simp [slotKey, eventContext, GoMap.lookup])
          (fun n => rfl) he

/-- The window loop keeps the gate invariant; its alerts are those of its emission trace. -/
theorem processWindows_gate (cfg : Config) (clk : Clock) (hclk : Monotone clk)
    (hc : 0 < cfg.Detection.AlertCooldown) (ev : NormalizedEvent)
    (ws : List (Int × WindowState)) (acc : WindowsResult) (log : List (Alert × Nat))
    (h : GateInv cfg.Detection.AlertCooldown clk acc.cooldown acc.tick log) :
    GateInv cfg.Detection.AlertCooldown clk (processWindows cfg clk ev ws acc).cooldown
      (processWindows cfg clk ev ws acc).tick
      (log ++ windowsTrace cfg clk ev ws acc.cooldown acc.tick) ∧
    acc.tick ≤ (processWindows cfg clk ev ws acc).tick ∧
    (processWindows cfg clk ev ws acc).alerts =
      acc.alerts ++ (windowsTrace cfg clk ev ws acc.cooldown acc.tick).map Prod.fst ∧
    ∀ x ∈ windowsTrace cfg clk ev ws acc.cooldown acc.tick, x.1.Timestamp = clk (x.2 + 1) := by
  induction ws generalizing acc log with
  | nil => simpa [processWindows, windowsTrace] using h
  | cons p rest ih =>
    obtain ⟨k, window⟩ := p
    simp only [processWindows, windowsTrace]
    rcases hE : Engine.evaluate cfg acc.cooldown clk acc.tick ev.ReaderID
      ((window.Evict (ev.Timestamp - window.duration)).Add
        { Timestamp := ev.Timestamp, UID := ev.UID, Result := ev.Result }).Metrics
      with ⟨r, cd1, t1⟩
    obtain ⟨hg, hle, hts⟩ := evaluate_gate cfg clk hclk hc h _ _ r cd1 t1 hE
    simp only
    obtain ⟨ih1, ih2, ih3, ih4⟩ := ih
      { windows := acc.windows.set k ((window.Evict (ev.Timestamp - window.duration)).Add
          { Timestamp := ev.Timestamp, UID := ev.UID, Result := ev.Result }),
        cooldown := cd1, tick := t1, alerts := acc.alerts ++ r.toList,
        metricsList := acc.metricsList ++
          [((window.Evict (ev.Timestamp - window.duration)).Add
            { Timestamp := ev.Timestamp, UID := ev.UID, Result := ev.Result }).Metrics] }
      (log ++ r.toList.map (fun a => (a, acc.tick))) hg
    simp only at ih1 ih2 ih3 ih4
    refine ⟨?_, le_trans hle ih2, ?_, ?_⟩
    · rw [← List.append_assoc]; exact ih1
    · rw [ih3]
      cases r <;> simp
    · intro x hx
      rcases List.mem_append.1 hx with hx | hx
      · cases r with
        | none => simp at hx
        | some a =>
          simp only [Option.toList_some, List.map_cons, List.map_nil,
            List.mem_singleton] at hx
          subst hx
          exact hts a rfl
      · exact ih4 x hx

theorem isDuplicate_tick (lib : Library) (deDupe : DedupeCache) (clk : Clock) (tick : Nat)
    (ev : NormalizedEvent) (dedupeWindow : Duration) :
    tick ≤ (Engine.isDuplicate lib deDupe clk tick ev dedupeWindow).2.2 := by
  unfold Engine.isDuplicate
  split_ifs
  · exact le_refl _
  · exact Nat.le_succ _

/-- One call of `Engine.ProcessEvent` keeps the gate invariant; the alerts it returns are those of
its emission trace, each stamped with the clock reading after its gate reading; the
configuration is unchanged. -/
theorem ProcessEvent_gate (lib : Library) (clk : Clock) (hclk : Monotone clk) (e : Engine)
    (hc : 0 < e.cfg.Detection.AlertCooldown) (tick : Nat) (ev : NormalizedEvent)
    (log : List (Alert × Nat))
    (h : GateInv e.cfg.Detection.AlertCooldown clk e.cooldown tick log) :
    GateInv e.cfg.Detection.AlertCooldown clk (Engine.ProcessEvent lib e clk tick ev).2.1.cooldown
      (Engine.ProcessEvent lib e clk tick ev).2.2 (log ++ eventTrace lib e clk tick ev) ∧
    tick ≤ (Engine.ProcessEvent lib e clk tick ev).2.2 ∧
    (Engine.ProcessEvent lib e clk tick ev).1 = (eventTrace lib e clk tick ev).map Prod.fst ∧
    (Engine.ProcessEvent lib e clk tick ev).2.1.cfg = e.cfg ∧
    ∀ x ∈ eventTrace lib e clk tick ev, x.1.Timestamp = clk (x.2 + 1) := by
  unfold Engine.ProcessEvent eventTrace
  dsimp only
  generalize NormalizedEvent.mk (clampTimestamp ev.Timestamp (clk tick)
    e.cfg.Detection.MaxClockSkew e.cfg.Detection.MaxFutureSkew) ev.ReaderID ev.UID ev.Result
    ev.ErrorCode ev.Source ev.Raw = ev1
  have hdt := isDuplicate_tick lib e.deDupe clk (tick + 1) ev1 e.cfg.Detection.DedupeWindow
  rcases hD : Engine.isDuplicate lib e.deDupe clk (tick + 1) ev1 e.cfg.Detection.DedupeWindow
    with ⟨dup, dd, t1⟩
  rw [hD] at hdt
  have ht1 : tick ≤ t1 := le_trans (Nat.le_succ _) hdt
  cases dup with
  | true => simpa using ⟨h.later t1 ht1, ht1⟩
  | false =>
    dsimp only
    rcases hA : Engine.evaluateAccess e.cfg e.access e.cooldown clk t1 ev1 with ⟨ra, cd1, t2⟩
    obtain ⟨hg1, hle1, hts1⟩ := evaluateAccess_gate e.cfg clk hclk hc (h.later t1 ht1) _ _
      ra cd1 t2 hA
    rcases hR : Engine.getReader e.readers ev.ReaderID e.cfg with ⟨reader, readers1⟩
    dsimp only
    rcases hS : Engine.evaluateAuthStreak e.cfg cd1 clk t2 reader ev1 with ⟨rs, reader1, cd2, t3⟩
    obtain ⟨hg2, hle2, hts2⟩ := evaluateAuthStreak_gate e.cfg clk hclk hc hg1 _ _
      rs reader1 cd2 t3 hS
    dsimp only
    obtain ⟨hg3, hle3, hal3, hts3⟩ := processWindows_gate e.cfg clk hclk hc ev1
      reader1.sortedWindows ⟨reader1.windows, cd2, t3, ra.toList ++ rs.toList, []⟩ _ hg2
    dsimp only at hg3 hle3 hal3 hts3
    refine ⟨?_, ?_, ?_, rfl, ?_⟩
    · rw [← List.append_assoc, ← List.append_assoc]
      exact hg3.later _ (by split_ifs <;> omega)
    · split_ifs <;> omega
    · rw [hal3]
      cases ra <;> cases rs <;> simp
    · intro x hx
      rcases List.mem_append.1 hx with hx | hx
      · rcases List.mem_append.1 hx with hx | hx
        · cases ra with
          | none => simp at hx
          | some a =>
            simp only [Option.toList_some, List.map_cons, List.map_nil,
              List.mem_singleton] at hx
            subst hx
            exact hts1 a rfl
        · cases rs with
          | none => simp at hx
          | some a =>
            simp only [Option.toList_some, List.map_cons, List.map_nil,
              List.mem_singleton] at hx
            subst hx
            exact hts2 a rfl
      · exact hts3 x hx

/-- A run of `Engine.ProcessEvent` calls keeps the gate invariant; the alerts returned, call after
call, are those of the emission trace of the run. -/
theorem processAll_gate (lib : Library) (clk : Clock) (hclk : Monotone clk)
    (evs : List NormalizedEvent) (e : Engine) (hc : 0 < e.cfg.Detection.AlertCooldown)
    (tick : Nat) (log : List (Alert × Nat))
    (h : GateInv e.cfg.Detection.AlertCooldown clk e.cooldown tick log) :
    GateInv e.cfg.Detection.AlertCooldown clk (processAll lib clk e tick evs).2.1.cooldown
      (processAll lib clk e tick evs).2.2 (log ++ processAllTrace lib clk e tick evs) ∧
    (processAll lib clk e tick evs).1.flatten = (processAllTrace lib clk e tick evs).map Prod.fst ∧
    ∀ x ∈ processAllTrace lib clk e tick evs, x.1.Timestamp = clk (x.2 + 1) := by
  induction evs generalizing e tick log with
  | nil => simpa [processAll, processAllTrace] using h
  | cons ev rest ih =>
    obtain ⟨hg, -, hal, hcfg, hts⟩ := ProcessEvent_gate lib clk hclk e hc tick ev log h
    have hc' : 0 < (Engine.ProcessEvent lib e clk tick ev).2.1.cfg.Detection.AlertCooldown := by
      rw [hcfg]; exact hc
    have hg' : GateInv (Engine.ProcessEvent lib e clk tick ev).2.1.cfg.Detection.AlertCooldown clk
        (Engine.ProcessEvent lib e clk tick ev).2.1.cooldown (Engine.ProcessEvent lib e clk tick ev).2.2
        (log ++ eventTrace lib e clk tick ev) := by
      rw [hcfg]; exact hg
    obtain ⟨ih1, ih2, ih3⟩ := ih (Engine.ProcessEvent lib e clk tick ev).2.1 hc'
      (Engine.ProcessEvent lib e clk tick ev).2.2 (log ++ eventTrace lib e clk tick ev) hg'
    rw [hcfg] at ih1
    simp only [processAll, processAllTrace]
    refine ⟨?_, ?_, ?_⟩
    · rw [← List.append_assoc]; exact ih1
    · simp only [List.flatten_cons, List.map_append, ih2, hal]
    · intro x hx
      rcases List.mem_append.1 hx with hx | hx
      · exact hts x hx
      · exact ih3 x hx

/-- Two alerts that compete for one cooldown slot are gated by the same key. -/
theorem sameSlot_slotKey (a b : Alert) (h : sameSlot a b) : slotKey a = slotKey b := by
  have n1 : ¬ ("blacklisted_uid" = "possible_bruteforce") := by decide
  have n2 : ¬ ("blacklisted_uid" = "repeated_auth_failure") := by decide
  have n3 : ¬ ("whitelist_violation" = "possible_bruteforce") := by decide
  have n4 : ¬ ("whitelist_violation" = "repeated_auth_failure") := by decide
  have n5 : ¬ ("repeated_auth_failure" = "possible_bruteforce") := by decide
  unfold slotKey
  rcases h with ⟨ha, hb, hr, hw⟩ | ⟨ha, hb, hr⟩ | ⟨ha, hb, hr, hu⟩
  · rw [if_pos ha, if_pos hb, hr, hw]
  · rcases ha with ha | ha <;> rcases hb with hb | hb <;>
      simp only [ha, hb, n1, n2, n3, n4, if_false, hr]
  · rw [ha, hb, if_neg n5, if_pos rfl, if_neg n5, if_pos rfl, hr, hu]

/-! ## Clamping and deduplication of one event -/

theorem clampTimestamp_eq (ts now : Time) (maxPast maxFuture : Duration) :
    clampTimestamp ts now maxPast maxFuture =
      if ts = 0 then now
      else if maxPast > 0 ∧ now - ts > maxPast then now
      else if maxFuture > 0 ∧ ts - now > maxFuture then now
      else ts := by
  unfold clampTimestamp Time.IsZero
  by_cases h : ts = 0 <;> simp [h]

theorem clampTimestamp_or (ts now : Time) (maxPast maxFuture : Duration) :
    clampTimestamp ts now maxPast maxFuture = ts ∨
      clampTimestamp ts now maxPast maxFuture = now := by
  rw [clampTimestamp_eq]
  split_ifs
  · exact Or.inr rfl
  · exact Or.inr rfl
  · exact Or.inr rfl
  · exact Or.inl rfl

theorem clampTimestamp_idem (ts now : Time) (maxPast maxFuture : Duration) :
    clampTimestamp (clampTimestamp ts now maxPast maxFuture) now maxPast maxFuture =
      clampTimestamp ts now maxPast maxFuture := by
  have hnow : clampTimestamp now now maxPast maxFuture = now := by
    rw [clampTimestamp_eq]
    have h0 : now - now = 0 := sub_self now
    split_ifs <;> rfl
  by_cases h : clampTimestamp ts now maxPast maxFuture = now
  · rw [h, hnow]
  · have hts : clampTimestamp ts now maxPast maxFuture = ts := by
      rcases clampTimestamp_or ts now maxPast maxFuture with h' | h'
      · exact h'
      · exact absurd h' h
    rw [hts]; exact hts

theorem clampTimestamp_past (ts now : Time) (maxPast maxFuture : Duration) (h : 0 < maxPast) :
    now - clampTimestamp ts now maxPast maxFuture ≤ maxPast := by
  rw [clampTimestamp_eq]
  have h0 : now - now = 0 := sub_self now
  split_ifs with h1 h2 h3
  · rw [h0]; exact le_of_lt h
  · rw [h0]; exact le_of_lt h
  · rw [h0]; exact le_of_lt h
  · by_contra hc
    exact h2 ⟨h, not_le.1 hc⟩

theorem clampTimestamp_future (ts now : Time) (maxPast maxFuture : Duration)
    (h : 0 < maxFuture) : clampTimestamp ts now maxPast maxFuture - now ≤ maxFuture := by
  rw [clampTimestamp_eq]
  have h0 : now - now = 0 := sub_self now
  split_ifs with h1 h2 h3
  · rw [h0]; exact le_of_lt h
  · rw [h0]; exact le_of_lt h
  · rw [h0]; exact le_of_lt h
  · by_contra hc
    exact h3 ⟨h, not_le.1 hc⟩

theorem isDuplicate_off (lib : Library) (deDupe : DedupeCache) (clk : Clock) (tick : Nat)
    (ev : NormalizedEvent) (dedupeWindow : Duration) (h : dedupeWindow ≤ 0) :
    Engine.isDuplicate lib deDupe clk tick ev dedupeWindow = (false, deDupe, tick) := by
  simp [Engine.isDuplicate, h]

theorem Seen_true_iff (d : DedupeCache) (key : String) (now : Time) (ttl : Duration) :
    (d.Seen key now ttl).1 = true ↔ ∃ t0, d.items.lookup key = some t0 ∧ now - t0 ≤ ttl := by
  constructor
  · intro h
    by_contra hn
    push_neg at hn
    have hs := Seen_stale d key now ttl (fun t0 hl => not_le.2 (hn t0 hl))
    rw [hs] at h
    simp at h
  · rintro ⟨t0, hl, hr⟩
    rw [Seen_fresh d key now ttl t0 hl hr]

theorem Seen_true_unchanged (d : DedupeCache) (key : String) (now : Time) (ttl : Duration)
    (h : (d.Seen key now ttl).1 = true) : (d.Seen key now ttl).2 = d := by
  obtain ⟨t0, hl, hr⟩ := (Seen_true_iff d key now ttl).1 h
  rw [Seen_fresh d key now ttl t0 hl hr]

theorem isDuplicate_true_unchanged (lib : Library) (deDupe : DedupeCache) (clk : Clock)
    (tick : Nat) (ev : NormalizedEvent) (w : Duration)
    (h : (Engine.isDuplicate lib deDupe clk tick ev w).1 = true) :
    (Engine.isDuplicate lib deDupe clk tick ev w).2.1 = deDupe := by
  unfold Engine.isDuplicate at h ⊢
  by_cases hw : w ≤ 0
  · simp [hw] at h
  · simp only [hw, if_false] at h ⊢
    exact Seen_true_unchanged _ _ _ _ h

/-- A call of `ProcessEvent` on an event that the cache reports as a duplicate returns no
alerts and leaves the engine as it was. -/
theorem ProcessEvent_duplicate (lib : Library) (e : Engine) (clk : Clock) (tick : Nat)
    (ev : NormalizedEvent) (h : e.dropsAsDuplicate lib clk tick ev = true) :
    (Engine.ProcessEvent lib e clk tick ev).1 = [] ∧
    (Engine.ProcessEvent lib e clk tick ev).2.1 = e := by
  have hu := isDuplicate_true_unchanged lib e.deDupe clk (tick + 1)
    (clampEvent e.cfg (clk tick) ev) e.cfg.Detection.DedupeWindow h
  unfold Engine.dropsAsDuplicate at h
  unfold Engine.ProcessEvent
  dsimp only
  change (Engine.isDuplicate lib e.deDupe clk (tick + 1) (clampEvent e.cfg (clk tick) ev)
    e.cfg.Detection.DedupeWindow).1 = true at h
  rcases hD : Engine.isDuplicate lib e.deDupe clk (tick + 1) (clampEvent e.cfg (clk tick) ev)
    e.cfg.Detection.DedupeWindow with ⟨dup, dd, t1⟩
  rw [hD] at h hu
  simp only at h hu
  subst h hu
  have hD' : Engine.isDuplicate lib e.deDupe clk (tick + 1)
      (NormalizedEvent.mk (clampTimestamp ev.Timestamp (clk tick) e.cfg.Detection.MaxClockSkew
        e.cfg.Detection.MaxFutureSkew) ev.ReaderID ev.UID ev.Result ev.ErrorCode ev.Source
        ev.Raw) e.cfg.Detection.DedupeWindow = (true, e.deDupe, t1) := hD
  rw [hD']
  exact ⟨rfl, rfl⟩

theorem isDuplicate_on (lib : Library) (deDupe : DedupeCache) (clk : Clock) (tick : Nat)
    (ev : NormalizedEvent) (dedupeWindow : Duration) (h : 0 < dedupeWindow) :
    Engine.isDuplicate lib deDupe clk tick ev dedupeWindow =
      ((deDupe.Seen (hashEvent lib ev) (clk tick) dedupeWindow).1,
        (deDupe.Seen (hashEvent lib ev) (clk tick) dedupeWindow).2, tick + 1) := by
  simp [Engine.isDuplicate, not_le.2 h]

/-! ## Clock readings consumed by the engine -/

theorem AllowKey_tick (c : Cooldown) (clk : Clock) (tick : Nat) (key : String)
    (cooldown : Duration) : tick ≤ (c.AllowKey clk tick key cooldown).2.2 := by
  unfold Cooldown.AllowKey
  dsimp only
  split_ifs <;> simp

theorem Allow_tick (c : Cooldown) (clk : Clock) (tick : Nat) (readerID : String)
    (windowSec : Int) (cooldown : Duration) :
    tick ≤ (c.Allow clk tick readerID windowSec cooldown).2.2 := by
  rw [Allow_eq_AllowKey]; exact AllowKey_tick _ _ _ _ _

theorem evaluate_tick (cfg : Config) (cooldown : Cooldown) (clk : Clock) (tick : Nat)
    (readerID : String) (wm : WindowMetrics) :
    tick ≤ (Engine.evaluate cfg cooldown clk tick readerID wm).2.2 := by
  rw [evaluate_eq]
  have hA := Allow_tick cooldown clk tick readerID wm.WindowSec cfg.Detection.AlertCooldown
  rcases hE : cooldown.Allow clk tick readerID wm.WindowSec cfg.Detection.AlertCooldown
    with ⟨ok, cd1, t1⟩
  rw [hE] at hA
  simp only at hA
  split_ifs
  · exact le_refl _
  · exact le_refl _
  · cases ok
    · exact hA
    · exact Nat.le_succ_of_le hA

theorem evaluateAccess_tick (cfg : Config) (ac : AccessControlSet) (cooldown : Cooldown)
    (clk : Clock) (tick : Nat) (ev : NormalizedEvent) :
    tick ≤ (Engine.evaluateAccess cfg ac cooldown clk tick ev).2.2 := by
  have hA := Allow_tick cooldown clk tick ev.ReaderID 0 cfg.Detection.AlertCooldown
  rcases hE : cooldown.Allow clk tick ev.ReaderID 0 cfg.Detection.AlertCooldown
    with ⟨ok, cd1, t1⟩
  rw [hE] at hA
  simp only at hA
  simp only [Engine.evaluateAccess, hE]
  cases ok <;> split_ifs <;> first | exact le_refl _ | exact hA | exact Nat.le_succ_of_le hA

theorem evaluateAuthStreak_tick (cfg : Config) (cooldown : Cooldown) (clk : Clock)
    (tick : Nat) (reader : ReaderState) (ev : NormalizedEvent) :
    tick ≤ (Engine.evaluateAuthStreak cfg cooldown clk tick reader ev).2.2.2 := by
  have hA := AllowKey_tick cooldown clk tick
    ("authfail|" ++ reader.id ++ "|" ++ normalizeUID ev.UID) cfg.Detection.AlertCooldown
  rcases hE : cooldown.AllowKey clk tick
    ("authfail|" ++ reader.id ++ "|" ++ normalizeUID ev.UID) cfg.Detection.AlertCooldown
    with ⟨ok, cd1, t1⟩
  rw [hE] at hA
  simp only at hA
  simp only [Engine.evaluateAuthStreak, hE]
  cases ok <;> split_ifs <;> first | exact le_refl _ | exact hA | exact Nat.le_succ_of_le hA

theorem processWindows_tick (cfg : Config) (clk : Clock) (ev : NormalizedEvent)
    (ws : List (Int × WindowState)) (acc : WindowsResult) :
    acc.tick ≤ (processWindows cfg clk ev ws acc).tick := by
  induction ws generalizing acc with
  | nil => exact le_refl _
  | cons p rest ih =>
    obtain ⟨k, window⟩ := p
    simp only [processWindows]
    refine le_trans ?_ (ih _)
    exact evaluate_tick _ _ _ _ _ _

/-- What a call of `ProcessEvent` leaves of the configuration and the deduplication cache,
and a bound on the clock readings it takes. -/
theorem ProcessEvent_frame (lib : Library) (e : Engine) (clk : Clock) (tick : Nat)
    (ev : NormalizedEvent) :
    (Engine.ProcessEvent lib e clk tick ev).2.1.cfg = e.cfg ∧
    (Engine.ProcessEvent lib e clk tick ev).2.1.deDupe =
      (Engine.isDuplicate lib e.deDupe clk (tick + 1) (clampEvent e.cfg (clk tick) ev)
        e.cfg.Detection.DedupeWindow).2.1 ∧
    tick + 1 ≤ (Engine.ProcessEvent lib e clk tick ev).2.2 := by
  have hdt := isDuplicate_tick lib e.deDupe clk (tick + 1) (clampEvent e.cfg (clk tick) ev)
    e.cfg.Detection.DedupeWindow
  unfold Engine.ProcessEvent
  dsimp only
  change _ ∧ _ = (Engine.isDuplicate lib e.deDupe clk (tick + 1)
      (NormalizedEvent.mk (clampTimestamp ev.Timestamp (clk tick) e.cfg.Detection.MaxClockSkew
        e.cfg.Detection.MaxFutureSkew) ev.ReaderID ev.UID ev.Result ev.ErrorCode ev.Source
        ev.Raw) e.cfg.Detection.DedupeWindow).2.1 ∧ _
  change tick + 1 ≤ (Engine.isDuplicate lib e.deDupe clk (tick + 1)
      (NormalizedEvent.mk (clampTimestamp ev.Timestamp (clk tick) e.cfg.Detection.MaxClockSkew
        e.cfg.Detection.MaxFutureSkew) ev.ReaderID ev.UID ev.Result ev.ErrorCode ev.Source
        ev.Raw) e.cfg.Detection.DedupeWindow).2.2 at hdt
  generalize NormalizedEvent.mk (clampTimestamp ev.Timestamp (clk tick)
    e.cfg.Detection.MaxClockSkew e.cfg.Detection.MaxFutureSkew) ev.ReaderID ev.UID ev.Result
    ev.ErrorCode ev.Source ev.Raw = ev1 at hdt ⊢
  rcases hD : Engine.isDuplicate lib e.deDupe clk (tick + 1) ev1 e.cfg.Detection.DedupeWindow
    with ⟨dup, dd, t1⟩
  rw [hD] at hdt
  simp only at hdt
  cases dup with
  | true => exact ⟨rfl, rfl, hdt⟩
  | false =>
    dsimp only
    refine ⟨rfl, rfl, ?_⟩
    have h1 := evaluateAccess_tick e.cfg e.access e.cooldown clk t1 ev1
    have h2 := evaluateAuthStreak_tick e.cfg
      (Engine.evaluateAccess e.cfg e.access e.cooldown clk t1 ev1).2.1 clk
      (Engine.evaluateAccess e.cfg e.access e.cooldown clk t1 ev1).2.2
      (Engine.getReader e.readers ev.ReaderID e.cfg).1 ev1
    have h3 := processWindows_tick e.cfg clk ev1
    split_ifs
    · exact Nat.le_succ_of_le (le_trans hdt (le_trans h1 (le_trans h2 (h3 _ (WindowsResult.mk _ _ _ _ _)))))
    · exact le_trans hdt (le_trans h1 (le_trans h2 (h3 _ (WindowsResult.mk _ _ _ _ _))))

/-! ## A stored key stays in the deduplication cache while it is fresh -/

theorem GoMap.lookup_filter_of_pos {K V : Type} [DecidableEq K] (m : GoMap K V) (q : V → Bool)
    (k : K) (v : V) (h : GoMap.lookup m k = some v) (hq : q v = true) :
    GoMap.lookup (m.filter (fun p => q p.2)) k = some v := by
  induction m with
  | nil => simp [GoMap.lookup] at h
  | cons p rest ih =>
    obtain ⟨a, b⟩ := p
    by_cases ha : a = k
    · simp only [GoMap.lookup, ha, if_true, Option.some.injEq] at h
      subst h
      simp [List.filter_cons, hq, GoMap.lookup, ha]
    · simp only [GoMap.lookup, ha, if_false] at h
      by_cases hb : q b = true
      · simp [List.filter_cons, hb, GoMap.lookup, ha, ih h]
      · simp [List.filter_cons, hb, ih h]

theorem Seen_keeps (d : DedupeCache) (key : String) (now : Time) (ttl : Duration)
    (k : String) (t0 : Time) (hl : d.items.lookup k = some t0) (hr : now - t0 ≤ ttl) :
    (d.Seen key now ttl).2.items.lookup k = some t0 := by
  by_cases hk : key = k
  · subst hk
    rw [Seen_fresh d key now ttl t0 hl hr]
    exact hl
  · by_cases hs : ∀ t1, d.items.lookup key = some t1 → ¬ (now - t1 ≤ ttl)
    · rw [Seen_stale d key now ttl hs]
      have hset : GoMap.lookup (d.items.set key now) k = some t0 := by
        rw [GoMap.lookup_set, if_neg hk]; exact hl
      split_ifs
      · simp only [DedupeCache.compact]
        exact GoMap.lookup_filter_of_pos _ (fun t => decide ¬ (now - t > ttl)) k t0 hset
          (by simpa using hr)
      · exact hset
    · push_neg at hs
      obtain ⟨t1, hl1, hr1⟩ := hs
      rw [Seen_fresh d key now ttl t1 hl1 hr1]
      exact hl

theorem Seen_stores (d : DedupeCache) (key : String) (now : Time) (ttl : Duration)
    (h0 : 0 ≤ ttl) (h : (d.Seen key now ttl).1 = false) :
    (d.Seen key now ttl).2.items.lookup key = some now := by
  have hs : ∀ t1, d.items.lookup key = some t1 → ¬ (now - t1 ≤ ttl) := by
    intro t1 hl hr
    rw [Seen_fresh d key now ttl t1 hl hr] at h
    simp at h
  rw [Seen_stale d key now ttl hs]
  have hset : GoMap.lookup (d.items.set key now) key = some now := by
    rw [GoMap.lookup_set, if_pos rfl]
  split_ifs
  · simp only [DedupeCache.compact]
    refine GoMap.lookup_filter_of_pos _ (fun t => decide ¬ (now - t > ttl)) key now hset ?_
    have : now - now = 0 := sub_self now
    simp [this, h0]
  · exact hset

theorem isDuplicate_keeps (lib : Library) (d : DedupeCache) (clk : Clock) (tick : Nat)
    (ev : NormalizedEvent) (w : Duration) (k : String) (t0 : Time)
    (hl : d.items.lookup k = some t0) (hr : clk tick - t0 ≤ w) :
    (Engine.isDuplicate lib d clk tick ev w).2.1.items.lookup k = some t0 := by
  unfold Engine.isDuplicate
  split_ifs
  · exact hl
  · exact Seen_keeps d _ _ _ k t0 hl hr

theorem processAll_cons (lib : Library) (clk : Clock) (e : Engine) (tick : Nat)
    (ev : NormalizedEvent) (rest : List NormalizedEvent) :
    processAll lib clk e tick (ev :: rest) =
      ((Engine.ProcessEvent lib e clk tick ev).1 ::
          (processAll lib clk (Engine.ProcessEvent lib e clk tick ev).2.1
            (Engine.ProcessEvent lib e clk tick ev).2.2 rest).1,
        (processAll lib clk (Engine.ProcessEvent lib e clk tick ev).2.1
          (Engine.ProcessEvent lib e clk tick ev).2.2 rest).2.1,
        (processAll lib clk (Engine.ProcessEvent lib e clk tick ev).2.1
          (Engine.ProcessEvent lib e clk tick ev).2.2 rest).2.2) := by
  rw [processAll]

theorem processAll_tick (lib : Library) (clk : Clock) (evs : List NormalizedEvent)
    (e : Engine) (tick : Nat) : tick ≤ (processAll lib clk e tick evs).2.2 := by
  induction evs generalizing e tick with
  | nil => exact le_refl _
  | cons ev rest ih =>
    rw [processAll_cons]
    dsimp only
    have h1 := (ProcessEvent_frame lib e clk tick ev).2.2
    have h2 := ih (Engine.ProcessEvent lib e clk tick ev).2.1
      (Engine.ProcessEvent lib e clk tick ev).2.2
    omega

theorem processAll_keeps (lib : Library) (clk : Clock) (hclk : Monotone clk)
    (evs : List NormalizedEvent) (e : Engine) (tick : Nat) (k : String) (t0 : Time)
    (hl : e.deDupe.items.lookup k = some t0)
    (hr : clk ((processAll lib clk e tick evs).2.2 + 1) - t0 ≤ e.cfg.Detection.DedupeWindow) :
    (processAll lib clk e tick evs).2.1.deDupe.items.lookup k = some t0 ∧
    (processAll lib clk e tick evs).2.1.cfg = e.cfg := by
  induction evs generalizing e tick with
  | nil => exact ⟨hl, rfl⟩
  | cons ev rest ih =>
    rw [processAll_cons] at hr ⊢
    dsimp only at hr ⊢
    obtain ⟨hcfg, hdd, ht⟩ := ProcessEvent_frame lib e clk tick ev
    have ht2 := processAll_tick lib clk rest (Engine.ProcessEvent lib e clk tick ev).2.1
      (Engine.ProcessEvent lib e clk tick ev).2.2
    have hle : clk (tick + 1) ≤
        clk ((processAll lib clk (Engine.ProcessEvent lib e clk tick ev).2.1
          (Engine.ProcessEvent lib e clk tick ev).2.2 rest).2.2 + 1) :=
      hclk (by omega)
    have hr1 : clk (tick + 1) - t0 ≤ e.cfg.Detection.DedupeWindow :=
      le_trans (sub_le_sub_right hle _) hr
    have hl1 : (Engine.ProcessEvent lib e clk tick ev).2.1.deDupe.items.lookup k = some t0 := by
      rw [hdd]; exact isDuplicate_keeps lib e.deDupe clk (tick + 1) _ _ k t0 hl hr1
    obtain ⟨ih1, ih2⟩ := ih (Engine.ProcessEvent lib e clk tick ev).2.1
      (Engine.ProcessEvent lib e clk tick ev).2.2 hl1 (by rw [hcfg]; exact hr)
    exact ⟨ih1, by rw [ih2, hcfg]⟩

/-! ## Facts about the access-control index -/

theorem normalizeUID_empty : normalizeUID "" = "" := by decide

/-- The map that the loop of `buildUIDSet` leaves holds a key exactly when the key was there
before or is the non-empty normal form of a visited entry. -/
theorem buildUIDSet_loop (values : List String) (acc : GoMap String Unit) (u : String) :
    (GoMap.lookup (values.foldl
      (fun s v => if normalizeUID v = "" then s else GoMap.set s (normalizeUID v) ()) acc)
      u).isSome = true ↔
    (GoMap.lookup acc u).isSome = true ∨ (u ≠ "" ∧ ∃ v ∈ values, normalizeUID v = u) := by
  induction values generalizing acc with
  | nil => simp
  | cons v rest ih =>
    rw [List.foldl_cons, ih]
    by_cases hv : normalizeUID v = ""
    · simp only [hv, if_true, List.mem_cons, exists_eq_or_imp]
      constructor
      · rintro (h | ⟨hu, h⟩)
        · exact Or.inl h
        · exact Or.inr ⟨hu, Or.inr h⟩
      · rintro (h | ⟨hu, h | h⟩)
        · exact Or.inl h
        · exact absurd h.symm hu
        · exact Or.inr ⟨hu, h⟩
    · simp only [hv, if_false, List.mem_cons, exists_eq_or_imp, GoMap.lookup_set]
      by_cases hvu : normalizeUID v = u
      · subst hvu
        simp [hv]
      · simp [hvu]

/-- Membership in the set that `buildUIDSet` builds. -/
theorem inSet_buildUIDSet (values : List String) (u : String) :
    inSet (buildUIDSet values) u = true ↔ u ≠ "" ∧ ∃ v ∈ values, normalizeUID v = u := by
  unfold buildUIDSet
  by_cases h0 : values.length = 0
  · have : values = [] := List.length_eq_zero.1 h0
    subst this
    simp [inSet]
  · simp only [h0, if_false]
    have hloop := buildUIDSet_loop values [] u
    simp only [GoMap.lookup, Option.isSome_none, Bool.false_eq_true, false_or] at hloop
    split_ifs with h1
    · have h2 := List.length_eq_zero.1 h1
      rw [h2] at hloop
      simp only [GoMap.lookup, Option.isSome_none, Bool.false_eq_true, false_iff] at hloop
      simpa [inSet] using hloop
    · simpa [inSet] using hloop

/-- The set that `buildUIDSet` returns is never an empty map. -/
theorem buildUIDSet_some (values : List String) (set : GoMap String Unit)
    (h : buildUIDSet values = some set) : set.length ≠ 0 := by
  unfold buildUIDSet at h
  by_cases h0 : values.length = 0
  · simp [h0] at h
  · simp only [h0, if_false] at h
    split_ifs at h with h1
    simp only [Option.some.injEq] at h
    rw [← h]
    exact h1

/-- Membership in the set that `buildUIDSet` builds, by the value it returns. -/
theorem buildUIDSet_none (values : List String) (h : buildUIDSet values = none) (u : String) :
    ¬ (u ≠ "" ∧ ∃ v ∈ values, normalizeUID v = u) := by
  rw [← inSet_buildUIDSet, h]
  simp [inSet]

/-- The map that the loop of `buildUIDMap` leaves for a reader that the entries still to
visit name at most once. -/
theorem buildUIDMap_loop (values : GoMap String (List String)) (hnd : values.keys.Nodup)
    (acc : GoMap String (GoMap String Unit)) (r : String) :
    GoMap.lookup (values.foldl
      (fun o entry =>
        match buildUIDSet entry.2 with
        | none => o
        | some set => if set.length = 0 then o else GoMap.set o entry.1 set) acc) r =
    match values.lookup r with
    | some list =>
      (match buildUIDSet list with
       | some set => some set
       | none => GoMap.lookup acc r)
    | none => GoMap.lookup acc r := by
  induction values generalizing acc with
  | nil => simp [GoMap.lookup]
  | cons p rest ih =>
    obtain ⟨a, list⟩ := p
    have hnd1 : a ∉ GoMap.keys rest ∧ (GoMap.keys rest).Nodup := by simpa [GoMap.keys] using hnd
    rw [List.foldl_cons, ih hnd1.2]
    by_cases har : a = r
    · subst har
      have hnone := (GoMap.lookup_eq_none_iff rest a).2 hnd1.1
      simp only [hnone, GoMap.lookup, if_true]
      cases hset : buildUIDSet list with
      | none => rfl
      | some set =>
        have := buildUIDSet_some list set hset
        simp [this, GoMap.lookup_set]
    · simp only [GoMap.lookup, har, if_false]
      have hkeep : GoMap.lookup
          (match buildUIDSet list with
           | none => acc
           | some set => if set.length = 0 then acc else GoMap.set acc a set) r =
          GoMap.lookup acc r := by
        cases hset : buildUIDSet list with
        | none => rfl
        | some set =>
          have := buildUIDSet_some list set hset
          simp [this, GoMap.lookup_set, har]
      rw [hkeep]

/-- Membership in the per-reader sets that `buildUIDMap` builds from a map of lists. -/
theorem inReaderSet_buildUIDMap (values : GoMap String (List String))
    (hnd : values.keys.Nodup) (r u : String) :
    inReaderSet (buildUIDMap values) r u = true ↔
      u ≠ "" ∧ ∃ list, values.lookup r = some list ∧ ∃ v ∈ list, normalizeUID v = u := by
  unfold buildUIDMap
  by_cases h0 : values.length = 0
  · have : values = [] := List.length_eq_zero.1 h0
    subst this
    simp [inReaderSet, GoMap.lookup]
  · simp only [h0, if_false]
    have hloop := buildUIDMap_loop values hnd [] r
    have hset : ∀ m : GoMap String (GoMap String Unit),
        inReaderSet (if m.length = 0 then none else some m) r u =
          match GoMap.lookup m r with
          | some set => (set.lookup u).isSome
          | none => false := by
      intro m
      split_ifs with h1
      · rw [List.length_eq_zero.1 h1]
        simp [inReaderSet, GoMap.lookup]
      · cases hm : m.lookup r <;> simp [inReaderSet, hm]
    rw [hset]
    erw [hloop]
    cases hl : values.lookup r with
    | none => simp [GoMap.lookup]
    | some list =>
      simp only [Option.some.injEq, exists_eq_left']
      cases hs : buildUIDSet list with
      | none =>
        have := buildUIDSet_none list hs u
        simp only [GoMap.lookup, Bool.false_eq_true, false_iff]
        tauto
      | some set =>
        have := inSet_buildUIDSet list u
        rw [hs] at this
        simpa [inSet] using this

/-- The method `IsBlacklisted` on the index built from a configuration. -/
theorem IsBlacklisted_build (cfg : Config) (hb : cfg.AccessControl.ReaderBlacklists.keys.Nodup)
    (r u : String) :
    (buildAccessControl cfg).IsBlacklisted r u = true ↔
      cfg.AccessControl.Enabled = true ∧ u ≠ "" ∧
        ((∃ v ∈ cfg.AccessControl.Blacklist, normalizeUID v = u) ∨
          ∃ list, cfg.AccessControl.ReaderBlacklists.lookup r = some list ∧
            ∃ v ∈ list, normalizeUID v = u) := by
  have h1 := inSet_buildUIDSet cfg.AccessControl.Blacklist u
  have h2 := inReaderSet_buildUIDMap cfg.AccessControl.ReaderBlacklists hb r u
  unfold AccessControlSet.IsBlacklisted buildAccessControl
  by_cases hen : cfg.AccessControl.Enabled = true
  · by_cases hu : u = ""
    · simp [hen, hu]
    · simp only [hen, hu, not_true_eq_false, if_false, ne_eq, not_false_eq_true, true_and] at h1 h2 ⊢
      by_cases hg : inSet (buildUIDSet cfg.AccessControl.Blacklist) u = true
      · simp only [hg, if_true, true_iff]
        exact Or.inl (h1.1 hg)
      · by_cases hr : inReaderSet (buildUIDMap cfg.AccessControl.ReaderBlacklists) r u = true
        · simp only [hg, hr, if_true, if_false, Bool.false_eq_true, true_iff]
          exact Or.inr (h2.1 hr)
        · simp only [hg, hr, if_false, Bool.false_eq_true, false_iff]
          rintro (h | h)
          · exact hg (h1.2 h)
          · exact hr (h2.2 h)
  · simp [hen, inSet, inReaderSet]

/-- The method `IsWhitelisted` on the index built from a configuration. -/
theorem IsWhitelisted_build (cfg : Config) (hw : cfg.AccessControl.ReaderWhitelists.keys.Nodup)
    (r u : String) :
    (buildAccessControl cfg).IsWhitelisted r u = true ↔
      cfg.AccessControl.Enabled = true ∧ u ≠ "" ∧
        ((∃ v ∈ cfg.AccessControl.Whitelist, normalizeUID v = u) ∨
          ∃ list, cfg.AccessControl.ReaderWhitelists.lookup r = some list ∧
            ∃ v ∈ list, normalizeUID v = u) := by
  have h1 := inSet_buildUIDSet cfg.AccessControl.Whitelist u
  have h2 := inReaderSet_buildUIDMap cfg.AccessControl.ReaderWhitelists hw r u
  unfold AccessControlSet.IsWhitelisted buildAccessControl
  by_cases hen : cfg.AccessControl.Enabled = true
  · by_cases hu : u = ""
    · simp [hen, hu]
    · simp only [hen, hu, not_true_eq_false, if_false, ne_eq, not_false_eq_true, true_and] at h1 h2 ⊢
      by_cases hg : inSet (buildUIDSet cfg.AccessControl.Whitelist) u = true
      · simp only [hg, if_true, true_iff]
        exact Or.inl (h1.1 hg)
      · by_cases hr : inReaderSet (buildUIDMap cfg.AccessControl.ReaderWhitelists) r u = true
        · simp only [hg, hr, if_true, if_false, Bool.false_eq_true, true_iff]
          exact Or.inr (h2.1 hr)
        · simp only [hg, hr, if_false, Bool.false_eq_true, false_iff]
          rintro (h | h)
          · exact hg (h1.2 h)
          · exact hr (h2.2 h)
  · simp [hen, inSet, inReaderSet]

/-- No set of the index built from a configuration holds the empty string. -/
theorem build_no_empty (cfg : Config) (hb : cfg.AccessControl.ReaderBlacklists.keys.Nodup)
    (hw : cfg.AccessControl.ReaderWhitelists.keys.Nodup) (r : String) :
    inSet (buildAccessControl cfg).GlobalBlacklist "" = false ∧
    inSet (buildAccessControl cfg).GlobalWhitelist "" = false ∧
    inReaderSet (buildAccessControl cfg).ReaderBlacklists r "" = false ∧
    inReaderSet (buildAccessControl cfg).ReaderWhitelists r "" = false := by
  have h1 := inSet_buildUIDSet cfg.AccessControl.Blacklist ""
  have h2 := inSet_buildUIDSet cfg.AccessControl.Whitelist ""
  have h3 := inReaderSet_buildUIDMap cfg.AccessControl.ReaderBlacklists hb r ""
  have h4 := inReaderSet_buildUIDMap cfg.AccessControl.ReaderWhitelists hw r ""
  simp only [ne_eq, not_true_eq_false, false_and, iff_false, Bool.not_eq_true] at h1 h2 h3 h4
  unfold buildAccessControl
  by_cases hen : cfg.AccessControl.Enabled = true
  · simp only [hen, not_true_eq_false, if_false]
    exact ⟨h1, h2, h3, h4⟩
  · simp [hen, inSet, inReaderSet]

/-- The alert of `Engine.evaluateAccess` for a blacklisted card when the gate lets it
pass. -/
theorem evaluateAccess_blacklisted (cfg : Config) (ac : AccessControlSet) (cooldown : Cooldown)
    (clk : Clock) (tick : Nat) (ev : NormalizedEvent) (hen : ac.Enabled = true)
    (hne : normalizeUID ev.UID ≠ "")
    (hbl : ac.IsBlacklisted ev.ReaderID (normalizeUID ev.UID) = true)
    (hopen : (cooldown.Allow clk tick ev.ReaderID 0 cfg.Detection.AlertCooldown).1 = true) :
    ∃ alert, (Engine.evaluateAccess cfg ac cooldown clk tick ev).1 = some alert ∧
      alert.AlertType = "blacklisted_uid" ∧ alert.Severity = "critical" ∧
      alert.Rules = ["blacklisted_uid"] ∧ alert.WindowSec = 0 ∧
      alert.ReaderID = ev.ReaderID ∧
      alert.Context = eventContext (normalizeUID ev.UID) ev := by
  have huid : ev.UID ≠ "" := fun h => hne (by rw [h]; exact normalizeUID_empty)
  unfold Engine.evaluateAccess
  simp only [hen, huid, hne, hbl, not_true_eq_false, if_false, if_true]
  rcases hA : cooldown.Allow clk tick ev.ReaderID 0 cfg.Detection.AlertCooldown with ⟨b, c1, t1⟩
  rw [hA] at hopen
  simp only at hopen
  subst hopen
  exact ⟨_, rfl, rfl, rfl, rfl, rfl, rfl, rfl⟩

/-- The alert of `Engine.evaluateAccess` in whitelist-only mode for a card on no list when
the gate lets it pass. -/
theorem evaluateAccess_stranger (cfg : Config) (ac : AccessControlSet) (cooldown : Cooldown)
    (clk : Clock) (tick : Nat) (ev : NormalizedEvent) (hen : ac.Enabled = true)
    (hwo : ac.WhitelistOnly = true) (hne : normalizeUID ev.UID ≠ "")
    (hbl : ac.IsBlacklisted ev.ReaderID (normalizeUID ev.UID) = false)
    (hwl : ac.IsWhitelisted ev.ReaderID (normalizeUID ev.UID) = false)
    (hopen : (cooldown.Allow clk tick ev.ReaderID 0 cfg.Detection.AlertCooldown).1 = true) :
    ∃ alert, (Engine.evaluateAccess cfg ac cooldown clk tick ev).1 = some alert ∧
      alert.AlertType = "whitelist_violation" ∧ alert.Severity = "high" ∧
      alert.Rules = ["whitelist_violation"] ∧ alert.WindowSec = 0 ∧
      alert.ReaderID = ev.ReaderID ∧
      alert.Context = eventContext (normalizeUID ev.UID) ev := by
  have huid : ev.UID ≠ "" := fun h => hne (by rw [h]; exact normalizeUID_empty)
  unfold Engine.evaluateAccess
  simp only [hen, hwo, huid, hne, hbl, hwl, not_true_eq_false, if_false, if_true,
    Bool.false_eq_true, not_false_eq_true, and_self]
  rcases hA : cooldown.Allow clk tick ev.ReaderID 0 cfg.Detection.AlertCooldown with ⟨b, c1, t1⟩
  rw [hA] at hopen
  simp only at hopen
  subst hopen
  exact ⟨_, rfl, rfl, rfl, rfl, rfl, rfl, rfl⟩

/-- No alert from `Engine.evaluateAccess` for a card that is whitelisted and not
blacklisted, or whose identifier normalises to the empty string. -/
theorem evaluateAccess_none (cfg : Config) (ac : AccessControlSet) (cooldown : Cooldown)
    (clk : Clock) (tick : Nat) (ev : NormalizedEvent)
    (h : (ac.IsWhitelisted ev.ReaderID (normalizeUID ev.UID) = true ∧
          ac.IsBlacklisted ev.ReaderID (normalizeUID ev.UID) = false) ∨
        normalizeUID ev.UID = "") :
    Engine.evaluateAccess cfg ac cooldown clk tick ev = (none, cooldown, tick) := by
  unfold Engine.evaluateAccess
  rcases h with ⟨hwl, hbl⟩ | he
  · simp only [hwl, hbl, Bool.false_eq_true, if_false, not_true_eq_false, and_false]
    split_ifs <;> rfl
  · simp only [he, if_true]
    split_ifs <;> rfl

/-! ## Facts about the repeated-failure rule -/

theorem countOf_set (m : GoMap String Int) (k k' : String) (v : Int) :
    countOf (GoMap.set m k v) k' = if k = k' then v else countOf m k' := by
  unfold countOf
  rw [GoMap.lookup_set]
  split_ifs <;> rfl

/-- What `Engine.evaluateAuthStreak` does to the streak counters, whether or not it emits an
alert. -/
theorem evaluateAuthStreak_streak (cfg : Config) (c : Cooldown) (clk : Clock) (tick : Nat)
    (reader : ReaderState) (ev : NormalizedEvent) (u : String) (hu : u ≠ "") :
    countOf (Engine.evaluateAuthStreak cfg c clk tick reader ev).2.1.uidFailureStreak u =
      streakStep u (countOf reader.uidFailureStreak u) ev := by
  unfold Engine.evaluateAuthStreak streakStep countsAsFailure
  by_cases h1 : ev.UID = ""
  · have : ¬ normalizeUID ev.UID = u := by
      rw [h1, normalizeUID_empty]
      exact fun h => hu h.symm
    rw [if_pos h1, if_neg this]
  · rw [if_neg h1]
    dsimp only
    by_cases h2 : normalizeUID ev.UID = ""
    · have : ¬ normalizeUID ev.UID = u := by
        rw [h2]
        exact fun h => hu h.symm
      rw [if_pos h2, if_neg this]
    · rw [if_neg h2]
      by_cases h3 : ev.Result ≠ ResultFailure ∨ ev.ErrorCode = ""
      · have h4 : ¬ (ev.Result = ResultFailure ∧ ev.ErrorCode ≠ "") := by tauto
        rw [if_pos h3]
        simp only [countOf_set, h4, decide_False, Bool.false_eq_true, if_false]
      · have h4 : ev.Result = ResultFailure ∧ ev.ErrorCode ≠ "" := by tauto
        rw [if_neg h3]
        have h7 : (decide (ev.Result = ResultFailure ∧ ev.ErrorCode ≠ "")) = true := by
          simpa using h4
        rw [h7]
        have hset : countOf (GoMap.set reader.uidFailureStreak (normalizeUID ev.UID)
            (countOf reader.uidFailureStreak (normalizeUID ev.UID) + 1)) u =
            if normalizeUID ev.UID = u
            then (if true = true then countOf reader.uidFailureStreak u + 1 else 0)
            else countOf reader.uidFailureStreak u := by
          rw [countOf_set]
          by_cases h5 : normalizeUID ev.UID = u
          · simp [h5]
          · simp [h5]
        by_cases h6 : countOf (GoMap.set reader.uidFailureStreak (normalizeUID ev.UID)
            (countOf reader.uidFailureStreak (normalizeUID ev.UID) + 1)) (normalizeUID ev.UID) < 2
        · rw [if_pos h6]
          exact hset
        · rw [if_neg h6]
          rcases c.AllowKey clk tick _ cfg.Detection.AlertCooldown with ⟨b, c1, t1⟩
          cases b <;> exact hset

/-- The frame of `Engine.evaluateAuthStreak`: the identifier and the windows of the reader
stay. -/
theorem evaluateAuthStreak_frame (cfg : Config) (c : Cooldown) (clk : Clock) (tick : Nat)
    (reader : ReaderState) (ev : NormalizedEvent) :
    (Engine.evaluateAuthStreak cfg c clk tick reader ev).2.1.id = reader.id ∧
    (Engine.evaluateAuthStreak cfg c clk tick reader ev).2.1.windows = reader.windows := by
  unfold Engine.evaluateAuthStreak
  dsimp only
  split_ifs
  · exact ⟨rfl, rfl⟩
  · exact ⟨rfl, rfl⟩
  · exact ⟨rfl, rfl⟩
  · exact ⟨rfl, rfl⟩
  · rcases c.AllowKey clk tick _ cfg.Detection.AlertCooldown with ⟨b, c1, t1⟩
    cases b <;> exact ⟨rfl, rfl⟩

/-- The streak of a list with one more event at its end. -/
theorem streakOf_append (u : String) (evs : List NormalizedEvent) (ev : NormalizedEvent) :
    (streakOf u (evs ++ [ev]) : Int) = streakStep u (streakOf u evs) ev := by
  unfold streakOf streakStep
  rw [List.filter_append]
  by_cases h : normalizeUID ev.UID = u
  · simp only [List.filter_cons, h, decide_True, if_true, List.filter_nil, List.reverse_append,
      List.reverse_cons, List.reverse_nil, List.nil_append, List.singleton_append,
      List.takeWhile_cons]
    by_cases hf : countsAsFailure ev = true
    · simp [hf]
    · simp [hf]
  · simp [List.filter_cons, h]

/-- The streak of a list is the fold of `streakStep` over it. -/
theorem streakOf_eq_foldl (u : String) (evs : List NormalizedEvent) :
    (streakOf u evs : Int) = evs.foldl (streakStep u) 0 := by
  induction evs using List.reverseRecOn with
  | nil => simp [streakOf]
  | append_singleton l a ih => rw [streakOf_append, List.foldl_append, ih]; rfl

/-- The streak counter after `streakRun` is the fold of `streakStep` over the events. -/
theorem streakRun_streak (cfg : Config) (clk : Clock) (u : String) (hu : u ≠ "")
    (evs : List NormalizedEvent) (c : Cooldown) (tick : Nat) (reader : ReaderState) :
    countOf (streakRun cfg clk c tick reader evs).1.uidFailureStreak u =
      evs.foldl (streakStep u) (countOf reader.uidFailureStreak u) := by
  induction evs generalizing c tick reader with
  | nil => rfl
  | cons ev rest ih =>
    rw [streakRun, List.foldl_cons, ← evaluateAuthStreak_streak cfg c clk tick reader ev u hu]
    rcases h : Engine.evaluateAuthStreak cfg c clk tick reader ev with ⟨a, r1, c1, t1⟩
    exact ih c1 t1 r1

/-! ## What `ProcessEvent` does to the reader map -/

/-- The map that `Engine.getReader` leaves holds the reader it returns under its key. -/
theorem getReader_snd (readers : GoMap String ReaderState) (readerID : String) (cfg : Config) :
    (Engine.getReader readers readerID cfg).2 =
      GoMap.set readers (readerKey readerID) (Engine.getReader readers readerID cfg).1 := by
  unfold Engine.getReader
  dsimp only
  cases GoMap.lookup readers (readerKey readerID) <;> rfl

/-- The streak counters of the reader that `Engine.getReader` returns: those stored, or none
for a new reader. -/
theorem getReader_streak (readers : GoMap String ReaderState) (readerID : String)
    (cfg : Config) :
    (Engine.getReader readers readerID cfg).1.uidFailureStreak =
      match GoMap.lookup readers (readerKey readerID) with
      | some r => r.uidFailureStreak
      | none => [] := by
  unfold Engine.getReader
  dsimp only
  cases GoMap.lookup readers (readerKey readerID) <;> rfl

/-- The shape of a call of `ProcessEvent` that does not drop the event: the alerts are those
of the window loop, started with the access-control and the repeated-failure alert, and the
reader is written back with the windows of the loop. -/
theorem ProcessEvent_accepted (lib : Library) (e : Engine) (clk : Clock) (tick : Nat)
    (ev : NormalizedEvent) (h : e.dropsAsDuplicate lib clk tick ev = false) :
    ∃ (t t2 : Nat) (c : Cooldown) (a : Option Alert)
      (S : Option Alert × ReaderState × Cooldown × Nat) (res : WindowsResult),
      a = (Engine.evaluateAccess e.cfg e.access e.cooldown clk t
        (clampEvent e.cfg (clk tick) ev)).1 ∧
      S = Engine.evaluateAuthStreak e.cfg c clk t2
        (Engine.getReader e.readers ev.ReaderID e.cfg).1 (clampEvent e.cfg (clk tick) ev) ∧
      res = processWindows e.cfg clk (clampEvent e.cfg (clk tick) ev) S.2.1.sortedWindows
        (WindowsResult.mk S.2.1.windows S.2.2.1 S.2.2.2 (a.toList ++ S.1.toList) []) ∧
      (Engine.ProcessEvent lib e clk tick ev).1 = res.alerts ∧
      (Engine.ProcessEvent lib e clk tick ev).2.1.readers =
        GoMap.set (Engine.getReader e.readers ev.ReaderID e.cfg).2 (readerKey ev.ReaderID)
          (ReaderState.mk S.2.1.id res.windows S.2.1.uidFailureStreak) := by
  unfold Engine.dropsAsDuplicate at h
  unfold Engine.ProcessEvent
  dsimp only
  unfold clampEvent at h ⊢
  dsimp only at h ⊢
  generalize NormalizedEvent.mk (clampTimestamp ev.Timestamp (clk tick)
    e.cfg.Detection.MaxClockSkew e.cfg.Detection.MaxFutureSkew) ev.ReaderID ev.UID ev.Result
    ev.ErrorCode ev.Source ev.Raw = ev1 at h ⊢
  rcases hD : Engine.isDuplicate lib e.deDupe clk (tick + 1) ev1 e.cfg.Detection.DedupeWindow
    with ⟨dup, dd, t1⟩
  rw [hD] at h
  simp only at h
  subst h
  exact ⟨t1, _, _, _, _, _, rfl, rfl, rfl, rfl, rfl⟩

/-- What a call of `ProcessEvent` does to the streak counter of `u` in the reader kept under
`k`. -/
theorem ProcessEvent_streak (lib : Library) (e : Engine) (clk : Clock) (tick : Nat)
    (ev : NormalizedEvent) (k u : String) (hu : u ≠ "") :
    (Engine.ProcessEvent lib e clk tick ev).2.1.streak k u =
      if e.dropsAsDuplicate lib clk tick ev = false ∧ readerKey ev.ReaderID = k
      then streakStep u (e.streak k u) ev else e.streak k u := by
  cases hdup : e.dropsAsDuplicate lib clk tick ev with
  | true =>
    rw [(ProcessEvent_duplicate lib e clk tick ev hdup).2]
    simp
  | false =>
    obtain ⟨t, t2, c, a, S, res, -, hS, -, -, hR⟩ := ProcessEvent_accepted lib e clk tick ev hdup
    unfold Engine.streak
    rw [hR, getReader_snd, GoMap.lookup_set]
    by_cases hk : readerKey ev.ReaderID = k
    · simp only [hk, true_and, if_true]
      have h1 := evaluateAuthStreak_streak e.cfg c clk t2
        (Engine.getReader e.readers ev.ReaderID e.cfg).1 (clampEvent e.cfg (clk tick) ev) u hu
      rw [← hS] at h1
      rw [h1, getReader_streak, hk]
      cases GoMap.lookup e.readers k <;> rfl
    · simp only [hk, and_false, if_false]
      rw [GoMap.lookup_set, if_neg hk]

/-- The streak counter of `u` in the reader kept under `k` after `processAll`: the fold of
`streakStep` over the events accepted for that reader. -/
theorem processAll_streak (lib : Library) (clk : Clock) (k u : String) (hu : u ≠ "")
    (evs : List NormalizedEvent) (e : Engine) (tick : Nat) :
    (processAll lib clk e tick evs).2.1.streak k u =
      (acceptedFor lib clk k e tick evs).foldl (streakStep u) (e.streak k u) := by
  induction evs generalizing e tick with
  | nil => rfl
  | cons ev rest ih =>
    rw [processAll_cons, acceptedFor, List.foldl_append]
    dsimp only
    rw [ih, ProcessEvent_streak lib e clk tick ev k u hu]
    split_ifs <;> rfl

/-- When `Engine.evaluateAuthStreak` emits: with the gate open, exactly when the new streak
is at least 2; and what it emits. -/
theorem evaluateAuthStreak_alert (cfg : Config) (c : Cooldown) (clk : Clock) (tick : Nat)
    (reader : ReaderState) (ev : NormalizedEvent) (hne : normalizeUID ev.UID ≠ "") :
    ((c.AllowKey clk tick ("authfail|" ++ reader.id ++ "|" ++ normalizeUID ev.UID)
        cfg.Detection.AlertCooldown).1 = true →
      ((Engine.evaluateAuthStreak cfg c clk tick reader ev).1.isSome = true ↔
        2 ≤ countOf (Engine.evaluateAuthStreak cfg c clk tick reader ev).2.1.uidFailureStreak
          (normalizeUID ev.UID))) ∧
    ∀ alert, (Engine.evaluateAuthStreak cfg c clk tick reader ev).1 = some alert →
      alert.AlertType = "repeated_auth_failure" ∧ alert.Severity = "medium" ∧
      alert.WindowSec = 0 ∧ alert.Rules = ["repeated_auth_failure"] ∧
      alert.ReaderID = reader.id := by
  have huid : ev.UID ≠ "" := fun h => hne (by rw [h]; exact normalizeUID_empty)
  unfold Engine.evaluateAuthStreak
  rw [if_neg huid]
  dsimp only
  rw [if_neg hne]
  by_cases h3 : ev.Result ≠ ResultFailure ∨ ev.ErrorCode = ""
  · rw [if_pos h3]
    refine ⟨fun _ => ?_, fun alert h => by simp at h⟩
    simp [countOf_set]
  · rw [if_neg h3]
    by_cases h6 : countOf (GoMap.set reader.uidFailureStreak (normalizeUID ev.UID)
        (countOf reader.uidFailureStreak (normalizeUID ev.UID) + 1)) (normalizeUID ev.UID) < 2
    · rw [if_pos h6]
      refine ⟨fun _ => ?_, fun alert h => by simp at h⟩
      simp only [Option.isSome_none, Bool.false_eq_true, false_iff, not_le]
      exact h6
    · rw [if_neg h6]
      rcases hA : c.AllowKey clk tick ("authfail|" ++ reader.id ++ "|" ++ normalizeUID ev.UID)
        cfg.Detection.AlertCooldown with ⟨b, c1, t1⟩
      cases b with
      | false => exact ⟨fun h => by simp at h, fun alert h => by simp at h⟩
      | true =>
        refine ⟨fun _ => ?_, fun alert h => ?_⟩
        · simp only [Option.isSome_some, true_iff]
          exact not_lt.1 h6
        · simp only [Option.some.injEq] at h
          subst h
          exact ⟨rfl, rfl, rfl, rfl, rfl⟩

/-! ## Window maps keyed by the durations, and the order of the alerts -/

theorem GoMap.mem_set {K V : Type} [DecidableEq K] (m : GoMap K V) (k : K) (v : V)
    (p : K × V) (h : p ∈ GoMap.set m k v) : p = (k, v) ∨ p ∈ m := by
  induction m with
  | nil =>
    simp only [GoMap.set, List.mem_singleton] at h
    exact Or.inl h
  | cons q rest ih =>
    obtain ⟨a, b⟩ := q
    unfold GoMap.set at h
    split_ifs at h with hk
    · rcases List.mem_cons.1 h with h1 | h1
      · exact Or.inl h1
      · exact Or.inr (List.mem_cons_of_mem _ h1)
    · rcases List.mem_cons.1 h with h1 | h1
      · exact Or.inr (h1 ▸ List.mem_cons_self _ _)
      · rcases ih h1 with h2 | h2
        · exact Or.inl h2
        · exact Or.inr (List.mem_cons_of_mem _ h2)

theorem GoMap.lookup_mem {K V : Type} [DecidableEq K] (m : GoMap K V) (k : K) (v : V)
    (h : GoMap.lookup m k = some v) : (k, v) ∈ m := by
  induction m with
  | nil => simp [GoMap.lookup] at h
  | cons q rest ih =>
    obtain ⟨a, b⟩ := q
    unfold GoMap.lookup at h
    split_ifs at h with hk
    · simp only [Option.some.injEq] at h
      subst hk h
      exact List.mem_cons_self _ _
    · exact List.mem_cons_of_mem _ (ih h)

theorem WindowsKeyed.empty : WindowsKeyed [] :=
  ⟨List.nodup_nil, fun p hp => absurd hp (List.not_mem_nil p)⟩

theorem WindowsKeyed.set {ws : GoMap Int WindowState} (h : WindowsKeyed ws) (k : Int)
    (v : WindowState) (hv : truncToInt (Duration.Seconds v.duration) = k) :
    WindowsKeyed (GoMap.set ws k v) := by
  refine ⟨GoMap.keys_set_nodup ws h.1 k v, fun p hp => ?_⟩
  rcases GoMap.mem_set ws k v p hp with h1 | h1
  · rw [h1]
    exact hv
  · exact h.2 p h1

/-- The method `Evict` keeps the duration of the window. -/
theorem Evict_duration (w : WindowState) (cutoff : Time) :
    (w.Evict cutoff).duration = w.duration := by
  have h1 : ∀ (fuel : Nat) (v : WindowState),
      (WindowState.evictLoop cutoff fuel v).duration = v.duration := by
    intro fuel
    induction fuel with
    | zero => intro v; rfl
    | succ n ihn =>
      intro v
      unfold WindowState.evictLoop
      cases v.events.get? v.head with
      | none => rfl
      | some ev =>
        simp only
        split_ifs
        · rw [ihn, evictOne_duration]
        · rfl
  have h2 : ∀ v : WindowState, v.compact.duration = v.duration := by
    intro v; unfold WindowState.compact; split_ifs <;> rfl
  unfold WindowState.Evict
  rw [h2, h1]

/-- The reader that `Engine.getReader` returns has a window map keyed by the durations, when
the readers of the map have. -/
theorem getReader_keyed (readers : GoMap String ReaderState) (readerID : String)
    (cfg : Config) (h : ∀ p ∈ readers, WindowsKeyed p.2.windows) :
    WindowsKeyed (Engine.getReader readers readerID cfg).1.windows := by
  have hold : ∀ (wins : List Duration) (ws : GoMap Int WindowState), WindowsKeyed ws →
      WindowsKeyed (wins.foldl
        (fun ws win =>
          match GoMap.lookup ws (truncToInt (Duration.Seconds win)) with
          | some _ => ws
          | none => GoMap.set ws (truncToInt (Duration.Seconds win)) (NewWindowState win))
        ws) := by
    intro wins
    induction wins with
    | nil => intro ws hws; exact hws
    | cons win rest ih =>
      intro ws hws
      rw [List.foldl_cons]
      apply ih
      cases GoMap.lookup ws (truncToInt (Duration.Seconds win)) with
      | some _ => exact hws
      | none => exact hws.set _ _ rfl
  have hnew : ∀ (wins : List Duration) (ws : GoMap Int WindowState), WindowsKeyed ws →
      WindowsKeyed (wins.foldl
        (fun ws win => GoMap.set ws (truncToInt (Duration.Seconds win)) (NewWindowState win))
        ws) := by
    intro wins
    induction wins with
    | nil => intro ws hws; exact hws
    | cons win rest ih =>
      intro ws hws
      rw [List.foldl_cons]
      exact ih _ (hws.set _ _ rfl)
  unfold Engine.getReader
  dsimp only
  cases hl : GoMap.lookup readers (readerKey readerID) with
  | some r => exact hold _ _ (h _ (GoMap.lookup_mem readers _ r hl))
  | none => exact hnew _ _ WindowsKeyed.empty

/-- The type and the window of an alert of `Engine.evaluate`. -/
theorem evaluate_type (cfg : Config) (cooldown : Cooldown) (clk : Clock) (tick : Nat)
    (readerID : String) (wm : WindowMetrics) (alert : Alert)
    (h : (Engine.evaluate cfg cooldown clk tick readerID wm).1 = some alert) :
    alert.AlertType = "possible_bruteforce" ∧ alert.WindowSec = wm.WindowSec := by
  rcases hE : Engine.evaluate cfg cooldown clk tick readerID wm with ⟨a, c1, t1⟩
  rw [hE] at h
  simp only at h
  subst h
  obtain ⟨_, _, t, _, _, h3⟩ := evaluate_some cfg cooldown clk tick readerID wm _ c1 t1 hE
  rw [h3]
  exact ⟨rfl, rfl⟩

/-- The window loop of `ProcessEvent` keeps a window map keyed by the durations, adds only
alerts of type `possible_bruteforce` at the end of the list, at most one per window visited
and in the order of the visit. -/
theorem processWindows_spec (cfg : Config) (clk : Clock) (ev : NormalizedEvent)
    (l : List (Int × WindowState)) (acc : WindowsResult)
    (hl : ∀ p ∈ l, truncToInt (Duration.Seconds p.2.duration) = p.1)
    (hacc : WindowsKeyed acc.windows) :
    WindowsKeyed (processWindows cfg clk ev l acc).windows ∧
    ∃ W : List Alert, (processWindows cfg clk ev l acc).alerts = acc.alerts ++ W ∧
      (∀ a ∈ W, a.AlertType = "possible_bruteforce") ∧
      (W.map (fun a => a.WindowSec)).Sublist (l.map Prod.fst) := by
  induction l generalizing acc with
  | nil => exact ⟨hacc, [], by simp [processWindows], by simp, by simp⟩
  | cons p rest ih =>
    obtain ⟨k, window⟩ := p
    have hk : truncToInt (Duration.Seconds window.duration) = k :=
      hl (k, window) (List.mem_cons_self _ _)
    have hrest : ∀ p ∈ rest, truncToInt (Duration.Seconds p.2.duration) = p.1 :=
      fun p hp => hl p (List.mem_cons_of_mem _ hp)
    have hd : (((window.Evict (ev.Timestamp - window.duration)).Add
        { Timestamp := ev.Timestamp, UID := ev.UID, Result := ev.Result }).duration) =
        window.duration := by
      rw [Add_duration, Evict_duration]
    unfold processWindows
    dsimp only
    have hty := evaluate_type cfg acc.cooldown clk acc.tick ev.ReaderID
      ((window.Evict (ev.Timestamp - window.duration)).Add
        { Timestamp := ev.Timestamp, UID := ev.UID, Result := ev.Result }).Metrics
    rcases hE : Engine.evaluate cfg acc.cooldown clk acc.tick ev.ReaderID
      ((window.Evict (ev.Timestamp - window.duration)).Add
        { Timestamp := ev.Timestamp, UID := ev.UID, Result := ev.Result }).Metrics
      with ⟨alert, c1, t1⟩
    rw [hE] at hty
    dsimp only at hty ⊢
    obtain ⟨h1, W, h2, h3, h4⟩ := ih
      (WindowsResult.mk (GoMap.set acc.windows k ((window.Evict
        (ev.Timestamp - window.duration)).Add
          { Timestamp := ev.Timestamp, UID := ev.UID, Result := ev.Result }))
        c1 t1 (acc.alerts ++ alert.toList) (acc.metricsList ++
          [((window.Evict (ev.Timestamp - window.duration)).Add
            { Timestamp := ev.Timestamp, UID := ev.UID, Result := ev.Result }).Metrics]))
      hrest (hacc.set _ _ (by rw [hd]; exact hk))
    refine ⟨h1, alert.toList ++ W, ?_, ?_, ?_⟩
    · rw [h2, List.append_assoc]
    · intro a ha
      rcases List.mem_append.1 ha with ha1 | ha1
      · cases alert with
        | none => simp at ha1
        | some al =>
          simp only [Option.toList, List.mem_singleton] at ha1
          rw [ha1]
          exact (hty al rfl).1
      · exact h3 a ha1
    · cases alert with
      | none =>
        simp only [Option.toList, List.nil_append, List.map_cons]
        exact h4.cons _
      | some al =>
        have hw : al.WindowSec = k := by
          rw [(hty al rfl).2]
          show truncToInt (Duration.Seconds _) = k
          rw [hd]
          exact hk
        simp only [Option.toList, List.singleton_append, List.map_cons, hw]
        exact h4.cons₂ _

/-- The method `sortedWindows` returns every window of the reader once, in ascending order
of the keys; in strictly ascending order when the keys are distinct. -/
theorem sortedWindows_spec (r : ReaderState) :
    r.sortedWindows.Perm r.windows ∧
    (r.sortedWindows.map Prod.fst).Sorted (fun a b => a ≤ b) ∧
    (r.windows.keys.Nodup → (r.sortedWindows.map Prod.fst).Sorted (fun a b => a < b)) := by
  have hperm : r.sortedWindows.Perm r.windows := List.perm_insertionSort _ _
  haveI : IsTotal (Int × WindowState) (fun a b => a.1 ≤ b.1) := ⟨fun a b => le_total a.1 b.1⟩
  haveI : IsTrans (Int × WindowState) (fun a b => a.1 ≤ b.1) :=
    ⟨fun a b c hab hbc => le_trans hab hbc⟩
  have hs : r.sortedWindows.Sorted (fun a b => a.1 ≤ b.1) := List.sorted_insertionSort _ _
  have hs1 : (r.sortedWindows.map Prod.fst).Sorted (fun a b => a ≤ b) :=
    List.pairwise_map.2 hs
  refine ⟨hperm, hs1, fun hnd => ?_⟩
  have hnd1 : (r.sortedWindows.map Prod.fst).Nodup :=
    (hperm.map Prod.fst).nodup_iff.2 hnd
  exact List.Sorted.lt_of_le hs1 hnd1

/-- The type of an alert of `Engine.evaluateAccess`. -/
theorem evaluateAccess_type (cfg : Config) (ac : AccessControlSet) (cooldown : Cooldown)
    (clk : Clock) (tick : Nat) (ev : NormalizedEvent) (alert : Alert)
    (h : (Engine.evaluateAccess cfg ac cooldown clk tick ev).1 = some alert) :
    alert.AlertType = "blacklisted_uid" ∨ alert.AlertType = "whitelist_violation" := by
  have huid : ev.UID ≠ "" := by
    intro h0
    simp [Engine.evaluateAccess, h0] at h
  have hne : normalizeUID ev.UID ≠ "" := by
    intro h0
    simp [Engine.evaluateAccess, h0] at h
  have hen : ac.Enabled = true := by
    by_contra h0
    simp [Engine.evaluateAccess, h0] at h
  unfold Engine.evaluateAccess at h
  simp only [hen, huid, hne, not_true_eq_false, if_false] at h
  by_cases hbl : ac.IsBlacklisted ev.ReaderID (normalizeUID ev.UID) = true
  · rw [if_pos hbl] at h
    rcases hA : cooldown.Allow clk tick ev.ReaderID 0 cfg.Detection.AlertCooldown
      with ⟨b, c1, t1⟩
    rw [hA] at h
    cases b with
    | false => simp at h
    | true =>
      simp only [Option.some.injEq] at h
      subst h
      exact Or.inl rfl
  · rw [if_neg hbl] at h
    by_cases hwl : ac.WhitelistOnly = true ∧
        ¬ ac.IsWhitelisted ev.ReaderID (normalizeUID ev.UID) = true
    · rw [if_pos hwl] at h
      rcases hA : cooldown.Allow clk tick ev.ReaderID 0 cfg.Detection.AlertCooldown
        with ⟨b, c1, t1⟩
      rw [hA] at h
      cases b with
      | false => simp at h
      | true =>
        simp only [Option.some.injEq] at h
        subst h
        exact Or.inr rfl
    · rw [if_neg hwl] at h
      simp at h

/-- The type of an alert of `Engine.evaluateAuthStreak`. -/
theorem evaluateAuthStreak_type (cfg : Config) (c : Cooldown) (clk : Clock) (tick : Nat)
    (reader : ReaderState) (ev : NormalizedEvent) (alert : Alert)
    (h : (Engine.evaluateAuthStreak cfg c clk tick reader ev).1 = some alert) :
    alert.AlertType = "repeated_auth_failure" := by
  by_cases hne : normalizeUID ev.UID = ""
  · exfalso
    unfold Engine.evaluateAuthStreak at h
    dsimp only at h
    rw [if_pos hne] at h
    split_ifs at h
  · exact ((evaluateAuthStreak_alert cfg c clk tick reader ev hne).2 alert h).1

/-- The shape of the alerts of a call of `ProcessEvent` on an engine whose readers have
window maps keyed by the durations, and the same property of the engine it leaves. -/
theorem ProcessEvent_order (lib : Library) (e : Engine) (he : e.WellKeyed) (clk : Clock)
    (tick : Nat) (ev : NormalizedEvent) :
    (Engine.ProcessEvent lib e clk tick ev).2.1.WellKeyed ∧
    ∃ (a s : Option Alert) (W : List Alert),
      (Engine.ProcessEvent lib e clk tick ev).1 = a.toList ++ s.toList ++ W ∧
      (∀ x ∈ a.toList, x.AlertType = "blacklisted_uid" ∨ x.AlertType = "whitelist_violation") ∧
      (∀ x ∈ s.toList, x.AlertType = "repeated_auth_failure") ∧
      (∀ x ∈ W, x.AlertType = "possible_bruteforce") ∧
      (W.map (fun x => x.WindowSec)).Sublist
        ((Engine.getReader e.readers ev.ReaderID e.cfg).1.sortedWindows.map Prod.fst) := by
  cases hdup : e.dropsAsDuplicate lib clk tick ev with
  | true =>
    obtain ⟨h1, h2⟩ := ProcessEvent_duplicate lib e clk tick ev hdup
    rw [h1, h2]
    exact ⟨he, none, none, [], rfl, by simp, by simp, by simp, by simp⟩
  | false =>
    obtain ⟨t, t2, c, a, S, res, ha, hS, hres, hA, hR⟩ :=
      ProcessEvent_accepted lib e clk tick ev hdup
    have hG := getReader_keyed e.readers ev.ReaderID e.cfg he
    have hfr := evaluateAuthStreak_frame e.cfg c clk t2
      (Engine.getReader e.readers ev.ReaderID e.cfg).1 (clampEvent e.cfg (clk tick) ev)
    rw [← hS] at hfr
    have hSk : WindowsKeyed S.2.1.windows := by rw [hfr.2]; exact hG
    have hsw : S.2.1.sortedWindows =
        (Engine.getReader e.readers ev.ReaderID e.cfg).1.sortedWindows := by
      unfold ReaderState.sortedWindows
      rw [hfr.2]
    have hl : ∀ p ∈ S.2.1.sortedWindows, truncToInt (Duration.Seconds p.2.duration) = p.1 :=
      fun p hp => hSk.2 p ((sortedWindows_spec S.2.1).1.mem_iff.1 hp)
    obtain ⟨hw, W, hW1, hW2, hW3⟩ := processWindows_spec e.cfg clk
      (clampEvent e.cfg (clk tick) ev) S.2.1.sortedWindows
      (WindowsResult.mk S.2.1.windows S.2.2.1 S.2.2.2 (a.toList ++ S.1.toList) []) hl hSk
    rw [← hres] at hw hW1
    constructor
    · intro p hp
      rw [hR] at hp
      rcases GoMap.mem_set _ _ _ p hp with h1 | h1
      · rw [h1]
        exact hw
      · rw [getReader_snd] at h1
        rcases GoMap.mem_set _ _ _ p h1 with h2 | h2
        · rw [h2]
          exact hG
        · exact he p h2
    · refine ⟨a, S.1, W, by rw [hA, hW1], ?_, ?_, hW2, by rw [← hsw]; exact hW3⟩
      · intro x hx
        cases a with
        | none => simp at hx
        | some al =>
          simp only [Option.toList, List.mem_singleton] at hx
          rw [hx]
          exact evaluateAccess_type _ _ _ _ _ _ al ha.symm
      · intro x hx
        cases hs1 : S.1 with
        | none => rw [hs1] at hx; simp at hx
        | some al =>
          rw [hs1] at hx
          simp only [Option.toList, List.mem_singleton] at hx
          rw [hx]
          exact evaluateAuthStreak_type _ _ _ _ _ _ al (by rw [← hS]; exact hs1)

/-- Every reachable engine state has readers with window maps keyed by the durations. -/
theorem EngineReachable.wellKeyed {e : Engine} (h : EngineReachable e) : e.WellKeyed := by
  induction h with
  | new cfg ms as => intro p hp; simp [NewEngine] at hp
  | process lib e clk tick ev _ ih => exact (ProcessEvent_order lib e ih clk tick ev).1
  | updateConfig e cfg _ ih => exact ih
  | reset e _ _ => intro p hp; simp [Engine.Reset] at hp

/-! ## Facts about `normalizeUID` -/

/-- A character is fixed by the number of its code point. -/
theorem char_eq_of_toNat (r : Char) (n : Nat) (h : r.toNat = n) : r = Char.ofNat n := by
  rw [← h, Char.ofNat_toNat]

/-- The switch of `normalizeUID` keeps the hexadecimal digits, in upper case, and nothing
else. -/
theorem hexRune_eq (r : Char) :
    hexRune r = if isHexDigit r then some r.toUpper else none := by
  unfold hexRune
  by_cases h1 : 48 ≤ r.toNat ∧ r.toNat ≤ 57
  · rw [if_pos h1]
    obtain ⟨ha, hb⟩ := h1
    have hr := char_eq_of_toNat r r.toNat rfl
    generalize r.toNat = n at ha hb hr
    interval_cases n <;> (subst hr; decide)
  · rw [if_neg h1]
    by_cases h2 : 65 ≤ r.toNat ∧ r.toNat ≤ 70
    · rw [if_pos h2]
      obtain ⟨ha, hb⟩ := h2
      have hr := char_eq_of_toNat r r.toNat rfl
      generalize r.toNat = n at ha hb hr
      interval_cases n <;> (subst hr; decide)
    · rw [if_neg h2]
      by_cases h3 : 97 ≤ r.toNat ∧ r.toNat ≤ 102
      · rw [if_pos h3]
        obtain ⟨ha, hb⟩ := h3
        have hr := char_eq_of_toNat r r.toNat rfl
        generalize r.toNat = n at ha hb hr
        interval_cases n <;> (subst hr; decide)
      · rw [if_neg h3]
        have hno : isHexDigit r = false := by
          cases hd : isHexDigit r with
          | false => rfl
          | true =>
            exfalso
            have hm : r ∈ "0123456789ABCDEFabcdef".data := of_decide_eq_true hd
            simp only [List.mem_cons, List.mem_singleton, List.not_mem_nil, or_false] at hm
            rcases hm with h | h | h | h | h | h | h | h | h | h | h | h | h | h | h | h | h |
              h | h | h | h | h <;> (subst h; revert h1 h2 h3; decide)
        rw [hno]
        rfl

/-- What a hexadecimal digit is. -/
theorem isHexDigit_cases (c : Char) (h : isHexDigit c = true) (P : Char → Prop)
    (hP : ∀ d ∈ "0123456789ABCDEFabcdef".data, P d) : P c :=
  hP c (of_decide_eq_true h)

theorem isSpace_not_hex (c : Char) (h : isSpace c = true) : isHexDigit c = false := by
  cases hd : isHexDigit c with
  | false => rfl
  | true =>
    exfalso
    revert h
    exact isHexDigit_cases c hd (fun d => isSpace d = true → False) (by decide)

theorem toUpper_isUpperHex (c : Char) (h : isHexDigit c = true) :
    isUpperHex c.toUpper = true :=
  isHexDigit_cases c h (fun d => isUpperHex d.toUpper = true) (by decide)

theorem isUpperHex_fixed (c : Char) (h : isUpperHex c = true) :
    isHexDigit c = true ∧ c.toUpper = c := by
  have hm : c ∈ "0123456789ABCDEF".data := of_decide_eq_true h
  have hall : ∀ d ∈ "0123456789ABCDEF".data, isHexDigit d = true ∧ d.toUpper = d := by decide
  exact hall c hm

theorem filterMap_hexRune (l : List Char) :
    l.filterMap hexRune = (l.filter isHexDigit).map Char.toUpper := by
  induction l with
  | nil => rfl
  | cons c rest ih =>
    rw [List.filterMap_cons, hexRune_eq, List.filter_cons]
    cases isHexDigit c <;> simp [ih]

theorem filter_dropWhile_of_disjoint (p q : Char → Bool) (hpq : ∀ c, p c = true → q c = false)
    (l : List Char) : (l.dropWhile p).filter q = l.filter q := by
  induction l with
  | nil => rfl
  | cons c rest ih =>
    rw [List.dropWhile_cons]
    cases hp : p c with
    | true => simp [List.filter_cons, hpq c hp, ih]
    | false => simp

/-- Trimming white space removes no hexadecimal digit. -/
theorem trimSpace_filter (s : String) :
    (trimSpace s).data.filter isHexDigit = s.data.filter isHexDigit := by
  unfold trimSpace
  simp only
  rw [List.filter_reverse, filter_dropWhile_of_disjoint isSpace isHexDigit isSpace_not_hex,
    List.filter_reverse, filter_dropWhile_of_disjoint isSpace isHexDigit isSpace_not_hex,
    List.reverse_reverse]

/-- The function `normalizeUID` keeps the hexadecimal digits of its argument, in upper
case. -/
theorem normalizeUID_eq_keepHex (s : String) : normalizeUID s = keepHex s := by
  unfold normalizeUID keepHex
  simp only
  have ht := trimSpace_filter s
  by_cases h : trimSpace s = ""
  · rw [if_pos h]
    rw [h] at ht
    rw [← ht]
    rfl
  · rw [if_neg h, filterMap_hexRune, ht]

theorem keepHex_upper (s : String) (c : Char) (h : c ∈ (keepHex s).data) :
    isUpperHex c = true := by
  unfold keepHex at h
  simp only [List.mem_map, List.mem_filter] at h
  obtain ⟨d, ⟨_, hd⟩, rfl⟩ := h
  exact toUpper_isUpperHex d hd

theorem keepHex_fixed (s : String) (h : ∀ c ∈ s.data, isUpperHex c = true) :
    keepHex s = s := by
  unfold keepHex
  have h1 : s.data.filter isHexDigit = s.data :=
    List.filter_eq_self.2 (fun c hc => (isUpperHex_fixed c (h c hc)).1)
  rw [h1]
  have h2 : s.data.map Char.toUpper = s.data := by
    conv_rhs => rw [← List.map_id s.data]
    apply List.map_congr_left
    intro c hc
    exact (isUpperHex_fixed c (h c hc)).2
  rw [h2]

/-! ## The window key: whole seconds of a duration -/

/-- The conversion `int(d.Seconds())` is the integer division of the nanoseconds by `10^9`,
rounded toward zero. -/
theorem truncSeconds_eq (d : Duration) :
    truncToInt (Duration.Seconds d) =
      if 0 ≤ d then d / 1000000000 else -((-d) / 1000000000) := by
  unfold truncToInt Duration.Seconds
  have h9 : ((1000000000 : ℕ) : ℚ) = 1000000000 := by norm_num
  by_cases h : 0 ≤ d
  · have hq : (0 : ℚ) ≤ (d : ℚ) / 1000000000 := by
      apply div_nonneg
      · exact_mod_cast h
      · norm_num
    rw [if_pos hq, if_pos h, ← h9, Rat.floor_intCast_div_natCast]
    rfl
  · have hq : ¬ (0 : ℚ) ≤ (d : ℚ) / 1000000000 := by
      rw [not_le]
      apply div_neg_of_neg_of_pos
      · exact_mod_cast not_le.1 h
      · norm_num
    have hneg : -((d : ℚ) / 1000000000) = ((-d : ℤ) : ℚ) / ((1000000000 : ℕ) : ℚ) := by
      push_cast
      ring
    rw [if_neg hq, if_neg h, ← neg_neg ((d : ℚ) / 1000000000), Int.ceil_neg, hneg,
      Rat.floor_intCast_div_natCast]
    rfl

/-- The whole seconds of a whole number of seconds. -/
theorem truncSeconds_whole (k : Int) : truncToInt (Duration.Seconds (k * 1000000000)) = k := by
  rw [truncSeconds_eq]
  split_ifs with h
  · omega
  · omega

/-- Rounding to the nearest whole second agrees with the conversion toward zero when the
fraction of a second is below one half. -/
theorem round_seconds_eq (d : Duration) (h0 : 0 ≤ d) (hf : 2 * (d % 1000000000) < 1000000000) :
    round (Duration.Seconds d) = truncToInt (Duration.Seconds d) := by
  rw [truncSeconds_eq, if_pos h0, round_eq, Int.floor_eq_iff]
  unfold Duration.Seconds
  have hd : (d : ℚ) = 1000000000 * ((d / 1000000000 : ℤ) : ℚ) + ((d % 1000000000 : ℤ) : ℚ) := by
    exact_mod_cast (Int.ediv_add_emod d 1000000000).symm
  have hr0 : (0 : ℚ) ≤ ((d % 1000000000 : ℤ) : ℚ) := by
    exact_mod_cast Int.emod_nonneg d (by norm_num)
  have hr1 : 2 * ((d % 1000000000 : ℤ) : ℚ) < 1000000000 := by exact_mod_cast hf
  constructor
  · rw [hd]
    have : (1000000000 * ((d / 1000000000 : ℤ) : ℚ) + ((d % 1000000000 : ℤ) : ℚ)) / 1000000000 =
        ((d / 1000000000 : ℤ) : ℚ) + ((d % 1000000000 : ℤ) : ℚ) / 1000000000 := by
      field_simp
      ring
    rw [this]
    have : (0 : ℚ) ≤ ((d % 1000000000 : ℤ) : ℚ) / 1000000000 := div_nonneg hr0 (by norm_num)
    linarith
  · rw [hd]
    have : (1000000000 * ((d / 1000000000 : ℤ) : ℚ) + ((d % 1000000000 : ℤ) : ℚ)) / 1000000000 =
        ((d / 1000000000 : ℤ) : ℚ) + ((d % 1000000000 : ℤ) : ℚ) / 1000000000 := by
      field_simp
      ring
    rw [this]
    have : ((d % 1000000000 : ℤ) : ℚ) / 1000000000 < 1 / 2 := by
      rw [div_lt_iff₀ (by norm_num)]
      linarith
    linarith

/-! ## The windows of the reader that `getReader` returns -/

/-- The loop of `Engine.getReader` over the configured durations for a reader that exists:
a key that is held keeps its window, a key that is not gets a new window of the first
listed duration with that key. -/
theorem getReader_loop_old (wins : List Duration) (ws : GoMap Int WindowState) (k : Int) :
    GoMap.lookup (wins.foldl
      (fun ws win =>
        match GoMap.lookup ws (truncToInt (Duration.Seconds win)) with
        | some _ => ws
        | none => GoMap.set ws (truncToInt (Duration.Seconds win)) (NewWindowState win))
      ws) k =
    match GoMap.lookup ws k with
    | some w => some w
    | none =>
      (wins.find? (fun d => decide (truncToInt (Duration.Seconds d) = k))).map NewWindowState := by
  induction wins generalizing ws with
  | nil => cases hl : GoMap.lookup ws k <;> simp [hl]
  | cons d rest ih =>
    rw [List.foldl_cons, ih, List.find?_cons]
    by_cases hk : truncToInt (Duration.Seconds d) = k
    · subst hk
      cases hl : GoMap.lookup ws (truncToInt (Duration.Seconds d)) with
      | some w => simp [hl]
      | none => simp [GoMap.lookup_set]
    · cases hl : GoMap.lookup ws (truncToInt (Duration.Seconds d)) with
      | some w => simp [hk]
      | none => simp [GoMap.lookup_set, hk]

/-- The loop of `Engine.getReader` over the configured durations for a new reader: a key
gets a new window of the last listed duration with that key. -/
theorem getReader_loop_new (wins : List Duration) (ws : GoMap Int WindowState) (k : Int) :
    GoMap.lookup (wins.foldl
      (fun ws win => GoMap.set ws (truncToInt (Duration.Seconds win)) (NewWindowState win))
      ws) k =
    match wins.reverse.find? (fun d => decide (truncToInt (Duration.Seconds d) = k)) with
    | some d => some (NewWindowState d)
    | none => GoMap.lookup ws k := by
  induction wins using List.reverseRecOn with
  | nil => rfl
  | append_singleton l d ih =>
    rw [List.foldl_append, List.foldl_cons, List.foldl_nil, GoMap.lookup_set, ih,
      List.reverse_append, List.reverse_cons, List.reverse_nil, List.nil_append,
      List.singleton_append, List.find?_cons]
    by_cases hk : truncToInt (Duration.Seconds d) = k
    · simp [hk]
    · simp [hk]

/-- Among durations with distinct keys, the one found under the key of a listed duration is
that duration. -/
theorem find_key_of_nodup (wins : List Duration)
    (hnd : (wins.map (fun d => truncToInt (Duration.Seconds d))).Nodup) (d : Duration)
    (hd : d ∈ wins) :
    wins.find? (fun x => decide (truncToInt (Duration.Seconds x) =
      truncToInt (Duration.Seconds d))) = some d := by
  induction wins with
  | nil => simp at hd
  | cons a rest ih =>
    rw [List.map_cons, List.nodup_cons] at hnd
    rw [List.find?_cons]
    rcases List.mem_cons.1 hd with h | h
    · subst h
      simp
    · have hne : ¬ truncToInt (Duration.Seconds a) = truncToInt (Duration.Seconds d) := by
        intro he
        apply hnd.1
        rw [he]
        exact List.mem_map_of_mem _ h
      simp only [hne, decide_False]
      exact ih hnd.2 h

/-- The window that the reader returned by `Engine.getReader` holds under a key. -/
theorem getReader_windows (readers : GoMap String ReaderState) (readerID : String)
    (cfg : Config) (k : Int) :
    GoMap.lookup (Engine.getReader readers readerID cfg).1.windows k =
      match GoMap.lookup readers (readerKey readerID) with
      | some r =>
        (match GoMap.lookup r.windows k with
         | some w => some w
         | none => (cfg.Detection.Windows.find?
            (fun d => decide (truncToInt (Duration.Seconds d) = k))).map NewWindowState)
      | none =>
        (match cfg.Detection.Windows.reverse.find?
            (fun d => decide (truncToInt (Duration.Seconds d) = k)) with
         | some d => some (NewWindowState d)
         | none => none) := by
  unfold Engine.getReader
  dsimp only
  cases hl : GoMap.lookup readers (readerKey readerID) with
  | some r => exact getReader_loop_old cfg.Detection.Windows r.windows k
  | none => exact getReader_loop_new cfg.Detection.Windows [] k

/-- A duration of whole seconds is fixed by its number of seconds. -/
theorem whole_seconds_eq (a b : Int) (ha : a % 1000000000 = 0) (hb : b % 1000000000 = 0)
    (h : truncToInt (Duration.Seconds a) = truncToInt (Duration.Seconds b)) : a = b := by
  rw [truncSeconds_eq, truncSeconds_eq] at h
  split_ifs at h <;> omega

/-- The contract of `Engine.getReader` on the windows of the reader. -/
theorem getReader_contract (readers : GoMap String ReaderState) (readerID : String)
    (cfg : Config) (hk : ∀ p ∈ readers, WindowsKeyed p.2.windows) :
    (∀ d ∈ cfg.Detection.Windows, ∃ w,
      GoMap.lookup (Engine.getReader readers readerID cfg).1.windows
        (truncToInt (Duration.Seconds d)) = some w ∧
      truncToInt (Duration.Seconds w.duration) = truncToInt (Duration.Seconds d) ∧
      ((∀ r, GoMap.lookup readers (readerKey readerID) = some r →
          ∀ p ∈ r.windows, p.2.duration % 1000000000 = 0) →
        (∀ x ∈ cfg.Detection.Windows, x % 1000000000 = 0) → w.duration = d)) ∧
    ((cfg.Detection.Windows.map (fun d => truncToInt (Duration.Seconds d))).Nodup →
      ∀ d ∈ cfg.Detection.Windows,
        (∀ r, GoMap.lookup readers (readerKey readerID) = some r →
          GoMap.lookup r.windows (truncToInt (Duration.Seconds d)) = none) →
        GoMap.lookup (Engine.getReader readers readerID cfg).1.windows
          (truncToInt (Duration.Seconds d)) = some (NewWindowState d)) ∧
    (∀ r, GoMap.lookup readers (readerKey readerID) = some r → ∀ k w,
      GoMap.lookup r.windows k = some w →
      GoMap.lookup (Engine.getReader readers readerID cfg).1.windows k = some w) := by
  have hG := getReader_keyed readers readerID cfg hk
  refine ⟨fun d hd => ?_, fun hnd d hd hfree => ?_, fun r hr k w hw => ?_⟩
  · have hfind : ∀ l : List Duration, d ∈ l → ∃ x ∈ l,
        l.find? (fun y => decide (truncToInt (Duration.Seconds y) =
          truncToInt (Duration.Seconds d))) = some x := by
      intro l hl
      cases hf : l.find? (fun y => decide (truncToInt (Duration.Seconds y) =
          truncToInt (Duration.Seconds d))) with
      | none =>
        rw [List.find?_eq_none] at hf
        exact absurd (by simp) (hf d hl)
      | some x => exact ⟨x, List.mem_of_find?_eq_some hf, rfl⟩
    have hlook := getReader_windows readers readerID cfg (truncToInt (Duration.Seconds d))
    have hex : ∃ w, GoMap.lookup (Engine.getReader readers readerID cfg).1.windows
        (truncToInt (Duration.Seconds d)) = some w ∧
        ((∃ r, GoMap.lookup readers (readerKey readerID) = some r ∧ (truncToInt (Duration.Seconds d), w) ∈ r.windows) ∨
          ∃ x ∈ cfg.Detection.Windows, w = NewWindowState x) := by
      cases hr : GoMap.lookup readers (readerKey readerID) with
      | some r =>
        simp only [hr] at hlook
        cases hw : GoMap.lookup r.windows (truncToInt (Duration.Seconds d)) with
        | some w =>
          simp only [hw] at hlook
          exact ⟨w, hlook, Or.inl ⟨r, rfl, GoMap.lookup_mem _ _ _ hw⟩⟩
        | none =>
          simp only [hw] at hlook
          obtain ⟨x, hx, hfx⟩ := hfind cfg.Detection.Windows hd
          simp only [hfx, Option.map_some'] at hlook
          exact ⟨NewWindowState x, hlook, Or.inr ⟨x, hx, rfl⟩⟩
      | none =>
        simp only [hr] at hlook
        obtain ⟨x, hx, hfx⟩ := hfind cfg.Detection.Windows.reverse (List.mem_reverse.2 hd)
        simp only [hfx] at hlook
        exact ⟨NewWindowState x, hlook, Or.inr ⟨x, List.mem_reverse.1 hx, rfl⟩⟩
    obtain ⟨w, hw, hsrc⟩ := hex
    have hkey := hG.2 _ (GoMap.lookup_mem _ _ _ hw)
    refine ⟨w, hw, hkey, fun hold hcfg => ?_⟩
    apply whole_seconds_eq _ _ _ (hcfg d hd) hkey
    rcases hsrc with ⟨r, hr, hm⟩ | ⟨x, hx, rfl⟩
    · exact hold r hr _ hm
    · exact hcfg x hx
  · rw [getReader_windows]
    cases hr : GoMap.lookup readers (readerKey readerID) with
    | some r =>
      simp only [hfree r hr, find_key_of_nodup _ hnd d hd, Option.map_some']
    | none =>
      have hnd' : (cfg.Detection.Windows.reverse.map
          (fun d => truncToInt (Duration.Seconds d))).Nodup := by
        rw [List.map_reverse]
        exact List.nodup_reverse.2 hnd
      simp only [find_key_of_nodup _ hnd' d (List.mem_reverse.2 hd)]
  · rw [getReader_windows, hr]
    simp only [hw]

/-! ## `ProcessEvent` and the sinks; `Reset` -/

/-- The sinks are written, never read: two engines that differ in their sinks only return
the same alerts, read the clock as often and still differ in their sinks only. -/
theorem ProcessEvent_core (lib : Library) (e1 e2 : Engine) (h : e1.core = e2.core)
    (clk : Clock) (tick : Nat) (ev : NormalizedEvent) :
    (Engine.ProcessEvent lib e1 clk tick ev).1 = (Engine.ProcessEvent lib e2 clk tick ev).1 ∧
    (Engine.ProcessEvent lib e1 clk tick ev).2.2 = (Engine.ProcessEvent lib e2 clk tick ev).2.2 ∧
    (Engine.ProcessEvent lib e1 clk tick ev).2.1.core =
      (Engine.ProcessEvent lib e2 clk tick ev).2.1.core := by
  unfold Engine.core at h
  simp only [Prod.mk.injEq] at h
  obtain ⟨h1, h2, h3, h4, h5⟩ := h
  unfold Engine.ProcessEvent
  dsimp only
  rw [h1, h2, h3, h4, h5]
  generalize NormalizedEvent.mk (clampTimestamp ev.Timestamp (clk tick)
    e2.cfg.Detection.MaxClockSkew e2.cfg.Detection.MaxFutureSkew) ev.ReaderID ev.UID ev.Result
    ev.ErrorCode ev.Source ev.Raw = ev1
  rcases hD : Engine.isDuplicate lib e2.deDupe clk (tick + 1) ev1 e2.cfg.Detection.DedupeWindow
    with ⟨dup, dd, t1⟩
  cases dup with
  | true =>
    refine ⟨rfl, rfl, ?_⟩
    simp only [Engine.core, h1, h2, h3, h4]
  | false =>
    refine ⟨rfl, rfl, ?_⟩
    simp only [Engine.core, h1, h2]

/-- Running a list of events through two engines that differ in their sinks only. -/
theorem processAll_core (lib : Library) (clk : Clock) (evs : List NormalizedEvent)
    (e1 e2 : Engine) (h : e1.core = e2.core) (tick : Nat) :
    (processAll lib clk e1 tick evs).1 = (processAll lib clk e2 tick evs).1 := by
  induction evs generalizing e1 e2 tick with
  | nil => rfl
  | cons ev rest ih =>
    obtain ⟨ha, ht, hc⟩ := ProcessEvent_core lib e1 e2 h clk tick ev
    rw [processAll_cons, processAll_cons]
    dsimp only
    rw [ha, ht, ih _ _ hc]

/-- A call of `ProcessEvent` leaves the access-control index as it is. -/
theorem ProcessEvent_access (lib : Library) (e : Engine) (clk : Clock) (tick : Nat)
    (ev : NormalizedEvent) : (Engine.ProcessEvent lib e clk tick ev).2.1.access = e.access := by
  unfold Engine.ProcessEvent
  dsimp only
  generalize NormalizedEvent.mk (clampTimestamp ev.Timestamp (clk tick)
    e.cfg.Detection.MaxClockSkew e.cfg.Detection.MaxFutureSkew) ev.ReaderID ev.UID ev.Result
    ev.ErrorCode ev.Source ev.Raw = ev1
  rcases hD : Engine.isDuplicate lib e.deDupe clk (tick + 1) ev1 e.cfg.Detection.DedupeWindow
    with ⟨dup, dd, t1⟩
  cases dup <;> rfl

/-- In every reachable engine state the access-control index is the one built from the
configuration. -/
theorem EngineReachable.access_eq {e : Engine} (h : EngineReachable e) :
    e.access = buildAccessControl e.cfg := by
  induction h with
  | new cfg ms as => rfl
  | process lib e clk tick ev _ ih =>
    rw [ProcessEvent_access, (ProcessEvent_frame lib e clk tick ev).1]
    exact ih
  | updateConfig e cfg _ _ => rfl
  | reset e _ ih => exact ih

/-! ## The windows after `ProcessEvent` -/

/-- The windows that the window loop of `ProcessEvent` leaves, and the metrics it
collects: neither depends on the configuration, the cooldown table or the clock. -/
theorem processWindows_windows (cfg : Config) (clk : Clock) (ev : NormalizedEvent)
    (l : List (Int × WindowState)) (acc : WindowsResult) :
    (processWindows cfg clk ev l acc).windows =
      l.foldl (fun ws p => GoMap.set ws p.1 (feedWindow ev p.2)) acc.windows ∧
    (processWindows cfg clk ev l acc).metricsList =
      acc.metricsList ++ l.map (fun p => (feedWindow ev p.2).Metrics) := by
  induction l generalizing acc with
  | nil => simp [processWindows]
  | cons p rest ih =>
    obtain ⟨k, window⟩ := p
    unfold processWindows
    dsimp only
    rcases hE : Engine.evaluate cfg acc.cooldown clk acc.tick ev.ReaderID
      ((window.Evict (ev.Timestamp - window.duration)).Add
        { Timestamp := ev.Timestamp, UID := ev.UID, Result := ev.Result }).Metrics
      with ⟨alert, c1, t1⟩
    dsimp only
    obtain ⟨h1, h2⟩ := ih
      (WindowsResult.mk (GoMap.set acc.windows k ((window.Evict
        (ev.Timestamp - window.duration)).Add
          { Timestamp := ev.Timestamp, UID := ev.UID, Result := ev.Result }))
        c1 t1 (acc.alerts ++ alert.toList) (acc.metricsList ++
          [((window.Evict (ev.Timestamp - window.duration)).Add
            { Timestamp := ev.Timestamp, UID := ev.UID, Result := ev.Result }).Metrics]))
    rw [h1, h2]
    simp [feedWindow]

/-- The reader that `Engine.evaluateAuthStreak` leaves depends on the reader and the event
only. -/
theorem evaluateAuthStreak_reader (cfg cfg' : Config) (c c' : Cooldown) (clk clk' : Clock)
    (tick tick' : Nat) (reader : ReaderState) (ev : NormalizedEvent) :
    (Engine.evaluateAuthStreak cfg c clk tick reader ev).2.1 =
      (Engine.evaluateAuthStreak cfg' c' clk' tick' reader ev).2.1 := by
  unfold Engine.evaluateAuthStreak
  dsimp only
  split_ifs
  · rfl
  · rfl
  · rfl
  · rfl
  · rcases c.AllowKey clk tick _ cfg.Detection.AlertCooldown with ⟨b, c1, t1⟩
    rcases c'.AllowKey clk' tick' _ cfg'.Detection.AlertCooldown with ⟨b', c1', t1'⟩
    cases b <;> cases b' <;> rfl

/-- The reader that `Engine.getReader` returns depends on the detection section of the
configuration only. -/
theorem getReader_congr (readers : GoMap String ReaderState) (readerID : String)
    (cfg cfg' : Config) (h : cfg.Detection = cfg'.Detection) :
    Engine.getReader readers readerID cfg = Engine.getReader readers readerID cfg' := by
  unfold Engine.getReader
  rw [h]

/-- The event as clamped depends on the detection section of the configuration only. -/
theorem clampEvent_congr (cfg cfg' : Config) (h : cfg.Detection = cfg'.Detection) (now : Time)
    (ev : NormalizedEvent) : clampEvent cfg now ev = clampEvent cfg' now ev := by
  unfold clampEvent
  rw [h]

theorem GoMap.lookup_of_mem {K V : Type} [DecidableEq K] (m : GoMap K V) (hm : m.keys.Nodup)
    (k : K) (v : V) (h : (k, v) ∈ m) : GoMap.lookup m k = some v := by
  induction m with
  | nil => simp at h
  | cons q rest ih =>
    obtain ⟨a, b⟩ := q
    have hnd : a ∉ GoMap.keys rest ∧ (GoMap.keys rest).Nodup := by
      simpa [GoMap.keys] using hm
    unfold GoMap.lookup
    rcases List.mem_cons.1 h with h1 | h1
    · simp only [Prod.mk.injEq] at h1
      simp [h1.1, h1.2]
    · have hk : k ∈ GoMap.keys rest := List.mem_map_of_mem Prod.fst h1
      have hne : ¬ a = k := fun e => hnd.1 (e ▸ hk)
      rw [if_neg hne]
      exact ih hnd.2 h1

/-- Two lists of the same entries with distinct keys are the same map. -/
theorem GoMap.lookup_perm {K V : Type} [DecidableEq K] (m m' : GoMap K V) (hp : m.Perm m')
    (hm : m'.keys.Nodup) (k : K) : GoMap.lookup m k = GoMap.lookup m' k := by
  have hm1 : m.keys.Nodup := (hp.map Prod.fst).nodup_iff.2 hm
  cases h : GoMap.lookup m' k with
  | some v => exact GoMap.lookup_of_mem m hm1 k v (hp.mem_iff.2 (GoMap.lookup_mem m' k v h))
  | none =>
    rw [GoMap.lookup_eq_none_iff] at h ⊢
    intro hk
    exact h ((hp.map Prod.fst).mem_iff.1 hk)

/-- Writing a new value under every key of a list of entries with distinct keys. -/
theorem GoMap.lookup_foldl_set {K V : Type} [DecidableEq K] (f : V → V) (l : GoMap K V)
    (hl : l.keys.Nodup) (ws : GoMap K V) (k : K) :
    GoMap.lookup (l.foldl (fun ws p => GoMap.set ws p.1 (f p.2)) ws) k =
      match GoMap.lookup l k with
      | some v => some (f v)
      | none => GoMap.lookup ws k := by
  induction l generalizing ws with
  | nil => rfl
  | cons q rest ih =>
    obtain ⟨a, b⟩ := q
    have hnd : a ∉ GoMap.keys rest ∧ (GoMap.keys rest).Nodup := by
      simpa [GoMap.keys] using hl
    rw [List.foldl_cons, ih hnd.2]
    by_cases hk : a = k
    · subst hk
      have := (GoMap.lookup_eq_none_iff rest a).2 hnd.1
      simp [this, GoMap.lookup, GoMap.lookup_set]
    · cases hr : GoMap.lookup rest k <;> simp [GoMap.lookup, hk, GoMap.lookup_set, hr]

/-- The reader map after a call of `ProcessEvent` depends on the reader map, the
deduplication cache, the detection section of the configuration, the clock reading at the
start and the event: not on the access-control section, the access-control index or the
cooldown table. -/
theorem ProcessEvent_readers_congr (lib : Library) (e1 e2 : Engine) (clk : Clock) (tick : Nat)
    (ev : NormalizedEvent) (hr : e1.readers = e2.readers) (hd : e1.deDupe = e2.deDupe)
    (hdet : e1.cfg.Detection = e2.cfg.Detection) :
    e1.dropsAsDuplicate lib clk tick ev = e2.dropsAsDuplicate lib clk tick ev ∧
    (Engine.ProcessEvent lib e1 clk tick ev).2.1.readers =
      (Engine.ProcessEvent lib e2 clk tick ev).2.1.readers := by
  have hdup : e1.dropsAsDuplicate lib clk tick ev = e2.dropsAsDuplicate lib clk tick ev := by
    unfold Engine.dropsAsDuplicate
    rw [clampEvent_congr e1.cfg e2.cfg hdet, hd, hdet]
  refine ⟨hdup, ?_⟩
  cases h1 : e1.dropsAsDuplicate lib clk tick ev with
  | true =>
    rw [(ProcessEvent_duplicate lib e1 clk tick ev h1).2,
      (ProcessEvent_duplicate lib e2 clk tick ev (hdup ▸ h1)).2, hr]
  | false =>
    obtain ⟨t, t2, c, a, S, res, -, hS, hres, -, hR⟩ :=
      ProcessEvent_accepted lib e1 clk tick ev h1
    obtain ⟨t', t2', c', a', S', res', -, hS', hres', -, hR'⟩ :=
      ProcessEvent_accepted lib e2 clk tick ev (hdup ▸ h1)
    rw [hR, hR']
    rw [hr, getReader_congr e2.readers ev.ReaderID e1.cfg e2.cfg hdet,
      clampEvent_congr e1.cfg e2.cfg hdet] at *
    have hSS : S.2.1 = S'.2.1 := by
      rw [hS, hS']
      exact evaluateAuthStreak_reader _ _ _ _ _ _ _ _ _ _
    have hw : res.windows = res'.windows := by
      rw [hres, hres', (processWindows_windows _ _ _ _ _).1,
        (processWindows_windows _ _ _ _ _).1, hSS]
    rw [hw, hSS]

/-- The reader of an event after a call of `ProcessEvent` that does not drop it: each of its
windows, as `getReader` returned it, has been fed the clamped event. -/
theorem ProcessEvent_windows (lib : Library) (e : Engine) (he : e.WellKeyed) (clk : Clock)
    (tick : Nat) (ev : NormalizedEvent) (h : e.dropsAsDuplicate lib clk tick ev = false) :
    ∃ r, GoMap.lookup (Engine.ProcessEvent lib e clk tick ev).2.1.readers
        (readerKey ev.ReaderID) = some r ∧
      r.id = (Engine.getReader e.readers ev.ReaderID e.cfg).1.id ∧
      ∀ k, GoMap.lookup r.windows k =
        (GoMap.lookup (Engine.getReader e.readers ev.ReaderID e.cfg).1.windows k).map
          (feedWindow (clampEvent e.cfg (clk tick) ev)) := by
  obtain ⟨t, t2, c, a, S, res, -, hS, hres, -, hR⟩ := ProcessEvent_accepted lib e clk tick ev h
  have hG := getReader_keyed e.readers ev.ReaderID e.cfg he
  have hfr := evaluateAuthStreak_frame e.cfg c clk t2
    (Engine.getReader e.readers ev.ReaderID e.cfg).1 (clampEvent e.cfg (clk tick) ev)
  rw [← hS] at hfr
  refine ⟨ReaderState.mk S.2.1.id res.windows S.2.1.uidFailureStreak,
    by rw [hR, GoMap.lookup_set, if_pos rfl], hfr.1, fun k => ?_⟩
  dsimp only
  have hsp := sortedWindows_spec S.2.1
  have hnd : (GoMap.keys S.2.1.sortedWindows).Nodup := by
    have : (GoMap.keys S.2.1.windows).Nodup := by rw [hfr.2]; exact hG.1
    exact (hsp.1.map Prod.fst).nodup_iff.2 this
  rw [hres, (processWindows_windows _ _ _ _ _).1]
  dsimp only
  rw [GoMap.lookup_foldl_set (feedWindow (clampEvent e.cfg (clk tick) ev)) _ hnd,
    GoMap.lookup_perm _ _ hsp.1 (by rw [hfr.2]; exact hG.1), hfr.2]
  cases GoMap.lookup (Engine.getReader e.readers ev.ReaderID e.cfg).1.windows k <;> rfl

/-- For an event without a reader identifier, `ProcessEvent` leaves the metrics sink as it
is: `metrics.Store.Update` is called with the identifier of the event and returns at
once. -/
theorem ProcessEvent_anonymous_metrics (lib : Library) (e : Engine) (clk : Clock) (tick : Nat)
    (ev : NormalizedEvent) (h : ev.ReaderID = "") :
    (Engine.ProcessEvent lib e clk tick ev).2.1.metrics = e.metrics := by
  unfold Engine.ProcessEvent
  dsimp only
  rw [h]
  generalize NormalizedEvent.mk (clampTimestamp ev.Timestamp (clk tick)
    e.cfg.Detection.MaxClockSkew e.cfg.Detection.MaxFutureSkew) "" ev.UID ev.Result
    ev.ErrorCode ev.Source ev.Raw = ev1
  rcases hD : Engine.isDuplicate lib e.deDupe clk (tick + 1) ev1 e.cfg.Detection.DedupeWindow
    with ⟨dup, dd, t1⟩
  cases dup with
  | true => rfl
  | false =>
    dsimp only
    split_ifs
    · simp [MetricsStore.Update]
    · rfl

/-! ## Windows of reachable engine states -/

theorem feedWindow_duration (ev : NormalizedEvent) (w : WindowState) :
    (feedWindow ev w).duration = w.duration := by
  rw [feedWindow, Add_duration, Evict_duration]

theorem feedWindow_consistent (ev : NormalizedEvent) (w : WindowState) (hw : w.Consistent) :
    (feedWindow ev w).Consistent :=
  Add_consistent _ _ (Evict_consistent _ _ hw)

/-- The live entries of a window after it has been fed an event: the old ones that are not
older than the window, then the entry of the event. -/
theorem feedWindow_live (ev : NormalizedEvent) (w : WindowState) (hw : w.Consistent) :
    (feedWindow ev w).live =
      w.live.dropWhile (fun x => decide (x.Timestamp < ev.Timestamp - w.duration)) ++
        [toEntry ev] := by
  rw [feedWindow, Add_live _ _ (Evict_consistent _ _ hw).head_le, Evict_live]
  rfl

/-- The windows of the reader that `Engine.getReader` returns are those the reader held or
new ones. -/
theorem getReader_window_cases (readers : GoMap String ReaderState) (readerID : String)
    (cfg : Config) (k : Int) (w : WindowState)
    (h : GoMap.lookup (Engine.getReader readers readerID cfg).1.windows k = some w) :
    (∃ r, GoMap.lookup readers (readerKey readerID) = some r ∧
      GoMap.lookup r.windows k = some w) ∨
    ∃ d ∈ cfg.Detection.Windows, w = NewWindowState d := by
  rw [getReader_windows] at h
  cases hr : GoMap.lookup readers (readerKey readerID) with
  | some r =>
    simp only [hr] at h
    cases hw : GoMap.lookup r.windows k with
    | some w0 =>
      simp only [hw, Option.some.injEq] at h
      subst h
      exact Or.inl ⟨r, rfl, hw⟩
    | none =>
      simp only [hw] at h
      cases hf : cfg.Detection.Windows.find?
          (fun d => decide (truncToInt (Duration.Seconds d) = k)) with
      | none => simp [hf] at h
      | some d =>
        simp only [hf, Option.map_some', Option.some.injEq] at h
        exact Or.inr ⟨d, List.mem_of_find?_eq_some hf, h.symm⟩
  | none =>
    simp only [hr] at h
    cases hf : cfg.Detection.Windows.reverse.find?
        (fun d => decide (truncToInt (Duration.Seconds d) = k)) with
    | none => simp [hf] at h
    | some d =>
      simp only [hf, Option.some.injEq] at h
      exact Or.inr ⟨d, List.mem_reverse.1 (List.mem_of_find?_eq_some hf), h.symm⟩

/-- The windows of the reader that `Engine.getReader` returns are consistent when those of
the readers of the map are. -/
theorem getReader_consistent (readers : GoMap String ReaderState) (readerID : String)
    (cfg : Config) (hc : ∀ p ∈ readers, ∀ q ∈ p.2.windows, q.2.Consistent) (k : Int)
    (w : WindowState)
    (h : GoMap.lookup (Engine.getReader readers readerID cfg).1.windows k = some w) :
    w.Consistent := by
  rcases getReader_window_cases readers readerID cfg k w h with ⟨r, hr, hw⟩ | ⟨d, _, rfl⟩
  · exact hc _ (GoMap.lookup_mem _ _ _ hr) _ (GoMap.lookup_mem _ _ _ hw)
  · exact NewWindowState_consistent d

/-- A call of `ProcessEvent` keeps the windows of all readers consistent. -/
theorem ProcessEvent_consistent (lib : Library) (e : Engine) (hk : e.WellKeyed)
    (hc : e.Consistent) (clk : Clock) (tick : Nat) (ev : NormalizedEvent) :
    (Engine.ProcessEvent lib e clk tick ev).2.1.Consistent := by
  cases hdup : e.dropsAsDuplicate lib clk tick ev with
  | true =>
    rw [(ProcessEvent_duplicate lib e clk tick ev hdup).2]
    exact hc
  | false =>
    have hk' := (ProcessEvent_order lib e hk clk tick ev).1
    obtain ⟨r, hr, _, hrw⟩ := ProcessEvent_windows lib e hk clk tick ev hdup
    obtain ⟨t, t2, c, a, S, res, -, -, -, -, hR⟩ := ProcessEvent_accepted lib e clk tick ev hdup
    have hG := getReader_keyed e.readers ev.ReaderID e.cfg hk
    intro p hp q hq
    have hp' := hp
    rw [hR] at hp
    rcases GoMap.mem_set _ _ _ p hp with h1 | h1
    · have hr' : r = p.2 := by
        rw [hR, GoMap.lookup_set, if_pos rfl] at hr
        simp only [Option.some.injEq] at hr
        rw [← hr, h1]
      have hl := GoMap.lookup_of_mem p.2.windows (hk' p hp').1 q.1 q.2 hq
      rw [← hr', hrw] at hl
      cases hg : GoMap.lookup (Engine.getReader e.readers ev.ReaderID e.cfg).1.windows q.1 with
      | none => simp [hg] at hl
      | some w =>
        simp only [hg, Option.map_some', Option.some.injEq] at hl
        rw [← hl]
        exact feedWindow_consistent _ _ (getReader_consistent _ _ _ hc _ _ hg)
    · rw [getReader_snd] at h1
      rcases GoMap.mem_set _ _ _ p h1 with h2 | h2
      · rw [h2] at hq
        exact getReader_consistent _ _ _ hc _ _ (GoMap.lookup_of_mem _ hG.1 q.1 q.2 hq)
      · exact hc p h2 q hq

/-- In every reachable engine state the windows of all readers are consistent. -/
theorem EngineReachable.windowsConsistent {e : Engine} (h : EngineReachable e) : e.Consistent := by
  induction h with
  | new cfg ms as => intro p hp; simp [NewEngine] at hp
  | process lib e clk tick ev he ih => exact ProcessEvent_consistent lib e he.wellKeyed ih _ _ _
  | updateConfig e cfg _ ih => exact ih
  | reset e _ _ => intro p hp; simp [Engine.Reset] at hp

/-! ## Window alerts with the cooldown switched off -/

/-- With the cooldown switched off, `Engine.evaluate` emits whenever the window is not empty
and a rule fires. -/
theorem evaluate_off (cfg : Config) (cooldown : Cooldown) (clk : Clock) (tick : Nat)
    (readerID : String) (wm : WindowMetrics) (hoff : cfg.Detection.AlertCooldown ≤ 0)
    (ha : wm.Attempts ≠ 0) (hf : firedRules cfg wm ≠ []) :
    ∃ alert, (Engine.evaluate cfg cooldown clk tick readerID wm).1 = some alert ∧
      alert.AlertType = "possible_bruteforce" ∧ alert.ReaderID = readerID ∧
      alert.WindowSec = wm.WindowSec ∧ alert.Metrics = wm ∧
      alert.Rules = firedRules cfg wm := by
  rw [evaluate_eq, if_neg ha, if_neg hf]
  have hA : cooldown.Allow clk tick readerID wm.WindowSec cfg.Detection.AlertCooldown =
      (true, cooldown, tick) := by
    unfold Cooldown.Allow
    rw [if_pos hoff]
  rw [hA]
  exact ⟨_, rfl, rfl, rfl, rfl, rfl, rfl⟩

/-- The window loop of `ProcessEvent` only adds alerts. -/
theorem processWindows_alerts_mono (cfg : Config) (clk : Clock) (ev : NormalizedEvent)
    (l : List (Int × WindowState)) (acc : WindowsResult) (a : Alert) (ha : a ∈ acc.alerts) :
    a ∈ (processWindows cfg clk ev l acc).alerts := by
  induction l generalizing acc with
  | nil => exact ha
  | cons p rest ih =>
    obtain ⟨k, window⟩ := p
    unfold processWindows
    dsimp only
    rcases hE : Engine.evaluate cfg acc.cooldown clk acc.tick ev.ReaderID
      ((window.Evict (ev.Timestamp - window.duration)).Add
        { Timestamp := ev.Timestamp, UID := ev.UID, Result := ev.Result }).Metrics
      with ⟨alert, c1, t1⟩
    dsimp only
    exact ih _ (List.mem_append_left _ ha)

/-- With the cooldown switched off, the window loop of `ProcessEvent` emits an alert for
every window it visits that is not empty and for which a rule fires. -/
theorem processWindows_fires (cfg : Config) (clk : Clock) (ev : NormalizedEvent)
    (hoff : cfg.Detection.AlertCooldown ≤ 0) (l : List (Int × WindowState))
    (acc : WindowsResult) (p : Int × WindowState) (hp : p ∈ l)
    (ha : (feedWindow ev p.2).Metrics.Attempts ≠ 0)
    (hf : firedRules cfg (feedWindow ev p.2).Metrics ≠ []) :
    ∃ a ∈ (processWindows cfg clk ev l acc).alerts,
      a.AlertType = "possible_bruteforce" ∧ a.ReaderID = ev.ReaderID ∧
      a.WindowSec = (feedWindow ev p.2).Metrics.WindowSec ∧
      a.Metrics = (feedWindow ev p.2).Metrics ∧
      a.Rules = firedRules cfg (feedWindow ev p.2).Metrics := by
  induction l generalizing acc with
  | nil => simp at hp
  | cons q rest ih =>
    obtain ⟨k, window⟩ := q
    unfold processWindows
    dsimp only
    rcases List.mem_cons.1 hp with h1 | h1
    · subst h1
      obtain ⟨alert, h2, h3⟩ := evaluate_off cfg acc.cooldown clk acc.tick ev.ReaderID
        (feedWindow ev window).Metrics hoff ha hf
      change (Engine.evaluate cfg acc.cooldown clk acc.tick ev.ReaderID
        ((window.Evict (ev.Timestamp - window.duration)).Add
          { Timestamp := ev.Timestamp, UID := ev.UID, Result := ev.Result }).Metrics).1 =
            some alert at h2
      rcases hE : Engine.evaluate cfg acc.cooldown clk acc.tick ev.ReaderID
        ((window.Evict (ev.Timestamp - window.duration)).Add
          { Timestamp := ev.Timestamp, UID := ev.UID, Result := ev.Result }).Metrics
        with ⟨al, c1, t1⟩
      rw [hE] at h2
      simp only at h2
      subst h2
      dsimp only
      exact ⟨alert, processWindows_alerts_mono _ _ _ _ _ _ (by simp), h3⟩
    · rcases hE : Engine.evaluate cfg acc.cooldown clk acc.tick ev.ReaderID
        ((window.Evict (ev.Timestamp - window.duration)).Add
          { Timestamp := ev.Timestamp, UID := ev.UID, Result := ev.Result }).Metrics
        with ⟨al, c1, t1⟩
      dsimp only
      exact ih _ h1

/-- With the cooldown switched off, `ProcessEvent` returns a window alert for every window
of the reader of an accepted event that a rule fires for. -/
theorem ProcessEvent_fires (lib : Library) (e : Engine) (hk : e.WellKeyed) (clk : Clock)
    (tick : Nat) (ev : NormalizedEvent) (hdup : e.dropsAsDuplicate lib clk tick ev = false)
    (hoff : e.cfg.Detection.AlertCooldown ≤ 0) (k : Int) (w : WindowState)
    (hw : GoMap.lookup (Engine.getReader e.readers ev.ReaderID e.cfg).1.windows k = some w)
    (ha : (feedWindow (clampEvent e.cfg (clk tick) ev) w).Metrics.Attempts ≠ 0)
    (hf : firedRules e.cfg (feedWindow (clampEvent e.cfg (clk tick) ev) w).Metrics ≠ []) :
    ∃ a ∈ (Engine.ProcessEvent lib e clk tick ev).1,
      a.AlertType = "possible_bruteforce" ∧ a.ReaderID = ev.ReaderID ∧ a.WindowSec = k ∧
      a.Metrics = (feedWindow (clampEvent e.cfg (clk tick) ev) w).Metrics ∧
      a.Rules = firedRules e.cfg (feedWindow (clampEvent e.cfg (clk tick) ev) w).Metrics := by
  obtain ⟨t, t2, c, a, S, res, -, hS, hres, hA, -⟩ := ProcessEvent_accepted lib e clk tick ev hdup
  have hG := getReader_keyed e.readers ev.ReaderID e.cfg hk
  have hfr := evaluateAuthStreak_frame e.cfg c clk t2
    (Engine.getReader e.readers ev.ReaderID e.cfg).1 (clampEvent e.cfg (clk tick) ev)
  rw [← hS] at hfr
  have hmem : (k, w) ∈ S.2.1.sortedWindows := by
    apply (sortedWindows_spec S.2.1).1.mem_iff.2
    rw [hfr.2]
    exact GoMap.lookup_mem _ _ _ hw
  obtain ⟨al, h1, h2, h3, h4, h5, h6⟩ := processWindows_fires e.cfg clk
    (clampEvent e.cfg (clk tick) ev) hoff S.2.1.sortedWindows
    (WindowsResult.mk S.2.1.windows S.2.2.1 S.2.2.2 (a.toList ++ S.1.toList) []) (k, w) hmem
    ha hf
  rw [← hres, ← hA] at h1
  refine ⟨al, h1, h2, h3, ?_, h5, h6⟩
  rw [h4]
  show truncToInt (Duration.Seconds (feedWindow _ w).duration) = k
  rw [feedWindow_duration]
  exact hG.2 (k, w) (GoMap.lookup_mem _ _ _ hw)

/-! ## Metrics of particular windows -/

theorem gapsSeconds_eq_map (ts : List Time) :
    gapsSeconds ts = (timeGaps ts).map (fun g => max 0 (Duration.Seconds g)) := by
  induction ts with
  | nil => rfl
  | cons t0 rest ih =>
    cases rest with
    | nil => rfl
    | cons t1 rest1 =>
      rw [gapsSeconds, timeGaps, List.map_cons, ih]

/-- The population variance of a list of equal numbers is 0. -/
theorem populationVariance_const (ds : List ℚ) (h : ∀ x ∈ ds, ∀ y ∈ ds, x = y) :
    populationVariance ds = 0 := by
  unfold populationVariance
  cases ds with
  | nil => simp
  | cons c rest =>
    have hall : ∀ x ∈ c :: rest, x = c := fun x hx => h x hx c (List.mem_cons_self _ _)
    have hsum : (c :: rest).sum = ((c :: rest).length : ℚ) * c := by
      rw [List.sum_eq_card_nsmul (c :: rest) c hall, nsmul_eq_mul]
    have hn : (((c :: rest).length : ℕ) : ℚ) ≠ 0 := by
      simp only [List.length_cons, Nat.cast_add, Nat.cast_one, ne_eq]
      positivity
    have hmean : (c :: rest).sum / ((c :: rest).length : ℚ) = c := by
      rw [hsum]
      field_simp
    simp only [hmean]
    have hz : ((c :: rest).map (fun d => (d - c) ^ 2)).sum = 0 := by
      apply List.sum_eq_zero
      intro x hx
      obtain ⟨d, hd, rfl⟩ := List.mem_map.1 hx
      rw [hall d hd]
      ring
    rw [hz, zero_div]

/-- The timing variance of a window whose live entries are equally spaced is 0. -/
theorem Metrics_TV_equallySpaced (w : WindowState)
    (h : equallySpaced (w.live.map (fun x => x.Timestamp))) : w.Metrics.TV = 0 := by
  have htv : w.Metrics.TV = varianceDelta w.events w.head := rfl
  rw [htv, varianceDelta_eq]
  split_ifs
  · rfl
  · apply populationVariance_const
    intro x hx y hy
    rw [gapsSeconds_eq_map] at hx hy
    obtain ⟨a, ha, rfl⟩ := List.mem_map.1 hx
    obtain ⟨b, hb, rfl⟩ := List.mem_map.1 hy
    rw [h a ha b hb]

/-- The rules that the rule table fires. -/
theorem mem_firedRules (cfg : Config) (wm : WindowMetrics) :
    (wm.APS > cfg.Detection.APSThreshold → "excessive_attempt_rate" ∈ firedRules cfg wm) ∧
    (wm.UDS > cfg.Detection.UIDDiversityThreshold →
      wm.APS > cfg.Detection.APSElevatedThreshold → "uid_spraying" ∈ firedRules cfg wm) ∧
    (wm.TV < cfg.Detection.TimingVarianceThreshold →
      wm.APS > cfg.Detection.APSElevatedThreshold → "machine_timing" ∈ firedRules cfg wm) := by
  unfold firedRules ruleTable
  refine ⟨fun h => ?_, fun h1 h2 => ?_, fun h1 h2 => ?_⟩
  · apply List.mem_map.2
    exact ⟨("excessive_attempt_rate", true), by simp [h], rfl⟩
  · apply List.mem_map.2
    exact ⟨("uid_spraying", true), by simp [h1, h2], rfl⟩
  · apply List.mem_map.2
    exact ⟨("machine_timing", true), by simp [h1, h2], rfl⟩

/-! ## A run of events on a new reader -/

theorem processAll_reachable (lib : Library) (clk : Clock) (evs : List NormalizedEvent)
    (e : Engine) (tick : Nat) (he : EngineReachable e) :
    EngineReachable (processAll lib clk e tick evs).2.1 ∧
    (processAll lib clk e tick evs).2.1.cfg = e.cfg := by
  induction evs generalizing e tick with
  | nil => exact ⟨he, rfl⟩
  | cons ev rest ih =>
    rw [processAll_cons]
    dsimp only
    obtain ⟨h1, h2⟩ := ih (Engine.ProcessEvent lib e clk tick ev).2.1
      (Engine.ProcessEvent lib e clk tick ev).2.2 (EngineReachable.process lib e clk tick ev he)
    exact ⟨h1, h2.trans (ProcessEvent_frame lib e clk tick ev).1⟩

theorem dropsAsDuplicate_off (lib : Library) (e : Engine) (clk : Clock) (tick : Nat)
    (ev : NormalizedEvent) (h : e.cfg.Detection.DedupeWindow ≤ 0) :
    e.dropsAsDuplicate lib clk tick ev = false := by
  unfold Engine.dropsAsDuplicate
  rw [isDuplicate_off _ _ _ _ _ _ h]

/-- One accepted event that clamping leaves as it is, on a window none of whose live
entries is older than the window: the event is added and nothing is evicted. -/
theorem tracked_step (lib : Library) (e : Engine) (he : EngineReachable e) (clk : Clock)
    (tick : Nat) (ev : NormalizedEvent) (hdd : e.cfg.Detection.DedupeWindow ≤ 0)
    (hclamp : clampEvent e.cfg (clk tick) ev = ev) (k : Int) (w0 : WindowState)
    (hw0 : GoMap.lookup (Engine.getReader e.readers ev.ReaderID e.cfg).1.windows k = some w0)
    (hkeep : ∀ x ∈ w0.live, ev.Timestamp - x.Timestamp ≤ w0.duration) :
    (Engine.ProcessEvent lib e clk tick ev).2.1.windowAt (readerKey ev.ReaderID) k =
      some (feedWindow ev w0) ∧
    (feedWindow ev w0).live = w0.live ++ [toEntry ev] ∧ (feedWindow ev w0).Consistent ∧
    (feedWindow ev w0).duration = w0.duration := by
  have hc0 := getReader_consistent _ _ _ he.windowsConsistent k w0 hw0
  obtain ⟨r, hr, _, hrw⟩ := ProcessEvent_windows lib e he.wellKeyed clk tick ev
    (dropsAsDuplicate_off lib e clk tick ev hdd)
  rw [hclamp] at hrw
  refine ⟨?_, ?_, feedWindow_consistent ev w0 hc0, feedWindow_duration ev w0⟩
  · unfold Engine.windowAt
    rw [hr]
    dsimp only
    rw [hrw k, hw0]
    rfl
  · rw [feedWindow_live ev w0 hc0]
    congr 1
    cases hl : w0.live with
    | nil => rfl
    | cons x rest =>
      have hx := hkeep x (by rw [hl]; exact List.mem_cons_self _ _)
      have hnot : ¬ x.Timestamp < ev.Timestamp - w0.duration := by
        have h1 : ev.Timestamp - w0.duration ≤ x.Timestamp :=
          sub_le_comm.1 hx
        exact not_lt.2 h1
      rw [List.dropWhile_cons]
      simp [hnot]

/-- The window that `getReader` returns for a reader whose window is tracked: a new one for
a new reader, the tracked one otherwise. -/
theorem tracked_window (e : Engine) (rid : String) (d : Duration) (entries : List EventEntry)
    (hd : d ∈ e.cfg.Detection.Windows)
    (hnd : (e.cfg.Detection.Windows.map (fun x => truncToInt (Duration.Seconds x))).Nodup)
    (he : EngineReachable e)
    (hI : (entries = [] ∧ GoMap.lookup e.readers (readerKey rid) = none) ∨
      ∃ w, e.windowAt (readerKey rid) (truncToInt (Duration.Seconds d)) = some w ∧
        w.duration = d ∧ w.live = entries) :
    ∃ w0, GoMap.lookup (Engine.getReader e.readers rid e.cfg).1.windows
        (truncToInt (Duration.Seconds d)) = some w0 ∧ w0.duration = d ∧ w0.live = entries := by
  obtain ⟨_, h2, h3⟩ := getReader_contract e.readers rid e.cfg he.wellKeyed
  rcases hI with ⟨h0, hnone⟩ | ⟨w, hw, hwd, hwl⟩
  · refine ⟨NewWindowState d, h2 hnd d hd (fun r hr => ?_), rfl, h0.symm ▸ rfl⟩
    rw [hnone] at hr
    simp at hr
  · unfold Engine.windowAt at hw
    cases hr : GoMap.lookup e.readers (readerKey rid) with
    | none => simp [hr] at hw
    | some r =>
      simp only [hr] at hw
      exact ⟨w, h3 r hr _ w hw, hwd, hwl⟩

/-- A run of events of one reader that deduplication and clamping leave as they are, none
more than the window length after an earlier one: the window holds the entries of all of
them. -/
theorem tracked_run (lib : Library) (clk : Clock) (rid : String) (d : Duration)
    (evs : List NormalizedEvent) (e : Engine) (tick : Nat) (entries : List EventEntry)
    (he : EngineReachable e) (hdd : e.cfg.Detection.DedupeWindow ≤ 0)
    (hd : d ∈ e.cfg.Detection.Windows)
    (hnd : (e.cfg.Detection.Windows.map (fun x => truncToInt (Duration.Seconds x))).Nodup)
    (hI : (entries = [] ∧ GoMap.lookup e.readers (readerKey rid) = none) ∨
      ∃ w, e.windowAt (readerKey rid) (truncToInt (Duration.Seconds d)) = some w ∧
        w.duration = d ∧ w.live = entries)
    (hev : ∀ ev ∈ evs, ev.ReaderID = rid ∧ ∀ now, clampEvent e.cfg now ev = ev)
    (hold : ∀ x ∈ entries, ∀ ev ∈ evs, ev.Timestamp - x.Timestamp ≤ d)
    (hpair : evs.Pairwise (fun a b => b.Timestamp - a.Timestamp ≤ d)) :
    (entries ++ evs.map toEntry = [] ∧
      GoMap.lookup (processAll lib clk e tick evs).2.1.readers (readerKey rid) = none) ∨
    ∃ w, (processAll lib clk e tick evs).2.1.windowAt (readerKey rid)
        (truncToInt (Duration.Seconds d)) = some w ∧
      w.duration = d ∧ w.live = entries ++ evs.map toEntry := by
  induction evs generalizing e tick entries with
  | nil => simpa using hI
  | cons ev rest ih =>
    rw [processAll_cons]
    dsimp only
    obtain ⟨hrid, hclamp⟩ := hev ev (List.mem_cons_self _ _)
    obtain ⟨w0, hw0, hw0d, hw0l⟩ := tracked_window e rid d entries hd hnd he hI
    rw [List.pairwise_cons] at hpair
    have hkeep : ∀ x ∈ w0.live, ev.Timestamp - x.Timestamp ≤ w0.duration := by
      intro x hx
      rw [hw0d]
      rw [hw0l] at hx
      exact hold x hx ev (List.mem_cons_self _ _)
    rw [← hrid] at hw0
    obtain ⟨h1, h2, _, h4⟩ := tracked_step lib e he clk tick ev hdd (hclamp _) _ w0 hw0 hkeep
    rw [hrid] at h1
    have hcfg := (ProcessEvent_frame lib e clk tick ev).1
    have hnext := ih (Engine.ProcessEvent lib e clk tick ev).2.1
      (Engine.ProcessEvent lib e clk tick ev).2.2 (entries ++ [toEntry ev])
      (EngineReachable.process lib e clk tick ev he) (by rw [hcfg]; exact hdd)
      (by rw [hcfg]; exact hd) (by rw [hcfg]; exact hnd)
      (Or.inr ⟨feedWindow ev w0, h1, h4.trans hw0d, by rw [h2, hw0l]⟩)
      (fun x hx => by
        rw [hcfg]
        exact hev x (List.mem_cons_of_mem _ hx))
      (fun x hx y hy => by
        rcases List.mem_append.1 hx with h | h
        · exact hold x h y (List.mem_cons_of_mem _ hy)
        · simp only [List.mem_singleton] at h
          rw [h]
          exact hpair.1 y hy)
      hpair.2
    simpa [List.append_assoc] using hnext

/-- In a list of events with non-decreasing timestamps whose last is at most `d` after the
first, no event is more than `d` after an earlier one. -/
theorem pairwise_of_sorted_span (pre : List NormalizedEvent) (last : NormalizedEvent)
    (d : Duration)
    (hsorted : ((pre ++ [last]).map (fun ev => ev.Timestamp)).Sorted (fun a b => a ≤ b))
    (hspan : ∀ first ∈ (pre ++ [last]).head?, last.Timestamp - first.Timestamp ≤ d) :
    (pre ++ [last]).Pairwise (fun a b => b.Timestamp - a.Timestamp ≤ d) := by
  have hs : (pre ++ [last]).Pairwise (fun a b => a.Timestamp ≤ b.Timestamp) :=
    List.pairwise_map.1 hsorted
  rw [List.pairwise_append] at hs
  obtain ⟨hpre, _, hlast⟩ := hs
  have hlast' : ∀ a ∈ pre, a.Timestamp ≤ last.Timestamp :=
    fun a ha => hlast a ha last (List.mem_singleton.2 rfl)
  have hfirst : ∀ a ∈ pre, last.Timestamp - a.Timestamp ≤ d := by
    cases pre with
    | nil => intro a ha; simp at ha
    | cons first rest =>
      intro a ha
      have h1 : last.Timestamp - first.Timestamp ≤ d := hspan first (by simp)
      have h2 : first.Timestamp ≤ a.Timestamp := by
        rcases List.mem_cons.1 ha with h | h
        · rw [h]
        · exact (List.pairwise_cons.1 hpre).1 a h
      have h3 : last.Timestamp - a.Timestamp ≤ last.Timestamp - first.Timestamp :=
        sub_le_sub_left h2 _
      exact le_trans h3 h1
  rw [List.pairwise_append]
  refine ⟨?_, List.pairwise_singleton _ _, fun a ha b hb => ?_⟩
  · refine List.Pairwise.imp_of_mem ?_ hpre
    intro a b ha hb _
    have h1 := hfirst a ha
    have h2 := hlast' b hb
    have h3 : b.Timestamp - a.Timestamp ≤ last.Timestamp - a.Timestamp :=
      sub_le_sub_right h2 _
    exact le_trans h3 h1
  · rw [List.mem_singleton.1 hb]
    exact hfirst a ha

/-- A run of events on a new reader, with deduplication and cooldown switched off and
clamping leaving the events as they are: after the last event the window holds the entries
of all events, and the last call returns a window alert with the rules that fire for its
metrics, if any does. -/
theorem fresh_run (lib : Library) (clk : Clock) (rid : String) (d : Duration)
    (pre : List NormalizedEvent) (last : NormalizedEvent) (e : Engine) (tick : Nat)
    (he : EngineReachable e) (hfresh : GoMap.lookup e.readers (readerKey rid) = none)
    (hdd : e.cfg.Detection.DedupeWindow ≤ 0) (hoff : e.cfg.Detection.AlertCooldown ≤ 0)
    (hd : d ∈ e.cfg.Detection.Windows)
    (hnd : (e.cfg.Detection.Windows.map (fun x => truncToInt (Duration.Seconds x))).Nodup)
    (hev : ∀ ev ∈ pre ++ [last], ev.ReaderID = rid ∧ ∀ now, clampEvent e.cfg now ev = ev)
    (hpair : (pre ++ [last]).Pairwise (fun a b => b.Timestamp - a.Timestamp ≤ d)) :
    ∃ w, (Engine.ProcessEvent lib (processAll lib clk e tick pre).2.1 clk
        (processAll lib clk e tick pre).2.2 last).2.1.windowAt (readerKey rid)
        (truncToInt (Duration.Seconds d)) = some w ∧
      w.duration = d ∧ w.live = (pre ++ [last]).map toEntry ∧ w.Consistent ∧
      (firedRules e.cfg w.Metrics ≠ [] →
        ∃ a ∈ (Engine.ProcessEvent lib (processAll lib clk e tick pre).2.1 clk
            (processAll lib clk e tick pre).2.2 last).1,
          a.AlertType = "possible_bruteforce" ∧
          a.WindowSec = truncToInt (Duration.Seconds d) ∧ a.Metrics = w.Metrics ∧
          a.Rules = firedRules e.cfg w.Metrics) := by
  rw [List.pairwise_append] at hpair
  obtain ⟨hp1, _, hp3⟩ := hpair
  obtain ⟨hre, hcfg⟩ := processAll_reachable lib clk pre e tick he
  have hrun := tracked_run lib clk rid d pre e tick [] he hdd hd hnd (Or.inl ⟨rfl, hfresh⟩)
    (fun ev h => hev ev (List.mem_append_left _ h)) (fun x hx => by simp at hx) hp1
  simp only [List.nil_append] at hrun
  obtain ⟨hlrid, hlclamp⟩ := hev last (List.mem_append_right _ (List.mem_singleton.2 rfl))
  obtain ⟨w0, hw0, hw0d, hw0l⟩ := tracked_window (processAll lib clk e tick pre).2.1 rid d
    (pre.map toEntry) (by rw [hcfg]; exact hd) (by rw [hcfg]; exact hnd) hre hrun
  have hkeep : ∀ x ∈ w0.live, last.Timestamp - x.Timestamp ≤ w0.duration := by
    intro x hx
    rw [hw0l] at hx
    obtain ⟨ev, hev1, rfl⟩ := List.mem_map.1 hx
    rw [hw0d]
    exact hp3 ev hev1 last (List.mem_singleton.2 rfl)
  rw [← hlrid] at hw0
  have hclamp1 : clampEvent (processAll lib clk e tick pre).2.1.cfg
      (clk (processAll lib clk e tick pre).2.2) last = last := by
    rw [hcfg]
    exact hlclamp _
  obtain ⟨h1, h2, h3, h4⟩ := tracked_step lib _ hre clk (processAll lib clk e tick pre).2.2 last
    (by rw [hcfg]; exact hdd) hclamp1 _ w0 hw0 hkeep
  rw [hlrid] at h1
  refine ⟨feedWindow last w0, h1, h4.trans hw0d, ?_, h3, fun hf => ?_⟩
  · rw [h2, hw0l, List.map_append]
    rfl
  · have ha : (feedWindow last w0).Metrics.Attempts ≠ 0 := by
      show (feedWindow last w0).attempts ≠ 0
      rw [h3.attempts_eq, h2]
      simp only [List.length_append, List.length_singleton, Nat.cast_add, Nat.cast_one]
      omega
    have hfire := ProcessEvent_fires lib _ hre.wellKeyed clk
      (processAll lib clk e tick pre).2.2 last
      (dropsAsDuplicate_off lib _ clk _ last (by rw [hcfg]; exact hdd))
      (by rw [hcfg]; exact hoff) _ w0 hw0
    rw [hclamp1, hcfg] at hfire
    obtain ⟨a, ha1, ha2, _, ha4, ha5, ha6⟩ := hfire ha hf
    exact ⟨a, ha1, ha2, ha4, ha5, ha6⟩

/-! ## Metrics of a window that holds given entries -/

/-- Clamping leaves an event with a timestamp as it is when both skew bounds are switched
off. -/
theorem clampEvent_off (cfg : Config) (now : Time) (ev : NormalizedEvent)
    (h1 : cfg.Detection.MaxClockSkew ≤ 0) (h2 : cfg.Detection.MaxFutureSkew ≤ 0)
    (hts : ev.Timestamp ≠ 0) : clampEvent cfg now ev = ev := by
  unfold clampEvent clampTimestamp Time.IsZero
  have h3 : ¬ cfg.Detection.MaxClockSkew > 0 := not_lt.2 h1
  have h4 : ¬ cfg.Detection.MaxFutureSkew > 0 := not_lt.2 h2
  simp [hts, h3, h4]

/-- The attempts and the rate of a consistent window. -/
theorem Consistent.metrics_rate (w : WindowState) (hw : w.Consistent) (h0 : w.live ≠ []) :
    w.attempts = (w.live.length : Int) ∧ w.Metrics.Attempts = (w.live.length : Int) ∧
    w.Metrics.APS = (w.live.length : ℚ) / Duration.Seconds w.duration := by
  have hlen : w.live.length ≠ 0 := fun h => h0 (List.length_eq_zero.1 h)
  refine ⟨hw.attempts_eq, ?_, ?_⟩
  · rw [Consistent.metrics_eq w hw]
    rfl
  · rw [Consistent.metrics_eq w hw]
    simp [recomputeMetrics, hlen]

/-- The UID diversity of a consistent window whose entries carry pairwise distinct,
non-empty UIDs is 1. -/
theorem Consistent.metrics_uds (w : WindowState) (hw : w.Consistent) (h0 : w.live ≠ [])
    (hne : ∀ x ∈ w.live, x.UID ≠ "") (hnd : (w.live.map (fun x => x.UID)).Nodup) :
    w.Metrics.UDS = 1 := by
  have hlen : w.live.length ≠ 0 := fun h => h0 (List.length_eq_zero.1 h)
  have hfilter : (w.live.map (fun e => e.UID)).filter (fun u => decide (u ≠ "")) =
      w.live.map (fun e => e.UID) := by
    apply List.filter_eq_self.2
    intro u hu
    obtain ⟨x, hx, rfl⟩ := List.mem_map.1 hu
    simpa using hne x hx
  rw [Consistent.metrics_eq w hw]
  simp only [recomputeMetrics, hfilter, hnd.dedup, List.length_map, hlen, if_false]
  have : (w.live.length : ℚ) ≠ 0 := by exact_mod_cast hlen
  field_simp

/-! ## The buffer of a window stays within twice its live entries -/

theorem Add_head_bound (w : WindowState) (ev : EventEntry)
    (h : w.head = 0 ∨ 2 * w.head < w.events.length) :
    (w.Add ev).head = 0 ∨ 2 * (w.Add ev).head < (w.Add ev).events.length := by
  rw [Add_head, Add_events, List.length_append, List.length_singleton]
  omega

theorem compact_head_bound (w : WindowState) :
    w.compact.head = 0 ∨ 2 * w.compact.head < w.compact.events.length := by
  unfold WindowState.compact
  split_ifs with h
  · exact Or.inl rfl
  · by_cases h0 : w.head = 0
    · exact Or.inl h0
    · right
      have : ¬ (w.head * 2 ≥ w.events.length) := fun h2 => h ⟨Nat.pos_of_ne_zero h0, h2⟩
      omega

theorem Evict_head_bound (w : WindowState) (cutoff : Time) :
    (w.Evict cutoff).head = 0 ∨ 2 * (w.Evict cutoff).head < (w.Evict cutoff).events.length :=
  compact_head_bound _

theorem Reachable.head_bound {d : Duration} {w : WindowState} (h : Reachable d w) :
    w.head = 0 ∨ 2 * w.head < w.events.length := by
  induction h with
  | init => exact Or.inl rfl
  | add w ev _ ih => exact Add_head_bound w ev ih
  | evict w c _ _ => exact Evict_head_bound w c

/-! ## The alerts sink -/

theorem lastN_length {α : Type} (m : Nat) (l : List α) : (lastN m l).length = min m l.length := by
  simp only [lastN, List.length_drop]; omega

theorem lastN_of_le {α : Type} (m : Nat) (l : List α) (h : l.length ≤ m) : lastN m l = l := by
  simp only [lastN]
  rw [Nat.sub_eq_zero_of_le h, List.drop_zero]

theorem lastN_snoc {α : Type} (m : Nat) (hm : 0 < m) (l : List α) (a : α) :
    lastN m (lastN m l ++ [a]) = lastN m (l ++ [a]) := by
  simp only [lastN, List.length_append, List.length_drop, List.length_singleton]
  by_cases h : l.length ≤ m
  · rw [Nat.sub_eq_zero_of_le h, List.drop_zero, Nat.sub_zero]
  · have h1 : l.length - m ≤ l.length := Nat.sub_le _ _
    rw [List.drop_append_of_le_length (by rw [List.length_drop]; omega), List.drop_drop,
      List.drop_append_of_le_length (by omega)]
    congr 2
    omega

theorem AlertsStore_Add_limit (s : AlertsStore) (a : Alert) : (s.Add a).limit = s.limit := by
  unfold AlertsStore.Add; split_ifs <;> rfl

theorem AlertsStore_Add_buf (s : AlertsStore) (a : Alert) (hl : 0 < s.limit)
    (hb : (s.buf.length : Int) ≤ s.limit) :
    (s.Add a).buf = lastN s.limit.toNat (s.buf ++ [a]) := by
  unfold AlertsStore.Add
  split_ifs with h
  · rw [lastN_of_le]
    rw [List.length_append, List.length_singleton]; omega
  · have he : s.buf.length = s.limit.toNat := by omega
    simp only [lastN, List.length_append, List.length_singleton]
    rw [List.drop_append_of_le_length (by omega)]
    congr 2
    omega

theorem AlertsStore_foldl (as : List Alert) (s : AlertsStore) (hl : 0 < s.limit)
    (hb : (s.buf.length : Int) ≤ s.limit) :
    (as.foldl AlertsStore.Add s).limit = s.limit ∧
    (as.foldl AlertsStore.Add s).buf = lastN s.limit.toNat (s.buf ++ as) := by
  induction as using List.reverseRecOn with
  | nil =>
    refine ⟨rfl, ?_⟩
    rw [List.foldl_nil, List.append_nil, lastN_of_le]; omega
  | append_singleton l a ih =>
    rw [List.foldl_append, List.foldl_cons, List.foldl_nil]
    refine ⟨by rw [AlertsStore_Add_limit, ih.1], ?_⟩
    rw [AlertsStore_Add_buf _ a (by rw [ih.1]; exact hl)
      (by rw [ih.1, ih.2, lastN_length]; omega), ih.1, ih.2, lastN_snoc _ (by omega),
      List.append_assoc]

theorem AlertsStore_List_eq (s : AlertsStore) (k : Int) :
    s.List k = if k ≤ 0 ∨ k > (s.buf.length : Int) then s.buf else lastN k.toNat s.buf := by
  unfold AlertsStore.List
  dsimp only
  split_ifs with h h1 h2
  · omega
  · simp
  · exfalso; omega
  · simp only [lastN]
    congr 1
    omega

theorem AlertsStore_Since_loop (ts : Time) (l out : List Alert) :
    l.foldl (fun out a => if ¬ (a.Timestamp < ts) then out ++ [a] else out) out =
      out ++ l.filter (fun a => decide (ts ≤ a.Timestamp)) := by
  induction l generalizing out with
  | nil => simp
  | cons a rest ih =>
    rw [List.foldl_cons, ih]
    by_cases h : a.Timestamp < ts
    · have h2 : ¬ ts ≤ a.Timestamp := not_le.2 h
      simp [h, h2]
    · have h2 : ts ≤ a.Timestamp := not_lt.1 h
      simp [h, h2]

theorem AlertsStore_Since_eq (s : AlertsStore) (ts : Time) :
    s.Since ts = s.buf.filter (fun a => decide (ts ≤ a.Timestamp)) := by
  unfold AlertsStore.Since
  rw [AlertsStore_Since_loop, List.nil_append]

/-! ## The string that `hashEvent` hashes -/

theorem hashEvent_eq (lib : Library) (ev : NormalizedEvent) :
    hashEvent lib ev = lib.sha256Hex (hashMaterial lib ev) := rfl

theorem bar_split (a a' x x' : List Char) (ha : '|' ∉ a) (ha' : '|' ∉ a')
    (h : a ++ '|' :: x = a' ++ '|' :: x') : a = a' ∧ x = x' := by
  induction a generalizing a' with
  | nil =>
    cases a' with
    | nil => simpa using h
    | cons c rest =>
      simp only [List.nil_append, List.cons_append, List.cons.injEq] at h
      exact absurd (h.1 ▸ List.mem_cons_self _ _) ha'
  | cons c rest ih =>
    cases a' with
    | nil =>
      simp only [List.nil_append, List.cons_append, List.cons.injEq] at h
      exact absurd (h.1 ▸ List.mem_cons_self _ _) ha
    | cons c' rest' =>
      simp only [List.cons_append, List.cons.injEq] at h
      have := ih rest' (fun hm => ha (List.mem_cons_of_mem _ hm))
        (fun hm => ha' (List.mem_cons_of_mem _ hm)) h.2
      exact ⟨by rw [h.1, this.1], this.2⟩

theorem hashMaterial_data (lib : Library) (ev : NormalizedEvent) :
    (hashMaterial lib ev).data = ev.ReaderID.data ++ '|' :: (ev.UID.data ++ '|' ::
      (ev.Result.data ++ '|' :: (ev.ErrorCode.data ++ '|' ::
        (lib.formatRFC3339Nano ev.Timestamp).data))) := by
  simp [hashMaterial, String.intercalate, String.intercalate.go, String.data_append]

/-! ## The cooldown keys -/

theorem digitChar_mod_ne_bar (m : Nat) : Nat.digitChar (m % 10) ≠ '|' := by
  have h : m % 10 < 10 := Nat.mod_lt _ (by decide)
  interval_cases (m % 10) <;> decide

theorem toDigitsCore_bar (fuel n : Nat) (ds : List Char) (hds : '|' ∉ ds) :
    '|' ∉ Nat.toDigitsCore 10 fuel n ds := by
  induction fuel generalizing n ds with
  | zero => simpa [Nat.toDigitsCore] using hds
  | succ f ih =>
    have hd : '|' ∉ Nat.digitChar (n % 10) :: ds := by
      intro hm
      rcases List.mem_cons.1 hm with h | h
      · exact digitChar_mod_ne_bar n h.symm
      · exact hds h
    unfold Nat.toDigitsCore
    dsimp only
    split_ifs
    · exact hd
    · exact ih _ _ hd

theorem toDigitsCore_length_pos (fuel n : Nat) (ds : List Char) (hf : 0 < fuel) :
    ds.length < (Nat.toDigitsCore 10 fuel n ds).length := by
  induction fuel generalizing n ds with
  | zero => omega
  | succ f ih =>
    unfold Nat.toDigitsCore
    dsimp only
    split_ifs with h
    · simp
    · cases f with
      | zero => simp [Nat.toDigitsCore]
      | succ g =>
        have := ih (n / 10) (Nat.digitChar (n % 10) :: ds) (Nat.succ_pos _)
        simp only [List.length_cons] at this
        omega

theorem repr_bar (n : Nat) : '|' ∉ (Nat.repr n).data := by
  simp only [Nat.repr, Nat.toDigits, List.asString]
  exact toDigitsCore_bar _ _ _ (by simp)

theorem repr_eq_zero (n : Nat) (h : Nat.repr n = "0") : n = 0 := by
  have hd : Nat.toDigitsCore 10 (n + 1) n [] = ['0'] := by
    have := congrArg String.data h
    simpa [Nat.repr, Nat.toDigits, List.asString] using this
  unfold Nat.toDigitsCore at hd
  dsimp only at hd
  split_ifs at hd with h0
  · have h1 : Nat.digitChar (n % 10) = '0' := by simpa using hd
    have hlt : n % 10 < 10 := Nat.mod_lt _ (by decide)
    have h2 : n % 10 = 0 := by
      revert h1
      interval_cases (n % 10) <;> decide
    omega
  · exfalso
    have hn : 0 < n := by
      rcases Nat.eq_zero_or_pos n with h | h
      · subst h; simp at h0
      · exact h
    have := toDigitsCore_length_pos n (n / 10) [Nat.digitChar (n % 10)] hn
    rw [hd] at this
    simp at this

theorem itoa_bar (k : Int) : '|' ∉ (itoa k).data := by
  cases k with
  | ofNat n => exact repr_bar n
  | negSucc n =>
    show '|' ∉ ("-" ++ Nat.repr (n + 1)).data
    rw [String.data_append]
    intro h
    rcases List.mem_append.1 h with h | h
    · revert h; decide
    · exact repr_bar _ h

theorem itoa_eq_zero (k : Int) (h : itoa k = itoa 0) : k = 0 := by
  cases k with
  | ofNat n =>
    have : n = 0 := repr_eq_zero n h
    rw [this]; rfl
  | negSucc n =>
    exfalso
    have hd := congrArg String.data h
    have h1 : (itoa (Int.negSucc n)).data = '-' :: (Nat.repr (n + 1)).data := rfl
    have h2 : (itoa 0).data = ['0'] := by decide
    rw [h1, h2] at hd
    simp only [List.cons.injEq] at hd
    exact absurd hd.1 (by decide)

theorem windowSlot_data (r : String) (k : Int) :
    (windowSlot r k).data = r.data ++ '|' :: (itoa k).data := by
  simp [windowSlot, String.data_append]

theorem streakSlot_data (r u : String) :
    (streakSlot r u).data = "authfail".data ++ '|' :: (r.data ++ '|' :: u.data) := by
  simp [streakSlot, String.data_append]

theorem accessSlot_eq (r : String) : accessSlot r = windowSlot r 0 := rfl

theorem count_bar_zero (l : List Char) (h : '|' ∉ l) : l.count '|' = 0 :=
  List.count_eq_zero.2 h

theorem windowSlot_bars (r : String) (k : Int) :
    (windowSlot r k).data.count '|' = r.data.count '|' + 1 := by
  rw [windowSlot_data, List.count_append, List.count_cons_self, count_bar_zero _ (itoa_bar k)]

theorem streakSlot_bars (r u : String) (hu : barFree u) :
    (streakSlot r u).data.count '|' = r.data.count '|' + 2 := by
  rw [streakSlot_data, List.count_append, List.count_cons_self, List.count_append,
    List.count_cons_self, count_bar_zero _ hu, count_bar_zero "authfail".data (by decide)]
  omega

theorem windowSlot_ne_streakSlot (r r' u : String) (k : Int) (hu : barFree u)
    (hr : r.data.count '|' = r'.data.count '|') : windowSlot r k ≠ streakSlot r' u := by
  intro h
  have := congrArg (fun s : String => s.data.count '|') h
  simp only [windowSlot_bars, streakSlot_bars r' u hu] at this
  omega

theorem windowSlot_inj_same (r : String) (k : Int) (h : windowSlot r 0 = windowSlot r k) :
    k = 0 := by
  have hd := congrArg String.data h
  rw [windowSlot_data, windowSlot_data] at hd
  have h2 := List.append_cancel_left hd
  simp only [List.cons.injEq, true_and] at h2
  exact itoa_eq_zero k (String.ext h2.symm)

theorem windowSlot_inj_barFree (r r' : String) (k : Int) (hr : barFree r) (hr' : barFree r')
    (h : windowSlot r 0 = windowSlot r' k) : k = 0 := by
  have hd := congrArg String.data h
  rw [windowSlot_data, windowSlot_data] at hd
  have h2 := (bar_split _ _ _ _ hr hr' hd).2
  exact itoa_eq_zero k (String.ext h2.symm)

theorem normalizeUID_barFree (x : String) : barFree (normalizeUID x) := by
  rw [normalizeUID_eq_keepHex]
  intro h
  have := keepHex_upper x '|' h
  revert this; decide

theorem windowSec_pos (d : Duration) (hd : (1000000000 : Int) ≤ d) :
    truncToInt (Duration.Seconds d) ≠ 0 := by
  have h0 : (0 : Int) ≤ d := le_trans (by norm_num) hd
  rw [truncSeconds_eq, if_pos h0]
  have h1 : (1 : Int) ≤ d / 1000000000 := by
    rw [Int.le_ediv_iff_mul_le (by norm_num)]
    simpa using hd
  intro h
  rw [h] at h1
  exact absurd h1 (by norm_num)

theorem AllowKey_other_key (c : Cooldown) (clk : Clock) (tick : Nat) (k1 k2 : String)
    (t : Time) (cd : Duration) (hne : k1 ≠ k2) :
    (Cooldown.AllowKey { last := c.last.set k2 t } clk tick k1 cd).1 =
      (c.AllowKey clk tick k1 cd).1 := by
  unfold Cooldown.AllowKey
  have hl : GoMap.lookup (c.last.set k2 t) k1 = c.last.lookup k1 := by
    rw [GoMap.lookup_set, if_neg (fun h => hne h.symm)]
  by_cases hcd : cd ≤ 0
  · simp [hcd]
  · simp only [hcd, if_false, hl]
    split_ifs <;> rfl

/-! ## The metrics of a window after a run on a new reader -/

theorem windowAt_consistent (e : Engine) (he : e.Consistent) (rk : String) (k : Int)
    (w : WindowState) (h : e.windowAt rk k = some w) : w.Consistent := by
  unfold Engine.windowAt at h
  cases hr : GoMap.lookup e.readers rk with
  | none => simp [hr] at h
  | some r =>
    simp only [hr] at h
    exact he (rk, r) (GoMap.lookup_mem _ _ _ hr) (k, w) (GoMap.lookup_mem _ _ _ h)

/-- A run of events of one reader that the engine did not know, none later than the window
length after an earlier one: the metrics of the window after the run are those of the
entries of all events. -/
theorem fresh_run_metrics (lib : Library) (clk : Clock) (rid : String) (d : Duration)
    (evs : List NormalizedEvent) (e : Engine) (tick : Nat)
    (he : EngineReachable e) (hfresh : GoMap.lookup e.readers (readerKey rid) = none)
    (hdd : e.cfg.Detection.DedupeWindow ≤ 0) (hd : d ∈ e.cfg.Detection.Windows)
    (hnd : (e.cfg.Detection.Windows.map (fun x => truncToInt (Duration.Seconds x))).Nodup)
    (hev : ∀ ev ∈ evs, ev.ReaderID = rid ∧ ∀ now, clampEvent e.cfg now ev = ev)
    (hpair : evs.Pairwise (fun a b => b.Timestamp - a.Timestamp ≤ d)) (hne : evs ≠ []) :
    ∃ w, (processAll lib clk e tick evs).2.1.windowAt (readerKey rid)
        (truncToInt (Duration.Seconds d)) = some w ∧
      w.live = evs.map toEntry ∧ w.Metrics = recomputeMetrics d (evs.map toEntry) := by
  rcases tracked_run lib clk rid d evs e tick [] he hdd hd hnd (Or.inl ⟨rfl, hfresh⟩) hev
    (fun x hx => by simp at hx) hpair with h | ⟨w, h1, h2, h3⟩
  · exfalso
    have := h.1
    simp at this
    exact hne this
  · have hc := windowAt_consistent _ (processAll_reachable lib clk evs e tick he).1.windowsConsistent
      _ _ w h1
    rw [List.nil_append] at h3
    exact ⟨w, h1, h3, by rw [Consistent.metrics_eq w hc, h2, h3]⟩

/-! ## The metrics sink -/

theorem GoMap.keys_set {K V : Type} [DecidableEq K] (m : GoMap K V) (k : K) (v : V) :
    (GoMap.set m k v).keys = if k ∈ m.keys then m.keys else m.keys ++ [k] := by
  induction m with
  | nil => simp [GoMap.set, GoMap.keys]
  | cons p rest ih =>
    obtain ⟨a, b⟩ := p
    unfold GoMap.set
    by_cases h : a = k
    · simp [h, GoMap.keys]
    · have hk : ¬ k = a := fun h2 => h h2.symm
      simp only [h, if_false]
      simp only [GoMap.keys, List.map_cons, List.mem_cons, hk, false_or] at ih ⊢
      rw [ih]
      split_ifs <;> simp

theorem GoMap.keys_delete {K V : Type} [DecidableEq K] (m : GoMap K V) (k : K) :
    (GoMap.delete m k).keys = m.keys.erase k := by
  induction m with
  | nil => simp [GoMap.delete, GoMap.keys]
  | cons p rest ih =>
    obtain ⟨a, b⟩ := p
    unfold GoMap.delete
    by_cases h : a = k
    · simp [h, GoMap.keys]
    · simp only [h, if_false]
      simp only [GoMap.keys, List.map_cons] at ih ⊢
      rw [ih, List.erase_cons_tail (by simpa using h)]

theorem GoMap.length_keys {K V : Type} (m : GoMap K V) : m.keys.length = m.length := by
  simp [GoMap.keys]

theorem GoMap.mem_keys_of_mem {K V : Type} (m : GoMap K V) (p : K × V) (h : p ∈ m) :
    p.1 ∈ m.keys := List.mem_map_of_mem Prod.fst h

theorem GoMap.mem_of_mem_delete {K V : Type} [DecidableEq K] (m : GoMap K V) (k : K)
    (p : K × V) (h : p ∈ GoMap.delete m k) : p ∈ m := by
  induction m with
  | nil => simp [GoMap.delete] at h
  | cons q rest ih =>
    obtain ⟨a, b⟩ := q
    unfold GoMap.delete at h
    split_ifs at h with hk
    · exact List.mem_cons_of_mem _ h
    · rcases List.mem_cons.1 h with h1 | h1
      · exact h1 ▸ List.mem_cons_self _ _
      · exact List.mem_cons_of_mem _ (ih h1)

/-- The loop of `evictOldest` started on a reader already found: it ends on that reader or
on an entry of the list, whose instant is not after that of the start and of any entry. -/
theorem oldest_from (l : List (String × Time)) (acc : String × Time) (hacc : acc.1 ≠ "")
    (hl : ∀ p ∈ l, p.1 ≠ "") :
    (l.foldl (fun (acc : String × Time) entry =>
        if acc.1 = "" ∨ entry.2 < acc.2 then (entry.1, entry.2) else acc) acc = acc ∨
      l.foldl (fun (acc : String × Time) entry =>
        if acc.1 = "" ∨ entry.2 < acc.2 then (entry.1, entry.2) else acc) acc ∈ l) ∧
    (l.foldl (fun (acc : String × Time) entry =>
        if acc.1 = "" ∨ entry.2 < acc.2 then (entry.1, entry.2) else acc) acc).2 ≤ acc.2 ∧
    ∀ p ∈ l, (l.foldl (fun (acc : String × Time) entry =>
        if acc.1 = "" ∨ entry.2 < acc.2 then (entry.1, entry.2) else acc) acc).2 ≤ p.2 := by
  induction l generalizing acc with
  | nil => simp
  | cons q rest ih =>
    have hq : q.1 ≠ "" := hl q (List.mem_cons_self _ _)
    have hrest : ∀ p ∈ rest, p.1 ≠ "" := fun p hp => hl p (List.mem_cons_of_mem _ hp)
    rw [List.foldl_cons]
    by_cases hlt : q.2 < acc.2
    · rw [if_pos (Or.inr hlt)]
      obtain ⟨h1, h2, h3⟩ := ih (q.1, q.2) hq hrest
      refine ⟨Or.inr ?_, le_trans h2 (le_of_lt hlt), fun p hp => ?_⟩
      · rcases h1 with h1 | h1
        · rw [h1]; exact List.mem_cons_self _ _
        · exact List.mem_cons_of_mem _ h1
      · rcases List.mem_cons.1 hp with rfl | hp
        · exact h2
        · exact h3 p hp
    · rw [if_neg (by simp [hacc, hlt])]
      obtain ⟨h1, h2, h3⟩ := ih acc hacc hrest
      refine ⟨?_, h2, fun p hp => ?_⟩
      · rcases h1 with h1 | h1
        · exact Or.inl h1
        · exact Or.inr (List.mem_cons_of_mem _ h1)
      · rcases List.mem_cons.1 hp with rfl | hp
        · exact le_trans h2 (not_lt.1 hlt)
        · exact h3 p hp

/-- The loop of `evictOldest` on a non-empty map without the key `""`: it ends on an entry
whose instant is not after that of any entry. -/
theorem oldest_found (l : List (String × Time)) (hne : l ≠ []) (hl : ∀ p ∈ l, p.1 ≠ "") :
    l.foldl (fun (acc : String × Time) entry =>
        if acc.1 = "" ∨ entry.2 < acc.2 then (entry.1, entry.2) else acc) ("", 0) ∈ l ∧
    ∀ p ∈ l, (l.foldl (fun (acc : String × Time) entry =>
        if acc.1 = "" ∨ entry.2 < acc.2 then (entry.1, entry.2) else acc) ("", 0)).2 ≤ p.2 := by
  cases l with
  | nil => exact absurd rfl hne
  | cons q rest =>
    have hq : q.1 ≠ "" := hl q (List.mem_cons_self _ _)
    rw [List.foldl_cons, if_pos (Or.inl rfl)]
    obtain ⟨h1, h2, h3⟩ := oldest_from rest (q.1, q.2) hq
      (fun p hp => hl p (List.mem_cons_of_mem _ hp))
    refine ⟨?_, fun p hp => ?_⟩
    · rcases h1 with h1 | h1
      · rw [h1]; exact List.mem_cons_self _ _
      · exact List.mem_cons_of_mem _ h1
    · rcases List.mem_cons.1 hp with rfl | hp
      · exact h2
      · exact h3 p hp

theorem Update_eq_written (s : MetricsStore) (c : MetricsCall) (hc : c.readerID ≠ "") :
    s.Update c.readerID c.metrics c.now =
      if ((s.written c).byReader.length : Int) > s.limit then (s.written c).evictOldest
      else s.written c := by
  unfold MetricsStore.Update MetricsStore.written
  rw [if_neg hc]
  cases h : GoMap.lookup s.byReader c.readerID <;> simp [h]

theorem Update_anonymous (s : MetricsStore) (c : MetricsCall) (hc : c.readerID = "") :
    s.Update c.readerID c.metrics c.now = s := by
  unfold MetricsStore.Update
  rw [if_pos hc]

theorem publish_keyed (ml : List WindowMetrics) (m0 : GoMap Int WindowMetrics)
    (h0 : m0.keys.Nodup ∧ ∀ q ∈ m0, q.2.WindowSec = q.1) :
    (ml.foldl (fun m wm => GoMap.set m wm.WindowSec wm) m0).keys.Nodup ∧
    ∀ q ∈ ml.foldl (fun m wm => GoMap.set m wm.WindowSec wm) m0, q.2.WindowSec = q.1 := by
  induction ml generalizing m0 with
  | nil => exact h0
  | cons wm rest ih =>
    rw [List.foldl_cons]
    refine ih _ ⟨GoMap.keys_set_nodup m0 h0.1 _ _, fun q hq => ?_⟩
    rcases GoMap.mem_set m0 _ _ q hq with h | h
    · rw [h]
    · exact h0.2 q h

theorem publish_lookup (ml : List WindowMetrics) (m0 : GoMap Int WindowMetrics) (ws : Int) :
    GoMap.lookup (ml.foldl (fun m wm => GoMap.set m wm.WindowSec wm) m0) ws =
      ((ml.filter (fun wm => wm.WindowSec = ws)).getLast?).or (m0.lookup ws) := by
  induction ml generalizing m0 with
  | nil => simp
  | cons wm rest ih =>
    rw [List.foldl_cons, ih, GoMap.lookup_set]
    by_cases h : wm.WindowSec = ws
    · rw [if_pos h, List.filter_cons_of_pos (by simpa using h), List.getLast?_cons]
      cases (rest.filter (fun wm => decide (wm.WindowSec = ws))).getLast? <;> simp
    · rw [if_neg h, List.filter_cons_of_neg (by simpa using h)]

theorem written_keys (s : MetricsStore) (c : MetricsCall) (hs : s.Inv) :
    (s.written c).byReader.keys = (s.written c).updatedAt.keys ∧
    (s.written c).byReader.keys.Nodup ∧
    ((s.written c).byReader.length : Int) ≤ s.limit + 1 ∧
    (s.written c).limit = s.limit ∧
    (s.written c).updatedAt ≠ [] ∧
    (c.readerID ≠ "" → "" ∉ (s.written c).byReader.keys) ∧
    ∀ p ∈ (s.written c).byReader, p.2.keys.Nodup ∧ ∀ q ∈ p.2, q.2.WindowSec = q.1 := by
  have hlen : ((s.written c).byReader.length : Int) ≤ s.limit + 1 := by
    have h1 : (s.written c).byReader.keys.length ≤ s.byReader.keys.length + 1 := by
      show (GoMap.keys (GoMap.set _ _ _)).length ≤ _
      rw [GoMap.keys_set]
      split_ifs <;> simp
    rw [GoMap.length_keys, GoMap.length_keys] at h1
    have := hs.bound
    omega
  refine ⟨?_, GoMap.keys_set_nodup _ hs.nodup _ _, hlen, rfl, ?_, fun hc hm => ?_,
    fun p hp => ?_⟩
  · show GoMap.keys (GoMap.set _ _ _) = GoMap.keys (GoMap.set _ _ _)
    rw [GoMap.keys_set, GoMap.keys_set, hs.keys_eq]
  · intro h
    have hm : c.readerID ∈ GoMap.keys (s.written c).updatedAt :=
      (GoMap.mem_keys_set _ _ _ _).2 (Or.inl rfl)
    rw [h] at hm
    simp [GoMap.keys] at hm
  · rcases (GoMap.mem_keys_set _ _ _ _).1 hm with h | h
    · exact hc h.symm
    · exact hs.named h
  · rcases GoMap.mem_set _ _ _ p hp with h | h
    · rw [h]
      apply publish_keyed
      cases hl : GoMap.lookup s.byReader c.readerID with
      | none => simp [GoMap.keys]
      | some m => exact hs.keyed (c.readerID, m) (GoMap.lookup_mem _ _ _ hl)
    · exact hs.keyed p h

/-- What `evictOldest` does on a sink that holds a reader and none named `""`: it removes,
from both maps, one reader whose instant is not after that of any reader. -/
theorem evictOldest_spec (s : MetricsStore) (hne : s.updatedAt ≠ [])
    (hnamed : ∀ p ∈ s.updatedAt, p.1 ≠ "") :
    ∃ victim : String × Time, victim ∈ s.updatedAt ∧ (∀ p ∈ s.updatedAt, victim.2 ≤ p.2) ∧
      s.evictOldest = { s with byReader := s.byReader.delete victim.1,
                               updatedAt := s.updatedAt.delete victim.1 } := by
  obtain ⟨h1, h2⟩ := oldest_found s.updatedAt hne hnamed
  refine ⟨_, h1, h2, ?_⟩
  unfold MetricsStore.evictOldest
  dsimp only
  rw [if_pos (hnamed _ h1)]

theorem mem_of_keys_eq {V W : Type} (m : GoMap String V) (m' : GoMap String W)
    (h : m.keys = m'.keys) (p : String × W) (hp : p ∈ m') : p.1 ∈ m.keys := by
  rw [h]; exact GoMap.mem_keys_of_mem m' p hp

/-- The outcome of one `Update` for a non-empty reader id on a sink that satisfies the
invariant: either the written state within the limit, or the written state without one
reader of the oldest instant. -/
theorem Update_cases (s : MetricsStore) (c : MetricsCall) (hs : s.Inv) (hc : c.readerID ≠ "") :
    (((s.written c).byReader.length : Int) ≤ s.limit ∧
      s.Update c.readerID c.metrics c.now = s.written c) ∨
    (((s.written c).byReader.length : Int) > s.limit ∧
      ∃ victim : String × Time, victim ∈ (s.written c).updatedAt ∧
        (∀ p ∈ (s.written c).updatedAt, victim.2 ≤ p.2) ∧
        s.Update c.readerID c.metrics c.now =
          { s.written c with
            byReader := (s.written c).byReader.delete victim.1,
            updatedAt := (s.written c).updatedAt.delete victim.1 }) := by
  obtain ⟨hk, _, _, _, hne, hnamed, _⟩ := written_keys s c hs
  rw [Update_eq_written s c hc]
  by_cases h : ((s.written c).byReader.length : Int) > s.limit
  · right
    rw [if_pos h]
    refine ⟨h, ?_⟩
    obtain ⟨v, hv1, hv2, hv3⟩ := evictOldest_spec (s.written c) hne (fun p hp h0 =>
      hnamed hc (h0 ▸ mem_of_keys_eq _ _ hk p hp))
    exact ⟨v, hv1, hv2, hv3⟩
  · left
    rw [if_neg h]
    exact ⟨not_lt.1 h, rfl⟩

theorem Update_inv (s : MetricsStore) (c : MetricsCall) (hs : s.Inv) :
    (s.Update c.readerID c.metrics c.now).Inv ∧
    (s.Update c.readerID c.metrics c.now).limit = s.limit := by
  by_cases hc : c.readerID = ""
  · rw [Update_anonymous s c hc]; exact ⟨hs, rfl⟩
  · obtain ⟨hk, hnd, hlen, hlim, hne, hnamed, hkeyed⟩ := written_keys s c hs
    rcases Update_cases s c hs hc with ⟨hle, hE⟩ | ⟨hgt, v, hv1, hv2, hE⟩
    · rw [hE]
      exact ⟨⟨hk, hnd, hnamed hc, hs.pos, hle, hkeyed⟩, rfl⟩
    · rw [hE]
      have hvk : v.1 ∈ GoMap.keys (s.written c).byReader := mem_of_keys_eq _ _ hk v hv1
      refine ⟨⟨?_, GoMap.keys_delete_nodup _ hnd _, fun hm => ?_, hs.pos, ?_, fun p hp => ?_⟩,
        rfl⟩
      · show GoMap.keys (GoMap.delete _ _) = GoMap.keys (GoMap.delete _ _)
        rw [GoMap.keys_delete, GoMap.keys_delete, hk]
      · exact hnamed hc ((GoMap.keys_delete_sublist _ _).subset hm)
      · show ((GoMap.delete (s.written c).byReader v.1).length : Int) ≤ s.limit
        rw [← GoMap.length_keys, GoMap.keys_delete, List.length_erase_of_mem hvk,
          GoMap.length_keys]
        have hpos : 0 < (s.written c).byReader.length := by
          rw [← GoMap.length_keys]; exact List.length_pos_of_mem hvk
        omega
      · exact hkeyed p (GoMap.mem_of_mem_delete _ _ p hp)

theorem NewMetricsStore_inv (L : Int) : (NewMetricsStore L).Inv ∧
    (NewMetricsStore L).limit = if L ≤ 0 then 5000 else L := by
  refine ⟨⟨rfl, List.nodup_nil, by simp [NewMetricsStore, GoMap.keys], ?_, ?_,
    fun p hp => by simp [NewMetricsStore] at hp⟩, rfl⟩
  · show 0 < (if L ≤ 0 then (5000 : Int) else L)
    split_ifs <;> omega
  · show ((([] : GoMap String (GoMap Int WindowMetrics)).length : Nat) : Int) ≤
      (if L ≤ 0 then (5000 : Int) else L)
    split_ifs with h
    · simp
    · simp only [List.length_nil, Nat.cast_zero]
      omega

theorem runMetrics_snoc (L : Int) (calls : List MetricsCall) (c : MetricsCall) :
    runMetrics L (calls ++ [c]) = (runMetrics L calls).Update c.readerID c.metrics c.now := by
  simp [runMetrics, List.foldl_append]

theorem runMetrics_inv (L : Int) (calls : List MetricsCall) :
    (runMetrics L calls).Inv ∧ (runMetrics L calls).limit = if L ≤ 0 then 5000 else L := by
  induction calls using List.reverseRecOn with
  | nil => exact NewMetricsStore_inv L
  | append_singleton l c ih =>
    rw [runMetrics_snoc]
    obtain ⟨h1, h2⟩ := Update_inv (runMetrics L l) c ih.1
    exact ⟨h1, h2.trans ih.2⟩

theorem lastPublished_snoc (calls : List MetricsCall) (c : MetricsCall) (r : String)
    (ws : Int) :
    lastPublished (calls ++ [c]) r ws =
      if c.readerID = r then
        ((c.metrics.filter (fun wm => wm.WindowSec = ws)).getLast?).or
          (lastPublished calls r ws)
      else lastPublished calls r ws := by
  unfold lastPublished
  rw [List.filter_append, List.flatMap_append, List.filter_append, List.getLast?_append]
  by_cases h : c.readerID = r
  · simp [h]
  · simp [h]

/-- Every instant held by the sink was taken by one of the calls, and every metrics it
holds for a reader and a `window_sec` are the ones most recently published for them. -/
theorem runMetrics_history (L : Int) (calls : List MetricsCall) :
    (∀ p ∈ (runMetrics L calls).updatedAt, ∃ c ∈ calls, c.now = p.2) ∧
    ∀ r m, GoMap.lookup (runMetrics L calls).byReader r = some m →
      ∀ ws wm, GoMap.lookup m ws = some wm → lastPublished calls r ws = some wm := by
  induction calls using List.reverseRecOn with
  | nil =>
    refine ⟨fun p hp => ?_, fun r m h => ?_⟩
    · simp [runMetrics, NewMetricsStore] at hp
    · simp [runMetrics, NewMetricsStore, GoMap.lookup] at h
  | append_singleton l c ih =>
    obtain ⟨ih1, ih2⟩ := ih
    have hs := (runMetrics_inv L l).1
    rw [runMetrics_snoc]
    by_cases hc : c.readerID = ""
    · rw [Update_anonymous _ c hc]
      refine ⟨fun p hp => ?_, fun r m h ws wm hw => ?_⟩
      · obtain ⟨c0, h0, h1⟩ := ih1 p hp
        exact ⟨c0, List.mem_append_left _ h0, h1⟩
      · have hr : c.readerID ≠ r := by
          intro h0
          have hm := GoMap.mem_keys_of_mem _ _ (GoMap.lookup_mem _ _ _ h)
          rw [← h0, hc] at hm
          exact hs.named hm
        rw [lastPublished_snoc, if_neg hr]
        exact ih2 r m h ws wm hw
    · obtain ⟨hk, hnd, _, _, _, _, _⟩ := written_keys (runMetrics L l) c hs
      have hstamp : ∀ p ∈ ((runMetrics L l).written c).updatedAt,
          ∃ c0 ∈ l ++ [c], c0.now = p.2 := by
        intro p hp
        rcases GoMap.mem_set _ _ _ p hp with h | h
        · exact ⟨c, by simp, by rw [h]⟩
        · obtain ⟨c0, h0, h1⟩ := ih1 p h
          exact ⟨c0, List.mem_append_left _ h0, h1⟩
      have hlatest : ∀ r m, GoMap.lookup ((runMetrics L l).written c).byReader r = some m →
          ∀ ws wm, GoMap.lookup m ws = some wm →
            lastPublished (l ++ [c]) r ws = some wm := by
        intro r m h ws wm hw
        have h' : GoMap.lookup (GoMap.set (runMetrics L l).byReader c.readerID
            (c.metrics.foldl (fun m wm => GoMap.set m wm.WindowSec wm)
              ((GoMap.lookup (runMetrics L l).byReader c.readerID).getD []))) r = some m := h
        rw [GoMap.lookup_set] at h'
        rw [lastPublished_snoc]
        by_cases hr : c.readerID = r
        · rw [if_pos hr] at h' ⊢
          simp only [Option.some.injEq] at h'
          rw [← h', publish_lookup] at hw
          cases hf : (c.metrics.filter (fun wm => decide (wm.WindowSec = ws))).getLast? with
          | some x =>
            rw [hf] at hw
            simpa using hw
          | none =>
            rw [hf] at hw
            simp only [Option.or] at hw ⊢
            cases hl : GoMap.lookup (runMetrics L l).byReader c.readerID with
            | none => simp [hl, GoMap.lookup] at hw
            | some m0 =>
              rw [hl] at hw
              rw [← hr]
              exact ih2 c.readerID m0 hl ws wm hw
        · rw [if_neg hr] at h' ⊢
          exact ih2 r m h' ws wm hw
      rcases Update_cases (runMetrics L l) c hs hc with ⟨_, hE⟩ | ⟨_, v, _, _, hE⟩
      · rw [hE]; exact ⟨hstamp, hlatest⟩
      · rw [hE]
        refine ⟨fun p hp => hstamp p (GoMap.mem_of_mem_delete _ _ p hp),
          fun r m h ws wm hw => ?_⟩
        have h' : GoMap.lookup (GoMap.delete ((runMetrics L l).written c).byReader v.1) r =
            some m := h
        rw [GoMap.lookup_delete _ hnd] at h'
        by_cases hv : v.1 = r
        · simp [hv] at h'
        · rw [if_neg hv] at h'
          exact hlatest r m h' ws wm hw

theorem exists_other_key (l : List String) (a : String) (hnd : l.Nodup) (h2 : 2 ≤ l.length) :
    ∃ x ∈ l, x ≠ a := by
  match l, hnd, h2 with
  | x :: y :: _, hnd, _ =>
    by_cases hx : x = a
    · refine ⟨y, by simp, fun hy => ?_⟩
      have := (List.nodup_cons.1 hnd).1
      rw [hx, ← hy] at this
      exact this (List.mem_cons_self _ _)
    · exact ⟨x, by simp, hx⟩

/-- With the instant of the call later than those of all earlier calls, the reader that the
call updates is not the one `evictOldest` removes. -/
theorem victim_not_updated (L : Int) (calls : List MetricsCall) (c : MetricsCall)
    (hover : (((runMetrics L calls).written c).byReader.length : Int) >
      (runMetrics L calls).limit)
    (victim : String × Time) (hv1 : victim ∈ ((runMetrics L calls).written c).updatedAt)
    (hv2 : ∀ p ∈ ((runMetrics L calls).written c).updatedAt, victim.2 ≤ p.2)
    (hinc : ∀ c0 ∈ calls, c0.now < c.now) : victim.1 ≠ c.readerID := by
  have hs := (runMetrics_inv L calls).1
  obtain ⟨hk, hnd, _, _, _, _, _⟩ := written_keys (runMetrics L calls) c hs
  rw [hk] at hnd
  have hlen : 2 ≤ (GoMap.keys ((runMetrics L calls).written c).updatedAt).length := by
    rw [← hk, GoMap.length_keys]
    have := hs.pos
    omega
  obtain ⟨x, hx, hxa⟩ := exists_other_key _ c.readerID hnd hlen
  obtain ⟨p, hp, hpx⟩ := List.mem_map.1 hx
  have hp' : p ∈ GoMap.set (runMetrics L calls).updatedAt c.readerID c.now := hp
  have hold : p ∈ (runMetrics L calls).updatedAt := by
    rcases GoMap.mem_set _ _ _ p hp' with h | h
    · exact absurd (by rw [← hpx, h]) hxa
    · exact h
  obtain ⟨c0, hc0, hc1⟩ := (runMetrics_history L calls).1 p hold
  have hlt : victim.2 < c.now := by
    have h1 := hv2 p hp
    have h2 := hinc c0 hc0
    rw [hc1] at h2
    exact lt_of_le_of_lt h1 h2
  intro heq
  have hlook := GoMap.lookup_of_mem _ hnd victim.1 victim.2 hv1
  have hlook2 : GoMap.lookup (GoMap.set (runMetrics L calls).updatedAt c.readerID c.now)
      victim.1 = some victim.2 := hlook
  rw [GoMap.lookup_set, if_pos heq.symm] at hlook2
  simp only [Option.some.injEq] at hlook2
  rw [hlook2] at hlt
  exact lt_irrefl _ hlt

theorem Get_latest (L : Int) (calls : List MetricsCall) (r : String)
    (h : ((runMetrics L calls).Get r).2.2 = true) :
    (((runMetrics L calls).Get r).1.map (fun wm => wm.WindowSec)).Nodup ∧
    ∀ wm ∈ ((runMetrics L calls).Get r).1, lastPublished calls r wm.WindowSec = some wm := by
  have hs := (runMetrics_inv L calls).1
  unfold MetricsStore.Get at h ⊢
  cases hl : GoMap.lookup (runMetrics L calls).byReader r with
  | none => simp [hl] at h
  | some m =>
    simp only [hl]
    obtain ⟨hnd, hkey⟩ := hs.keyed (r, m) (GoMap.lookup_mem _ _ _ hl)
    refine ⟨?_, fun wm hwm => ?_⟩
    · have : m.map (fun q => q.2.WindowSec) = m.map Prod.fst :=
        List.map_congr_left (fun q hq => hkey q hq)
      rw [List.map_map]
      exact (this ▸ hnd : (m.map (fun q => q.2.WindowSec)).Nodup)
    · obtain ⟨q, hq, rfl⟩ := List.mem_map.1 hwm
      have hq' : (q.1, q.2) ∈ m := hq
      have := GoMap.lookup_of_mem m hnd q.1 q.2 hq'
      rw [← hkey q hq] at this
      exact (runMetrics_history L calls).2 r m hl _ _ this

/-- Right after a call for a reader that is held afterwards, `Get` returns metrics for every
`window_sec` that the call published. -/
theorem Get_complete (L : Int) (calls : List MetricsCall) (c : MetricsCall)
    (hc : c.readerID ≠ "")
    (hheld : ((runMetrics L (calls ++ [c])).Get c.readerID).2.2 = true) :
    ∀ wm ∈ c.metrics, ∃ x ∈ ((runMetrics L (calls ++ [c])).Get c.readerID).1,
      x.WindowSec = wm.WindowSec := by
  have hs := (runMetrics_inv L calls).1
  have hs' := (runMetrics_inv L (calls ++ [c])).1
  obtain ⟨_, hnd, _, _, _, _, _⟩ := written_keys (runMetrics L calls) c hs
  have hw : GoMap.lookup ((runMetrics L calls).written c).byReader c.readerID =
      some (c.metrics.foldl (fun m wm => GoMap.set m wm.WindowSec wm)
        ((GoMap.lookup (runMetrics L calls).byReader c.readerID).getD [])) := by
    show GoMap.lookup (GoMap.set _ _ _) _ = _
    rw [GoMap.lookup_set, if_pos rfl]
  have hlook : GoMap.lookup (runMetrics L (calls ++ [c])).byReader c.readerID =
      some (c.metrics.foldl (fun m wm => GoMap.set m wm.WindowSec wm)
        ((GoMap.lookup (runMetrics L calls).byReader c.readerID).getD [])) := by
    rcases Update_cases (runMetrics L calls) c hs hc with ⟨_, hE⟩ | ⟨_, v, _, _, hE⟩
    · rw [runMetrics_snoc, hE]; exact hw
    · rw [runMetrics_snoc, hE] at hheld ⊢
      show GoMap.lookup (GoMap.delete _ _) _ = _
      by_cases hv : v.1 = c.readerID
      · exfalso
        have hgone : GoMap.lookup
            (GoMap.delete ((runMetrics L calls).written c).byReader v.1) c.readerID = none := by
          rw [GoMap.lookup_delete _ hnd, if_pos hv]
        simp [MetricsStore.Get, hgone] at hheld
      · rw [GoMap.lookup_delete _ hnd, if_neg hv]; exact hw
  intro wm hwm
  have hfil : wm ∈ c.metrics.filter (fun x => decide (x.WindowSec = wm.WindowSec)) :=
    List.mem_filter.2 ⟨hwm, by simp⟩
  have hsome : ∃ x, GoMap.lookup (c.metrics.foldl (fun m wm => GoMap.set m wm.WindowSec wm)
      ((GoMap.lookup (runMetrics L calls).byReader c.readerID).getD [])) wm.WindowSec =
        some x := by
    rw [publish_lookup]
    cases hg : (c.metrics.filter (fun x => decide (x.WindowSec = wm.WindowSec))).getLast? with
    | none =>
      rw [List.getLast?_eq_none_iff] at hg
      rw [hg] at hfil
      simp at hfil
    | some x => exact ⟨x, by simp⟩
  obtain ⟨x, hx⟩ := hsome
  have hmem := GoMap.lookup_mem _ _ _ hx
  have hkey := (hs'.keyed (c.readerID, _) (GoMap.lookup_mem _ _ _ hlook)).2 _ hmem
  refine ⟨x, ?_, hkey⟩
  unfold MetricsStore.Get
  simp only [hlook]
  exact List.mem_map.2 ⟨(wm.WindowSec, x), hmem, rfl⟩

/-! ## Streams that raise no alert -/

theorem firedRules_quiet (cfg : Config) (wm : WindowMetrics)
    (h1 : wm.APS ≤ cfg.Detection.APSThreshold)
    (h2 : wm.APS ≤ cfg.Detection.APSElevatedThreshold)
    (h3 : wm.FR ≤ cfg.Detection.FailureRatioThreshold) : firedRules cfg wm = [] := by
  unfold firedRules ruleTable
  simp [not_lt.2 h1, not_lt.2 h2, not_lt.2 h3]

theorem evaluate_quiet (cfg : Config) (cooldown : Cooldown) (clk : Clock) (tick : Nat)
    (readerID : String) (wm : WindowMetrics) (h : firedRules cfg wm = []) :
    Engine.evaluate cfg cooldown clk tick readerID wm = (none, cooldown, tick) := by
  rw [evaluate_eq]
  split_ifs
  · rfl
  · rfl

theorem processWindows_quiet (cfg : Config) (clk : Clock) (ev : NormalizedEvent)
    (l : List (Int × WindowState)) (acc : WindowsResult)
    (h : ∀ p ∈ l, firedRules cfg (feedWindow ev p.2).Metrics = []) :
    (processWindows cfg clk ev l acc).alerts = acc.alerts := by
  induction l generalizing acc with
  | nil => rfl
  | cons p rest ih =>
    obtain ⟨k, window⟩ := p
    unfold processWindows
    dsimp only
    have hq := evaluate_quiet cfg acc.cooldown clk acc.tick ev.ReaderID
      (feedWindow ev window).Metrics (h (k, window) (List.mem_cons_self _ _))
    change Engine.evaluate cfg acc.cooldown clk acc.tick ev.ReaderID
      ((window.Evict (ev.Timestamp - window.duration)).Add
        { Timestamp := ev.Timestamp, UID := ev.UID, Result := ev.Result }).Metrics =
          (none, acc.cooldown, acc.tick) at hq
    rw [hq]
    dsimp only
    rw [ih _ (fun p hp => h p (List.mem_cons_of_mem _ hp))]
    simp

theorem evaluateAccess_disabled (cfg : Config) (ac : AccessControlSet) (cooldown : Cooldown)
    (clk : Clock) (tick : Nat) (ev : NormalizedEvent) (h : ac.Enabled = false) :
    Engine.evaluateAccess cfg ac cooldown clk tick ev = (none, cooldown, tick) := by
  unfold Engine.evaluateAccess
  simp [h]

theorem evaluateAuthStreak_success (cfg : Config) (c : Cooldown) (clk : Clock) (tick : Nat)
    (reader : ReaderState) (ev : NormalizedEvent) (h : ev.Result ≠ ResultFailure) :
    (Engine.evaluateAuthStreak cfg c clk tick reader ev).1 = none := by
  unfold Engine.evaluateAuthStreak
  dsimp only
  split_ifs with h1 h2 h3
  · rfl
  · rfl
  · rfl
  · exact absurd (Or.inl h) h3
  · exact absurd (Or.inl h) h3

theorem buildAccessControl_enabled (cfg : Config) :
    (buildAccessControl cfg).Enabled = cfg.AccessControl.Enabled := by
  unfold buildAccessControl
  split_ifs <;> rfl

/-- No alert from `ProcessEvent` for an event that is not a failure when access control is
switched off and no rule fires for any window of its reader. -/
theorem ProcessEvent_quiet (lib : Library) (e : Engine) (he : EngineReachable e) (clk : Clock)
    (tick : Nat) (ev : NormalizedEvent) (hdup : e.dropsAsDuplicate lib clk tick ev = false)
    (hacc : e.cfg.AccessControl.Enabled = false)
    (hres : (clampEvent e.cfg (clk tick) ev).Result ≠ ResultFailure)
    (hq : ∀ k w, GoMap.lookup (Engine.getReader e.readers ev.ReaderID e.cfg).1.windows k =
        some w → firedRules e.cfg (feedWindow (clampEvent e.cfg (clk tick) ev) w).Metrics = []) :
    (Engine.ProcessEvent lib e clk tick ev).1 = [] := by
  obtain ⟨t, t2, c, a, S, res, ha, hS, hres', hA, -⟩ :=
    ProcessEvent_accepted lib e clk tick ev hdup
  have hG := getReader_keyed e.readers ev.ReaderID e.cfg he.wellKeyed
  have hfr := evaluateAuthStreak_frame e.cfg c clk t2
    (Engine.getReader e.readers ev.ReaderID e.cfg).1 (clampEvent e.cfg (clk tick) ev)
  rw [← hS] at hfr
  have ha0 : a = none := by
    rw [ha, evaluateAccess_disabled _ _ _ _ _ _
      (by rw [he.access_eq, buildAccessControl_enabled]; exact hacc)]
  have hS0 : S.1 = none := by
    rw [hS]; exact evaluateAuthStreak_success _ _ _ _ _ _ hres
  rw [hA, hres', processWindows_quiet]
  · simp [ha0, hS0]
  · intro p hp
    have hmem : p ∈ S.2.1.windows := (sortedWindows_spec S.2.1).1.mem_iff.1 hp
    rw [hfr.2] at hmem
    exact hq p.1 p.2 (GoMap.lookup_of_mem _ hG.1 p.1 p.2 hmem)

theorem QuietWindow.fresh (d : Duration) (t : Time) : QuietWindow d t (NewWindowState d) :=
  ⟨rfl, [], [], rfl, by simp, by simp, by simp, by simp, by simp⟩

theorem QuietWindow.length_le {d : Duration} {t : Time} {w : WindowState}
    (h : QuietWindow d t w) : w.live.length ≤ 2 := by
  obtain ⟨_, older, newest, hl, h1, h2, _⟩ := h
  rw [hl, List.length_append]
  omega

/-- Feeding a quiet window a success that comes `d` or more after the last event leaves a
quiet window that holds the entry of the event. -/
theorem QuietWindow.feed {d : Duration} {t : Time} {w : WindowState}
    (h : QuietWindow d t w) (hc : w.Consistent) (hd : 0 < d) (ev : NormalizedEvent)
    (hts : t + d ≤ ev.Timestamp) (hres : ev.Result ≠ ResultFailure) :
    QuietWindow d ev.Timestamp (feedWindow ev w) ∧ toEntry ev ∈ (feedWindow ev w).live := by
  obtain ⟨hdur, older, newest, hl, h1, h2, h3, h4, h5⟩ := h
  have hlive := feedWindow_live ev w hc
  rw [hl, hdur] at hlive
  have hdrop : ∃ kept : List EventEntry,
      (older ++ newest).dropWhile (fun x => decide (x.Timestamp < ev.Timestamp - d)) = kept ∧
      kept.length ≤ 1 ∧ ∀ x ∈ kept, x ∈ newest := by
    have hold : ∀ x ∈ older, x.Timestamp < ev.Timestamp - d := fun x hx => by
      have hx3 : x.Timestamp + d ≤ t := h3 x hx
      linarith
    have hnew : ∀ l : List EventEntry, l.length ≤ 1 →
        (l.dropWhile (fun x => decide (x.Timestamp < ev.Timestamp - d))).length ≤ 1 ∧
        ∀ x ∈ l.dropWhile (fun x => decide (x.Timestamp < ev.Timestamp - d)), x ∈ l :=
      fun l hlen => ⟨le_trans (List.Sublist.length_le (List.dropWhile_sublist _)) hlen,
        fun x hx => (List.dropWhile_sublist _).subset hx⟩
    match older, h1, hold with
    | [], _, _ => exact ⟨_, rfl, (hnew newest h2).1, (hnew newest h2).2⟩
    | [x], _, hold =>
      have hx := hold x (List.mem_singleton_self x)
      refine ⟨_, rfl, ?_, ?_⟩
      · rw [List.singleton_append, List.dropWhile_cons_of_pos (by simpa using hx)]
        exact (hnew newest h2).1
      · rw [List.singleton_append, List.dropWhile_cons_of_pos (by simpa using hx)]
        exact (hnew newest h2).2
  obtain ⟨kept, hk, hk1, hk2⟩ := hdrop
  rw [hk] at hlive
  refine ⟨⟨by rw [feedWindow_duration, hdur], kept, [toEntry ev], hlive, hk1, by simp,
    fun x hx => ?_, fun x hx => ?_, fun x hx => ?_⟩, by rw [hlive]; simp⟩
  · have hx4 : x.Timestamp ≤ t := h4 x (hk2 x hx)
    linarith
  · rw [List.mem_singleton] at hx
    rw [hx]
    exact le_refl _
  · rcases List.mem_append.1 hx with h | h
    · exact h5 x (List.mem_append_right _ (hk2 x h))
    · rw [List.mem_singleton] at h
      rw [h]
      exact hres

/-- The rate of a quiet window is at most `2 / d` and its failure ratio is 0. -/
theorem QuietWindow.metrics {d : Duration} {t : Time} {w : WindowState}
    (h : QuietWindow d t w) (hc : w.Consistent) (hd : 0 < d) :
    w.Metrics.APS ≤ 2 / Duration.Seconds d ∧ w.Metrics.FR = 0 := by
  have hlen := h.length_le
  obtain ⟨hdur, older, newest, hl, _, _, _, _, h5⟩ := h
  have hsec : (0 : ℚ) < Duration.Seconds d := by
    unfold Duration.Seconds
    have : (0 : ℚ) < (d : ℚ) := by exact_mod_cast hd
    positivity
  have hfail : (w.live.filter (fun e => decide (e.Result = ResultFailure))).length = 0 := by
    rw [List.length_eq_zero, List.filter_eq_nil_iff]
    intro x hx
    rw [hl] at hx
    simpa using h5 x hx
  rw [Consistent.metrics_eq w hc, hdur]
  constructor
  · show (if w.live.length = 0 then (0 : ℚ) else (w.live.length : ℚ) / Duration.Seconds d) ≤ _
    split_ifs
    · positivity
    · apply div_le_div_of_nonneg_right _ hsec.le
      exact_mod_cast hlen
  · show (if w.live.length = 0 then (0 : ℚ) else
      ((w.live.filter (fun e => decide (e.Result = ResultFailure))).length : ℚ) /
        (w.live.length : ℚ)) = 0
    rw [hfail]
    split_ifs <;> simp

theorem Engine.QuietFor.windowAt {e : Engine} {rk : String} {d : Duration} {t : Time}
    (h : e.QuietFor rk d t) (k : Int) (w : WindowState) (hw : e.windowAt rk k = some w) :
    QuietWindow d t w := by
  unfold Engine.windowAt at hw
  cases hr : GoMap.lookup e.readers rk with
  | none => simp [hr] at hw
  | some r =>
    simp only [hr] at hw
    exact h r hr k w hw

/-- One success of a stream spaced at least `d` apart, on an engine with the single window
`d` whose windows for the reader are quiet: the windows stay quiet, the window of `d` holds
the event among at most two entries, and with access control off and the thresholds at or
above `2 / d` and 0 the call returns no alert. -/
theorem quiet_step (lib : Library) (e : Engine) (he : EngineReachable e) (clk : Clock)
    (tick : Nat) (ev : NormalizedEvent) (d : Duration) (t : Time)
    (hw : e.cfg.Detection.Windows = [d]) (hd : 0 < d)
    (hdd : e.cfg.Detection.DedupeWindow ≤ 0) (hclamp : clampEvent e.cfg (clk tick) ev = ev)
    (hres : ev.Result ≠ ResultFailure) (hI : e.QuietFor (readerKey ev.ReaderID) d t)
    (hts : t + d ≤ ev.Timestamp) :
    (Engine.ProcessEvent lib e clk tick ev).2.1.QuietFor (readerKey ev.ReaderID) d
      ev.Timestamp ∧
    (∃ w, (Engine.ProcessEvent lib e clk tick ev).2.1.windowAt (readerKey ev.ReaderID)
        (truncToInt (Duration.Seconds d)) = some w ∧ toEntry ev ∈ w.live ∧
        w.live.length ≤ 2) ∧
    (e.cfg.AccessControl.Enabled = false →
      2 / Duration.Seconds d ≤ e.cfg.Detection.APSThreshold →
      2 / Duration.Seconds d ≤ e.cfg.Detection.APSElevatedThreshold →
      0 ≤ e.cfg.Detection.FailureRatioThreshold →
      (Engine.ProcessEvent lib e clk tick ev).1 = []) := by
  have hdup := dropsAsDuplicate_off lib e clk tick ev hdd
  have hq0 : ∀ k w0, GoMap.lookup (Engine.getReader e.readers ev.ReaderID e.cfg).1.windows k =
      some w0 → QuietWindow d t w0 ∧ w0.Consistent := by
    intro k w0 h0
    refine ⟨?_, getReader_consistent _ _ _ he.windowsConsistent k w0 h0⟩
    rcases getReader_window_cases _ _ _ k w0 h0 with ⟨r, hr, hrw⟩ | ⟨d', hd', rfl⟩
    · exact hI r hr k w0 hrw
    · rw [hw, List.mem_singleton] at hd'
      rw [hd']
      exact QuietWindow.fresh d t
  obtain ⟨r, hr, _, hrw⟩ := ProcessEvent_windows lib e he.wellKeyed clk tick ev hdup
  rw [hclamp] at hrw
  refine ⟨fun r' hr' k w hkw => ?_, ?_, fun hacc h1 h2 h3 => ?_⟩
  · rw [hr] at hr'
    simp only [Option.some.injEq] at hr'
    subst hr'
    rw [hrw k] at hkw
    cases h0 : GoMap.lookup (Engine.getReader e.readers ev.ReaderID e.cfg).1.windows k with
    | none => simp [h0] at hkw
    | some w0 =>
      simp only [h0, Option.map_some', Option.some.injEq] at hkw
      rw [← hkw]
      exact ((hq0 k w0 h0).1.feed (hq0 k w0 h0).2 hd ev hts hres).1
  · obtain ⟨w0, h0, _⟩ := (getReader_contract e.readers ev.ReaderID e.cfg he.wellKeyed).1 d
      (by rw [hw]; exact List.mem_singleton_self d)
    have hf := (hq0 _ w0 h0).1.feed (hq0 _ w0 h0).2 hd ev hts hres
    refine ⟨feedWindow ev w0, ?_, hf.2, hf.1.length_le⟩
    unfold Engine.windowAt
    rw [hr]
    dsimp only
    rw [hrw, h0]
    rfl
  · apply ProcessEvent_quiet lib e he clk tick ev hdup hacc (by rw [hclamp]; exact hres)
    intro k w0 h0
    rw [hclamp]
    have hf := ((hq0 k w0 h0).1.feed (hq0 k w0 h0).2 hd ev hts hres).1
    obtain ⟨m1, m2⟩ := hf.metrics (feedWindow_consistent ev w0 (hq0 k w0 h0).2) hd
    exact firedRules_quiet _ _ (le_trans m1 h1) (le_trans m1 h2) (by rw [m2]; exact h3)

/-- A stream of successes of one reader, spaced at least `d` apart, on an engine with the
single window `d` whose windows for the reader are quiet: after every event the window of
`d` holds at most two entries, and with access control off and the thresholds at or above
`2 / d` and 0 every call returns no alert. -/
theorem quiet_run (lib : Library) (clk : Clock) (rid : String) (d : Duration)
    (evs : List NormalizedEvent) (e : Engine) (tick : Nat) (t : Time)
    (he : EngineReachable e) (hw : e.cfg.Detection.Windows = [d]) (hd : 0 < d)
    (hdd : e.cfg.Detection.DedupeWindow ≤ 0) (hI : e.QuietFor (readerKey rid) d t)
    (hev : ∀ ev ∈ evs, ev.ReaderID = rid ∧ ev.Result ≠ ResultFailure ∧
      ∀ now, clampEvent e.cfg now ev = ev)
    (hfirst : ∀ ev ∈ evs.head?, t + d ≤ ev.Timestamp)
    (hchain : evs.Chain' (fun a b => a.Timestamp + d ≤ b.Timestamp)) :
    (∀ pre suf, evs = pre ++ suf → pre ≠ [] →
      (∃ w, (processAll lib clk e tick pre).2.1.windowAt (readerKey rid)
          (truncToInt (Duration.Seconds d)) = some w ∧
        1 ≤ w.live.length ∧ w.live.length ≤ 2) ∧
      ∀ k w, (processAll lib clk e tick pre).2.1.windowAt (readerKey rid) k = some w →
        w.live.length ≤ 2) ∧
    (e.cfg.AccessControl.Enabled = false →
      2 / Duration.Seconds d ≤ e.cfg.Detection.APSThreshold →
      2 / Duration.Seconds d ≤ e.cfg.Detection.APSElevatedThreshold →
      0 ≤ e.cfg.Detection.FailureRatioThreshold →
      ∀ out ∈ (processAll lib clk e tick evs).1, out = []) := by
  induction evs generalizing e tick t with
  | nil =>
    refine ⟨fun pre suf h hne => ?_, fun _ _ _ _ out hout => ?_⟩
    · have := List.append_eq_nil.1 h.symm
      exact absurd this.1 hne
    · simp [processAll] at hout
  | cons ev rest ih =>
    obtain ⟨hrid, hres, hclamp⟩ := hev ev (List.mem_cons_self _ _)
    have hts : t + d ≤ ev.Timestamp := hfirst ev (by simp)
    have hI' : e.QuietFor (readerKey ev.ReaderID) d t := by rw [hrid]; exact hI
    obtain ⟨s1, s2, s3⟩ := quiet_step lib e he clk tick ev d t hw hd hdd (hclamp _) hres hI' hts
    rw [hrid] at s1 s2
    have hcfg := (ProcessEvent_frame lib e clk tick ev).1
    obtain ⟨i1, i2⟩ := ih (Engine.ProcessEvent lib e clk tick ev).2.1
      (Engine.ProcessEvent lib e clk tick ev).2.2 ev.Timestamp
      (EngineReachable.process lib e clk tick ev he) (by rw [hcfg]; exact hw)
      (by rw [hcfg]; exact hdd) s1
      (fun x hx => by rw [hcfg]; exact hev x (List.mem_cons_of_mem _ hx))
      (fun x hx => by
        cases rest with
        | nil => simp at hx
        | cons y ys =>
          simp only [List.head?_cons, Option.mem_def, Option.some.injEq] at hx
          subst hx
          exact (List.chain'_cons.1 hchain).1)
      (List.Chain'.tail hchain)
    refine ⟨fun pre suf h hne => ?_, fun a1 a2 a3 a4 out hout => ?_⟩
    · cases pre with
      | nil => exact absurd rfl hne
      | cons p pre' =>
        simp only [List.cons_append, List.cons.injEq] at h
        obtain ⟨hp, hrest⟩ := h
        subst hp
        rw [processAll_cons]
        dsimp only
        by_cases hpre : pre' = []
        · subst hpre
          obtain ⟨w, w1, w2, w3⟩ := s2
          refine ⟨⟨w, by simpa [processAll] using w1, List.length_pos_of_mem w2, w3⟩,
            fun k w' hw' => ?_⟩
          exact (s1.windowAt k w' (by simpa [processAll] using hw')).length_le
        · exact i1 pre' suf hrest hpre
    · rw [processAll_cons] at hout
      rcases List.mem_cons.1 hout with h | h
      · rw [h]; exact s3 a1 a2 a3 a4
      · exact i2 (by rw [hcfg]; exact a1) (by rw [hcfg]; exact a2) (by rw [hcfg]; exact a3)
          (by rw [hcfg]; exact a4) out h

/-! ## The CSV parser -/

/-- What one `assignField` does to the five fields. -/
theorem assignField_fields (lib : IngestLibrary) (f : EventFields) (name value : String) :
    (assignField lib f name value).Timestamp =
      (if lib.toLower (trimSpace name) ∈ ["timestamp", "time", "ts"] then trimSpace value
       else f.Timestamp) ∧
    (assignField lib f name value).ReaderID =
      (if lib.toLower (trimSpace name) ∈ ["reader", "reader_id", "readerid", "device",
        "terminal"] then trimSpace value else f.ReaderID) ∧
    (assignField lib f name value).UID =
      (if lib.toLower (trimSpace name) ∈ ["uid", "card", "card_id", "cardid"]
       then trimSpace value else f.UID) ∧
    (assignField lib f name value).Result =
      (if lib.toLower (trimSpace name) ∈ ["result", "status", "outcome"] then trimSpace value
       else f.Result) ∧
    (assignField lib f name value).ErrorCode =
      (if lib.toLower (trimSpace name) ∈ ["error", "error_code", "err"] then trimSpace value
       else f.ErrorCode) := by
  unfold assignField
  generalize lib.toLower (trimSpace name) = n
  dsimp only
  have d12 : n ∈ ["reader", "reader_id", "readerid", "device", "terminal"] →
      n ∉ ["timestamp", "time", "ts"] := by
    intro h; simp only [List.mem_cons, List.mem_singleton, List.not_mem_nil, or_false] at h
    rcases h with rfl | rfl | rfl | rfl | rfl <;> decide
  have d13 : n ∈ ["uid", "card", "card_id", "cardid"] →
      n ∉ ["timestamp", "time", "ts"] ∧
      n ∉ ["reader", "reader_id", "readerid", "device", "terminal"] := by
    intro h; simp only [List.mem_cons, List.mem_singleton, List.not_mem_nil, or_false] at h
    rcases h with rfl | rfl | rfl | rfl <;> decide
  have d14 : n ∈ ["result", "status", "outcome"] →
      n ∉ ["timestamp", "time", "ts"] ∧
      n ∉ ["reader", "reader_id", "readerid", "device", "terminal"] ∧
      n ∉ ["uid", "card", "card_id", "cardid"] := by
    intro h; simp only [List.mem_cons, List.mem_singleton, List.not_mem_nil, or_false] at h
    rcases h with rfl | rfl | rfl <;> decide
  have d15 : n ∈ ["error", "error_code", "err"] →
      n ∉ ["timestamp", "time", "ts"] ∧
      n ∉ ["reader", "reader_id", "readerid", "device", "terminal"] ∧
      n ∉ ["uid", "card", "card_id", "cardid"] ∧ n ∉ ["result", "status", "outcome"] := by
    intro h; simp only [List.mem_cons, List.mem_singleton, List.not_mem_nil, or_false] at h
    rcases h with rfl | rfl | rfl <;> decide
  by_cases h1 : n ∈ ["timestamp", "time", "ts"]
  · have h2 : n ∉ ["reader", "reader_id", "readerid", "device", "terminal"] :=
      fun h => d12 h h1
    have h3 : n ∉ ["uid", "card", "card_id", "cardid"] := fun h => (d13 h).1 h1
    have h4 : n ∉ ["result", "status", "outcome"] := fun h => (d14 h).1 h1
    have h5 : n ∉ ["error", "error_code", "err"] := fun h => (d15 h).1 h1
    rw [if_pos h1, if_pos h1, if_neg h2, if_neg h3, if_neg h4, if_neg h5]
    exact ⟨rfl, rfl, rfl, rfl, rfl⟩
  · rw [if_neg h1, if_neg h1]
    by_cases h2 : n ∈ ["reader", "reader_id", "readerid", "device", "terminal"]
    · have h3 : n ∉ ["uid", "card", "card_id", "cardid"] := fun h => (d13 h).2 h2
      have h4 : n ∉ ["result", "status", "outcome"] := fun h => (d14 h).2.1 h2
      have h5 : n ∉ ["error", "error_code", "err"] := fun h => (d15 h).2.1 h2
      rw [if_pos h2, if_pos h2, if_neg h3, if_neg h4, if_neg h5]
      exact ⟨rfl, rfl, rfl, rfl, rfl⟩
    · rw [if_neg h2, if_neg h2]
      by_cases h3 : n ∈ ["uid", "card", "card_id", "cardid"]
      · have h4 : n ∉ ["result", "status", "outcome"] := fun h => (d14 h).2.2 h3
        have h5 : n ∉ ["error", "error_code", "err"] := fun h => (d15 h).2.2.1 h3
        rw [if_pos h3, if_pos h3, if_neg h4, if_neg h5]
        exact ⟨rfl, rfl, rfl, rfl, rfl⟩
      · rw [if_neg h3, if_neg h3]
        by_cases h4 : n ∈ ["result", "status", "outcome"]
        · have h5 : n ∉ ["error", "error_code", "err"] := fun h => (d15 h).2.2.2 h4
          rw [if_pos h4, if_pos h4, if_neg h5]
          exact ⟨rfl, rfl, rfl, rfl, rfl⟩
        · rw [if_neg h4, if_neg h4]
          by_cases h5 : n ∈ ["error", "error_code", "err"]
          · rw [if_pos h5, if_pos h5]
            exact ⟨rfl, rfl, rfl, rfl, rfl⟩
          · rw [if_neg h5, if_neg h5]
            exact ⟨rfl, rfl, rfl, rfl, rfl⟩

/-- A field that every `assignField` either sets to the trimmed value, when the name is one
of `names`, or leaves: after the columns of a list it holds the trimmed cell of the last
column with such a name, or what it held. -/
theorem assign_columns (lib : IngestLibrary) (get : EventFields → String) (names : List String)
    (hstep : ∀ f name value, get (assignField lib f name value) =
      if lib.toLower (trimSpace name) ∈ names then trimSpace value else get f)
    (l : List (String × String)) (acc : EventFields) :
    get (l.foldl (fun fields c => assignField lib fields c.1 c.2) acc) =
      (((l.filter (fun c => decide (lib.toLower (trimSpace c.1) ∈ names))).getLast?).map
        (fun c => trimSpace c.2)).getD (get acc) := by
  induction l generalizing acc with
  | nil => rfl
  | cons c rest ih =>
    rw [List.foldl_cons, ih, hstep]
    by_cases h : lib.toLower (trimSpace c.1) ∈ names
    · rw [if_pos h, List.filter_cons_of_pos (by simpa using h), List.getLast?_cons]
      cases (rest.filter (fun c => decide (lib.toLower (trimSpace c.1) ∈ names))).getLast? <;>
        rfl
    · rw [if_neg h, List.filter_cons_of_neg (by simpa using h)]

/-! ## Field extraction from key/value records -/

theorem firstNonEmpty_eq (m : GoMap String String) (names : List String) :
    firstNonEmpty m names = resolveAlias (fun k => GoMap.lookup m k) names := by
  induction names with
  | nil => rfl
  | cons k rest ih =>
    unfold firstNonEmpty resolveAlias
    dsimp only
    by_cases h : trimSpace ((GoMap.lookup m k).getD "") ≠ ""
    · rw [if_pos h, List.find?_cons_of_pos _ (by simpa using h)]
      rfl
    · rw [if_neg h, List.find?_cons_of_neg _ (by simpa using h), ih]
      rfl

theorem resolveAlias_congr (f g : String → Option String) (names : List String)
    (h : ∀ k, f k = g k) : resolveAlias f names = resolveAlias g names := by
  have : f = g := funext h
  rw [this]

theorem resolveAlias_blank (value : String → Option String) (names : List String)
    (h : ∀ k ∈ names, trimSpace ((value k).getD "") = "") : resolveAlias value names = "" := by
  unfold resolveAlias
  rw [List.find?_eq_none.2 (fun k hk => by simpa using h k hk)]
  rfl

theorem resolveAlias_first (value : String → Option String) (pre post : List String)
    (k : String) (hpre : ∀ a ∈ pre, trimSpace ((value a).getD "") = "")
    (hk : trimSpace ((value k).getD "") ≠ "") :
    resolveAlias value (pre ++ k :: post) = trimSpace ((value k).getD "") := by
  induction pre with
  | nil =>
    unfold resolveAlias
    rw [List.nil_append, List.find?_cons_of_pos _ (by simpa using hk)]
    rfl
  | cons a rest ih =>
    have ha := hpre a (List.mem_cons_self _ _)
    have := ih (fun x hx => hpre x (List.mem_cons_of_mem _ hx))
    unfold resolveAlias at this ⊢
    rw [List.cons_append, List.find?_cons_of_neg _ (by simpa using ha)]
    exact this

/-- The map built from the entries of a key/value record, written in order under their
lower-cased keys, holds under a key the value of the last entry with that lower-cased key. -/
theorem lowered_lookup {V : Type} (lib : IngestLibrary) (f : V → String)
    (entries : List (String × V)) (acc : GoMap String String) (key : String) :
    GoMap.lookup (entries.foldl (fun m p => GoMap.set m (lib.toLower p.1) (f p.2)) acc) key =
      ((valueOfKey lib entries key).map f).or (GoMap.lookup acc key) := by
  induction entries generalizing acc with
  | nil => simp [valueOfKey]
  | cons p rest ih =>
    rw [List.foldl_cons, ih, GoMap.lookup_set]
    unfold valueOfKey
    by_cases h : lib.toLower p.1 = key
    · rw [if_pos h, List.filter_cons_of_pos (by simpa using h), List.getLast?_cons]
      cases (rest.filter (fun p => decide (lib.toLower p.1 = key))).getLast? <;> simp
    · rw [if_neg h, List.filter_cons_of_neg (by simpa using h)]

theorem lowered_lookup_new {V : Type} (lib : IngestLibrary) (f : V → String)
    (entries : List (String × V)) (key : String) :
    GoMap.lookup (entries.foldl (fun m p => GoMap.set m (lib.toLower p.1) (f p.2)) []) key =
      (valueOfKey lib entries key).map f := by
  rw [lowered_lookup]
  cases (valueOfKey lib entries key).map f <;> rfl

theorem lowered_resolve {V : Type} (lib : IngestLibrary) (f : V → String)
    (entries : List (String × V)) (names : List String) :
    firstNonEmpty (entries.foldl (fun m p => GoMap.set m (lib.toLower p.1) (f p.2)) []) names =
      resolveAlias (fun k => (valueOfKey lib entries k).map f) names := by
  rw [firstNonEmpty_eq]
  exact resolveAlias_congr _ _ _ (fun k => lowered_lookup_new lib f entries k)

/-! ## Settled claims: the rolling window -/

/-- C1: in every window state reached from `NewWindowState` by `Add` and `Evict` calls,
`attempts` is the number of live entries `events[head..]`, `failures` is the number of live
entries whose result is failure, and for every non-empty uid the read `uidCounts[uid]` is the
number of live entries with that uid, the key being absent exactly when that number is 0;
the values of `uidCounts` sum to the number of live entries with a non-empty uid. -/
theorem window_counters_match_live (d : Duration) (w : WindowState) (h : Reachable d w) :
    w.attempts = (w.live.length : Int) ∧
    w.failures = ((w.live.filter (fun e => e.Result = ResultFailure)).length : Int) ∧
    (∀ uid : String, uid ≠ "" →
      countOf w.uidCounts uid = ((w.live.filter (fun e => e.UID = uid)).length : Int) ∧
      (w.uidCounts.lookup uid = none ↔ (w.live.filter (fun e => e.UID = uid)).length = 0)) ∧
    valuesSum w.uidCounts = ((w.live.filter (fun e => e.UID ≠ "")).length : Int) := by
  have hw := h.consistent
  refine ⟨hw.attempts_eq, ?_, ?_, ?_⟩
  · rw [hw.failures_eq, List.countP_eq_length_filter]
  · intro uid hu
    have hl := hw.lookup_eq uid
    simp only [WindowState.uidCount, List.countP_eq_length_filter] at hl
    unfold countOf
    rw [hl]
    by_cases h0 : (w.live.filter (fun e => decide (e.UID = uid))).length = 0
    · simp [hu, h0]
    · simp [hu, h0]
  · rw [hw.sum_eq, List.countP_eq_length_filter]

/-- C1 at the sample window. -/
theorem window_counters_match_live_witness :
    Reachable 1000000000 sampleWindow ∧
    sampleWindow.attempts = (sampleWindow.live.length : Int) ∧
    countOf sampleWindow.uidCounts "A1" =
      ((sampleWindow.live.filter (fun e => e.UID = "A1")).length : Int) :=
  have hr : Reachable 1000000000 sampleWindow :=
    Reachable.add _ _ (Reachable.evict _ _ (Reachable.add _ _ (Reachable.add _ _ Reachable.init)))
  ⟨hr, (window_counters_match_live 1000000000 sampleWindow hr).1,
    ((window_counters_match_live 1000000000 sampleWindow hr).2.2.1 "A1" (by decide)).1⟩

/-- C2: for every window state reached by any interleaving of `Evict` and `Add`, with a
positive duration, `Metrics()` gives the values recomputed from scratch from the live
entries alone: attempts, failures, aps, fr, uds (and tv). -/
theorem metrics_equal_recomputed (d : Duration) (hd : 0 < d) (w : WindowState)
    (h : Reachable d w) :
    w.Metrics.Attempts = (recomputeMetrics d w.live).Attempts ∧
    w.Metrics.Failures = (recomputeMetrics d w.live).Failures ∧
    w.Metrics.APS = (recomputeMetrics d w.live).APS ∧
    w.Metrics.FR = (recomputeMetrics d w.live).FR ∧
    w.Metrics.UDS = (recomputeMetrics d w.live).UDS ∧
    w.Metrics.TV = (recomputeMetrics d w.live).TV := by
  have := hd
  rw [Consistent.metrics_eq w h.consistent, h.duration_eq]
  exact ⟨rfl, rfl, rfl, rfl, rfl, rfl⟩

/-- C2 at the sample window. -/
theorem metrics_equal_recomputed_witness :
    sampleWindow.Metrics.UDS = (recomputeMetrics 1000000000 sampleWindow.live).UDS :=
  (metrics_equal_recomputed 1000000000 (by decide) sampleWindow
    (Reachable.add _ _ (Reachable.evict _ _
      (Reachable.add _ _ (Reachable.add _ _ Reachable.init))))).2.2.2.2.1

/-- C3: with live entries `events[start..]` at instants `t_0..t_n`, `varianceDelta` returns 0
when there are fewer than two of them, and otherwise the population variance (divisor `n`,
the number of gaps) of the gaps `max(0, t_i - t_{i-1})` in seconds: the Welford update
computes the two-pass population variance over exact arithmetic. -/
theorem varianceDelta_is_population_variance (events : List EventEntry) (start : Nat) :
    varianceDelta events start =
      (if (events.drop start).length < 2 then 0
      else populationVariance
        (gapsSeconds ((events.drop start).map (fun e => e.Timestamp)))) ∧
    (gapsSeconds ((events.drop start).map (fun e => e.Timestamp))).length =
      (events.drop start).length - 1 := by
  refine ⟨varianceDelta_eq events start, ?_⟩
  cases events.drop start with
  | nil => simp [gapsSeconds]
  | cons e rest => simp [gapsSeconds_length]

/-- C4: for every window state reached from `NewWindowState` by `Add` and `Evict` calls, with
a positive duration, the metrics satisfy `0 ≤ failures ≤ attempts`, `0 ≤ fr ≤ 1`,
`0 ≤ uds ≤ 1`, `aps ≥ 0` and `tv ≥ 0`. -/
theorem metrics_bounds (d : Duration) (hd : 0 < d) (w : WindowState) (h : Reachable d w) :
    0 ≤ w.Metrics.Failures ∧ w.Metrics.Failures ≤ w.Metrics.Attempts ∧
    0 ≤ w.Metrics.FR ∧ w.Metrics.FR ≤ 1 ∧ 0 ≤ w.Metrics.UDS ∧ w.Metrics.UDS ≤ 1 ∧
    0 ≤ w.Metrics.APS ∧ 0 ≤ w.Metrics.TV := by
  rw [Consistent.metrics_eq w h.consistent, h.duration_eq]
  exact recomputeMetrics_bounds d hd w.live

/-- C4 at the sample window. -/
theorem metrics_bounds_witness :
    0 ≤ sampleWindow.Metrics.FR ∧ sampleWindow.Metrics.FR ≤ 1 :=
  have hb := metrics_bounds 1000000000 (by decide) sampleWindow
    (Reachable.add _ _ (Reachable.evict _ _
      (Reachable.add _ _ (Reachable.add _ _ Reachable.init))))
  ⟨hb.2.2.1, hb.2.2.2.1⟩

/-- C5: `Evict(cutoff)` removes exactly the longest prefix of the live entries whose
timestamps are strictly before `cutoff`: the live entries split into the removed prefix, all
before `cutoff`, and the live entries after the call, unchanged and in order, whose first
entry (if any) is not before `cutoff` (an entry at `cutoff` is kept); compaction of the
buffer does not change this; and when the live timestamps are non-decreasing, every live
entry after the call has a timestamp `≥ cutoff`. -/
theorem evict_removes_expired_run (w : WindowState) (cutoff : Time) :
    (w.Evict cutoff).live = w.live.dropWhile (fun e => decide (e.Timestamp < cutoff)) ∧
    w.live = w.live.takeWhile (fun e => decide (e.Timestamp < cutoff)) ++ (w.Evict cutoff).live ∧
    (∀ e ∈ w.live.takeWhile (fun e => decide (e.Timestamp < cutoff)), e.Timestamp < cutoff) ∧
    (∀ e, (w.Evict cutoff).live.head? = some e → cutoff ≤ e.Timestamp) ∧
    ((w.live.map (fun e => e.Timestamp)).Sorted (· ≤ ·) →
      ∀ e ∈ (w.Evict cutoff).live, cutoff ≤ e.Timestamp) := by
  have hl := Evict_live w cutoff
  refine ⟨hl, ?_, ?_, ?_, ?_⟩
  · rw [hl, List.takeWhile_append_dropWhile]
  · intro e he
    simpa using mem_takeWhile_holds _ _ e he
  · intro e he
    rw [hl] at he
    have := dropWhile_head_not _ _ e he
    exact not_lt.1 (by simpa using this)
  · intro hs e he
    rw [hl] at he
    exact sorted_dropWhile_ge cutoff w.live hs e he

/-- C5 at the sample window, whose live timestamps are non-decreasing. -/
theorem evict_removes_expired_run_witness :
    ∀ e ∈ (sampleWindow.Evict 1300000000).live, (1300000000 : Time) ≤ e.Timestamp :=
  (evict_removes_expired_run sampleWindow 1300000000).2.2.2.2 (by decide)

/-! ## Settled claims: the alert evaluator, the cooldown gate, the deduplication cache -/

/-- C6: for every window metrics with `attempts > 0` for which the evaluator emits a window
alert, the alert's rules are exactly the rule tokens of the table
`[excessive_attempt_rate, failure_spike, uid_spraying, machine_timing, attack_score]` whose
condition holds, in the order of the table, and the alert's score is the composite score
`W_aps*aps + W_fr*fr + W_uds*uds + W_tv*(1/(tv+epsilon))`. -/
theorem evaluate_rules_and_score (cfg : Config) (cooldown : Cooldown) (clk : Clock)
    (tick : Nat) (readerID : String) (wm : WindowMetrics) (alert : Alert)
    (cooldown' : Cooldown) (tick' : Nat) (hpos : wm.Attempts > 0)
    (h : Engine.evaluate cfg cooldown clk tick readerID wm = (some alert, cooldown', tick')) :
    alert.Rules = firedRules cfg wm ∧
    alert.Rules.Sublist
      ["excessive_attempt_rate", "failure_spike", "uid_spraying", "machine_timing",
        "attack_score"] ∧
    alert.Rules ≠ [] ∧
    alert.Score = cfg.Detection.Weights.APS * wm.APS + cfg.Detection.Weights.FR * wm.FR +
      cfg.Detection.Weights.UDS * wm.UDS +
      cfg.Detection.Weights.TV * (1 / (wm.TV + cfg.Detection.Epsilon)) := by
  have := hpos
  obtain ⟨-, hne, t1, -, -, ha⟩ := evaluate_some cfg cooldown clk tick readerID wm alert
    cooldown' tick' h
  subst ha
  exact ⟨rfl, firedRules_sublist cfg wm, hne, rfl⟩

/-- C6 at the sample metrics: four of the five rules fire. -/
theorem evaluate_rules_and_score_witness :
    sampleAlert.Rules = firedRules sampleConfig sampleMetrics ∧
    sampleAlert.Rules =
      ["excessive_attempt_rate", "failure_spike", "machine_timing", "attack_score"] :=
  ⟨(evaluate_rules_and_score sampleConfig NewCooldown sampleClock 0 "reader01" sampleMetrics
    sampleAlert sampleCooldown 2 (by decide) evaluate_sample).1, rfl⟩

/-- C7: for every emitted window alert, the severity is `critical` if
`score > 2*AttackScoreThreshold` or `aps > 2*APS_threshold`, otherwise `high` if
`score > AttackScoreThreshold` or at least two rules fired, otherwise `medium`; the alert has
type `possible_bruteforce`, the window seconds and the metrics of the evaluated snapshot,
and the context `{engine: rfguard}`. -/
theorem evaluate_severity_and_fields (cfg : Config) (cooldown : Cooldown) (clk : Clock)
    (tick : Nat) (readerID : String) (wm : WindowMetrics) (alert : Alert)
    (cooldown' : Cooldown) (tick' : Nat)
    (h : Engine.evaluate cfg cooldown clk tick readerID wm = (some alert, cooldown', tick')) :
    alert.Severity =
      (if alert.Score > 2 * cfg.Detection.AttackScoreThreshold ∨
          wm.APS > 2 * cfg.Detection.APSThreshold then "critical"
       else if alert.Score > cfg.Detection.AttackScoreThreshold ∨ alert.Rules.length ≥ 2
         then "high"
       else "medium") ∧
    alert.AlertType = "possible_bruteforce" ∧
    alert.WindowSec = wm.WindowSec ∧
    alert.Metrics = wm ∧
    alert.Context = [("engine", "rfguard")] ∧
    alert.ReaderID = readerID := by
  obtain ⟨-, -, t1, -, -, ha⟩ := evaluate_some cfg cooldown clk tick readerID wm alert
    cooldown' tick' h
  subst ha
  exact ⟨rfl, rfl, rfl, rfl, rfl, rfl⟩

/-- C7 at the sample metrics and the alert they raise. -/
theorem evaluate_severity_and_fields_witness :
    sampleAlert.AlertType = "possible_bruteforce" ∧ sampleAlert.Metrics = sampleMetrics :=
  have hf := evaluate_severity_and_fields sampleConfig NewCooldown sampleClock 0 "reader01"
    sampleMetrics sampleAlert sampleCooldown 2 evaluate_sample
  ⟨hf.2.1, hf.2.2.2.1⟩

/-- C8: `AllowKey(key, cooldown)` evaluated at the instant `now = clk tick`: if
`cooldown ≤ 0` it returns true and leaves the table unchanged; if `cooldown > 0` and the key
has a recorded instant `t0` with `now - t0 < cooldown` it returns false and leaves the table
unchanged; in every other case it returns true and sets `table[key] = now`, every other key
unchanged. `Allow(reader, windowSec, cooldown)` is `AllowKey` on the key
`reader|windowSec`. -/
theorem cooldown_allow_contract (c : Cooldown) (clk : Clock) (tick : Nat) (key : String)
    (cooldown : Duration) :
    (cooldown ≤ 0 →
      (c.AllowKey clk tick key cooldown).1 = true ∧ (c.AllowKey clk tick key cooldown).2.1 = c) ∧
    (0 < cooldown → ∀ t0, c.last.lookup key = some t0 → clk tick - t0 < cooldown →
      (c.AllowKey clk tick key cooldown).1 = false ∧
      (c.AllowKey clk tick key cooldown).2.1 = c) ∧
    (0 < cooldown → (∀ t0, c.last.lookup key = some t0 → ¬ (clk tick - t0 < cooldown)) →
      (c.AllowKey clk tick key cooldown).1 = true ∧
      (c.AllowKey clk tick key cooldown).2.1.last.lookup key = some (clk tick) ∧
      ∀ k, k ≠ key →
        (c.AllowKey clk tick key cooldown).2.1.last.lookup k = c.last.lookup k) ∧
    (∀ (readerID : String) (windowSec : Int),
      c.Allow clk tick readerID windowSec cooldown =
        c.AllowKey clk tick (readerID ++ "|" ++ itoa windowSec) cooldown) := by
  refine ⟨?_, ?_, ?_, ?_⟩
  · intro h
    rw [AllowKey_off c clk tick key cooldown h]
    exact ⟨rfl, rfl⟩
  · intro h t0 hl hr
    rw [AllowKey_recent c clk tick key cooldown h t0 hl hr]
    exact ⟨rfl, rfl⟩
  · intro h hr
    rw [AllowKey_pass c clk tick key cooldown h hr]
    refine ⟨rfl, ?_, ?_⟩
    · simp [GoMap.lookup_set]
    · intro k hk
      have : ¬ key = k := fun e => hk e.symm
      simp [GoMap.lookup_set, this]
  · intro readerID windowSec
    exact Allow_eq_AllowKey c clk tick readerID windowSec cooldown

/-- C8 at the sample table: three milliseconds after the recorded instant, with a cooldown
of five seconds, the gate denies and the table is unchanged. -/
theorem cooldown_allow_contract_witness :
    (sampleCooldown.AllowKey sampleClock 3 "reader01|1" 5000000000).1 = false ∧
    (sampleCooldown.AllowKey sampleClock 3 "reader01|1" 5000000000).2.1 = sampleCooldown :=
  (cooldown_allow_contract sampleCooldown sampleClock 3 "reader01|1" 5000000000).2.1
    (by decide) 0 (by decide) (by decide)

/-- C10: `Seen(key, now, ttl)` with `ttl > 0`, on a cache with one entry per key: if the key
is stored with an instant `t0` and `now - t0 ≤ ttl`, it returns true and leaves the cache
unchanged; otherwise it returns false and stores `key -> now`, after which, only if the
cache then holds more than 10,000 entries, exactly the entries with `now - t > ttl` are
removed and all others kept. -/
theorem dedupe_seen_contract (d : DedupeCache) (hd : d.items.keys.Nodup) (key : String)
    (now : Time) (ttl : Duration) (httl : 0 < ttl) :
    (∀ t0, d.items.lookup key = some t0 → now - t0 ≤ ttl →
      d.Seen key now ttl = (true, d)) ∧
    ((∀ t0, d.items.lookup key = some t0 → ¬ (now - t0 ≤ ttl)) →
      (d.Seen key now ttl).1 = false ∧
      (d.Seen key now ttl).2.items.lookup key = some now ∧
      ((d.items.set key now).length ≤ 10000 →
        (d.Seen key now ttl).2.items = d.items.set key now ∧
        ∀ k, k ≠ key → (d.Seen key now ttl).2.items.lookup k = d.items.lookup k) ∧
      ((d.items.set key now).length > 10000 →
        ∀ k, k ≠ key → (d.Seen key now ttl).2.items.lookup k =
          match d.items.lookup k with
          | some t => if now - t > ttl then none else some t
          | none => none)) := by
  refine ⟨fun t0 hl hr => Seen_fresh d key now ttl t0 hl hr, ?_⟩
  intro hr
  have hnd : (d.items.set key now).keys.Nodup := GoMap.keys_set_nodup _ hd _ _
  rw [Seen_stale d key now ttl hr]
  refine ⟨rfl, ?_, ?_, ?_⟩
  · split_ifs with hbig
    · simp only [DedupeCache.compact]
      rw [GoMap.lookup_filter _ hnd (fun t => decide ¬ (now - t > ttl)), GoMap.lookup_set]
      have : ¬ (now - now > ttl) := by
        have h0 : now - now = 0 := sub_self now
        rw [h0]; exact not_lt.2 (le_of_lt httl)
      simp [Option.filter, le_of_lt httl]
    · simp [GoMap.lookup_set]
  · intro hsmall
    have : ¬ ((d.items.set key now).length > 10000) := not_lt.2 hsmall
    rw [if_neg this]
    refine ⟨rfl, ?_⟩
    intro k hk
    have : ¬ key = k := fun e => hk e.symm
    simp [GoMap.lookup_set, this]
  · intro hbig k hk
    have hne : ¬ key = k := fun e => hk e.symm
    rw [if_pos hbig]
    simp only [DedupeCache.compact]
    rw [GoMap.lookup_filter _ hnd (fun t => decide ¬ (now - t > ttl)), GoMap.lookup_set,
      if_neg hne]
    cases d.items.lookup k with
    | none => simp [Option.filter]
    | some t =>
      by_cases ht : now - t > ttl <;> simp [Option.filter, ht]

/-- C10 at the sample cache: a key stored five seconds ago, with a TTL of two seconds, is
reported as not seen and is stored again with the present instant. -/
theorem dedupe_seen_contract_witness :
    (sampleDedupe.Seen "k1" 5000000000 2000000000).1 = false ∧
    (sampleDedupe.Seen "k1" 5000000000 2000000000).2.items.lookup "k1" = some 5000000000 :=
  have h := (dedupe_seen_contract sampleDedupe (by decide) "k1" 5000000000 2000000000
    (by decide)).2 (by decide)
  ⟨h.1, h.2.1⟩

/-! ## Settled claims: the engine -/

/-- C9: for a fixed `AlertCooldown = c > 0`, a non-decreasing clock and no reset in between,
in every sequence of processed events, from any engine state: no two window alerts for the
same `(reader, window_sec)`, no two access-control alerts (`blacklisted_uid` or
`whitelist_violation`) for the same reader, and no two `repeated_auth_failure` alerts for
the same `(reader, uid)` are emitted less than `c` apart. An alert is emitted at the clock
reading of the cooldown gate that lets it through: the trace lists the alerts returned by
the calls, in order, each with the number of that reading, and each alert's timestamp is
the clock reading taken right after it. When no time passes between the gate and the stamp
of the earlier alert, the two timestamps are at least `c` apart as well. -/
theorem alerts_respect_cooldown (lib : Library) (clk : Clock) (hclk : Monotone clk)
    (e : Engine) (hc : 0 < e.cfg.Detection.AlertCooldown) (tick : Nat)
    (evs : List NormalizedEvent) :
    (processAllTrace lib clk e tick evs).map Prod.fst =
      (processAll lib clk e tick evs).1.flatten ∧
    (∀ x ∈ processAllTrace lib clk e tick evs, x.1.Timestamp = clk (x.2 + 1)) ∧
    (processAllTrace lib clk e tick evs).Pairwise
      (fun x y => sameSlot x.1 y.1 → e.cfg.Detection.AlertCooldown ≤ clk y.2 - clk x.2) ∧
    (processAllTrace lib clk e tick evs).Pairwise
      (fun x y => sameSlot x.1 y.1 → clk (x.2 + 1) = clk x.2 →
        e.cfg.Detection.AlertCooldown ≤ y.1.Timestamp - x.1.Timestamp) := by
  obtain ⟨hg, hal, hts⟩ := processAll_gate lib clk hclk evs e hc tick []
    (GateInv.nil _ clk e.cooldown tick)
  have hs := hg.spaced
  rw [List.nil_append] at hs
  have hsp : (processAllTrace lib clk e tick evs).Pairwise
      (fun x y => sameSlot x.1 y.1 → e.cfg.Detection.AlertCooldown ≤ clk y.2 - clk x.2) :=
    hs.imp (fun hxy hslot => hxy (sameSlot_slotKey _ _ hslot))
  refine ⟨hal.symm, hts, hsp, ?_⟩
  refine hsp.imp_of_mem ?_
  intro x y hx hy hxy hslot hstamp
  rw [hts x hx, hts y hy, hstamp]
  have h1 : clk y.2 ≤ clk (y.2 + 1) := hclk (Nat.le_succ _)
  have h2 : clk y.2 - clk x.2 ≤ clk (y.2 + 1) - clk x.2 := sub_le_sub_right h1 _
  exact le_trans (hxy hslot) h2

/-- C9 at a sample run: three failed attempts of one card processed by a new engine with a
cooldown of five seconds and no windows, on a clock that advances by three seconds per
reading. The second and the third attempt each raise a `repeated_auth_failure` alert, let
through by the gate at the readings number 2 and 5, nine seconds apart. -/
theorem alerts_respect_cooldown_witness :
    (processAllTrace sampleLibrary slowClock sampleEngine 0 sampleEvents).map
        (fun x => (x.1.AlertType, x.2)) =
      [("repeated_auth_failure", 2), ("repeated_auth_failure", 5)] ∧
    (processAllTrace sampleLibrary slowClock sampleEngine 0 sampleEvents).Pairwise
      (fun x y => sameSlot x.1 y.1 →
        (5000000000 : Duration) ≤ slowClock y.2 - slowClock x.2) :=
  ⟨by decide,
    (alerts_respect_cooldown sampleLibrary slowClock
      (fun a b hab => by
        show (3000000000 : Int) * (a : Int) ≤ 3000000000 * (b : Int)
        have : (a : Int) ≤ (b : Int) := by exact_mod_cast hab
        omega)
      sampleEngine (by decide) 0 sampleEvents).2.2.1⟩

/-! ## Settled claims: clamping and deduplication -/

/-- C11 (false as stated): an event without a timestamp is clamped to the clock reading of
each call, so its copy, processed two milliseconds later with a deduplication window of one
second, hashes differently, is not dropped and raises a `repeated_auth_failure` alert. -/
theorem dedupe_replay_counterexample :
    0 < dedupeEngine.cfg.Detection.DedupeWindow ∧
    (processAll sampleLibrary wallClock dedupeEngine 0 [untimedEvent]).2.2 = 2 ∧
    wallClock 3 - wallClock 1 ≤ dedupeEngine.cfg.Detection.DedupeWindow ∧
    (Engine.ProcessEvent sampleLibrary
      (processAll sampleLibrary wallClock dedupeEngine 0 [untimedEvent]).2.1 wallClock 2
      untimedEvent).1 ≠ [] := by
  decide

/-- C11 (as amended): with `DedupeWindow > 0` and a non-decreasing clock, let an event be
processed and accepted, then any events, then a byte-identical copy of the first. If
clamping gives the copy the timestamp it gave the first (as it does for a non-zero timestamp
within the skew bounds at both calls) and the cache is asked about the copy within
`DedupeWindow` of the instant it stored for the first, the copy returns zero alerts and
leaves the engine (windows, streak counters, cooldown table, cache and both sinks) as it
was. -/
theorem dedupe_replay_dropped (lib : Library) (clk : Clock) (hclk : Monotone clk)
    (e : Engine) (tick : Nat) (ev : NormalizedEvent) (mid : List NormalizedEvent)
    (hw : 0 < e.cfg.Detection.DedupeWindow)
    (hfirst : e.dropsAsDuplicate lib clk tick ev = false)
    (hclamp : clampEvent e.cfg (clk (processAll lib clk e tick (ev :: mid)).2.2) ev =
      clampEvent e.cfg (clk tick) ev)
    (hnear : clk ((processAll lib clk e tick (ev :: mid)).2.2 + 1) - clk (tick + 1) ≤
      e.cfg.Detection.DedupeWindow) :
    (Engine.ProcessEvent lib (processAll lib clk e tick (ev :: mid)).2.1 clk
      (processAll lib clk e tick (ev :: mid)).2.2 ev).1 = [] ∧
    (Engine.ProcessEvent lib (processAll lib clk e tick (ev :: mid)).2.1 clk
      (processAll lib clk e tick (ev :: mid)).2.2 ev).2.1 =
      (processAll lib clk e tick (ev :: mid)).2.1 := by
  obtain ⟨hcfg, hdd, -⟩ := ProcessEvent_frame lib e clk tick ev
  have hon := isDuplicate_on lib e.deDupe clk (tick + 1) (clampEvent e.cfg (clk tick) ev)
    e.cfg.Detection.DedupeWindow hw
  have hmiss : (e.deDupe.Seen (hashEvent lib (clampEvent e.cfg (clk tick) ev)) (clk (tick + 1))
      e.cfg.Detection.DedupeWindow).1 = false := by
    have := hfirst
    unfold Engine.dropsAsDuplicate at this
    rw [hon] at this
    exact this
  have hst : (Engine.ProcessEvent lib e clk tick ev).2.1.deDupe.items.lookup
      (hashEvent lib (clampEvent e.cfg (clk tick) ev)) = some (clk (tick + 1)) := by
    rw [hdd, hon]
    exact Seen_stores _ _ _ _ (le_of_lt hw) hmiss
  rw [processAll_cons] at hclamp hnear ⊢
  dsimp only at hclamp hnear ⊢
  obtain ⟨hk, hc2⟩ := processAll_keeps lib clk hclk mid (Engine.ProcessEvent lib e clk tick ev).2.1
    (Engine.ProcessEvent lib e clk tick ev).2.2 _ _ hst (by rw [hcfg]; exact hnear)
  apply ProcessEvent_duplicate
  unfold Engine.dropsAsDuplicate
  rw [hc2, hcfg, isDuplicate_on _ _ _ _ _ _ hw, hclamp]
  exact (Seen_true_iff _ _ _ _).2 ⟨_, hk, hnear⟩

/-- C11 (as amended) at a sample run: a timed event, then an untimed one, then the copy of
the first, four milliseconds after it. -/
theorem dedupe_replay_dropped_witness :
    (Engine.ProcessEvent sampleLibrary
      (processAll sampleLibrary wallClock dedupeEngine 0 [timedEvent, untimedEvent]).2.1
      wallClock (processAll sampleLibrary wallClock dedupeEngine 0
        [timedEvent, untimedEvent]).2.2 timedEvent).1 = [] :=
  (dedupe_replay_dropped sampleLibrary wallClock
    (fun a b hab => by
      show (1000000000000 : Int) + 1000000 * (a : Int) ≤ 1000000000000 + 1000000 * (b : Int)
      have : (a : Int) ≤ (b : Int) := by exact_mod_cast hab
      omega)
    dedupeEngine 0 timedEvent [untimedEvent] (by decide) (by decide) (by decide)
    (by decide)).1

/-- C12: whenever the deduplication cache reports the clamped event as a duplicate,
`ProcessEvent` returns no alerts and leaves the engine exactly as it was before the call:
the reader map with every reader's windows and streak counters, the cooldown table, the
deduplication cache, the alerts sink and the metrics sink. -/
theorem duplicate_changes_nothing (lib : Library) (e : Engine) (clk : Clock) (tick : Nat)
    (ev : NormalizedEvent) (h : e.dropsAsDuplicate lib clk tick ev = true) :
    (Engine.ProcessEvent lib e clk tick ev).1 = [] ∧
    (Engine.ProcessEvent lib e clk tick ev).2.1 = e ∧
    (Engine.ProcessEvent lib e clk tick ev).2.1.readers = e.readers ∧
    (Engine.ProcessEvent lib e clk tick ev).2.1.cooldown = e.cooldown ∧
    (Engine.ProcessEvent lib e clk tick ev).2.1.deDupe = e.deDupe ∧
    (Engine.ProcessEvent lib e clk tick ev).2.1.alerts = e.alerts ∧
    (Engine.ProcessEvent lib e clk tick ev).2.1.metrics = e.metrics := by
  obtain ⟨h1, h2⟩ := ProcessEvent_duplicate lib e clk tick ev h
  rw [h2]
  exact ⟨h1, rfl, rfl, rfl, rfl, rfl, rfl⟩

/-- C12 at a sample engine: the state after one timed event, and the same event again. -/
theorem duplicate_changes_nothing_witness :
    (Engine.ProcessEvent sampleLibrary
      (Engine.ProcessEvent sampleLibrary dedupeEngine wallClock 0 timedEvent).2.1 wallClock 2
      timedEvent).2.1 =
    (Engine.ProcessEvent sampleLibrary dedupeEngine wallClock 0 timedEvent).2.1 :=
  (duplicate_changes_nothing sampleLibrary
    (Engine.ProcessEvent sampleLibrary dedupeEngine wallClock 0 timedEvent).2.1 wallClock 2
    timedEvent (by decide)).2.1

/-- C13 (false as stated): `Seen` has no guard on the TTL; with a TTL of 0 it reports a key
stored at the present instant as seen. -/
theorem seen_nonpositive_ttl_counterexample :
    ((0 : Duration) ≤ 0) ∧
    (DedupeCache.Seen { items := [("k1", 5)] } "k1" 5 0).1 = true := by
  decide

/-- C13 (as amended): the guard is in `Engine.isDuplicate`: whenever `dedupeWindow ≤ 0` it
returns false for every event, clock and cache content, without calling `Seen`, reading the
clock or touching the cache. `Seen` itself returns true exactly when the key is stored with
`now - t0 ≤ ttl`, whatever the sign of `ttl`. -/
theorem isDuplicate_nonpositive_window (lib : Library) (deDupe : DedupeCache) (clk : Clock)
    (tick : Nat) (ev : NormalizedEvent) (dedupeWindow : Duration) (key : String) (now : Time)
    (ttl : Duration) :
    (dedupeWindow ≤ 0 →
      Engine.isDuplicate lib deDupe clk tick ev dedupeWindow = (false, deDupe, tick)) ∧
    ((deDupe.Seen key now ttl).1 = true ↔
      ∃ t0, deDupe.items.lookup key = some t0 ∧ now - t0 ≤ ttl) :=
  ⟨isDuplicate_off lib deDupe clk tick ev dedupeWindow, Seen_true_iff deDupe key now ttl⟩

/-- C13 (as amended) at the sample cache, with a window of 0. -/
theorem isDuplicate_nonpositive_window_witness :
    Engine.isDuplicate sampleLibrary sampleDedupe wallClock 0 timedEvent 0 =
      (false, sampleDedupe, 0) :=
  (isDuplicate_nonpositive_window sampleLibrary sampleDedupe wallClock 0 timedEvent 0 "k1" 0
    0).1 (by decide)

/-- C19 (false as stated): with both skew bounds 0 the clamp is off; the timestamp 1 is
used at the instant 100 although it is neither `now` nor within the bounds. -/
theorem clamp_bounds_counterexample :
    ¬ ((clampTimestamp 1 100 0 0 = 100 ∨
        (clampTimestamp 1 100 0 0 = 1 ∧ 100 - clampTimestamp 1 100 0 0 ≤ 0 ∧
          clampTimestamp 1 100 0 0 - 100 ≤ 0)) ∧
      |clampTimestamp 1 100 0 0 - 100| ≤ max 0 0) := by
  decide

/-- C19 (as amended): for every event timestamp and every `now`, the timestamp `t'` used
after clamping is `now` or the event's own timestamp; if `MaxClockSkew > 0` then
`now - t' ≤ MaxClockSkew`; if `MaxFutureSkew > 0` then `t' - now ≤ MaxFutureSkew`; and if
both are positive then `|t' - now| ≤ max(MaxClockSkew, MaxFutureSkew)`. A bound that is not
positive switches that side of the clamp off. -/
theorem clamp_bounds (ts now : Time) (maxClockSkew maxFutureSkew : Duration) :
    (clampTimestamp ts now maxClockSkew maxFutureSkew = now ∨
      clampTimestamp ts now maxClockSkew maxFutureSkew = ts) ∧
    (0 < maxClockSkew → now - clampTimestamp ts now maxClockSkew maxFutureSkew ≤ maxClockSkew) ∧
    (0 < maxFutureSkew →
      clampTimestamp ts now maxClockSkew maxFutureSkew - now ≤ maxFutureSkew) ∧
    (0 < maxClockSkew → 0 < maxFutureSkew →
      |clampTimestamp ts now maxClockSkew maxFutureSkew - now| ≤
        max maxClockSkew maxFutureSkew) := by
  refine ⟨(clampTimestamp_or ts now _ _).symm, clampTimestamp_past ts now _ _,
    clampTimestamp_future ts now _ _, ?_⟩
  intro hp hf
  have h1 := clampTimestamp_past ts now maxClockSkew maxFutureSkew hp
  have h2 := clampTimestamp_future ts now maxClockSkew maxFutureSkew hf
  rw [abs_le]
  constructor
  · have : now - clampTimestamp ts now maxClockSkew maxFutureSkew ≤
        max maxClockSkew maxFutureSkew := le_trans h1 (le_max_left _ _)
    linarith
  · exact le_trans h2 (le_max_right _ _)

/-- C19 (as amended) at bounds of ten and twenty: a timestamp fifty before `now` is
replaced, and the result is within both bounds. -/
theorem clamp_bounds_witness :
    |clampTimestamp 50 100 10 20 - 100| ≤ max 10 20 :=
  (clamp_bounds 50 100 10 20).2.2.2 (by decide) (by decide)

/-- C20: `clampTimestamp(ts, now, maxPast, maxFuture)` returns `now` if `ts` is the zero
instant; otherwise `now` if `maxPast > 0` and `now - ts > maxPast`; otherwise `now` if
`maxFuture > 0` and `ts - now > maxFuture`; otherwise `ts`. So the result is always `ts` or
`now`, and clamping a clamped timestamp against the same `now` changes nothing. -/
theorem clampTimestamp_contract (ts now : Time) (maxPast maxFuture : Duration) :
    clampTimestamp ts now maxPast maxFuture =
      (if ts = 0 then now
       else if maxPast > 0 ∧ now - ts > maxPast then now
       else if maxFuture > 0 ∧ ts - now > maxFuture then now
       else ts) ∧
    (clampTimestamp ts now maxPast maxFuture = ts ∨
      clampTimestamp ts now maxPast maxFuture = now) ∧
    clampTimestamp (clampTimestamp ts now maxPast maxFuture) now maxPast maxFuture =
      clampTimestamp ts now maxPast maxFuture :=
  ⟨clampTimestamp_eq ts now maxPast maxFuture, clampTimestamp_or ts now maxPast maxFuture,
    clampTimestamp_idem ts now maxPast maxFuture⟩

/-! ## Settled claims: access control -/

/-- C14: for the index built from a configuration (whose per-reader maps, being Go maps,
name each reader once), every reader `r` and every non-empty `u`: `IsBlacklisted r u` holds
iff access control is enabled and `u` is the normal form of an entry of the global blacklist
or of the blacklist of `r`; `IsWhitelisted r u` holds iff access control is enabled and `u`
is the normal form of an entry of the global whitelist or of the whitelist of `r`; the empty
string, to which some entries normalise, is a member of none of the four sets and is neither
blacklisted nor whitelisted. -/
theorem access_index_membership (cfg : Config)
    (hb : cfg.AccessControl.ReaderBlacklists.keys.Nodup)
    (hw : cfg.AccessControl.ReaderWhitelists.keys.Nodup) (r u : String) (hu : u ≠ "") :
    ((buildAccessControl cfg).IsBlacklisted r u = true ↔
      cfg.AccessControl.Enabled = true ∧
        ((∃ v ∈ cfg.AccessControl.Blacklist, normalizeUID v = u) ∨
          ∃ list, cfg.AccessControl.ReaderBlacklists.lookup r = some list ∧
            ∃ v ∈ list, normalizeUID v = u)) ∧
    ((buildAccessControl cfg).IsWhitelisted r u = true ↔
      cfg.AccessControl.Enabled = true ∧
        ((∃ v ∈ cfg.AccessControl.Whitelist, normalizeUID v = u) ∨
          ∃ list, cfg.AccessControl.ReaderWhitelists.lookup r = some list ∧
            ∃ v ∈ list, normalizeUID v = u)) ∧
    inSet (buildAccessControl cfg).GlobalBlacklist "" = false ∧
    inSet (buildAccessControl cfg).GlobalWhitelist "" = false ∧
    inReaderSet (buildAccessControl cfg).ReaderBlacklists r "" = false ∧
    inReaderSet (buildAccessControl cfg).ReaderWhitelists r "" = false ∧
    (buildAccessControl cfg).IsBlacklisted r "" = false ∧
    (buildAccessControl cfg).IsWhitelisted r "" = false := by
  obtain ⟨h1, h2, h3, h4⟩ := build_no_empty cfg hb hw r
  refine ⟨?_, ?_, h1, h2, h3, h4, ?_, ?_⟩
  · rw [IsBlacklisted_build cfg hb r u]
    simp only [ne_eq, hu, not_false_eq_true, true_and]
  · rw [IsWhitelisted_build cfg hw r u]
    simp only [ne_eq, hu, not_false_eq_true, true_and]
  · simp [AccessControlSet.IsBlacklisted]
  · simp [AccessControlSet.IsWhitelisted]

/-- C14 at the sample configuration: `BEEF` is blacklisted for `reader01`, by the entry
`be ef` of its per-reader list. -/
theorem access_index_membership_witness :
    "BEEF" ≠ "" ∧ (buildAccessControl accessConfig).IsBlacklisted "reader01" "BEEF" = true ∧
    (accessConfig.AccessControl.Enabled = true ∧
      ((∃ v ∈ accessConfig.AccessControl.Blacklist, normalizeUID v = "BEEF") ∨
        ∃ list, accessConfig.AccessControl.ReaderBlacklists.lookup "reader01" = some list ∧
          ∃ v ∈ list, normalizeUID v = "BEEF")) :=
  ⟨by decide, by decide,
    (access_index_membership accessConfig (by decide) (by decide) "reader01" "BEEF"
      (by decide)).1.1 (by decide)⟩

/-- C15: with access control enabled and the cooldown gate open, for an event whose UID
normalises to a non-empty value that is blacklisted, `evaluateAccess` returns one alert, of
type `blacklisted_uid`, severity `critical`, rules `[blacklisted_uid]`, window 0, with
context `uid` the normalised and `uid_raw` the original UID; it is not a
`whitelist_violation` alert, whatever the whitelist-only flag and the whitelists are. -/
theorem blacklist_precedence (cfg : Config) (ac : AccessControlSet) (cooldown : Cooldown)
    (clk : Clock) (tick : Nat) (ev : NormalizedEvent) (hen : ac.Enabled = true)
    (hne : normalizeUID ev.UID ≠ "")
    (hbl : ac.IsBlacklisted ev.ReaderID (normalizeUID ev.UID) = true)
    (hopen : (cooldown.Allow clk tick ev.ReaderID 0 cfg.Detection.AlertCooldown).1 = true) :
    ∃ alert, (Engine.evaluateAccess cfg ac cooldown clk tick ev).1 = some alert ∧
      alert.AlertType = "blacklisted_uid" ∧ alert.Severity = "critical" ∧
      alert.Rules = ["blacklisted_uid"] ∧ alert.WindowSec = 0 ∧
      alert.Context.lookup "uid" = some (normalizeUID ev.UID) ∧
      alert.Context.lookup "uid_raw" = some ev.UID ∧
      alert.AlertType ≠ "whitelist_violation" := by
  obtain ⟨alert, h1, h2, h3, h4, h5, _, h7⟩ :=
    evaluateAccess_blacklisted cfg ac cooldown clk tick ev hen hne hbl hopen
  refine ⟨alert, h1, h2, h3, h4, h5, ?_, ?_, ?_⟩
  · rw [h7]
    simp [eventContext, GoMap.lookup]
  · rw [h7]
    simp [eventContext, GoMap.lookup]
  · rw [h2]
    decide

/-- C15 at the sample index, in whitelist-only mode: the card `dead` is blacklisted and on
no whitelist, and the one alert is `blacklisted_uid`. -/
theorem blacklist_precedence_witness :
    (buildAccessControl accessConfig).WhitelistOnly = true ∧
    (buildAccessControl accessConfig).IsWhitelisted "reader01" "DEAD" = false ∧
    ∃ alert, (Engine.evaluateAccess accessConfig (buildAccessControl accessConfig) NewCooldown
        wallClock 0 blockedEvent).1 = some alert ∧
      alert.AlertType = "blacklisted_uid" ∧ alert.Severity = "critical" ∧
      alert.Rules = ["blacklisted_uid"] ∧ alert.WindowSec = 0 ∧
      alert.Context.lookup "uid" = some (normalizeUID blockedEvent.UID) ∧
      alert.Context.lookup "uid_raw" = some blockedEvent.UID ∧
      alert.AlertType ≠ "whitelist_violation" :=
  ⟨by decide, by decide,
    blacklist_precedence accessConfig (buildAccessControl accessConfig) NewCooldown wallClock 0
      blockedEvent (by decide) (by decide) (by decide) (by decide)⟩

/-- C16: with access control enabled: in whitelist-only mode with the cooldown gate open, an
event whose normalised UID is non-empty, not blacklisted and not whitelisted gets one alert
from `evaluateAccess`, of type `whitelist_violation`, severity `high` and rules
`[whitelist_violation]`; an event whose normalised UID is whitelisted and not blacklisted,
or is empty, gets none, and the cooldown table is not touched. -/
theorem whitelist_only_violation (cfg : Config) (ac : AccessControlSet) (cooldown : Cooldown)
    (clk : Clock) (tick : Nat) (ev : NormalizedEvent) (hen : ac.Enabled = true) :
    (ac.WhitelistOnly = true → normalizeUID ev.UID ≠ "" →
      ac.IsBlacklisted ev.ReaderID (normalizeUID ev.UID) = false →
      ac.IsWhitelisted ev.ReaderID (normalizeUID ev.UID) = false →
      (cooldown.Allow clk tick ev.ReaderID 0 cfg.Detection.AlertCooldown).1 = true →
      ∃ alert, (Engine.evaluateAccess cfg ac cooldown clk tick ev).1 = some alert ∧
        alert.AlertType = "whitelist_violation" ∧ alert.Severity = "high" ∧
        alert.Rules = ["whitelist_violation"]) ∧
    ((ac.IsWhitelisted ev.ReaderID (normalizeUID ev.UID) = true ∧
        ac.IsBlacklisted ev.ReaderID (normalizeUID ev.UID) = false) ∨
      normalizeUID ev.UID = "" →
      (Engine.evaluateAccess cfg ac cooldown clk tick ev).1 = none ∧
      (Engine.evaluateAccess cfg ac cooldown clk tick ev).2.1 = cooldown) := by
  constructor
  · intro hwo hne hbl hwl hopen
    obtain ⟨alert, h1, h2, h3, h4, _⟩ :=
      evaluateAccess_stranger cfg ac cooldown clk tick ev hen hwo hne hbl hwl hopen
    exact ⟨alert, h1, h2, h3, h4⟩
  · intro h
    rw [evaluateAccess_none cfg ac cooldown clk tick ev h]
    exact ⟨rfl, rfl⟩

/-- C16 at the sample index: the card `0f0f` is on no list and gets the alert; the card
`aabbcc` of `untimedEvent` is on the global whitelist and gets none. -/
theorem whitelist_only_violation_witness :
    (∃ alert, (Engine.evaluateAccess accessConfig (buildAccessControl accessConfig) NewCooldown
        wallClock 0 strangerEvent).1 = some alert ∧
      alert.AlertType = "whitelist_violation" ∧ alert.Severity = "high" ∧
      alert.Rules = ["whitelist_violation"]) ∧
    (Engine.evaluateAccess accessConfig (buildAccessControl accessConfig) NewCooldown
        wallClock 0 untimedEvent).1 = none :=
  ⟨(whitelist_only_violation accessConfig (buildAccessControl accessConfig) NewCooldown
      wallClock 0 strangerEvent (by decide)).1 (by decide) (by decide) (by decide) (by decide)
      (by decide),
    ((whitelist_only_violation accessConfig (buildAccessControl accessConfig) NewCooldown
      wallClock 0 untimedEvent (by decide)).2 (Or.inl (by decide))).1⟩

/-! ## Settled claims: repeated failures and the order of alerts -/

/-- C17: for a non-empty normalised UID `u`. (1) One call of `evaluateAuthStreak` takes the
streak counter of `u` from `n` to `streakStep u n ev`: unchanged by an event for another
UID, `n + 1` for a failure with an error code, 0 for any other event for `u`, whether or
not an alert is emitted. (2) After the rule has run on a new reader over any list of events,
and (3) after an engine that starts without readers has processed any list of events, the
counter of `u` on a reader is the number of most recent consecutive events for `u` with
result `failure` and a non-empty error code, among the events that reached the rule for
that reader (a dropped duplicate does not). (4) With the cooldown gate open, an alert is
emitted for an event for `u` exactly when the new streak is at least 2, and an emitted alert
is `repeated_auth_failure`, severity `medium`, window 0. -/
theorem streak_counts_recent_failures (u : String) (hu : u ≠ "") :
    (∀ (cfg : Config) (c : Cooldown) (clk : Clock) (tick : Nat) (reader : ReaderState)
        (ev : NormalizedEvent),
      countOf (Engine.evaluateAuthStreak cfg c clk tick reader ev).2.1.uidFailureStreak u =
        streakStep u (countOf reader.uidFailureStreak u) ev) ∧
    (∀ (cfg : Config) (c : Cooldown) (clk : Clock) (tick : Nat) (reader : ReaderState)
        (evs : List NormalizedEvent), reader.uidFailureStreak = [] →
      countOf (streakRun cfg clk c tick reader evs).1.uidFailureStreak u = streakOf u evs) ∧
    (∀ (lib : Library) (clk : Clock) (e : Engine) (tick : Nat) (k : String)
        (evs : List NormalizedEvent), e.readers = [] →
      (processAll lib clk e tick evs).2.1.streak k u =
        streakOf u (acceptedFor lib clk k e tick evs)) ∧
    (∀ (cfg : Config) (c : Cooldown) (clk : Clock) (tick : Nat) (reader : ReaderState)
        (ev : NormalizedEvent), normalizeUID ev.UID = u →
      (c.AllowKey clk tick ("authfail|" ++ reader.id ++ "|" ++ u)
        cfg.Detection.AlertCooldown).1 = true →
      ((Engine.evaluateAuthStreak cfg c clk tick reader ev).1.isSome = true ↔
        2 ≤ countOf (Engine.evaluateAuthStreak cfg c clk tick reader ev).2.1.uidFailureStreak
          u) ∧
      ∀ alert, (Engine.evaluateAuthStreak cfg c clk tick reader ev).1 = some alert →
        alert.AlertType = "repeated_auth_failure" ∧ alert.Severity = "medium" ∧
        alert.WindowSec = 0) := by
  refine ⟨?_, ?_, ?_, ?_⟩
  · intro cfg c clk tick reader ev
    exact evaluateAuthStreak_streak cfg c clk tick reader ev u hu
  · intro cfg c clk tick reader evs h0
    rw [streakRun_streak cfg clk u hu, streakOf_eq_foldl, h0]
    rfl
  · intro lib clk e tick k evs h0
    rw [processAll_streak lib clk k u hu, streakOf_eq_foldl]
    simp [Engine.streak, h0, GoMap.lookup]
  · intro cfg c clk tick reader ev hev hopen
    subst hev
    obtain ⟨h1, h2⟩ := evaluateAuthStreak_alert cfg c clk tick reader ev hu
    refine ⟨h1 hopen, fun alert ha => ?_⟩
    obtain ⟨h3, h4, h5, _⟩ := h2 alert ha
    exact ⟨h3, h4, h5⟩

/-- C17 at the sample engine: after a failure, a success and two failures of the same card
the counter is 2, the number of failures since the success; the first failure on a new
reader emits nothing and the second consecutive one emits. -/
theorem streak_counts_recent_failures_witness :
    "AABBCC" ≠ "" ∧
    (processAll sampleLibrary slowClock sampleEngine 0
      [untimedEvent, { untimedEvent with Result := "success" }, untimedEvent,
        untimedEvent]).2.1.streak "reader01" "AABBCC" = (2 : Nat) ∧
    (Engine.evaluateAuthStreak streakConfig NewCooldown slowClock 0
      { id := "reader01", windows := [], uidFailureStreak := [] } untimedEvent).1 = none ∧
    (Engine.evaluateAuthStreak streakConfig NewCooldown slowClock 0
      { id := "reader01", windows := [], uidFailureStreak := [("AABBCC", 1)] }
      untimedEvent).1.isSome = true :=
  ⟨by decide,
    ((streak_counts_recent_failures "AABBCC" (by decide)).2.2.1 sampleLibrary slowClock
      sampleEngine 0 "reader01"
      [untimedEvent, { untimedEvent with Result := "success" }, untimedEvent, untimedEvent]
      rfl).trans (by decide),
    Option.not_isSome_iff_eq_none.1 (fun h =>
      absurd (((streak_counts_recent_failures "AABBCC" (by decide)).2.2.2 streakConfig
        NewCooldown slowClock 0 { id := "reader01", windows := [], uidFailureStreak := [] }
        untimedEvent (by decide) (by decide)).1.1 h) (by decide)),
    ((streak_counts_recent_failures "AABBCC" (by decide)).2.2.2 streakConfig NewCooldown
      slowClock 0 { id := "reader01", windows := [], uidFailureStreak := [("AABBCC", 1)] }
      untimedEvent (by decide) (by decide)).1.2 (by decide)⟩

/-- C18: for every engine state that arises from `NewEngine` by calls of `ProcessEvent`,
`UpdateConfig` and `Reset`, the list that `ProcessEvent` returns for an event is, in order:
at most one access-control alert (`blacklisted_uid` or `whitelist_violation`), then at most
one `repeated_auth_failure` alert, then alerts of type `possible_bruteforce` whose
`WindowSec` are strictly ascending and are taken, in their order, from the keys of the
windows of the reader as `sortedWindows` lists them: at most one per window. For every
reader, `sortedWindows` is a permutation of its windows, each once, in ascending order of
the key, strictly ascending for the reader of the event. -/
theorem alerts_in_order (lib : Library) (e : Engine) (he : EngineReachable e) (clk : Clock)
    (tick : Nat) (ev : NormalizedEvent) :
    (∃ access streak windows : List Alert,
      (Engine.ProcessEvent lib e clk tick ev).1 = access ++ streak ++ windows ∧
      access.length ≤ 1 ∧
      (∀ x ∈ access, x.AlertType = "blacklisted_uid" ∨ x.AlertType = "whitelist_violation") ∧
      streak.length ≤ 1 ∧ (∀ x ∈ streak, x.AlertType = "repeated_auth_failure") ∧
      (∀ x ∈ windows, x.AlertType = "possible_bruteforce") ∧
      (windows.map (fun x => x.WindowSec)).Sorted (fun a b => a < b) ∧
      (windows.map (fun x => x.WindowSec)).Sublist
        ((Engine.getReader e.readers ev.ReaderID e.cfg).1.sortedWindows.map Prod.fst)) ∧
    ((Engine.getReader e.readers ev.ReaderID e.cfg).1.sortedWindows.map Prod.fst).Sorted
      (fun a b => a < b) ∧
    ∀ r : ReaderState, r.sortedWindows.Perm r.windows ∧
      (r.sortedWindows.map Prod.fst).Sorted (fun a b => a ≤ b) := by
  have hk := he.wellKeyed
  have hG := getReader_keyed e.readers ev.ReaderID e.cfg hk
  have hsorted := (sortedWindows_spec (Engine.getReader e.readers ev.ReaderID e.cfg).1).2.2
    hG.1
  obtain ⟨_, a, s, W, h1, h2, h3, h4, h5⟩ := ProcessEvent_order lib e hk clk tick ev
  refine ⟨⟨a.toList, s.toList, W, h1, ?_, h2, ?_, h3, h4, hsorted.sublist h5, h5⟩, hsorted,
    fun r => ⟨(sortedWindows_spec r).1, (sortedWindows_spec r).2.1⟩⟩
  · cases a <;> simp
  · cases s <;> simp

/-- C18 at the state of the sample engine after one event, for a second event. -/
theorem alerts_in_order_witness :
    EngineReachable seenEngine ∧
    ∃ access streak windows : List Alert,
      (Engine.ProcessEvent sampleLibrary seenEngine sampleClock 5 untimedEvent).1 =
        access ++ streak ++ windows ∧
      access.length ≤ 1 ∧ streak.length ≤ 1 ∧
      (windows.map (fun x => x.WindowSec)).Sorted (fun a b => a < b) :=
  ⟨EngineReachable.process _ _ _ _ _ (EngineReachable.new _ _ _),
    Exists.elim (alerts_in_order sampleLibrary seenEngine
      (EngineReachable.process sampleLibrary _ sampleClock 0 untimedEvent
        (EngineReachable.new sampleConfig (NewMetricsStore 100) (NewAlertsStore 100)))
      sampleClock 5 untimedEvent).1
      (fun a ha => Exists.elim ha (fun s hs => Exists.elim hs (fun w hw =>
        ⟨a, s, w, hw.1, hw.2.1, hw.2.2.2.1, hw.2.2.2.2.2.2.1⟩)))⟩

/-! ## Settled claims: UID normalisation -/

/-- C26: `normalizeUID` is idempotent; every character of its output is one of `0-9`,
`A-F`; a string of such characters only is its own image; so the images of `normalizeUID`
are exactly the strings of characters `0-9`, `A-F`. -/
theorem normalizeUID_idempotent_onto :
    (∀ s : String, normalizeUID (normalizeUID s) = normalizeUID s) ∧
    (∀ (s : String) (c : Char), c ∈ (normalizeUID s).data → isUpperHex c = true) ∧
    (∀ s : String, (∀ c ∈ s.data, isUpperHex c = true) → normalizeUID s = s) ∧
    (∀ t : String, (∀ c ∈ t.data, isUpperHex c = true) ↔ ∃ s, normalizeUID s = t) := by
  have h2 : ∀ (s : String) (c : Char), c ∈ (normalizeUID s).data → isUpperHex c = true := by
    intro s c hc
    rw [normalizeUID_eq_keepHex] at hc
    exact keepHex_upper s c hc
  have h3 : ∀ s : String, (∀ c ∈ s.data, isUpperHex c = true) → normalizeUID s = s := by
    intro s hs
    rw [normalizeUID_eq_keepHex]
    exact keepHex_fixed s hs
  refine ⟨fun s => h3 _ (h2 s), h2, h3, fun t => ⟨fun ht => ⟨t, h3 t ht⟩, ?_⟩⟩
  rintro ⟨s, rfl⟩
  exact h2 s

/-- C26 at sample strings: `DEADBEEF` is its own image, and normalising the image of
`de:ad be-ef` changes nothing. -/
theorem normalizeUID_idempotent_onto_witness :
    normalizeUID "DEADBEEF" = "DEADBEEF" ∧
    normalizeUID (normalizeUID "de:ad be-ef") = normalizeUID "de:ad be-ef" :=
  ⟨normalizeUID_idempotent_onto.2.2.1 "DEADBEEF" (by decide),
    normalizeUID_idempotent_onto.1 "de:ad be-ef"⟩

/-- C27: for every string, `normalizeUID` gives the characters `[0-9A-Fa-f]` of the string,
in their order, with `a-f` written as `A-F`, every other character left out; `DEAD-BEEF`
and `dead beef` both give `DEADBEEF`. -/
theorem normalizeUID_keeps_hex :
    (∀ s : String,
      normalizeUID s = String.mk ((s.data.filter isHexDigit).map Char.toUpper)) ∧
    normalizeUID "DEAD-BEEF" = "DEADBEEF" ∧ normalizeUID "dead beef" = "DEADBEEF" :=
  ⟨fun s => normalizeUID_eq_keepHex s, by decide, by decide⟩

/-! ## Settled claims: the windows of a reader -/

/-- C22 (false as stated): under a configuration that lists one second and one and a half
seconds, both positive, a new reader holds no window of one second: both durations have the
key 1, and the window of the second overwrites that of the first. -/
theorem getReader_exact_duration_counterexample :
    (∀ d ∈ fractionalConfig.Detection.Windows, 0 < d) ∧
    ¬ (∀ d ∈ fractionalConfig.Detection.Windows, ∃ k w,
        GoMap.lookup (Engine.getReader [] "reader01" fractionalConfig).1.windows k = some w ∧
        w.duration = d) := by
  have hw : (Engine.getReader [] "reader01" fractionalConfig).1.windows =
      [(1, NewWindowState 1500000000)] := by
    simp [Engine.getReader, fractionalConfig, sampleConfig, readerKey, GoMap.lookup,
      truncSeconds_eq, GoMap.set]
  refine ⟨by decide, fun h => ?_⟩
  obtain ⟨k, w, hl, hd⟩ := h 1000000000 (by decide)
  rw [hw] at hl
  unfold GoMap.lookup at hl
  split_ifs at hl
  · simp only [Option.some.injEq] at hl
    rw [← hl] at hd
    revert hd
    decide
  · simp [GoMap.lookup] at hl

/-- C22 (as amended): for readers whose windows are keyed by the whole seconds of their
durations (as in every reachable engine state), after `getReader` the reader holds, for
every listed duration `d`, a window under the key `int(d.Seconds())` whose duration has the
same whole number of seconds as `d`, and exactly the duration `d` when the durations held
before and the listed ones are whole seconds; it is a new window of duration `d` when no
window was held under that key and the listed durations have distinct keys; every window
held before the call is still held under its key, unchanged, whatever the configuration
lists. -/
theorem getReader_windows_contract (e : Engine) (he : EngineReachable e) (readerID : String)
    (cfg : Config) :
    (∀ d ∈ cfg.Detection.Windows, ∃ w,
      GoMap.lookup (Engine.getReader e.readers readerID cfg).1.windows
        (truncToInt (Duration.Seconds d)) = some w ∧
      truncToInt (Duration.Seconds w.duration) = truncToInt (Duration.Seconds d) ∧
      ((∀ r, GoMap.lookup e.readers (readerKey readerID) = some r →
          ∀ p ∈ r.windows, p.2.duration % 1000000000 = 0) →
        (∀ x ∈ cfg.Detection.Windows, x % 1000000000 = 0) → w.duration = d)) ∧
    ((cfg.Detection.Windows.map (fun d => truncToInt (Duration.Seconds d))).Nodup →
      ∀ d ∈ cfg.Detection.Windows,
        (∀ r, GoMap.lookup e.readers (readerKey readerID) = some r →
          GoMap.lookup r.windows (truncToInt (Duration.Seconds d)) = none) →
        GoMap.lookup (Engine.getReader e.readers readerID cfg).1.windows
          (truncToInt (Duration.Seconds d)) = some (NewWindowState d)) ∧
    (∀ r, GoMap.lookup e.readers (readerKey readerID) = some r → ∀ k w,
      GoMap.lookup r.windows k = some w →
      GoMap.lookup (Engine.getReader e.readers readerID cfg).1.windows k = some w) :=
  getReader_contract e.readers readerID cfg he.wellKeyed

/-- C22 at the sample engine after one event, under the configuration without windows: the
one-second window of `reader01` is still held, as it was. -/
theorem getReader_windows_contract_witness :
    EngineReachable seenEngine ∧
    ∀ r, GoMap.lookup seenEngine.readers (readerKey "reader01") = some r → ∀ k w,
      GoMap.lookup r.windows k = some w →
      GoMap.lookup (Engine.getReader seenEngine.readers "reader01" streakConfig).1.windows k =
        some w :=
  ⟨EngineReachable.process _ _ _ _ _ (EngineReachable.new _ _ _),
    (getReader_windows_contract seenEngine
      (EngineReachable.process sampleLibrary _ sampleClock 0 untimedEvent
        (EngineReachable.new sampleConfig (NewMetricsStore 100) (NewAlertsStore 100)))
      "reader01" streakConfig).2.2⟩

/-- C23 (false as stated): a window of one and a half seconds has `window_sec` 1, while one
and a half rounds to 2. -/
theorem window_sec_round_counterexample :
    0 < (NewWindowState 1500000000).duration ∧
    (NewWindowState 1500000000).Metrics.WindowSec ≠
      round (Duration.Seconds (NewWindowState 1500000000).duration) := by
  have h1 : (NewWindowState 1500000000).Metrics.WindowSec = 1 := by
    show truncToInt (Duration.Seconds 1500000000) = 1
    rw [truncSeconds_eq]
    decide
  have h2 : round (Duration.Seconds (NewWindowState 1500000000).duration) = 2 := by
    show round (Duration.Seconds 1500000000) = 2
    rw [round_eq, Int.floor_eq_iff]
    unfold Duration.Seconds
    constructor <;> norm_num
  rw [h1, h2]
  exact ⟨by decide, by decide⟩

/-- C23 (as amended): for every window, `Metrics().window_sec` is `int(duration.Seconds())`,
the seconds of the duration rounded toward zero: the whole seconds `duration / 10^9` of a
non-negative duration, which is the nearest integer when the fraction of a second is below
one half, as for a whole number of seconds; and in every reachable engine state each window
of each reader is stored under the `window_sec` of its metrics. -/
theorem window_sec_truncates (w : WindowState) :
    w.Metrics.WindowSec = truncToInt (Duration.Seconds w.duration) ∧
    (0 ≤ w.duration → w.Metrics.WindowSec = w.duration / 1000000000) ∧
    (0 ≤ w.duration → 2 * (w.duration % 1000000000) < 1000000000 →
      w.Metrics.WindowSec = round (Duration.Seconds w.duration)) ∧
    (∀ e : Engine, EngineReachable e → ∀ p ∈ e.readers, ∀ q ∈ p.2.windows,
      q.1 = q.2.Metrics.WindowSec) := by
  have h0 : ∀ v : WindowState, v.Metrics.WindowSec = truncToInt (Duration.Seconds v.duration) :=
    fun v => rfl
  refine ⟨h0 w, fun hd => ?_, fun hd hf => ?_, fun e he p hp q hq => ?_⟩
  · rw [h0, truncSeconds_eq, if_pos hd]
  · rw [h0, round_seconds_eq w.duration hd hf]
  · rw [h0]
    exact ((he.wellKeyed p hp).2 q hq).symm

/-- C23 at a window of two seconds: its `window_sec` is 2, the rounded number of seconds. -/
theorem window_sec_truncates_witness :
    (NewWindowState 2000000000).Metrics.WindowSec = 2 ∧
    (NewWindowState 2000000000).Metrics.WindowSec =
      round (Duration.Seconds (NewWindowState 2000000000).duration) :=
  ⟨((window_sec_truncates (NewWindowState 2000000000)).2.1 (by decide)).trans (by decide),
    (window_sec_truncates (NewWindowState 2000000000)).2.2.1 (by decide) (by decide)⟩

/-! ## Settled claims: reset, access control and the windows -/

/-- C25: `Reset` leaves a reachable engine with an empty reader map, an empty deduplication
cache and an empty cooldown table, with its configuration and both sinks as they were; after
it, any list of events returns, at the same clock readings, the same alerts as on an engine
newly built for the same configuration, whatever sinks that one is given. -/
theorem reset_like_new (e : Engine) (he : EngineReachable e) :
    e.Reset.readers = [] ∧ e.Reset.deDupe.items = [] ∧ e.Reset.cooldown.last = [] ∧
    e.Reset.cfg = e.cfg ∧ e.Reset.alerts = e.alerts ∧ e.Reset.metrics = e.metrics ∧
    ∀ (lib : Library) (clk : Clock) (tick : Nat) (evs : List NormalizedEvent)
      (metricsStore : MetricsStore) (alertsStore : AlertsStore),
      (processAll lib clk e.Reset tick evs).1 =
        (processAll lib clk (NewEngine e.cfg metricsStore alertsStore) tick evs).1 := by
  refine ⟨rfl, rfl, rfl, rfl, rfl, rfl, fun lib clk tick evs ms as => ?_⟩
  apply processAll_core
  have ha := he.access_eq
  simp only [Engine.core, Engine.Reset, NewEngine, ha]

/-- C25 at the sample engine after one event: reset, it answers two failures of one card as
a new engine does. -/
theorem reset_like_new_witness :
    EngineReachable seenEngine ∧ seenEngine.readers ≠ [] ∧ seenEngine.Reset.readers = [] ∧
    (processAll sampleLibrary sampleClock seenEngine.Reset 7 [untimedEvent, untimedEvent]).1 =
      (processAll sampleLibrary sampleClock
        (NewEngine seenEngine.cfg (NewMetricsStore 5) (NewAlertsStore 5)) 7
        [untimedEvent, untimedEvent]).1 :=
  ⟨EngineReachable.process _ _ _ _ _ (EngineReachable.new _ _ _), by decide,
    (reset_like_new seenEngine
      (EngineReachable.process sampleLibrary _ sampleClock 0 untimedEvent
        (EngineReachable.new sampleConfig (NewMetricsStore 100) (NewAlertsStore 100)))).1,
    (reset_like_new seenEngine
      (EngineReachable.process sampleLibrary _ sampleClock 0 untimedEvent
        (EngineReachable.new sampleConfig (NewMetricsStore 100) (NewAlertsStore 100)))).2.2.2.2.2.2
      sampleLibrary sampleClock 7 [untimedEvent, untimedEvent] (NewMetricsStore 5)
      (NewAlertsStore 5)⟩

/-- C24: for two engines with the same reader map and deduplication cache whose
configurations differ only in their access-control section (whatever their access-control
indexes and cooldown tables are), processing the same event at the same clock reading
leaves the same reader map: every window of every reader has the same live entries, the
same counters and the same computed metrics. When the event is not dropped as a duplicate,
every window of its reader has been fed the clamped event (eviction, then the event added at
the end), whether or not an access-control alert was produced or suppressed. -/
theorem windows_ignore_access_control (lib : Library) (e1 e2 : Engine) (clk : Clock)
    (tick : Nat) (ev : NormalizedEvent) (hr : e1.readers = e2.readers)
    (hd : e1.deDupe = e2.deDupe) (hdet : e1.cfg.Detection = e2.cfg.Detection) :
    (Engine.ProcessEvent lib e1 clk tick ev).2.1.readers =
      (Engine.ProcessEvent lib e2 clk tick ev).2.1.readers ∧
    (∀ rk r1 r2 k w1 w2,
      GoMap.lookup (Engine.ProcessEvent lib e1 clk tick ev).2.1.readers rk = some r1 →
      GoMap.lookup (Engine.ProcessEvent lib e2 clk tick ev).2.1.readers rk = some r2 →
      GoMap.lookup r1.windows k = some w1 → GoMap.lookup r2.windows k = some w2 →
      w1.live = w2.live ∧ w1.attempts = w2.attempts ∧ w1.failures = w2.failures ∧
      w1.uidCounts = w2.uidCounts ∧ w1.Metrics = w2.Metrics) ∧
    (EngineReachable e1 → e1.dropsAsDuplicate lib clk tick ev = false →
      ∃ r, GoMap.lookup (Engine.ProcessEvent lib e1 clk tick ev).2.1.readers
          (readerKey ev.ReaderID) = some r ∧
        ∀ k, GoMap.lookup r.windows k =
          (GoMap.lookup (Engine.getReader e1.readers ev.ReaderID e1.cfg).1.windows k).map
            (feedWindow (clampEvent e1.cfg (clk tick) ev))) ∧
    (∀ (x : NormalizedEvent) (w : WindowState), (feedWindow x w).events =
      (w.Evict (x.Timestamp - w.duration)).events ++
        [{ Timestamp := x.Timestamp, UID := x.UID, Result := x.Result }]) := by
  have heq := (ProcessEvent_readers_congr lib e1 e2 clk tick ev hr hd hdet).2
  refine ⟨heq, ?_, ?_, fun x w => by rw [feedWindow, Add_events]⟩
  · intro rk r1 r2 k w1 w2 h1 h2 h3 h4
    rw [heq, h2] at h1
    simp only [Option.some.injEq] at h1
    subst h1
    rw [h3] at h4
    simp only [Option.some.injEq] at h4
    subst h4
    exact ⟨rfl, rfl, rfl, rfl, rfl⟩
  · intro he hdup
    obtain ⟨r, h1, _, h3⟩ := ProcessEvent_windows lib e1 he.wellKeyed clk tick ev hdup
    exact ⟨r, h1, h3⟩

/-- C24 at the sample engine after one event: with and without the access-control section
that blacklists the card of `blockedEvent`, the reader map after that event is the same. -/
theorem windows_ignore_access_control_witness :
    (buildAccessControl guardedConfig).IsBlacklisted "reader01" (normalizeUID blockedEvent.UID) =
      true ∧
    sampleConfig.AccessControl.Enabled = false ∧
    (Engine.ProcessEvent sampleLibrary seenEngine sampleClock 7 blockedEvent).2.1.readers =
      (Engine.ProcessEvent sampleLibrary (seenEngine.UpdateConfig guardedConfig) sampleClock 7
        blockedEvent).2.1.readers :=
  ⟨by decide, by decide,
    (windows_ignore_access_control sampleLibrary seenEngine
      (seenEngine.UpdateConfig guardedConfig) sampleClock 7 blockedEvent rfl rfl rfl).1⟩

/-- C21 (the code differs): only `getReader` and the repeated-failure rule take an empty
reader identifier as `unknown`. For an event without reader identifier the access-control
alert carries the empty identifier and the cooldown key `|0`, where the same event for
`unknown` gives `unknown` and `unknown|0`; the repeated-failure alert carries `unknown`; and
after the event the reader `unknown` exists with its window while the metrics sink holds
nothing. -/
theorem empty_reader_not_rewritten :
    (Engine.ProcessEvent sampleLibrary accessEngine wallClock 0 anonymousBlocked).1.map
      (fun a => (a.AlertType, a.ReaderID)) = [("blacklisted_uid", "")] ∧
    (Engine.ProcessEvent sampleLibrary accessEngine wallClock 0
      { blockedEvent with ReaderID := "unknown" }).1.map
      (fun a => (a.AlertType, a.ReaderID)) = [("blacklisted_uid", "unknown")] ∧
    (Engine.ProcessEvent sampleLibrary accessEngine wallClock 0
      anonymousBlocked).2.1.cooldown.last.keys = ["|0"] ∧
    (Engine.ProcessEvent sampleLibrary accessEngine wallClock 0
      { blockedEvent with ReaderID := "unknown" }).2.1.cooldown.last.keys = ["unknown|0"] ∧
    (processAll sampleLibrary slowClock sampleEngine 0
      [anonymousFailure, anonymousFailure]).1.map
      (List.map (fun a => (a.AlertType, a.ReaderID))) =
        [[], [("repeated_auth_failure", "unknown")]] ∧
    GoMap.lookup (Engine.ProcessEvent sampleLibrary
      (NewEngine sampleConfig (NewMetricsStore 100) (NewAlertsStore 100)) sampleClock 0
      anonymousFailure).2.1.readers "unknown" ≠ none ∧
    (Engine.ProcessEvent sampleLibrary
      (NewEngine sampleConfig (NewMetricsStore 100) (NewAlertsStore 100)) sampleClock 0
      anonymousFailure).2.1.metrics.byReader = [] := by
  refine ⟨by decide, by decide, by decide, by decide, by decide, by decide, ?_⟩
  rw [ProcessEvent_anonymous_metrics _ _ _ _ _ rfl]
  rfl

/-! ## Settled claims: the scenarios of the rate detector -/

/-- C28: on a reachable engine without the reader, with deduplication and cooldown switched
off, a window of duration `d` configured (the configured windows having distinct keys), and
events of one reader that clamping leaves as they are (skew bounds switched off, every
event with a timestamp), with non-decreasing timestamps of which the last is at most `d`
after the first: after the `n` events the window holds the entries of all of them, nothing
evicted, and its attempts are `n`; and whenever `n / d > APSThreshold`, the alerts returned
for the `n`-th event include a window alert whose rules contain
`excessive_attempt_rate`. -/
theorem bruteforce_rate_fires (lib : Library) (clk : Clock) (rid : String) (d : Duration)
    (pre : List NormalizedEvent) (last : NormalizedEvent) (e : Engine) (tick : Nat)
    (he : EngineReachable e) (hfresh : GoMap.lookup e.readers (readerKey rid) = none)
    (hdd : e.cfg.Detection.DedupeWindow ≤ 0) (hoff : e.cfg.Detection.AlertCooldown ≤ 0)
    (hd : d ∈ e.cfg.Detection.Windows)
    (hnd : (e.cfg.Detection.Windows.map (fun x => truncToInt (Duration.Seconds x))).Nodup)
    (hev : ∀ ev ∈ pre ++ [last], ev.ReaderID = rid ∧ ∀ now, clampEvent e.cfg now ev = ev)
    (hsorted : ((pre ++ [last]).map (fun ev => ev.Timestamp)).Sorted (fun a b => a ≤ b))
    (hspan : ∀ first ∈ (pre ++ [last]).head?, last.Timestamp - first.Timestamp ≤ d) :
    ∃ w, (Engine.ProcessEvent lib (processAll lib clk e tick pre).2.1 clk
        (processAll lib clk e tick pre).2.2 last).2.1.windowAt (readerKey rid)
        (truncToInt (Duration.Seconds d)) = some w ∧
      w.live = (pre ++ [last]).map toEntry ∧ w.attempts = ((pre.length + 1 : ℕ) : Int) ∧
      w.Metrics.Attempts = ((pre.length + 1 : ℕ) : Int) ∧
      (((pre.length + 1 : ℕ) : ℚ) / Duration.Seconds d > e.cfg.Detection.APSThreshold →
        ∃ a ∈ (Engine.ProcessEvent lib (processAll lib clk e tick pre).2.1 clk
            (processAll lib clk e tick pre).2.2 last).1,
          a.AlertType = "possible_bruteforce" ∧
          a.WindowSec = truncToInt (Duration.Seconds d) ∧
          "excessive_attempt_rate" ∈ a.Rules) := by
  obtain ⟨w, h1, h2, h3, h4, h5⟩ := fresh_run lib clk rid d pre last e tick he hfresh hdd hoff
    hd hnd hev (pairwise_of_sorted_span pre last d hsorted hspan)
  have hne : w.live ≠ [] := by rw [h3]; simp
  have hlen : w.live.length = pre.length + 1 := by rw [h3]; simp
  obtain ⟨m1, m2, m3⟩ := Consistent.metrics_rate w h4 hne
  rw [hlen] at m1 m2 m3
  rw [h2] at m3
  refine ⟨w, h1, h3, m1, m2, fun haps => ?_⟩
  have hmem : "excessive_attempt_rate" ∈ firedRules e.cfg w.Metrics :=
    (mem_firedRules e.cfg w.Metrics).1 (by rw [m3]; exact haps)
  obtain ⟨a, ha1, ha2, ha3, _, ha5⟩ := h5 (List.ne_nil_of_mem hmem)
  exact ⟨a, ha1, ha2, ha3, by rw [ha5]; exact hmem⟩

/-- C28 at the engine of the tests: eleven failures of one card at 20 ms spacing on a
one-second window with threshold 10; the eleventh call returns the alert. -/
theorem bruteforce_rate_fires_witness :
    ∃ a ∈ (Engine.ProcessEvent sampleLibrary
        (processAll sampleLibrary sampleClock burstEngine 0
          ((List.range 10).map (burstEvent 20000000))).2.1 sampleClock
        (processAll sampleLibrary sampleClock burstEngine 0
          ((List.range 10).map (burstEvent 20000000))).2.2 (burstEvent 20000000 10)).1,
      a.AlertType = "possible_bruteforce" ∧ a.WindowSec = 1 ∧
      "excessive_attempt_rate" ∈ a.Rules := by
  obtain ⟨w, _, _, _, _, h⟩ := bruteforce_rate_fires sampleLibrary sampleClock "reader01"
    1000000000 ((List.range 10).map (burstEvent 20000000)) (burstEvent 20000000 10) burstEngine
    0 (EngineReachable.new _ _ _) rfl (by decide) (by decide) (by decide) (by decide)
    (fun ev hev => ⟨by revert ev; decide, fun now =>
      clampEvent_off _ now ev (by decide) (by decide) (by revert ev; decide)⟩)
    (by decide) (by decide)
  obtain ⟨a, ha1, ha2, ha3, ha4⟩ := h (by
    show ((11 : ℕ) : ℚ) / Duration.Seconds 1000000000 > 10
    unfold Duration.Seconds
    norm_num)
  refine ⟨a, ha1, ha2, ?_, ha4⟩
  rw [ha3, truncSeconds_eq]
  decide

/-- C29: under the conditions of C28 on the engine, the window and the timestamps, when the
UIDs of the `n` events are non-empty and pairwise distinct, the UID diversity of the window
after the `n`-th event is 1; and whenever `UIDDiversityThreshold < 1` and
`n / d > APSElevatedThreshold`, the alerts returned for the `n`-th event include a window
alert whose rules contain `uid_spraying`. -/
theorem uid_spraying_fires (lib : Library) (clk : Clock) (rid : String) (d : Duration)
    (pre : List NormalizedEvent) (last : NormalizedEvent) (e : Engine) (tick : Nat)
    (he : EngineReachable e) (hfresh : GoMap.lookup e.readers (readerKey rid) = none)
    (hdd : e.cfg.Detection.DedupeWindow ≤ 0) (hoff : e.cfg.Detection.AlertCooldown ≤ 0)
    (hd : d ∈ e.cfg.Detection.Windows)
    (hnd : (e.cfg.Detection.Windows.map (fun x => truncToInt (Duration.Seconds x))).Nodup)
    (hev : ∀ ev ∈ pre ++ [last], ev.ReaderID = rid ∧ ∀ now, clampEvent e.cfg now ev = ev)
    (hsorted : ((pre ++ [last]).map (fun ev => ev.Timestamp)).Sorted (fun a b => a ≤ b))
    (hspan : ∀ first ∈ (pre ++ [last]).head?, last.Timestamp - first.Timestamp ≤ d)
    (huid : ∀ ev ∈ pre ++ [last], ev.UID ≠ "")
    (hdistinct : ((pre ++ [last]).map (fun ev => ev.UID)).Nodup) :
    ∃ w, (Engine.ProcessEvent lib (processAll lib clk e tick pre).2.1 clk
        (processAll lib clk e tick pre).2.2 last).2.1.windowAt (readerKey rid)
        (truncToInt (Duration.Seconds d)) = some w ∧
      w.live = (pre ++ [last]).map toEntry ∧ w.Metrics.UDS = 1 ∧
      (e.cfg.Detection.UIDDiversityThreshold < 1 →
        ((pre.length + 1 : ℕ) : ℚ) / Duration.Seconds d >
          e.cfg.Detection.APSElevatedThreshold →
        ∃ a ∈ (Engine.ProcessEvent lib (processAll lib clk e tick pre).2.1 clk
            (processAll lib clk e tick pre).2.2 last).1,
          a.AlertType = "possible_bruteforce" ∧
          a.WindowSec = truncToInt (Duration.Seconds d) ∧ "uid_spraying" ∈ a.Rules) := by
  obtain ⟨w, h1, h2, h3, h4, h5⟩ := fresh_run lib clk rid d pre last e tick he hfresh hdd hoff
    hd hnd hev (pairwise_of_sorted_span pre last d hsorted hspan)
  have hne : w.live ≠ [] := by rw [h3]; simp
  have hlen : w.live.length = pre.length + 1 := by rw [h3]; simp
  obtain ⟨_, _, m3⟩ := Consistent.metrics_rate w h4 hne
  rw [hlen, h2] at m3
  have huds : w.Metrics.UDS = 1 := by
    apply Consistent.metrics_uds w h4 hne
    · intro x hx
      rw [h3] at hx
      obtain ⟨ev, hev1, rfl⟩ := List.mem_map.1 hx
      exact huid ev hev1
    · rw [h3, List.map_map]
      exact hdistinct
  refine ⟨w, h1, h3, huds, fun hthr haps => ?_⟩
  have hmem : "uid_spraying" ∈ firedRules e.cfg w.Metrics :=
    (mem_firedRules e.cfg w.Metrics).2.1 (by rw [huds]; exact hthr) (by rw [m3]; exact haps)
  obtain ⟨a, ha1, ha2, ha3, _, ha5⟩ := h5 (List.ne_nil_of_mem hmem)
  exact ⟨a, ha1, ha2, ha3, by rw [ha5]; exact hmem⟩

/-- C29 at the engine of the tests: six failures with six cards at 30 ms spacing on a
one-second window, diversity threshold 0.8 and elevated rate 5; the sixth call returns the
alert. -/
theorem uid_spraying_fires_witness :
    ∃ a ∈ (Engine.ProcessEvent sampleLibrary
        (processAll sampleLibrary sampleClock burstEngine 0
          ((List.range 5).map sprayEvent)).2.1 sampleClock
        (processAll sampleLibrary sampleClock burstEngine 0
          ((List.range 5).map sprayEvent)).2.2 (sprayEvent 5)).1,
      a.AlertType = "possible_bruteforce" ∧ a.WindowSec = 1 ∧ "uid_spraying" ∈ a.Rules := by
  obtain ⟨w, _, _, _, h⟩ := uid_spraying_fires sampleLibrary sampleClock "reader01"
    1000000000 ((List.range 5).map sprayEvent) (sprayEvent 5) burstEngine
    0 (EngineReachable.new _ _ _) rfl (by decide) (by decide) (by decide) (by decide)
    (fun ev hev => ⟨by revert ev; decide, fun now =>
      clampEvent_off _ now ev (by decide) (by decide) (by revert ev; decide)⟩)
    (by decide) (by decide) (by decide) (by decide)
  obtain ⟨a, ha1, ha2, ha3, ha4⟩ := h
    (by
      show (4 / 5 : ℚ) < 1
      norm_num)
    (by
      show ((6 : ℕ) : ℚ) / Duration.Seconds 1000000000 > 5
      unfold Duration.Seconds
      norm_num)
  refine ⟨a, ha1, ha2, ?_, ha4⟩
  rw [ha3, truncSeconds_eq]
  decide

/-- C30: a window whose live entries are equally spaced in time has timing variance exactly
0 (with fewer than two entries as well); hence, for a reachable engine with the cooldown
switched off and an event that is not dropped as a duplicate, whenever the window, as it is
after the event, has equally spaced live entries and a rate above
`APSElevatedThreshold`, and `TimingVarianceThreshold > 0`, the alerts returned for the
event include a window alert for that window whose rules contain `machine_timing`. -/
theorem equal_spacing_fires_machine_timing :
    (∀ w : WindowState, equallySpaced (w.live.map (fun x => x.Timestamp)) →
      w.Metrics.TV = 0) ∧
    (∀ (lib : Library) (e : Engine) (clk : Clock) (tick : Nat) (ev : NormalizedEvent) (k : Int)
      (w : WindowState), EngineReachable e → e.dropsAsDuplicate lib clk tick ev = false →
      e.cfg.Detection.AlertCooldown ≤ 0 →
      (Engine.ProcessEvent lib e clk tick ev).2.1.windowAt (readerKey ev.ReaderID) k = some w →
      equallySpaced (w.live.map (fun x => x.Timestamp)) →
      0 < e.cfg.Detection.TimingVarianceThreshold →
      w.Metrics.APS > e.cfg.Detection.APSElevatedThreshold →
      ∃ a ∈ (Engine.ProcessEvent lib e clk tick ev).1,
        a.AlertType = "possible_bruteforce" ∧ a.WindowSec = k ∧ a.Metrics = w.Metrics ∧
        "machine_timing" ∈ a.Rules) := by
  refine ⟨Metrics_TV_equallySpaced, ?_⟩
  intro lib e clk tick ev k w he hdup hoff hw hsp htv haps
  obtain ⟨r, hr, _, hrw⟩ := ProcessEvent_windows lib e he.wellKeyed clk tick ev hdup
  unfold Engine.windowAt at hw
  rw [hr] at hw
  dsimp only at hw
  rw [hrw k] at hw
  cases hg : GoMap.lookup (Engine.getReader e.readers ev.ReaderID e.cfg).1.windows k with
  | none => simp [hg] at hw
  | some w0 =>
    simp only [hg, Option.map_some', Option.some.injEq] at hw
    have hc0 := getReader_consistent _ _ _ he.windowsConsistent k w0 hg
    have hc := feedWindow_consistent (clampEvent e.cfg (clk tick) ev) w0 hc0
    have hlive := feedWindow_live (clampEvent e.cfg (clk tick) ev) w0 hc0
    rw [hw] at hc hlive
    have ha : w.Metrics.Attempts ≠ 0 := by
      show w.attempts ≠ 0
      rw [hc.attempts_eq, hlive]
      simp only [List.length_append, List.length_singleton, Nat.cast_add, Nat.cast_one]
      omega
    have hmem : "machine_timing" ∈ firedRules e.cfg w.Metrics :=
      (mem_firedRules e.cfg w.Metrics).2.2
        (by rw [Metrics_TV_equallySpaced w hsp]; exact htv) haps
    have hfire := ProcessEvent_fires lib e he.wellKeyed clk tick ev hdup hoff k w0 hg
    rw [hw] at hfire
    obtain ⟨a, ha1, ha2, _, ha4, ha5, ha6⟩ := hfire ha (List.ne_nil_of_mem hmem)
    exact ⟨a, ha1, ha2, ha4, ha5, by rw [ha6]; exact hmem⟩

/-- C30 at the engine of the tests: six failures at exactly 50 ms spacing on a one-second
window with elevated rate 5 and variance threshold 0.0001; the sixth call returns the
alert. -/
theorem equal_spacing_fires_machine_timing_witness :
    ∃ a ∈ (Engine.ProcessEvent sampleLibrary
        (processAll sampleLibrary sampleClock burstEngine 0
          ((List.range 5).map (burstEvent 50000000))).2.1 sampleClock
        (processAll sampleLibrary sampleClock burstEngine 0
          ((List.range 5).map (burstEvent 50000000))).2.2 (burstEvent 50000000 5)).1,
      a.AlertType = "possible_bruteforce" ∧ a.WindowSec = 1 ∧ a.Metrics.TV = 0 ∧
      "machine_timing" ∈ a.Rules := by
  obtain ⟨hre, hcfg⟩ := processAll_reachable sampleLibrary sampleClock
    ((List.range 5).map (burstEvent 50000000)) burstEngine 0 (EngineReachable.new _ _ _)
  obtain ⟨w, h1, h2, h3, h4, _⟩ := fresh_run sampleLibrary sampleClock "reader01"
    1000000000 ((List.range 5).map (burstEvent 50000000)) (burstEvent 50000000 5) burstEngine
    0 (EngineReachable.new _ _ _) rfl (by decide) (by decide) (by decide) (by decide)
    (fun ev hev => ⟨by revert ev; decide, fun now =>
      clampEvent_off _ now ev (by decide) (by decide) (by revert ev; decide)⟩)
    (by decide)
  have hsp : equallySpaced (w.live.map (fun x => x.Timestamp)) := by
    rw [h3]
    decide
  have haps : w.Metrics.APS = 6 := by
    rw [(Consistent.metrics_rate w h4 (by rw [h3]; decide)).2.2, h3, h2]
    unfold Duration.Seconds
    norm_num
  obtain ⟨a, ha1, ha2, ha3, ha4, ha5⟩ := equal_spacing_fires_machine_timing.2 sampleLibrary _
    sampleClock _ (burstEvent 50000000 5) _ w hre
    (dropsAsDuplicate_off _ _ _ _ _ (by rw [hcfg]; decide)) (by rw [hcfg]; decide) h1 hsp
    (by
      rw [hcfg]
      show (0 : ℚ) < 1 / 10000
      norm_num)
    (by
      rw [hcfg, haps]
      show (6 : ℚ) > 5
      norm_num)
  refine ⟨a, ha1, ha2, ?_, ?_, ha5⟩
  · rw [ha3, truncSeconds_eq]
    decide
  · rw [ha4]
    exact equal_spacing_fires_machine_timing.1 w hsp

/-! ## Buffer compaction -/

/-- C37: for every window state reached from `NewWindowState d` by `Add` and `Evict` calls,
`2 * head ≤ len(events)`, so the buffer is at most twice the live occupancy, and right after
an `Evict` of such a state either `head = 0` or `2 * head < len(events)`. -/
theorem buffer_at_most_twice_live (d : Duration) (w : WindowState) (h : Reachable d w) :
    2 * w.head ≤ w.events.length ∧ w.events.length ≤ 2 * w.live.length ∧
    ∀ cutoff : Time, (w.Evict cutoff).head = 0 ∨
      2 * (w.Evict cutoff).head < (w.Evict cutoff).events.length := by
  have hb := h.head_bound
  refine ⟨by omega, ?_, fun c => Evict_head_bound w c⟩
  simp only [WindowState.live, List.length_drop]
  omega

/-- C37 at the sample window. -/
theorem buffer_at_most_twice_live_witness :
    2 * sampleWindow.head ≤ sampleWindow.events.length ∧
    sampleWindow.events.length ≤ 2 * sampleWindow.live.length ∧
    ∀ cutoff : Time, (sampleWindow.Evict cutoff).head = 0 ∨
      2 * (sampleWindow.Evict cutoff).head < (sampleWindow.Evict cutoff).events.length :=
  buffer_at_most_twice_live 1000000000 sampleWindow
    (Reachable.add _ _ (Reachable.evict _ _ (Reachable.add _ _ (Reachable.add _ _ Reachable.init))))

/-! ## The alerts sink -/

/-- C32: an alerts sink created with limit `L` (a limit `≤ 0` meaning 1000) holds, after the
alerts `as` were added in turn, the last `min n L` of them in insertion order; `List k`
returns the last `min k size` stored alerts, all of them when `k ≤ 0` or `k > size`; and
`Since t` returns the stored alerts whose timestamp is at or after `t`, in stored order. -/
theorem alerts_sink_keeps_newest (L : Int) (as : List Alert) :
    (as.foldl AlertsStore.Add (NewAlertsStore L)).buf =
      lastN (min as.length (if L ≤ 0 then 1000 else L).toNat) as ∧
    (∀ k : Int, (as.foldl AlertsStore.Add (NewAlertsStore L)).List k =
      if k ≤ 0 ∨ k > ((as.foldl AlertsStore.Add (NewAlertsStore L)).buf.length : Int)
      then (as.foldl AlertsStore.Add (NewAlertsStore L)).buf
      else lastN (min k.toNat (as.foldl AlertsStore.Add (NewAlertsStore L)).buf.length)
        (as.foldl AlertsStore.Add (NewAlertsStore L)).buf) ∧
    (∀ t : Time, (as.foldl AlertsStore.Add (NewAlertsStore L)).Since t =
      (as.foldl AlertsStore.Add (NewAlertsStore L)).buf.filter
        (fun a => decide (t ≤ a.Timestamp))) := by
  have hlim : (NewAlertsStore L).limit = if L ≤ 0 then 1000 else L := rfl
  have hpos : 0 < (NewAlertsStore L).limit := by rw [hlim]; split_ifs <;> omega
  have h := AlertsStore_foldl as (NewAlertsStore L) hpos (by simpa [NewAlertsStore] using hpos.le)
  refine ⟨?_, fun k => ?_, fun t => AlertsStore_Since_eq _ t⟩
  · rw [h.2, hlim]
    simp only [NewAlertsStore, List.nil_append, lastN]
    congr 1
    omega
  · rw [AlertsStore_List_eq]
    split_ifs with hk
    · rfl
    · simp only [lastN]
      congr 1
      omega

/-! ## The deduplication key -/

/-- C38 (false as stated): the five parts are joined by `|` without escaping, so an attempt
at reader `gate|A` with card `01` and an attempt at reader `gate` with card `A|01` differ in
reader and in card and still give the same string to hash; with a deduplication window of one
second the second one is dropped as a duplicate of the first. -/
theorem dedupe_key_counterexample :
    pipeReaderEvent.ReaderID ≠ pipeCardEvent.ReaderID ∧
    pipeReaderEvent.UID ≠ pipeCardEvent.UID ∧
    hashMaterial sampleLibrary pipeReaderEvent = hashMaterial sampleLibrary pipeCardEvent ∧
    hashEvent sampleLibrary pipeReaderEvent = hashEvent sampleLibrary pipeCardEvent ∧
    dedupeEngine.dropsAsDuplicate sampleLibrary wallClock 0 pipeReaderEvent = false ∧
    (processAll sampleLibrary wallClock dedupeEngine 0 [pipeReaderEvent]).2.1.dropsAsDuplicate
      sampleLibrary wallClock
      (processAll sampleLibrary wallClock dedupeEngine 0 [pipeReaderEvent]).2.2
      pipeCardEvent = true ∧
    (Engine.ProcessEvent sampleLibrary
      (processAll sampleLibrary wallClock dedupeEngine 0 [pipeReaderEvent]).2.1 wallClock
      (processAll sampleLibrary wallClock dedupeEngine 0 [pipeReaderEvent]).2.2
      pipeCardEvent).1 = [] := by
  decide

/-- C38 (as amended): for two events whose reader id, UID, result and error code hold no
`|`, the string that `hashEvent` hashes is the same if and only if the events agree on
reader id, UID, result, error code and timestamp (the timestamp rendering telling the two
timestamps apart); `Source` and `Raw` never influence it; and two such events that differ in
reader id or UID give different strings, hence different keys unless the digest collides on
them. -/
theorem dedupe_key_material (lib : Library) (a b : NormalizedEvent)
    (ha : barFree a.ReaderID ∧ barFree a.UID ∧ barFree a.Result ∧ barFree a.ErrorCode)
    (hb : barFree b.ReaderID ∧ barFree b.UID ∧ barFree b.Result ∧ barFree b.ErrorCode)
    (hfmt : lib.formatRFC3339Nano a.Timestamp = lib.formatRFC3339Nano b.Timestamp →
      a.Timestamp = b.Timestamp) :
    (hashMaterial lib a = hashMaterial lib b ↔
      a.ReaderID = b.ReaderID ∧ a.UID = b.UID ∧ a.Result = b.Result ∧
      a.ErrorCode = b.ErrorCode ∧ a.Timestamp = b.Timestamp) ∧
    (∀ src raw : String,
      hashMaterial lib { a with Source := src, Raw := raw } = hashMaterial lib a ∧
      hashEvent lib { a with Source := src, Raw := raw } = hashEvent lib a) ∧
    (a.ReaderID ≠ b.ReaderID ∨ a.UID ≠ b.UID →
      hashMaterial lib a ≠ hashMaterial lib b ∧
      ((lib.sha256Hex (hashMaterial lib a) = lib.sha256Hex (hashMaterial lib b) →
        hashMaterial lib a = hashMaterial lib b) → hashEvent lib a ≠ hashEvent lib b)) := by
  have hiff : hashMaterial lib a = hashMaterial lib b ↔
      a.ReaderID = b.ReaderID ∧ a.UID = b.UID ∧ a.Result = b.Result ∧
      a.ErrorCode = b.ErrorCode ∧ a.Timestamp = b.Timestamp := by
    constructor
    · intro h
      have hd := congrArg String.data h
      rw [hashMaterial_data, hashMaterial_data] at hd
      obtain ⟨h1, hd⟩ := bar_split _ _ _ _ ha.1 hb.1 hd
      obtain ⟨h2, hd⟩ := bar_split _ _ _ _ ha.2.1 hb.2.1 hd
      obtain ⟨h3, hd⟩ := bar_split _ _ _ _ ha.2.2.1 hb.2.2.1 hd
      obtain ⟨h4, hd⟩ := bar_split _ _ _ _ ha.2.2.2 hb.2.2.2 hd
      exact ⟨String.ext h1, String.ext h2, String.ext h3, String.ext h4,
        hfmt (String.ext hd)⟩
    · rintro ⟨h1, h2, h3, h4, h5⟩
      simp only [hashMaterial, h1, h2, h3, h4, h5]
  refine ⟨hiff, fun src raw => ⟨rfl, rfl⟩, fun hne => ?_⟩
  have hm : hashMaterial lib a ≠ hashMaterial lib b := by
    intro h
    have := hiff.1 h
    rcases hne with hne | hne
    · exact hne this.1
    · exact hne this.2.1
  exact ⟨hm, fun hsha h => hm (hsha h)⟩

/-- C38 (as amended) at two attempts of one card at two readers. -/
theorem dedupe_key_material_witness :
    (hashMaterial sampleLibrary timedEvent =
        hashMaterial sampleLibrary { timedEvent with ReaderID := "reader02" } ↔
      timedEvent.ReaderID = "reader02" ∧ timedEvent.UID = timedEvent.UID ∧
      timedEvent.Result = timedEvent.Result ∧ timedEvent.ErrorCode = timedEvent.ErrorCode ∧
      timedEvent.Timestamp = timedEvent.Timestamp) ∧
    hashEvent sampleLibrary timedEvent ≠
      hashEvent sampleLibrary { timedEvent with ReaderID := "reader02" } :=
  have h := dedupe_key_material sampleLibrary timedEvent
    { timedEvent with ReaderID := "reader02" } (by decide) (by decide) (fun _ => rfl)
  ⟨h.1, (h.2.2 (Or.inl (by decide))).2 (fun hs => hs)⟩

/-! ## Cooldown slots -/

/-- C39 (false as stated): a window of half a second is a valid window (its duration is
positive) with `window_sec = 0`, so its cooldown key at reader `door` is `door|0`, the key
of the access-control alerts of that reader; and the access-control key of a reader named
`authfail|door` is the repeated-failure key of reader `door` and card `0`. -/
theorem cooldown_slot_counterexample :
    (0 : Duration) < 500000000 ∧
    accessSlot "door" = windowSlot "door" (truncToInt (Duration.Seconds 500000000)) ∧
    accessSlot "authfail|door" = streakSlot "door" (normalizeUID "0") := by
  refine ⟨by decide, ?_, by decide⟩
  rw [truncSeconds_eq]
  decide

/-- C39 (as amended): when every configured window lasts at least one second, then for every
reader id, every configured window and every normalized UID the access-control key
`<reader>|0`, the window key `<reader>|<window_sec>` and the repeated-failure key
`authfail|<reader>|<uid>` are pairwise distinct; the same holds for the keys of different
readers whose ids hold no `|`; `Allow` asks `AllowKey` for exactly the window key; and the
verdict of `AllowKey` on one of the three keys does not change when an instant is recorded
under another of them. -/
theorem cooldown_slots_distinct (cfg : Config)
    (hw : ∀ d ∈ cfg.Detection.Windows, (1000000000 : Int) ≤ d)
    (d : Duration) (hd : d ∈ cfg.Detection.Windows) (readerID uid : String) :
    accessSlot readerID ≠ windowSlot readerID (truncToInt (Duration.Seconds d)) ∧
    accessSlot readerID ≠ streakSlot readerID (normalizeUID uid) ∧
    windowSlot readerID (truncToInt (Duration.Seconds d)) ≠
      streakSlot readerID (normalizeUID uid) ∧
    (∀ r2 r3 : String, barFree readerID → barFree r2 → barFree r3 →
      accessSlot readerID ≠ windowSlot r2 (truncToInt (Duration.Seconds d)) ∧
      accessSlot readerID ≠ streakSlot r3 (normalizeUID uid) ∧
      windowSlot r2 (truncToInt (Duration.Seconds d)) ≠ streakSlot r3 (normalizeUID uid)) ∧
    (∀ (c : Cooldown) (clk : Clock) (tick : Nat) (cd : Duration), 0 < cd →
      c.Allow clk tick readerID (truncToInt (Duration.Seconds d)) cd =
        c.AllowKey clk tick (windowSlot readerID (truncToInt (Duration.Seconds d))) cd) ∧
    (∀ k1 ∈ [accessSlot readerID, windowSlot readerID (truncToInt (Duration.Seconds d)),
        streakSlot readerID (normalizeUID uid)],
      ∀ k2 ∈ [accessSlot readerID, windowSlot readerID (truncToInt (Duration.Seconds d)),
        streakSlot readerID (normalizeUID uid)],
      k1 ≠ k2 → ∀ (c : Cooldown) (clk : Clock) (tick : Nat) (t : Time) (cd : Duration),
        (Cooldown.AllowKey { last := c.last.set k2 t } clk tick k1 cd).1 =
          (c.AllowKey clk tick k1 cd).1) := by
  have hk := windowSec_pos d (hw d hd)
  have hu := normalizeUID_barFree uid
  refine ⟨fun h => hk (windowSlot_inj_same readerID _ h),
    windowSlot_ne_streakSlot readerID readerID _ 0 hu rfl,
    windowSlot_ne_streakSlot readerID readerID _ _ hu rfl, fun r2 r3 h1 h2 h3 => ?_,
    fun c clk tick cd hcd => ?_, fun k1 _ k2 _ hne c clk tick t cd =>
      AllowKey_other_key c clk tick k1 k2 t cd hne⟩
  · have hc : ∀ a b : String, barFree a → barFree b →
        a.data.count '|' = b.data.count '|' := fun a b ha hb => by
      rw [count_bar_zero _ ha, count_bar_zero _ hb]
    exact ⟨fun h => hk (windowSlot_inj_barFree readerID r2 _ h1 h2 h),
      windowSlot_ne_streakSlot readerID r3 _ 0 hu (hc _ _ h1 h3),
      windowSlot_ne_streakSlot r2 r3 _ _ hu (hc _ _ h2 h3)⟩
  · unfold Cooldown.Allow
    rw [if_neg (not_le.2 hcd)]
    rfl

/-- C39 (as amended) at the sample configuration, reader `reader01` and card `aa:bb`. -/
theorem cooldown_slots_distinct_witness :
    accessSlot "reader01" ≠ windowSlot "reader01" (truncToInt (Duration.Seconds 1000000000)) ∧
    accessSlot "reader01" ≠ streakSlot "reader01" (normalizeUID "aa:bb") ∧
    windowSlot "reader01" (truncToInt (Duration.Seconds 1000000000)) ≠
      streakSlot "reader01" (normalizeUID "aa:bb") :=
  have h := cooldown_slots_distinct sampleConfig (by decide) 1000000000 (by decide)
    "reader01" "aa:bb"
  ⟨h.1, h.2.1, h.2.2.1⟩

/-! ## UID diversity and the spelling of UIDs -/

/-- C40 (the code at the failing input): one card presented three times within a second,
its UID spelled `aabbcc`, `AABBCC` and `AA-BB-CC`, all of which normalize to `AABBCC`. After
the third call the one-second window of the reader has UID diversity 1 (three unique UIDs in
three attempts); on the stream with every UID replaced by its normalized form it has UID
diversity 1/3. -/
theorem spelling_changes_diversity :
    (List.range 3).map (fun i => normalizeUID (spelledEvent i).UID) =
      ["AABBCC", "AABBCC", "AABBCC"] ∧
    (∃ w, (processAll sampleLibrary sampleClock burstEngine 0
        ((List.range 3).map spelledEvent)).2.1.windowAt "reader01" 1 = some w ∧
      w.Metrics.Attempts = 3 ∧ w.Metrics.UDS = 1) ∧
    (∃ w, (processAll sampleLibrary sampleClock burstEngine 0
        ((List.range 3).map (fun i => withNormalizedUID (spelledEvent i)))).2.1.windowAt
          "reader01" 1 = some w ∧
      w.Metrics.Attempts = 3 ∧ w.Metrics.UDS = 1 / 3) := by
  have hk : truncToInt (Duration.Seconds 1000000000) = 1 := by rw [truncSeconds_eq]; decide
  have hrk : readerKey "reader01" = "reader01" := by decide
  have hrun : ∀ evs : List NormalizedEvent, evs ≠ [] →
      (∀ ev ∈ evs, ev.ReaderID = "reader01" ∧ ev.Timestamp ≠ 0) →
      evs.Pairwise (fun a b => b.Timestamp - a.Timestamp ≤ 1000000000) →
      ∃ w, (processAll sampleLibrary sampleClock burstEngine 0 evs).2.1.windowAt
          "reader01" 1 = some w ∧
        w.Metrics = recomputeMetrics 1000000000 (evs.map toEntry) := by
    intro evs hne hev hpair
    obtain ⟨w, h1, _, h3⟩ := fresh_run_metrics sampleLibrary sampleClock "reader01" 1000000000
      evs burstEngine 0 (EngineReachable.new _ _ _) rfl (by decide) (by decide) (by decide)
      (fun ev h => ⟨(hev ev h).1, fun now =>
        clampEvent_off _ now ev (by decide) (by decide) (hev ev h).2⟩) hpair hne
    rw [hk, hrk] at h1
    exact ⟨w, h1, h3⟩
  refine ⟨by decide, ?_, ?_⟩
  · obtain ⟨w, h1, h2⟩ := hrun ((List.range 3).map spelledEvent) (by decide) (by decide)
      (by decide)
    refine ⟨w, h1, by rw [h2]; decide, ?_⟩
    rw [h2]
    have hdist : (((((List.range 3).map spelledEvent).map toEntry).map
        (fun e => e.UID)).filter (fun u => decide (u ≠ ""))).dedup.length = 3 := by decide
    simp only [recomputeMetrics, hdist]
    norm_num
  · obtain ⟨w, h1, h2⟩ := hrun
      ((List.range 3).map (fun i => withNormalizedUID (spelledEvent i))) (by decide) (by decide)
      (by decide)
    refine ⟨w, h1, by rw [h2]; decide, ?_⟩
    rw [h2]
    have hdist : (((((List.range 3).map (fun i => withNormalizedUID (spelledEvent i))).map
        toEntry).map (fun e => e.UID)).filter (fun u => decide (u ≠ ""))).dedup.length = 1 := by
      decide
    simp only [recomputeMetrics, hdist]
    norm_num

/-! ## The metrics sink -/

/-- C33: for a metrics sink made with limit `L` (a limit `≤ 0` meaning 5000) and any calls of
`Update`, the number of readers held is at most the limit; when a further call for a reader
raises the count above the limit, one reader whose last-updated instant is not after that of
any reader is removed from both maps and nothing else changes, and if the call's instant is
later than those of all earlier calls, the removed reader is not the one just updated; a call
that stays within the limit removes nothing; and for every reader held, `Get` returns at most
one `WindowMetrics` per `window_sec`, each of them the one most recently published for that
reader and `window_sec`, and right after a call for a reader that is held it returns one for
every `window_sec` of that call. -/
theorem metrics_sink_contract (L : Int) (calls : List MetricsCall) (c : MetricsCall) :
    ((runMetrics L calls).byReader.length : Int) ≤ (if L ≤ 0 then 5000 else L) ∧
    (c.readerID ≠ "" →
      (((runMetrics L calls).written c).byReader.length : Int) > (if L ≤ 0 then 5000 else L) →
      ∃ victim : String × Time, victim ∈ ((runMetrics L calls).written c).updatedAt ∧
        (∀ p ∈ ((runMetrics L calls).written c).updatedAt, victim.2 ≤ p.2) ∧
        (runMetrics L (calls ++ [c])).byReader =
          ((runMetrics L calls).written c).byReader.delete victim.1 ∧
        (runMetrics L (calls ++ [c])).updatedAt =
          ((runMetrics L calls).written c).updatedAt.delete victim.1 ∧
        ((runMetrics L (calls ++ [c])).Get victim.1).2.2 = false ∧
        ((∀ c0 ∈ calls, c0.now < c.now) → victim.1 ≠ c.readerID ∧
          ((runMetrics L (calls ++ [c])).Get c.readerID).2.2 = true)) ∧
    (c.readerID ≠ "" →
      (((runMetrics L calls).written c).byReader.length : Int) ≤ (if L ≤ 0 then 5000 else L) →
      runMetrics L (calls ++ [c]) = (runMetrics L calls).written c) ∧
    (∀ r : String, ((runMetrics L calls).Get r).2.2 = true →
      (((runMetrics L calls).Get r).1.map (fun wm => wm.WindowSec)).Nodup ∧
      ∀ wm ∈ ((runMetrics L calls).Get r).1,
        lastPublished calls r wm.WindowSec = some wm) ∧
    (c.readerID ≠ "" → ((runMetrics L (calls ++ [c])).Get c.readerID).2.2 = true →
      ∀ wm ∈ c.metrics, ∃ x ∈ ((runMetrics L (calls ++ [c])).Get c.readerID).1,
        x.WindowSec = wm.WindowSec) := by
  obtain ⟨hs, hlim⟩ := runMetrics_inv L calls
  refine ⟨hlim ▸ hs.bound, fun hc hover => ?_, fun hc hle => ?_, Get_latest L calls,
    Get_complete L calls c⟩
  · rw [← hlim] at hover
    obtain ⟨_, hnd, _, _, _, _, _⟩ := written_keys (runMetrics L calls) c hs
    rcases Update_cases (runMetrics L calls) c hs hc with ⟨hle, _⟩ | ⟨_, v, hv1, hv2, hE⟩
    · exact absurd hover (not_lt.2 hle)
    · rw [runMetrics_snoc, hE]
      have hgone : GoMap.lookup
          (GoMap.delete ((runMetrics L calls).written c).byReader v.1) v.1 = none := by
        rw [GoMap.lookup_delete _ hnd, if_pos rfl]
      refine ⟨v, hv1, hv2, rfl, rfl, by simp [MetricsStore.Get, hgone], fun hinc => ?_⟩
      have hne := victim_not_updated L calls c hover v hv1 hv2 hinc
      have hkept : GoMap.lookup
          (GoMap.delete ((runMetrics L calls).written c).byReader v.1) c.readerID =
          some (c.metrics.foldl (fun m wm => GoMap.set m wm.WindowSec wm)
            ((GoMap.lookup (runMetrics L calls).byReader c.readerID).getD [])) := by
        rw [GoMap.lookup_delete _ hnd, if_neg hne]
        show GoMap.lookup (GoMap.set _ _ _) _ = _
        rw [GoMap.lookup_set, if_pos rfl]
      exact ⟨hne, by simp [MetricsStore.Get, hkept]⟩
  · rw [← hlim] at hle
    rcases Update_cases (runMetrics L calls) c hs hc with ⟨_, hE⟩ | ⟨hgt, _⟩
    · rw [runMetrics_snoc, hE]
    · exact absurd hgt (not_lt.2 hle)

/-! ## Normal success traffic -/

/-- C31: on a reachable engine with the single window `d > 0`, deduplication off and access
control off, that does not know the reader yet, let a stream of events of that reader, each a
success that clamping leaves as it is, have consecutive timestamps at least `d` apart. Then
after every event the window of the reader exists and holds one or two live entries, no
window of the reader holds more than two, and if `2 / d` exceeds neither `APSThreshold` nor
`APSElevatedThreshold` and `FailureRatioThreshold ≥ 0`, every call of `ProcessEvent` of the
stream returns no alerts. -/
theorem success_traffic_quiet (lib : Library) (clk : Clock) (rid : String) (d : Duration)
    (evs : List NormalizedEvent) (e : Engine) (tick : Nat)
    (he : EngineReachable e) (hfresh : GoMap.lookup e.readers (readerKey rid) = none)
    (hw : e.cfg.Detection.Windows = [d]) (hd : 0 < d)
    (hdd : e.cfg.Detection.DedupeWindow ≤ 0) (hacc : e.cfg.AccessControl.Enabled = false)
    (hev : ∀ ev ∈ evs, ev.ReaderID = rid ∧ ev.Result = ResultSuccess ∧
      ∀ now, clampEvent e.cfg now ev = ev)
    (hchain : evs.Chain' (fun a b => a.Timestamp + d ≤ b.Timestamp)) :
    (processAll lib clk e tick evs).1.length = evs.length ∧
    (∀ pre suf, evs = pre ++ suf → pre ≠ [] →
      (∃ w, (processAll lib clk e tick pre).2.1.windowAt (readerKey rid)
          (truncToInt (Duration.Seconds d)) = some w ∧
        1 ≤ w.live.length ∧ w.live.length ≤ 2) ∧
      ∀ k w, (processAll lib clk e tick pre).2.1.windowAt (readerKey rid) k = some w →
        w.live.length ≤ 2) ∧
    (2 / Duration.Seconds d ≤ e.cfg.Detection.APSThreshold →
      2 / Duration.Seconds d ≤ e.cfg.Detection.APSElevatedThreshold →
      0 ≤ e.cfg.Detection.FailureRatioThreshold →
      ∀ out ∈ (processAll lib clk e tick evs).1, out = []) := by
  have hlen : ∀ (l : List NormalizedEvent) (e0 : Engine) (t0 : Nat),
      (processAll lib clk e0 t0 l).1.length = l.length := by
    intro l
    induction l with
    | nil => intro e0 t0; rfl
    | cons x rest ih =>
      intro e0 t0
      rw [processAll_cons]
      simp [ih]
  have hI : ∀ t, e.QuietFor (readerKey rid) d t := fun t r hr => by
    rw [hfresh] at hr
    simp at hr
  have hrun := quiet_run lib clk rid d evs e tick
    ((evs.head?.map (fun ev => ev.Timestamp)).getD 0 - d) he hw hd hdd (hI _)
    (fun ev h => ⟨(hev ev h).1, by rw [(hev ev h).2.1]; decide, (hev ev h).2.2⟩)
    (fun ev h => by
      cases evs with
      | nil => simp at h
      | cons y ys =>
        simp only [List.head?_cons, Option.mem_def, Option.some.injEq] at h
        subst h
        simp)
    hchain
  exact ⟨hlen evs e tick, hrun.1, hrun.2 hacc⟩

/-- C31 at the engine of the tests with the cooldown off: three successes of one card, two
seconds apart, on the one-second window; `2 / d = 2` is below both rate thresholds (10 and
5). No call returns an alert and the window ends with one entry or two. -/
theorem success_traffic_quiet_witness :
    (∀ out ∈ (processAll sampleLibrary sampleClock burstEngine 0
        ((List.range 3).map calmEvent)).1, out = []) ∧
    ∃ w, (processAll sampleLibrary sampleClock burstEngine 0
          ((List.range 3).map calmEvent)).2.1.windowAt (readerKey "reader01")
          (truncToInt (Duration.Seconds 1000000000)) = some w ∧
        1 ≤ w.live.length ∧ w.live.length ≤ 2 :=
  have h := success_traffic_quiet sampleLibrary sampleClock "reader01" 1000000000
    ((List.range 3).map calmEvent) burstEngine 0 (EngineReachable.new _ _ _) rfl rfl
    (by decide) (by decide) rfl
    (fun ev hev => ⟨by revert ev; decide, by revert ev; decide, fun now =>
      clampEvent_off _ now ev (by decide) (by decide) (by revert ev; decide)⟩)
    (List.Chain'.cons (by decide) (List.Chain'.cons (by decide) (List.chain'_singleton _)))
  ⟨h.2.2
      (by
        show (2 : ℚ) / Duration.Seconds 1000000000 ≤ 10
        unfold Duration.Seconds
        norm_num)
      (by
        show (2 : ℚ) / Duration.Seconds 1000000000 ≤ 5
        unfold Duration.Seconds
        norm_num)
      (by
        show (0 : ℚ) ≤ 4 / 5
        norm_num),
    (h.2.1 ((List.range 3).map calmEvent) [] (by simp) (by decide)).1⟩

/-! ## The CSV parser -/

/-- C35: let the reader give a non-empty record for the line. A parser without a header, on
a record with a cell that, trimmed and lower-cased, is one of the eleven header words, returns
no event and records the trimmed, lower-cased cells as header. A parser with a header returns
an event and keeps its header; each of the five fields holds the trimmed cell of the last
column whose header name is one of the names of the field (`""` when there is none). A parser
without a header, on a record without such a cell, returns the event whose `Timestamp`,
`ReaderID`, `UID`, `Result` and `ErrorCode` are the first five cells (`""` for a missing one)
and stays without a header. -/
theorem csv_header_then_columns (lib : IngestLibrary) (p : CSVParser) (line : String)
    (record : List String) (hread : lib.readRecord line = some record) (hne : record ≠ []) :
    (p.header = none →
      (∃ v ∈ record, lib.toLower (trimSpace v) ∈ ["timestamp", "time", "ts", "reader",
        "reader_id", "uid", "card", "result", "status", "error", "error_code"]) →
      p.Parse lib line =
        (some none, { header := some (record.map (fun v => lib.toLower (trimSpace v))) })) ∧
    (∀ header, p.header = some header →
      ∃ fields, p.Parse lib line = (some (some fields), p) ∧
        fields.Timestamp = columnValue lib header record ["timestamp", "time", "ts"] ∧
        fields.ReaderID = columnValue lib header record
          ["reader", "reader_id", "readerid", "device", "terminal"] ∧
        fields.UID = columnValue lib header record ["uid", "card", "card_id", "cardid"] ∧
        fields.Result = columnValue lib header record ["result", "status", "outcome"] ∧
        fields.ErrorCode = columnValue lib header record ["error", "error_code", "err"]) ∧
    (p.header = none →
      (∀ v ∈ record, lib.toLower (trimSpace v) ∉ ["timestamp", "time", "ts", "reader",
        "reader_id", "uid", "card", "result", "status", "error", "error_code"]) →
      p.Parse lib line =
        (some (some { Timestamp := record.getD 0 "", ReaderID := record.getD 1 "",
                      UID := record.getD 2 "", Result := record.getD 3 "",
                      ErrorCode := record.getD 4 "", Extras := [], Raw := "" }), p)) := by
  have hlen : ¬ record.length = 0 := fun h => hne (List.length_eq_zero.1 h)
  refine ⟨fun hp hex => ?_, fun header hp => ?_, fun hp hall => ?_⟩
  · have hlook : looksLikeHeader lib record = true := by
      unfold looksLikeHeader
      rw [List.any_eq_true]
      obtain ⟨v, hv, hmem⟩ := hex
      exact ⟨v, hv, by simpa using hmem⟩
    unfold CSVParser.Parse
    rw [hread]
    dsimp only
    rw [if_neg hlen, if_pos ⟨hp, hlook⟩]
    rfl
  · have hnot : ¬ (p.header = none ∧ looksLikeHeader lib record = true) := by
      rw [hp]; simp
    refine ⟨(header.zip record).foldl (fun fields c => assignField lib fields c.1 c.2)
      emptyFields, ?_, ?_, ?_, ?_, ?_, ?_⟩
    · unfold CSVParser.Parse
      rw [hread]
      dsimp only
      rw [if_neg hlen, if_neg hnot, hp]
    · exact assign_columns lib (fun f => f.Timestamp) _
        (fun f n v => (assignField_fields lib f n v).1) _ _
    · exact assign_columns lib (fun f => f.ReaderID) _
        (fun f n v => (assignField_fields lib f n v).2.1) _ _
    · exact assign_columns lib (fun f => f.UID) _
        (fun f n v => (assignField_fields lib f n v).2.2.1) _ _
    · exact assign_columns lib (fun f => f.Result) _
        (fun f n v => (assignField_fields lib f n v).2.2.2.1) _ _
    · exact assign_columns lib (fun f => f.ErrorCode) _
        (fun f n v => (assignField_fields lib f n v).2.2.2.2) _ _
  · have hlook : ¬ (p.header = none ∧ looksLikeHeader lib record = true) := by
      intro h
      have h2 := h.2
      unfold looksLikeHeader at h2
      rw [List.any_eq_true] at h2
      obtain ⟨v, hv, hmem⟩ := h2
      exact hall v hv (by simpa using hmem)
    unfold CSVParser.Parse
    rw [hread]
    dsimp only
    rw [if_neg hlen, if_neg hlook, hp]
    rfl

/-- C35 at the lines of the parser test: the header line yields no event and is recorded;
the data line, read by the parser that has recorded it, yields the event of its columns; and
a parser without a header reads the data line by position. -/
theorem csv_header_then_columns_witness :
    (NewCSVParser.Parse sampleIngest "Timestamp, Reader_ID ,uid,result,error") =
      (some none, { header := some ["timestamp", "reader_id", "uid", "result", "error"] }) ∧
    (∃ fields, CSVParser.Parse sampleIngest
        { header := some ["timestamp", "reader_id", "uid", "result", "error"] }
        "2026-02-23T12:34:56Z,reader01,04AABBCC,failure,AUTH_TIMEOUT" =
          (some (some fields),
            { header := some ["timestamp", "reader_id", "uid", "result", "error"] }) ∧
      fields.ReaderID = "reader01" ∧ fields.UID = "04AABBCC") ∧
    (NewCSVParser.Parse sampleIngest "2026-02-23T12:34:56Z,reader01,04AABBCC,failure,AUTH_TIMEOUT" =
      (some (some { Timestamp := "2026-02-23T12:34:56Z", ReaderID := "reader01",
                    UID := "04AABBCC", Result := "failure", ErrorCode := "AUTH_TIMEOUT",
                    Extras := [], Raw := "" }), NewCSVParser)) :=
  ⟨(csv_header_then_columns sampleIngest NewCSVParser
      "Timestamp, Reader_ID ,uid,result,error"
      ["Timestamp", "Reader_ID ", "uid", "result", "error"] (by decide) (by decide)).1 rfl
      ⟨"uid", by decide, by decide⟩,
    by
      obtain ⟨fields, h1, _, h3, h4, _⟩ := (csv_header_then_columns sampleIngest
        { header := some ["timestamp", "reader_id", "uid", "result", "error"] }
        "2026-02-23T12:34:56Z,reader01,04AABBCC,failure,AUTH_TIMEOUT"
        ["2026-02-23T12:34:56Z", "reader01", "04AABBCC", "failure", "AUTH_TIMEOUT"]
        (by decide) (by decide)).2.1 _ rfl
      exact ⟨fields, h1, by rw [h3]; decide, by rw [h4]; decide⟩,
    (csv_header_then_columns sampleIngest NewCSVParser
      "2026-02-23T12:34:56Z,reader01,04AABBCC,failure,AUTH_TIMEOUT"
      ["2026-02-23T12:34:56Z", "reader01", "04AABBCC", "failure", "AUTH_TIMEOUT"]
      (by decide) (by decide)).2.2 rfl (by decide)⟩

/-! ## Field extraction from key/value records -/

/-- C36 (false as stated): in the line of the parser test no alias of the reader id has a
value, and `parsePlain` still returns the reader id `Reader1`, the first token after the
timestamp; and for the value ` reader01 ` of a JSON object the field is `reader01`, the trimmed
value, not the value. -/
theorem alias_priority_counterexample :
    (∀ k ∈ ["reader_id", "reader", "readerid", "device", "terminal"],
      valueOfKey sampleIngest (sampleIngest.findKV plainTestLine) k = none) ∧
    (parsePlain sampleIngest plainTestLine).ReaderID = "Reader1" ∧
    valueOfKey sampleIngest paddedObject "reader" = some " reader01 " ∧
    (ParseJSONMap sampleIngest (fun v => v) paddedObject).ReaderID = "reader01" := by
  decide

/-- C36 (as amended): a key of the record matches an alias when its lower-casing is the
alias, the last such entry giving the value. `ParseJSONMap` resolves each field by the alias
priority: the trimmed value of the first alias whose value is non-blank after trimming, and
`""` when no alias has one. `parsePlain` does so on the `key=value` pairs of the line for
`UID`, `Result` and `ErrorCode`; its `ReaderID` is resolved the same way, except that when
no alias has a non-blank value and text follows the timestamp, it is the first field of that
text. -/
theorem alias_priority (lib : IngestLibrary) {V : Type} (sprint : V → String)
    (obj : GoMap String V) (line : String) :
    ((ParseJSONMap lib sprint obj).ReaderID =
        resolveAlias (fun k => (valueOfKey lib obj k).map sprint)
          ["reader_id", "reader", "readerid", "device", "terminal"] ∧
      (ParseJSONMap lib sprint obj).UID =
        resolveAlias (fun k => (valueOfKey lib obj k).map sprint)
          ["uid", "card", "card_id", "cardid"] ∧
      (ParseJSONMap lib sprint obj).Result =
        resolveAlias (fun k => (valueOfKey lib obj k).map sprint)
          ["result", "status", "outcome"] ∧
      (ParseJSONMap lib sprint obj).ErrorCode =
        resolveAlias (fun k => (valueOfKey lib obj k).map sprint)
          ["error", "error_code", "err"]) ∧
    ((parsePlain lib line).UID =
        resolveAlias (fun k => valueOfKey lib (lib.findKV line) k)
          ["uid", "card", "card_id", "cardid"] ∧
      (parsePlain lib line).Result =
        resolveAlias (fun k => valueOfKey lib (lib.findKV line) k)
          ["result", "status", "outcome"] ∧
      (parsePlain lib line).ErrorCode =
        resolveAlias (fun k => valueOfKey lib (lib.findKV line) k)
          ["error", "error_code", "err"] ∧
      (parsePlain lib line).ReaderID =
        if resolveAlias (fun k => valueOfKey lib (lib.findKV line) k)
            ["reader_id", "reader", "readerid", "device", "terminal"] = "" ∧
          (extractTimestamp lib line).2 ≠ "" then
          ((lib.splitFields (extractTimestamp lib line).2).head?).getD ""
        else resolveAlias (fun k => valueOfKey lib (lib.findKV line) k)
          ["reader_id", "reader", "readerid", "device", "terminal"]) ∧
    (∀ (value : String → Option String) (names : List String),
      (∀ k ∈ names, trimSpace ((value k).getD "") = "") → resolveAlias value names = "") ∧
    (∀ (value : String → Option String) (pre post : List String) (k : String),
      (∀ a ∈ pre, trimSpace ((value a).getD "") = "") → trimSpace ((value k).getD "") ≠ "" →
      resolveAlias value (pre ++ k :: post) = trimSpace ((value k).getD "")) := by
  have hplain : ∀ names, firstNonEmpty
      ((lib.findKV line).foldl (fun m p => GoMap.set m (lib.toLower p.1) p.2) []) names =
      resolveAlias (fun k => valueOfKey lib (lib.findKV line) k) names := by
    intro names
    rw [lowered_resolve lib (fun v : String => v)]
    exact resolveAlias_congr _ _ _ (fun k => by simp)
  refine ⟨⟨lowered_resolve lib sprint obj _, lowered_resolve lib sprint obj _,
    lowered_resolve lib sprint obj _, lowered_resolve lib sprint obj _⟩,
    ⟨hplain _, hplain _, hplain _, ?_⟩, resolveAlias_blank, resolveAlias_first⟩
  unfold parsePlain
  dsimp only
  rw [hplain]
  by_cases h : resolveAlias (fun k => valueOfKey lib (lib.findKV line) k)
      ["reader_id", "reader", "readerid", "device", "terminal"] = "" ∧
      (extractTimestamp lib line).2 ≠ ""
  · rw [if_pos h, if_pos h]
    cases hs : lib.splitFields (extractTimestamp lib line).2 with
    | nil => simp [h.1]
    | cons t ts => rfl
  · rw [if_neg h, if_neg h]

/-- C36 (as amended) at the object and the line of the samples: the key `CARD` gives the
UID, the reader id is the trimmed value of `Reader`, which comes before `device`, the error
code without an alias is empty, and the plain line gives its UID. -/
theorem alias_priority_witness :
    (ParseJSONMap sampleIngest (fun v => v) paddedObject).ReaderID = "reader01" ∧
    (ParseJSONMap sampleIngest (fun v => v) paddedObject).UID = "04AABBCC" ∧
    (ParseJSONMap sampleIngest (fun v => v) paddedObject).ErrorCode = "" ∧
    (parsePlain sampleIngest plainTestLine).UID = "04AABBCC" :=
  have h := alias_priority sampleIngest (fun v : String => v) paddedObject plainTestLine
  ⟨by rw [h.1.1]; decide, by rw [h.1.2.1]; decide, by rw [h.1.2.2.2]; decide,
    by rw [h.2.1.1]; decide⟩

end RFGuard
